import Mathlib

/-!
# KScreen layout generator (`kded/generator.cpp`)

A shallow embedding of the configuration generator of the KScreen daemon and a
verification development of its layout policies.

Modelling conventions.

* A `KScreen::OutputList` is a `QMap<int, OutputPtr>`: it is iterated in ascending key order
  and its values are shared pointers into the outputs owned by a configuration.  A
  configuration is modelled as the list of its outputs in ascending id order, an output list
  as the list of its keys in ascending order; a pointer is dereferenced by looking the key up
  in the configuration, and a write through a pointer stores the output back.
* A computation that dereferences a null pointer, or fails a `Q_ASSERT` in a build where
  assertions are compiled in, has no result (`none`).  A nullable pointer that is only
  tested is an inner `Option`.
* An `int` is modelled in `Int`.  The area `width() * height()` that the source computes in
  `int` is the product reduced to the range of a 32-bit two's complement integer
  (`QSize.intArea`): signed overflow, undefined in the source language, wraps around as it
  does in the compiled program.  Sums of widths are not reduced.
* Refresh rates (`float` in libkscreen) are only ever compared; a `float` is either
  not-a-number or a number (`CFloat`), and every comparison with not-a-number is false.
  Scales and the DPI computation (`qreal`) are modelled in exact rational arithmetic.
-/

namespace KScreen

/-! ## Data model -/

/-- A `QSize`: integer width and height. -/
structure QSize where
  width : Int
  height : Int
deriving DecidableEq, Repr

/-- A `QPoint`. -/
structure QPoint where
  x : Int
  y : Int
deriving DecidableEq, Repr

/-- The connector types of `KScreen::Output::Type`; the generator only tests for `Panel`. -/
inductive OutputType where
  | Unknown | VGA | DVI | DVII | DVIA | DVID | HDMI | Panel | TV | TVComposite
  | TVSVideo | TVComponent | TVSCART | TVC4 | DisplayPort
deriving DecidableEq, Repr

/-- The rotations of `KScreen::Output::Rotation`. -/
inductive Rotation where
  | None | Left | Inverted | Right
deriving DecidableEq, Repr

/-- A `float` as the comparisons of the source see it: not-a-number, or a number.  The numbers
are rationals (an infinity is represented by a rational beyond the finite range). -/
inductive CFloat where
  | nan
  | num (v : Rat)
deriving DecidableEq, Repr

/-- The comparison `<` of two `float`s: false as soon as one of them is not a number. -/
def CFloat.lt : CFloat → CFloat → Prop
  | .num a, .num b => a < b
  | _, _ => False

/-- The comparison `<=` of two `float`s: false as soon as one of them is not a number. -/
def CFloat.le : CFloat → CFloat → Prop
  | .num a, .num b => a ≤ b
  | _, _ => False

instance : LT CFloat := ⟨CFloat.lt⟩

instance : LE CFloat := ⟨CFloat.le⟩

instance (a b : CFloat) : Decidable (a < b) := by
  cases a <;> cases b <;> simp only [LT.lt, CFloat.lt] <;> infer_instance

instance (a b : CFloat) : Decidable (a ≤ b) := by
  cases a <;> cases b <;> simp only [LE.le, CFloat.le] <;> infer_instance

instance (n : Nat) : OfNat CFloat n := ⟨CFloat.num n⟩

/-- The test that a `float` is a number. -/
def CFloat.isNum : CFloat → Bool
  | .num _ => true
  | .nan => false

/-- The value of an `int` expression whose exact value is `x`: the representative of `x` modulo
`2^32` in the range from `-2^31` to `2^31 - 1`. -/
def wrapInt32 (x : Int) : Int := (x + 2147483648) % 4294967296 - 2147483648

/-- The product `width() * height()` of a size as the source computes it, in `int`. -/
def QSize.intArea (s : QSize) : Int := wrapInt32 (s.width * s.height)

/-- A display mode: identifier, resolution and refresh rate. -/
structure Mode where
  id : Nat
  size : QSize
  refreshRate : CFloat
deriving DecidableEq, Repr

/-- The persisted per-output preferences returned by `Output::readGlobal`
(`Output::GlobalConfig`): three optional values. -/
structure GlobalConfig where
  modeId : Option Nat
  rotation : Option Rotation
  scale : Option Rat
deriving DecidableEq, Repr

/-- The state of one `KScreen::Output` as far as the generator reads or writes it.
`modes` is the mode map in iteration order, `preferredMode` the result of
`Output::preferredMode()` (null when there is none), `global` the result of
`Output::readGlobal` for this output. -/
structure Output where
  id : Int
  connected : Bool
  type : OutputType
  modes : List Mode
  preferredMode : Option Mode
  sizeMm : QSize
  global : GlobalConfig
  enabled : Bool
  primary : Bool
  pos : QPoint
  currentModeId : Nat
  rotation : Rotation
  scale : Rat
deriving DecidableEq, Repr

/-- A `KScreen::Config`: its outputs in ascending id order, the maximum size of its screen
and whether `supportedFeatures()` contains `PerOutputScaling`. -/
structure Config where
  outputs : List Output
  maxSize : QSize
  perOutputScaling : Bool
deriving DecidableEq, Repr

/-- The facts reported by the `Device` singleton. -/
structure Device where
  isLaptop : Bool
  isLidClosed : Bool
  isDocked : Bool
deriving DecidableEq, Repr

/-- The collaborators of the generator that live outside `generator.cpp`: the device facts,
`KScreen::Config::canBeApplied`, the size of `Output::geometry()` (a function of the current
mode, the rotation and the scale of an output: its position and flags play no part), and
whether assertions are compiled in (`QT_NO_DEBUG` undefined). -/
structure Platform where
  device : Device
  canBeApplied : Config → Bool
  geometrySize : Option Mode → Rotation → Rat → QSize
  assertions : Bool

/-- The members of the `Generator` singleton.  `m_currentConfig` is the configuration handed in
by `setCurrentConfig`; it is taken to be set, as `displaySwitch` asserts and `cloneScreens`
assumes when it reads the maximum screen size. -/
structure Generator where
  m_forceLaptop : Bool
  m_forceLidClosed : Bool
  m_forceNotLaptop : Bool
  m_forceDocked : Bool
  m_currentConfig : Config
  env : Platform

/-- The actions of `Generator::DisplaySwitchAction`. -/
inductive DisplaySwitchAction where
  | None | Clone | ExtendToLeft | TurnOffEmbedded | TurnOffExternal | ExtendToRight
deriving DecidableEq, Repr

/-! ## Output accessors and setters -/

/-- The area `width * height` of a size. -/
def QSize.area (s : QSize) : Int := s.width * s.height

/-- The setter `Output::setEnabled`. -/
def Output.setEnabled (o : Output) (b : Bool) : Output := { o with enabled := b }

/-- The setter `Output::setPrimary`: it sets the flag of this output only. -/
def Output.setPrimary (o : Output) (b : Bool) : Output := { o with primary := b }

/-- The setter `Output::setPos`. -/
def Output.setPos (o : Output) (p : QPoint) : Output := { o with pos := p }

/-- The setter `Output::setCurrentModeId`. -/
def Output.setCurrentModeId (o : Output) (m : Nat) : Output := { o with currentModeId := m }

/-- The setter `Output::setRotation`. -/
def Output.setRotation (o : Output) (r : Rotation) : Output := { o with rotation := r }

/-- The setter `Output::setScale`. -/
def Output.setScale (o : Output) (s : Rat) : Output := { o with scale := s }

/-- The result of `Output::currentMode()`: the mode stored under the current mode id, null when
there is none. -/
def Output.currentMode (o : Output) : Option Mode :=
  o.modes.find? (fun m => m.id == o.currentModeId)

/-- The size of `Output::geometry()`. -/
def Output.geometry (env : Platform) (o : Output) : QSize :=
  env.geometrySize o.currentMode o.rotation o.scale

/-! ## Configurations as pointer stores -/

/-- Dereference the pointer stored under key `k`. -/
def Config.output (c : Config) (k : Int) : Option Output :=
  c.outputs.find? (fun o => o.id == k)

/-- Write the output `o` back through its pointer. -/
def Config.setOutput (c : Config) (o : Output) : Config :=
  { c with outputs := c.outputs.map (fun x => if x.id == o.id then o else x) }

/-- The keys of `Config::connectedOutputs()`. -/
def Config.connectedOutputs (c : Config) : List Int :=
  (c.outputs.filter (fun o => o.connected)).map (fun o => o.id)

/-- The keys of `Config::outputs()`. -/
def Config.keys (c : Config) : List Int := c.outputs.map (fun o => o.id)

/-- The representation invariant of the maps: output ids are strictly ascending. -/
def Config.WF (c : Config) : Prop := (c.keys).Pairwise (fun a b => a < b)

instance (c : Config) : Decidable c.WF := by unfold Config.WF; infer_instance

/-- The removal `QMap::remove(key)` on an output list. -/
def removeKey (l : List Int) (k : Int) : List Int := l.filter (fun x => x != k)

/-- The insertion `QMap::insert(key, value)` on an output list whose keys are ascending. -/
def insertKey : List Int → Int → List Int
  | [], k => [k]
  | x :: xs, k => if k < x then k :: x :: xs else if k = x then x :: xs else x :: insertKey xs k

/-! ## Posture -/

/-- The posture query `Generator::isLaptop`. -/
def isLaptop (g : Generator) : Bool :=
  if g.m_forceLaptop then true
  else if g.m_forceNotLaptop then false
  else g.env.device.isLaptop

/-- The posture query `Generator::isLidClosed`. -/
def isLidClosed (g : Generator) : Bool :=
  if g.m_forceLidClosed then true
  else if g.m_forceNotLaptop then false
  else g.env.device.isLidClosed

/-- The posture query `Generator::isDocked`. -/
def isDocked (g : Generator) : Bool :=
  if g.m_forceDocked then true else g.env.device.isDocked

/-! ## Assertions -/

/-- A `Q_ASSERT(cond)`: it fails only in a build with assertions. -/
def qAssert (env : Platform) (cond : Bool) : Option Unit :=
  if env.assertions && !cond then none else some ()

/-- The test `output && output->isConnected()` on the pointer stored under `k`. -/
def Config.connectedAt (c : Config) (k : Int) : Bool :=
  match c.output k with
  | some o => o.connected
  | none => false

/-- The macro `ASSERT_OUTPUTS(outputs)`: the list is not empty and every output in it is
connected. -/
def assertOutputs (env : Platform) (c : Config) (outputs : List Int) : Option Unit :=
  qAssert env (!outputs.isEmpty && outputs.all (fun k => c.connectedAt k))

/-! ## Mode selection -/

/-- One iteration of the loop of `Generator::biggestMode` on the state
`(biggestArea, biggestMode)`.  Comparing refresh rates dereferences `biggestMode`. -/
def biggestModeStep (st : Int × Option Mode) (mode : Mode) : Option (Int × Option Mode) :=
  let modeArea := mode.size.intArea
  if modeArea < st.1 then some st
  else if modeArea = st.1 then
    match st.2 with
    | none => none
    | some biggest =>
      if mode.refreshRate < biggest.refreshRate then some st
      else if mode.refreshRate > biggest.refreshRate then some (st.1, some mode)
      else some (modeArea, some mode)
  else some (modeArea, some mode)

/-- The loop of `Generator::biggestMode`. -/
def biggestModeLoop : Int × Option Mode → List Mode → Option (Int × Option Mode)
  | st, [] => some st
  | st, mode :: modes =>
    match biggestModeStep st mode with
    | none => none
    | some st' => biggestModeLoop st' modes

/-- The function `Generator::biggestMode`. -/
def biggestMode (env : Platform) (modes : List Mode) : Option (Option Mode) :=
  match qAssert env (!modes.isEmpty) with
  | none => none
  | some _ =>
    match biggestModeLoop (0, none) modes with
    | none => none
    | some st => some st.2

/-- The loop of `Generator::bestModeForSize` on the state `bestMode`. -/
def bestModeForSizeLoop (size : QSize) : Option Mode → List Mode → Option Mode
  | bestMode, [] => bestMode
  | bestMode, mode :: modes =>
    if mode.size ≠ size then bestModeForSizeLoop size bestMode modes
    else
      match bestMode with
      | none => bestModeForSizeLoop size (some mode) modes
      | some best =>
        if mode.refreshRate > best.refreshRate then bestModeForSizeLoop size (some mode) modes
        else bestModeForSizeLoop size (some best) modes

/-- The function `Generator::bestModeForSize`. -/
def bestModeForSize (modes : List Mode) (size : QSize) : Option Mode :=
  bestModeForSizeLoop size none modes

/-- The function `Generator::bestScaleForOutput`. -/
def bestScaleForOutput (output : Output) : Option Rat :=
  if output.sizeMm.height ≤ 0 then some 1
  else
    match output.currentMode with
    | none => none
    | some mode =>
      let dpi : Rat := (mode.size.height : Rat) / ((output.sizeMm.height : Rat) / (254 / 10))
      if dpi > 96 * (3 / 2) ∧ mode.size.height ≥ 1440 then some 2 else some 1

/-- The function `Generator::bestModeForOutput`. -/
def bestModeForOutput (env : Platform) (output : Output) : Option (Option Mode) :=
  match output.preferredMode with
  | some outputMode => some (some outputMode)
  | none => biggestMode env output.modes

/-- The function `Generator::initializeOutput` on the state of one output.  Both arguments of
`value_or` are evaluated before the call, so the best mode is dereferenced and the best scale is
computed whether or not a persisted value exists. -/
def initializeOutput (env : Platform) (features : Bool) (output : Output) : Option Output :=
  let config := output.global
  match bestModeForOutput env output with
  | none => none
  | some none => none
  | some (some best) =>
    let output := output.setCurrentModeId (config.modeId.getD best.id)
    let output := output.setRotation (config.rotation.getD output.rotation)
    if features then
      match bestScaleForOutput output with
      | none => none
      | some s => some (output.setScale (config.scale.getD s))
    else some output

/-- The loop `for (output : connectedOutputs) initializeOutput(output, features)`. -/
def initializeOutputs (env : Platform) (features : Bool) : Config → List Int → Option Config
  | c, [] => some c
  | c, k :: ks =>
    match c.output k with
    | none => none
    | some output =>
      match initializeOutput env features output with
      | none => none
      | some output => initializeOutputs env features (c.setOutput output) ks

/-! ## Classification -/

/-- The loop of `Generator::biggestOutput` on the state `(total, biggest)`. -/
def biggestOutputLoop (env : Platform) (c : Config) : Int → Option Int → List Int →
    Option (Option Int)
  | _, biggest, [] => some biggest
  | total, biggest, k :: ks =>
    match c.output k with
    | none => none
    | some output =>
      match bestModeForOutput env output with
      | none => none
      | some none => biggestOutputLoop env c total biggest ks
      | some (some mode) =>
        let area := mode.size.intArea
        if area ≤ total then biggestOutputLoop env c total biggest ks
        else biggestOutputLoop env c area (some k) ks

/-- The function `Generator::biggestOutput`: the key of the chosen output, or null. -/
def biggestOutput (env : Platform) (c : Config) (outputs : List Int) : Option (Option Int) :=
  match assertOutputs env c outputs with
  | none => none
  | some _ => biggestOutputLoop env c 0 none outputs

/-- The function `Generator::embeddedOutput`: the key of the first output of type `Panel`, or
null. -/
def embeddedOutput (c : Config) : List Int → Option (Option Int)
  | [] => some none
  | k :: ks =>
    match c.output k with
    | none => none
    | some output => if output.type ≠ OutputType.Panel then embeddedOutput c ks else some (some k)

/-- The function `Generator::disableAllDisconnectedOutputs`, applied to all outputs of a
configuration. -/
def disableAllDisconnectedOutputs (c : Config) : Config :=
  { c with outputs := c.outputs.map (fun output =>
      if !output.connected then (output.setEnabled false).setPrimary false else output) }

/-! ## Scenario policies -/

/-- The function `Generator::singleOutput`. -/
def singleOutput (env : Platform) (c : Config) (connectedOutputs : List Int) : Option Config :=
  match assertOutputs env c connectedOutputs with
  | none => none
  | some _ =>
    match connectedOutputs with
    | [] => some c
    | firstConnectedOutputKey :: _ =>
      match c.output firstConnectedOutputKey with
      | none => none
      | some output =>
        if output.modes.isEmpty then some c
        else some (c.setOutput (((output.setEnabled true).setPrimary true).setPos ⟨0, 0⟩))

/-- The chaining loop shared by `Generator::extendToRight` and the lid-open branch of
`Generator::laptop`: every output is enabled, made non-primary and placed at the running
horizontal offset, which then grows by the width of its geometry. -/
def chainLoop (env : Platform) : Config → Int → List Int → Option Config
  | c, _, [] => some c
  | c, globalWidth, k :: ks =>
    match c.output k with
    | none => none
    | some output =>
      let output := ((output.setEnabled true).setPrimary false).setPos ⟨globalWidth, 0⟩
      chainLoop env (c.setOutput output) (globalWidth + (output.geometry env).width) ks

/-- The function `Generator::extendToRight`. -/
def extendToRight (env : Platform) (c : Config) (connectedOutputs : List Int) : Option Config :=
  match assertOutputs env c connectedOutputs with
  | none => none
  | some _ =>
    if connectedOutputs.isEmpty then some c
    else
      match biggestOutput env c connectedOutputs with
      | none => none
      | some none => none
      | some (some biggest) =>
        match c.output biggest with
        | none => none
        | some b =>
          let connectedOutputs := removeKey connectedOutputs b.id
          let b := ((b.setEnabled true).setPrimary true).setPos ⟨0, 0⟩
          chainLoop env (c.setOutput b) (b.geometry env).width connectedOutputs

/-- The function `Generator::laptop`. -/
def laptop (g : Generator) (c : Config) (connectedOutputs : List Int) : Option Config :=
  match assertOutputs g.env c connectedOutputs with
  | none => none
  | some _ =>
    match connectedOutputs with
    | [] => some c
    | firstConnectedOutputKey :: _ =>
      match embeddedOutput c connectedOutputs with
      | none => none
      | some found =>
        match c.output (found.getD firstConnectedOutputKey) with
        | none => none
        | some embedded =>
          let connectedOutputs := removeKey connectedOutputs embedded.id
          if connectedOutputs.isEmpty ∨ embedded.modes.isEmpty then
            singleOutput g.env c (insertKey connectedOutputs embedded.id)
          else if isLidClosed g ∧ connectedOutputs.length = 1 then
            let c := c.setOutput ((embedded.setEnabled false).setPrimary false)
            match connectedOutputs with
            | [] => none
            | externalKey :: _ =>
              match c.output externalKey with
              | none => none
              | some external =>
                if external.modes.isEmpty then some c
                else
                  some (c.setOutput
                    (((external.setEnabled true).setPrimary true).setPos ⟨0, 0⟩))
          else if isLidClosed g ∧ connectedOutputs.length > 1 then
            let c := c.setOutput ((embedded.setEnabled false).setPrimary false)
            extendToRight g.env c connectedOutputs
          else
            let embedded := ((embedded.setPos ⟨0, 0⟩).setPrimary true).setEnabled true
            let c := c.setOutput embedded
            let globalWidth := (embedded.geometry g.env).width
            match biggestOutput g.env c connectedOutputs with
            | none => none
            | some none => none
            | some (some biggestKey) =>
              match c.output biggestKey with
              | none => none
              | some biggest =>
                let connectedOutputs := removeKey connectedOutputs biggest.id
                let biggest :=
                  ((biggest.setPos ⟨globalWidth, 0⟩).setEnabled true).setPrimary false
                let c := c.setOutput biggest
                let globalWidth := globalWidth + (biggest.geometry g.env).width
                match chainLoop g.env c globalWidth connectedOutputs with
                | none => none
                | some c =>
                  if isDocked g then
                    match c.output embedded.id, c.output biggest.id with
                    | some e, some b =>
                      some ((c.setOutput (e.setPrimary false)).setOutput (b.setPrimary true))
                    | _, _ => none
                  else some c

/-! ## Clone policy -/

/-- The insertion `QSet<QSize>::insert`, on a set kept as a list without duplicates. -/
def sizeSetInsert (s : List QSize) (x : QSize) : List QSize :=
  if x ∈ s then s else s ++ [x]

/-- The inner loop of `Generator::cloneScreens`: the set of the sizes of the modes that do not
exceed the maximum screen size in width or in height. -/
def modeSizesLoop (maxScreenSize : QSize) : List QSize → List Mode → List QSize
  | modeSizes, [] => modeSizes
  | modeSizes, mode :: modes =>
    let size := mode.size
    if size.width > maxScreenSize.width ∨ size.height > maxScreenSize.height then
      modeSizesLoop maxScreenSize modeSizes modes
    else modeSizesLoop maxScreenSize (sizeSetInsert modeSizes mode.size) modes

/-- The outer loop of `Generator::cloneScreens`: the running intersection `commonSizes`,
with the early exit as soon as it is empty. -/
def commonSizesLoop (c : Config) (maxScreenSize : QSize) : List QSize → List Int →
    Option (List QSize)
  | commonSizes, [] => some commonSizes
  | commonSizes, k :: ks =>
    match c.output k with
    | none => none
    | some output =>
      let modeSizes := modeSizesLoop maxScreenSize [] output.modes
      let commonSizes :=
        if commonSizes.isEmpty then modeSizes else commonSizes.filter (fun s => s ∈ modeSizes)
      if commonSizes.isEmpty then some commonSizes
      else commonSizesLoop c maxScreenSize commonSizes ks

/-- The loop of `Generator::cloneScreens` taken when no size is common to all outputs. -/
def cloneBiggestLoop (env : Platform) : Config → List Int → Option Config
  | c, [] => some c
  | c, k :: ks =>
    match c.output k with
    | none => none
    | some output =>
      if output.modes.isEmpty then cloneBiggestLoop env c ks
      else
        let output := (output.setEnabled true).setPos ⟨0, 0⟩
        match biggestMode env output.modes with
        | none => none
        | some none => none
        | some (some mode) =>
          cloneBiggestLoop env (c.setOutput (output.setCurrentModeId mode.id)) ks

/-- The loop of `Generator::cloneScreens` that sets the best mode of size `biggestSize` on every
output. -/
def cloneBestLoop (biggestSize : QSize) : Config → List Int → Option Config
  | c, [] => some c
  | c, k :: ks =>
    match c.output k with
    | none => none
    | some output =>
      if output.modes.isEmpty then cloneBestLoop biggestSize c ks
      else
        match bestModeForSize output.modes biggestSize with
        | none => none
        | some bestMode =>
          let output := ((output.setEnabled true).setPos ⟨0, 0⟩).setCurrentModeId bestMode.id
          cloneBestLoop biggestSize (c.setOutput output) ks

/-- The order in which `std::sort` leaves two sizes: the `operator<` on `QSize` defined in
`generator.cpp` compares the areas computed in `int`. -/
def QSize.areaLE (a b : QSize) : Prop := a.intArea ≤ b.intArea

instance : DecidableRel QSize.areaLE := fun a b => by unfold QSize.areaLE; infer_instance

instance : IsTotal QSize QSize.areaLE :=
  ⟨fun a b => le_total a.intArea b.intArea⟩

instance : IsTrans QSize QSize.areaLE := ⟨fun _ _ _ hab hbc => le_trans hab hbc⟩

/-- The sorted list `commonSizeList` of `Generator::cloneScreens`: the common sizes in ascending
order of area.  The source sorts the values of a hash set, so the order among sizes of equal
area is not determined there; here it is the order of insertion. -/
def sortedSizes (commonSizes : List QSize) : List QSize :=
  commonSizes.insertionSort QSize.areaLE

/-- The function `Generator::cloneScreens`.  The maximum screen size is read from
`m_currentConfig`. -/
def cloneScreens (g : Generator) (c : Config) (connectedOutputs : List Int) : Option Config :=
  match assertOutputs g.env c connectedOutputs with
  | none => none
  | some _ =>
    if connectedOutputs.isEmpty then some c
    else
      let maxScreenSize := g.m_currentConfig.maxSize
      match commonSizesLoop c maxScreenSize [] connectedOutputs with
      | none => none
      | some commonSizes =>
        if commonSizes.isEmpty then cloneBiggestLoop g.env c connectedOutputs
        else
          match (sortedSizes commonSizes).getLast? with
          | none => none
          | some biggestSize => cloneBestLoop biggestSize c connectedOutputs

/-! ## Display switch, fallback ladder and ideal configuration -/

/-- The function `Generator::displaySwitch`.  It works on `m_currentConfig` itself and returns
that pointer: the result is the generator with the updated current configuration. -/
def displaySwitch (g : Generator) (action : DisplaySwitchAction) : Option Generator :=
  let config := g.m_currentConfig
  let connectedOutputs := config.connectedOutputs
  match initializeOutputs g.env config.perOutputScaling config connectedOutputs with
  | none => none
  | some config =>
    if connectedOutputs.length < 2 then
      match singleOutput g.env config connectedOutputs with
      | none => none
      | some config => some { g with m_currentConfig := config }
    else if connectedOutputs.length > 2 then
      match extendToRight g.env config connectedOutputs with
      | none => none
      | some config => some { g with m_currentConfig := config }
    else
      match connectedOutputs with
      | [] => none
      | firstConnectedOutputKey :: _ =>
        match embeddedOutput config connectedOutputs with
        | none => none
        | some found =>
          match config.output (found.getD firstConnectedOutputKey) with
          | none => none
          | some embedded =>
            if embedded.modes.isEmpty then some { g with m_currentConfig := config }
            else if action = DisplaySwitchAction.Clone then
              match cloneScreens g (config.setOutput (embedded.setPrimary true))
                  connectedOutputs with
              | none => none
              | some config => some { g with m_currentConfig := config }
            else
              match removeKey connectedOutputs embedded.id with
              | [] => none
              | externalKey :: _ =>
                match config.output externalKey with
                | none => none
                | some external =>
                  if external.modes.isEmpty then some { g with m_currentConfig := config }
                  else
                    match qAssert g.env embedded.currentMode.isSome,
                        qAssert g.env external.currentMode.isSome with
                    | some _, some _ =>
                      match action with
                      | DisplaySwitchAction.ExtendToLeft =>
                        let external := (external.setPos ⟨0, 0⟩).setEnabled true
                        let size := external.geometry g.env
                        let embedded :=
                          ((embedded.setPos ⟨size.width, 0⟩).setEnabled true).setPrimary true
                        some { g with
                          m_currentConfig := (config.setOutput external).setOutput embedded }
                      | DisplaySwitchAction.TurnOffEmbedded =>
                        let embedded := (embedded.setEnabled false).setPrimary false
                        let external := (external.setEnabled true).setPrimary true
                        some { g with
                          m_currentConfig := (config.setOutput embedded).setOutput external }
                      | DisplaySwitchAction.TurnOffExternal =>
                        let embedded :=
                          ((embedded.setPos ⟨0, 0⟩).setEnabled true).setPrimary true
                        let external := (external.setEnabled false).setPrimary false
                        some { g with
                          m_currentConfig := (config.setOutput embedded).setOutput external }
                      | DisplaySwitchAction.ExtendToRight =>
                        let embedded :=
                          ((embedded.setPos ⟨0, 0⟩).setEnabled true).setPrimary true
                        match qAssert g.env embedded.currentMode.isSome with
                        | none => none
                        | some _ =>
                          let size := embedded.geometry g.env
                          let external :=
                            ((external.setPos ⟨size.width, 0⟩).setEnabled true).setPrimary false
                          some { g with
                            m_currentConfig := (config.setOutput embedded).setOutput external }
                      | DisplaySwitchAction.None => some { g with m_currentConfig := config }
                      | DisplaySwitchAction.Clone => some { g with m_currentConfig := config }
                    | _, _ => none

/-- The function `Generator::fallbackIfNeeded`.  Its argument is the fresh clone made by
`idealConfig`, an object distinct from `m_currentConfig`.  The result is the returned
configuration and the generator, whose current configuration `displaySwitch` may have changed.
Outside the laptop branch `newConfig` is the same pointer as `config`, so the clone policy
writes into `config` itself; in every branch the function ends with `return config`. -/
def fallbackIfNeeded (g : Generator) (config : Config) : Option (Config × Generator) :=
  if !g.env.canBeApplied config then
    if isLaptop g then
      match displaySwitch g DisplaySwitchAction.Clone with
      | none => none
      | some g' =>
        let newConfig := g'.m_currentConfig
        let _newConfig := if !g.env.canBeApplied newConfig then config else newConfig
        some (config, g')
    else
      let connectedOutputs := config.connectedOutputs
      match connectedOutputs with
      | [] => some (config, g)
      | firstConnectedOutputKey :: _ =>
        match config.output firstConnectedOutputKey with
        | none => none
        | some first =>
          match cloneScreens g (config.setOutput (first.setPrimary true)) connectedOutputs with
          | none => none
          | some config =>
            let newConfig := config
            let _newConfig := if !g.env.canBeApplied newConfig then config else newConfig
            some (config, g)
  else
    let newConfig := config
    let _newConfig := if !g.env.canBeApplied newConfig then config else newConfig
    some (config, g)

/-- The function `Generator::idealConfig`. -/
def idealConfig (g : Generator) (currentConfig : Config) : Option (Config × Generator) :=
  let config := disableAllDisconnectedOutputs currentConfig
  let connectedOutputs := config.connectedOutputs
  if connectedOutputs.isEmpty then some (config, g)
  else
    match initializeOutputs g.env config.perOutputScaling config connectedOutputs with
    | none => none
    | some config =>
      if connectedOutputs.length = 1 then
        match singleOutput g.env config connectedOutputs with
        | none => none
        | some config => some (config, g)
      else if isLaptop g then
        match laptop g config connectedOutputs with
        | none => none
        | some config => fallbackIfNeeded g config
      else
        match extendToRight g.env config connectedOutputs with
        | none => none
        | some config => fallbackIfNeeded g config

/-! ## Specification vocabulary -/

/-- The width of the geometry of the output stored under `k` (zero when there is none). -/
def Config.geometryWidth (env : Platform) (c : Config) (k : Int) : Int :=
  match c.output k with
  | some o => (o.geometry env).width
  | none => 0

/-- The sum of the geometry widths of the outputs listed before `k` in `ks`. -/
def widthsBefore (env : Platform) (c : Config) (ks : List Int) (k : Int) : Int :=
  ((ks.takeWhile (fun x => x != k)).map (c.geometryWidth env)).sum

/-- The record left by the chaining loop on an output placed at offset `x`. -/
def Output.chained (o : Output) (x : Int) : Output :=
  ((o.setEnabled true).setPrimary false).setPos ⟨x, 0⟩

/-- The record left on the output that a policy places at the origin as the primary one. -/
def Output.placedPrimary (o : Output) : Output :=
  ((o.setEnabled true).setPrimary true).setPos ⟨0, 0⟩

/-! ## Sample data -/

/-- A geometry in the manner of libkscreen: the size of the current mode, empty without one. -/
def sampleGeometry : Option Mode → Rotation → Rat → QSize
  | none, _, _ => ⟨0, 0⟩
  | some m, _, _ => m.size

/-- A platform that is not a laptop, with assertions compiled in and the applicability check
`applicable`. -/
def samplePlatform (applicable : Config → Bool) : Platform :=
  { device := ⟨false, false, false⟩, canBeApplied := applicable,
    geometrySize := sampleGeometry, assertions := true }

/-- A connected, disabled output with no preferred mode, no persisted preferences and unknown
physical size. -/
def sampleOutput (id : Int) (type : OutputType) (modes : List Mode) (current : Nat) : Output :=
  { id := id, connected := true, type := type, modes := modes, preferredMode := none,
    sizeMm := ⟨0, 0⟩, global := ⟨none, none, none⟩, enabled := false, primary := false,
    pos := ⟨0, 0⟩, currentModeId := current, rotation := Rotation.None, scale := 1 }

/-- The mode 1920x1080 at 60 Hz. -/
def mode1080 : Mode := ⟨1, ⟨1920, 1080⟩, 60⟩

/-- The mode 2560x1440 at 60 Hz. -/
def mode1440 : Mode := ⟨2, ⟨2560, 1440⟩, 60⟩

/-- Two external outputs of widths 1920 and 2560, each on its only mode. -/
def twoScreens : Config :=
  { outputs := [sampleOutput 1 OutputType.HDMI [mode1080] 1,
      sampleOutput 2 OutputType.DisplayPort [mode1440] 2],
    maxSize := ⟨8192, 8192⟩, perOutputScaling := false }

/-- The key of the output that the laptop policy and the display switch treat as the embedded
one: the first listed output of type `Panel`, else the first listed output. -/
def embeddedKey (c : Config) (ws : List Int) : Option Int :=
  match embeddedOutput c ws, ws with
  | some found, first :: _ => some (found.getD first)
  | _, _ => none

/-- The test that the output stored under `k` has a non-empty mode list. -/
def Config.hasModesAt (c : Config) (k : Int) : Bool :=
  match c.output k with
  | some o => !o.modes.isEmpty
  | none => false

/-- A generator with the given forced posture on the sample platform. -/
def sampleGenerator (laptop lidClosed docked : Bool) (current : Config)
    (applicable : Config → Bool) : Generator :=
  { m_forceLaptop := laptop, m_forceLidClosed := lidClosed, m_forceNotLaptop := false,
    m_forceDocked := docked, m_currentConfig := current, env := samplePlatform applicable }

/-- A laptop panel of width 1920 and an external screen of width 2560, each on its only mode. -/
def laptopScreens : Config :=
  { outputs := [sampleOutput 1 OutputType.Panel [mode1080] 1,
      sampleOutput 2 OutputType.HDMI [mode1440] 2],
    maxSize := ⟨8192, 8192⟩, perOutputScaling := false }

/-- The test that a size does not exceed the maximum screen size in width or in height and is
the size of one of the modes of the output. -/
def Output.offersSize (maxScreenSize : QSize) (o : Output) (s : QSize) : Bool :=
  decide (s.width ≤ maxScreenSize.width) && decide (s.height ≤ maxScreenSize.height) &&
    o.modes.any (fun m => m.size == s)

/-- The test that a size belongs to the intersection, over the listed outputs, of the sets of
mode sizes within the maximum screen size. -/
def Config.commonSize (c : Config) (maxScreenSize : QSize) (ws : List Int) (s : QSize) : Bool :=
  ws.all (fun k => match c.output k with
    | some o => o.offersSize maxScreenSize s
    | none => false)

/-- The mode 1024x768 at 60 Hz. -/
def mode768 : Mode := ⟨3, ⟨1024, 768⟩, 60⟩

/-- Two screens, the first of which supports 1024x768 only and the second 1920x1080 and
1024x768. -/
def cloneSample : Config :=
  { outputs := [sampleOutput 1 OutputType.VGA [mode768] 0,
      sampleOutput 2 OutputType.HDMI [mode1080, mode768] 0],
    maxSize := ⟨8192, 8192⟩, perOutputScaling := false }

/-- The test that the mode data of an output are valid: the mode list is not empty, every mode
has a positive area (as computed in `int`), the preferred mode (if any) is one of the modes and
the persisted mode id (if any) names one of the modes. -/
def Output.modesValid (o : Output) : Bool :=
  !o.modes.isEmpty && o.modes.all (fun m => decide (0 < m.size.intArea)) &&
    (match o.preferredMode with
      | some m => o.modes.contains m
      | none => true) &&
    (match o.global.modeId with
      | some id => o.modes.any (fun m => m.id == id)
      | none => true)

/-- The configuration that `idealConfig` computes before the fallback ladder: the result of the
single-output policy, of the laptop policy or of the extend-right policy on the initialized
connected outputs. -/
def scenarioConfig (g : Generator) (currentConfig : Config) : Option Config :=
  let config := disableAllDisconnectedOutputs currentConfig
  let connectedOutputs := config.connectedOutputs
  if connectedOutputs.isEmpty then some config
  else
    match initializeOutputs g.env config.perOutputScaling config connectedOutputs with
    | none => none
    | some config =>
      if connectedOutputs.length = 1 then singleOutput g.env config connectedOutputs
      else if isLaptop g then laptop g config connectedOutputs
      else extendToRight g.env config connectedOutputs

/-- The record left by `disableAllDisconnectedOutputs` on a disconnected output. -/
def Output.disabled (o : Output) : Output := (o.setEnabled false).setPrimary false

/-- A configuration whose only connected output has a single mode, of size 0x0. -/
def zeroAreaScreen : Config :=
  { outputs := [sampleOutput 1 OutputType.HDMI [⟨1, ⟨0, 0⟩, 60⟩] 0],
    maxSize := ⟨8192, 8192⟩, perOutputScaling := false }

/-- A configuration with a single connected screen of width 1920. -/
def oneScreen : Config :=
  { outputs := [sampleOutput 1 OutputType.HDMI [mode1080] 0],
    maxSize := ⟨8192, 8192⟩, perOutputScaling := false }

/-- The record left by the clone policy on an output whose current mode becomes `modeId`. -/
def Output.cloned (o : Output) (modeId : Nat) : Output :=
  ((o.setEnabled true).setPos ⟨0, 0⟩).setCurrentModeId modeId

/-- A configuration whose only connected output has an empty mode list. -/
def noModesScreen : Config :=
  { outputs := [sampleOutput 1 OutputType.HDMI [] 0],
    maxSize := ⟨8192, 8192⟩, perOutputScaling := false }

/-- The layout that the extend-right policy computes for `twoScreens`. -/
def twoScreensExtended : Config :=
  { outputs := [(sampleOutput 1 OutputType.HDMI [mode1080] 1).chained 2560,
      (sampleOutput 2 OutputType.DisplayPort [mode1440] 2).placedPrimary],
    maxSize := ⟨8192, 8192⟩, perOutputScaling := false }

/-- The layout that the fallback ladder leaves for `twoScreens` outside a laptop. -/
def twoScreensCloned : Config :=
  { outputs := [(sampleOutput 1 OutputType.HDMI [mode1080] 1).placedPrimary,
      (sampleOutput 2 OutputType.DisplayPort [mode1440] 2).placedPrimary],
    maxSize := ⟨8192, 8192⟩, perOutputScaling := false }

/-- An applicability check that accepts exactly the layouts with every output at the origin. -/
def onlyAtOrigin (c : Config) : Bool := c.outputs.all (fun o => o.pos == ⟨0, 0⟩)

/-- The layout that the laptop policy computes for `laptopScreens` with the lid open. -/
def laptopScreensExtended : Config :=
  { outputs := [(sampleOutput 1 OutputType.Panel [mode1080] 1).placedPrimary,
      (sampleOutput 2 OutputType.HDMI [mode1440] 2).chained 1920],
    maxSize := ⟨8192, 8192⟩, perOutputScaling := false }

/-- The layout that `displaySwitch(Clone)` leaves for `laptopScreens`. -/
def laptopScreensCloned : Config :=
  { outputs := [((sampleOutput 1 OutputType.Panel [mode1080] 1).setPrimary true).setEnabled true,
      (sampleOutput 2 OutputType.HDMI [mode1440] 2).setEnabled true],
    maxSize := ⟨8192, 8192⟩, perOutputScaling := false }

/-- The number of enabled outputs of a configuration that are marked primary. -/
def Config.primaryCount (c : Config) : Nat :=
  c.outputs.countP (fun o => o.enabled && o.primary)

/-! ## The daemon -/

/-- The members of `KScreenDaemon` (`kded/daemon.cpp`). -/
structure KScreenDaemon where
  m_iteration : Int
  m_pendingSave : Bool
deriving DecidableEq, Repr

/-- The state left by the constructor of `KScreenDaemon`: `m_iteration(0)`,
`m_pendingSave(false)`. -/
def KScreenDaemon.initial : KScreenDaemon := ⟨0, false⟩

/-- The slot `KScreenDaemon::displayButton`: the daemon after the press and the value of
`m_iteration` that it hands to `Generator::displaySwitch`.  The effect of that call on the
generator is not part of the state of the daemon. -/
def KScreenDaemon.displayButton (d : KScreenDaemon) : KScreenDaemon × Int :=
  let d := if d.m_iteration > 5 then { d with m_iteration := 1 } else d
  (d, d.m_iteration)

/-- The values handed to `displaySwitch` by `n` successive presses of the display button. -/
def KScreenDaemon.presses : Nat → KScreenDaemon → List Int
  | 0, _ => []
  | n + 1, d => (d.displayButton).2 :: KScreenDaemon.presses n (d.displayButton).1

/-! ## Further sample data -/

/-- A platform that is not a laptop, with assertions compiled out (`QT_NO_DEBUG`). -/
def releasePlatform (applicable : Config → Bool) : Platform :=
  { device := ⟨false, false, false⟩, canBeApplied := applicable,
    geometrySize := sampleGeometry, assertions := false }

/-- A screen of width 1920 and a connected output without modes, both disabled. -/
def screenAndModeless : Config :=
  { outputs := [sampleOutput 1 OutputType.HDMI [mode1080] 1,
      sampleOutput 2 OutputType.DisplayPort [] 0],
    maxSize := ⟨8192, 8192⟩, perOutputScaling := false }

/-- The configuration `laptopScreens` in which the external screen is the primary output. -/
def laptopScreensExternalPrimary : Config :=
  { outputs := [sampleOutput 1 OutputType.Panel [mode1080] 1,
      (sampleOutput 2 OutputType.HDMI [mode1440] 2).setPrimary true],
    maxSize := ⟨8192, 8192⟩, perOutputScaling := false }

/-! ## Loop invariants -/

/-- The invariant of the loop of `Generator::biggestMode` after the modes `seen`: no mode seen
has an area above `biggestArea`; a chosen mode was seen, has area `biggestArea` and, when the
refresh rates of the modes seen are numbers, no mode seen with that area has a higher refresh
rate; while no mode is chosen `biggestArea` is 0 and every mode seen has a negative area. -/
def biggestModeInv (seen : List Mode) (st : Int × Option Mode) : Prop :=
  (∀ x ∈ seen, x.size.intArea ≤ st.1) ∧
  (st.2 = none → st.1 = 0 ∧ ∀ x ∈ seen, x.size.intArea < 0) ∧
  (∀ m, st.2 = some m → m ∈ seen ∧ m.size.intArea = st.1 ∧
    ((∀ x ∈ seen, x.refreshRate.isNum = true) →
      ∀ x ∈ seen, x.size.intArea = st.1 → x.refreshRate ≤ m.refreshRate))

/-! ## Sample data for the mode selection, the laptop policy and the display switch -/

/-- The mode 1920x1080 at 144 Hz. -/
def mode1080at144 : Mode := ⟨4, ⟨1920, 1080⟩, 144⟩

/-- The mode 1280x720 at 60 Hz. -/
def mode720 : Mode := ⟨5, ⟨1280, 720⟩, 60⟩

/-- The modes 1920x1080 at 60 Hz, 1920x1080 at 144 Hz and 1280x720 at 60 Hz. -/
def exampleModes : List Mode := [mode1080, mode1080at144, mode720]

/-- An external screen of width 1920 under key 1 and a laptop panel without modes under key 2,
both disabled. -/
def modelessPanelSecond : Config :=
  { outputs := [sampleOutput 1 OutputType.HDMI [mode1080] 1,
      sampleOutput 2 OutputType.Panel [] 0],
    maxSize := ⟨8192, 8192⟩, perOutputScaling := false }

/-- A connected screen under key 1 and a disconnected output under key 2 that is still enabled
and primary. -/
def withUnpluggedScreen : Config :=
  { outputs := [sampleOutput 1 OutputType.HDMI [mode1080] 1,
      { sampleOutput 2 OutputType.DisplayPort [mode1440] 2 with
        connected := false, enabled := true, primary := true }],
    maxSize := ⟨8192, 8192⟩, perOutputScaling := false }

/-- Two external outputs, the first of which has a single mode, of size 0x0. -/
def zeroAreaPair : Config :=
  { outputs := [sampleOutput 1 OutputType.HDMI [⟨1, ⟨0, 0⟩, 60⟩] 0,
      sampleOutput 2 OutputType.DisplayPort [mode1440] 2],
    maxSize := ⟨8192, 8192⟩, perOutputScaling := false }

/-- The modes 1920x1080 at 60 Hz, 1920x1080 at 144 Hz, 1280x720 at 60 Hz and 1920x1080 at 60 Hz
once more, under another id. -/
def modesWithTie : List Mode :=
  [mode1080, mode1080at144, mode720, ⟨6, ⟨1920, 1080⟩, 60⟩]

/-- The area of the best mode of an output (the preferred mode if present, else `biggestMode`);
zero when there is none. -/
def Output.bestArea (env : Platform) (o : Output) : Int :=
  match bestModeForOutput env o with
  | some (some m) => m.size.intArea
  | _ => 0

/-- The area of the best mode of the output stored under `k`; zero when there is none. -/
def Config.bestArea (env : Platform) (c : Config) (k : Int) : Int :=
  match c.output k with
  | some o => o.bestArea env
  | none => 0

/-- Three screens: 1920x1080 under key 1 and 2560x1440 under keys 2 and 3. -/
def threeScreens : Config :=
  { outputs := [sampleOutput 1 OutputType.HDMI [mode1080] 1,
      sampleOutput 2 OutputType.DisplayPort [mode1440] 2,
      sampleOutput 3 OutputType.DVI [mode1440] 2],
    maxSize := ⟨8192, 8192⟩, perOutputScaling := false }

/-- The mode 3840x2160 at 60 Hz. -/
def mode2160 : Mode := ⟨7, ⟨3840, 2160⟩, 60⟩

/-- An output on the mode 3840x2160 whose physical height is `p` millimetres. -/
def hiDpiOutput (p : Int) : Output :=
  { sampleOutput 1 OutputType.Panel [mode2160] 7 with sizeMm := ⟨336, p⟩ }

/-- The record `o` with the enabled flag, the primary flag and the position of `s`. -/
def Output.withLayout (o s : Output) : Output :=
  { o with enabled := s.enabled, primary := s.primary, pos := s.pos }

/-- The configuration `d` agrees with `c` except for the layout (enabled flag, primary flag and
position) of the outputs listed in `ws`. -/
def Config.sameUpToLayout (c d : Config) (ws : List Int) : Prop :=
  d.keys = c.keys ∧ d.maxSize = c.maxSize ∧ d.perOutputScaling = c.perOutputScaling ∧
  (∀ k, k ∉ ws → d.output k = c.output k) ∧
  ∀ k ∈ ws, ∀ o, c.output k = some o → ∃ s, d.output k = some (o.withLayout s)

/-- The configuration `d` agrees with `c` except for the enabled flag, the position and the
current mode of the outputs listed in `ws` that have modes: the fields that the clone policy
assigns. -/
def Config.sameUpToPlacement (c d : Config) (ws : List Int) : Prop :=
  d.keys = c.keys ∧ d.maxSize = c.maxSize ∧ d.perOutputScaling = c.perOutputScaling ∧
  (∀ k, k ∉ ws → d.output k = c.output k) ∧
  ∀ k ∈ ws, ∀ o, c.output k = some o →
    (o.modes = [] → d.output k = some o) ∧
    (o.modes ≠ [] → ∃ s i, d.output k = some ((o.withLayout s).setCurrentModeId i) ∧
      s.primary = o.primary)

/-- A mode 1920x1080 whose refresh rate is not a number. -/
def mode1080nan : Mode := ⟨8, ⟨1920, 1080⟩, CFloat.nan⟩

/-- The mode 1920x1080 with a refresh rate that is not a number, followed by 1920x1080 at
60 Hz. -/
def nanFirstModes : List Mode := [mode1080nan, mode1080]

/-! ## Sample data with modes of area zero and of area beyond the range of `int` -/

/-- The generator `sampleGenerator` in a build with assertions compiled out. -/
def releaseGenerator (laptop lidClosed docked : Bool) (current : Config)
    (applicable : Config → Bool) : Generator :=
  { m_forceLaptop := laptop, m_forceLidClosed := lidClosed, m_forceNotLaptop := false,
    m_forceDocked := docked, m_currentConfig := current, env := releasePlatform applicable }

/-- A laptop panel 1920x1080 under key 1 and an external screen under key 2 whose only mode has
size 0x0. -/
def laptopZero : Config :=
  { outputs := [sampleOutput 1 OutputType.Panel [mode1080] 1,
      sampleOutput 2 OutputType.HDMI [⟨1, ⟨0, 0⟩, 60⟩] 1],
    maxSize := ⟨8192, 8192⟩, perOutputScaling := false }

/-- The mode 65536x32768 at 60 Hz; its area is `2^31`. -/
def modeHuge : Mode := ⟨9, ⟨65536, 32768⟩, 60⟩

/-- Two screens that both offer the modes 1920x1080 and 65536x32768, with a maximum screen size
of 65536x65536. -/
def hugeClonePair : Config :=
  { outputs := [sampleOutput 1 OutputType.HDMI [mode1080, modeHuge] 1,
      sampleOutput 2 OutputType.DisplayPort [mode1080, modeHuge] 1],
    maxSize := ⟨65536, 65536⟩, perOutputScaling := false }

/-- A screen 1920x1080 under key 1 and a screen under key 2 whose preferred and only mode is
65536x32768. -/
def hugePreferredPair : Config :=
  { outputs := [sampleOutput 1 OutputType.HDMI [mode1080] 1,
      { sampleOutput 2 OutputType.DisplayPort [modeHuge] 9 with preferredMode := some modeHuge }],
    maxSize := ⟨65536, 65536⟩, perOutputScaling := false }

theorem CFloat.not_lt_self (a : CFloat) : ¬ a < a := by
  cases a with
  | nan => exact fun h => h
  | num v => exact fun h => absurd (h : v < v) (lt_irrefl v)

theorem CFloat.lt_chain {a b c : CFloat} (hab : a < b) (hbc : b < c) : a < c := by
  cases a with
  | nan => exact absurd hab (fun h => h)
  | num x =>
    cases b with
    | nan => exact absurd hab (fun h => h)
    | num y =>
      cases c with
      | nan => exact absurd hbc (fun h => h)
      | num z => exact (lt_trans (hab : x < y) (hbc : y < z) : x < z)

theorem CFloat.not_lt_of_lt {a b : CFloat} (hab : a < b) : ¬ b < a :=
  fun hba => CFloat.not_lt_self a (CFloat.lt_chain hab hba)

theorem CFloat.le_of_not_lt {a b : CFloat} (ha : a.isNum = true) (hb : b.isNum = true)
    (h : ¬ a < b) : b ≤ a := by
  cases a with
  | nan => cases ha
  | num x =>
    cases b with
    | nan => cases hb
    | num y => exact (not_lt.mp (h : ¬ x < y) : y ≤ x)

theorem CFloat.not_lt_of_le {a b : CFloat} (h : b ≤ a) : ¬ a < b := by
  cases a with
  | nan => exact fun h' => h'
  | num x =>
    cases b with
    | nan => exact fun h' => h'
    | num y =>
      intro h'
      have hxy : x < y := h'
      have hyx : y ≤ x := h
      exact absurd hxy (not_lt.mpr hyx)

theorem CFloat.lt_imp_le {a b : CFloat} (h : a < b) : a ≤ b := by
  cases a with
  | nan => exact absurd h (fun h' => h')
  | num x =>
    cases b with
    | nan => exact absurd h (fun h' => h')
    | num y =>
      have hxy : x < y := h
      exact (le_of_lt hxy : x ≤ y)

theorem CFloat.le_chain {a b c : CFloat} (hab : a ≤ b) (hbc : b ≤ c) : a ≤ c := by
  cases a with
  | nan => exact absurd hab (fun h => h)
  | num x =>
    cases b with
    | nan => exact absurd hab (fun h => h)
    | num y =>
      cases c with
      | nan => exact absurd hbc (fun h => h)
      | num z => exact (le_trans (hab : x ≤ y) (hbc : y ≤ z) : x ≤ z)

theorem CFloat.le_self {a : CFloat} (ha : a.isNum = true) : a ≤ a := by
  cases a with
  | nan => cases ha
  | num x => exact (le_refl x : x ≤ x)

theorem CFloat.lt_or_not_isNum {a b : CFloat} (ha : a.isNum = true) (hb : b.isNum = true) :
    a < b ∨ b < a ∨ a = b := by
  cases a with
  | nan => cases ha
  | num x =>
    cases b with
    | nan => cases hb
    | num y =>
      rcases lt_trichotomy x y with h | h | h
      · exact Or.inl h
      · exact Or.inr (Or.inr (by rw [h]))
      · exact Or.inr (Or.inl h)

theorem Config.output_id {c : Config} {k : Int} {o : Output} (h : c.output k = some o) :
    o.id = k := by
  have := List.find?_some h
  simpa using this

theorem Config.output_mem {c : Config} {k : Int} {o : Output} (h : c.output k = some o) :
    o ∈ c.outputs := List.mem_of_find?_eq_some h

theorem Config.keys_setOutput (c : Config) (o : Output) : (c.setOutput o).keys = c.keys := by
  unfold Config.setOutput Config.keys
  simp only [List.map_map]
  apply List.map_congr_left
  intro x _
  by_cases hx : x.id = o.id <;> simp [hx]

theorem beq_false_of_ne {a b : Int} (h : ¬ a = b) : (a == b) = false := by simpa using h
theorem beq_true_of_eq {a b : Int} (h : a = b) : (a == b) = true := by simpa using h

theorem find_map_set (l : List Output) (o : Output) (k : Int) :
    (l.map (fun x => if x.id == o.id then o else x)).find? (fun x => x.id == k) =
      if o.id = k then (l.find? (fun x => x.id == k)).map (fun _ => o)
      else l.find? (fun x => x.id == k) := by
  induction l with
  | nil => simp
  | cons x xs ih =>
    rw [List.map_cons, List.find?_cons, List.find?_cons, ih]
    by_cases hx : x.id = o.id
    · by_cases hk : o.id = k
      · have hxk : x.id = k := hx.trans hk
        simp [beq_true_of_eq hx, beq_true_of_eq hk, beq_true_of_eq hxk, hk]
      · have hxk : ¬ x.id = k := by rw [hx]; exact hk
        simp [beq_true_of_eq hx, beq_false_of_ne hk, beq_false_of_ne hxk, hk]
    · by_cases hk : o.id = k
      · have hxk : ¬ x.id = k := by rw [← hk]; exact hx
        simp [beq_false_of_ne hx, beq_true_of_eq hk, beq_false_of_ne hxk, hk]
      · by_cases hxk : x.id = k
        · simp [beq_false_of_ne hx, beq_false_of_ne hk, beq_true_of_eq hxk, hk]
        · simp [beq_false_of_ne hx, beq_false_of_ne hk, beq_false_of_ne hxk, hk]

theorem Config.output_setOutput (c : Config) (o : Output) (k : Int) :
    (c.setOutput o).output k = if o.id = k then (c.output k).map (fun _ => o) else c.output k :=
  find_map_set c.outputs o k
theorem Config.output_setOutput_self (c : Config) (o o' : Output) (h : c.output o'.id = some o) :
    (c.setOutput o').output o'.id = some o' := by
  rw [Config.output_setOutput]; simp [h]

theorem Config.output_setOutput_of_ne {c : Config} {o : Output} {k : Int} (h : o.id ≠ k) :
    (c.setOutput o).output k = c.output k := by
  rw [Config.output_setOutput]; simp [h]

theorem Config.output_isSome_iff (c : Config) (k : Int) :
    (c.output k).isSome ↔ k ∈ c.keys := by
  unfold Config.output Config.keys
  rw [List.find?_isSome]
  simp

theorem Config.output_eq_none_iff (c : Config) (k : Int) :
    c.output k = none ↔ k ∉ c.keys := by
  rw [← Config.output_isSome_iff]
  cases c.output k <;> simp

theorem Config.WF_setOutput {c : Config} (o : Output) (h : c.WF) : (c.setOutput o).WF := by
  unfold Config.WF at *
  rw [Config.keys_setOutput]; exact h

theorem Config.maxSize_setOutput (c : Config) (o : Output) :
    (c.setOutput o).maxSize = c.maxSize := rfl

theorem Config.perOutputScaling_setOutput (c : Config) (o : Output) :
    (c.setOutput o).perOutputScaling = c.perOutputScaling := rfl

theorem Config.keys_nodup {c : Config} (h : c.WF) : c.keys.Nodup := by
  unfold Config.WF at h
  exact h.imp (fun hab => ne_of_lt hab)

theorem find_of_mem_ascending (l : List Output)
    (h : (l.map (fun o => o.id)).Pairwise (fun a b => a < b)) {o : Output} (ho : o ∈ l) :
    l.find? (fun x => x.id == o.id) = some o := by
  induction l with
  | nil => simp at ho
  | cons x xs ih =>
    rw [List.map_cons, List.pairwise_cons] at h
    rcases List.mem_cons.mp ho with rfl | hm
    · simp
    · have hlt : x.id < o.id := h.1 o.id (List.mem_map_of_mem _ hm)
      rw [List.find?_cons, beq_false_of_ne (ne_of_lt hlt)]
      exact ih h.2 hm

/-- In a well-formed configuration an output is found under its own id. -/
theorem Config.output_of_mem {c : Config} (h : c.WF) {o : Output} (ho : o ∈ c.outputs) :
    c.output o.id = some o :=
  find_of_mem_ascending c.outputs h ho

theorem Config.connectedOutputs_subset (c : Config) : ∀ k ∈ c.connectedOutputs, k ∈ c.keys := by
  intro k hk
  unfold Config.connectedOutputs at hk
  unfold Config.keys
  obtain ⟨o, ho, rfl⟩ := List.mem_map.mp hk
  exact List.mem_map_of_mem _ (List.mem_of_mem_filter ho)

/-! ## The chaining loop -/

theorem Output.geometry_chained (env : Platform) (o : Output) (x : Int) :
    (o.chained x).geometry env = o.geometry env := rfl

theorem Output.id_chained (o : Output) (x : Int) : (o.chained x).id = o.id := rfl

theorem widthsBefore_cons (env : Platform) (c : Config) (x : Int) (xs : List Int) (k : Int) :
    widthsBefore env c (x :: xs) k =
      if x = k then 0 else c.geometryWidth env x + widthsBefore env c xs k := by
  unfold widthsBefore
  by_cases h : x = k
  · simp [List.takeWhile_cons, h]
  · simp [List.takeWhile_cons, h]

theorem widthsBefore_congr (env : Platform) (c c' : Config) (ks : List Int) (k : Int)
    (h : ∀ x ∈ ks, c'.output x = c.output x) :
    widthsBefore env c' ks k = widthsBefore env c ks k := by
  induction ks with
  | nil => rfl
  | cons x xs ih =>
    rw [widthsBefore_cons, widthsBefore_cons, ih (fun y hy => h y (List.mem_cons_of_mem _ hy))]
    have : c'.geometryWidth env x = c.geometryWidth env x := by
      unfold Config.geometryWidth; rw [h x (List.mem_cons_self _ _)]
    rw [this]

/-- The chaining loop completes on keys of the configuration, keeps every output outside the
list and leaves the output under each listed key chained at the running offset. -/
theorem chainLoop_spec (env : Platform) (ks : List Int) :
    ∀ (c : Config) (w : Int), ks.Nodup → (∀ k ∈ ks, k ∈ c.keys) →
      ∃ c', chainLoop env c w ks = some c' ∧ c'.keys = c.keys ∧ c'.maxSize = c.maxSize ∧
        c'.perOutputScaling = c.perOutputScaling ∧
        (∀ k, k ∉ ks → c'.output k = c.output k) ∧
        (∀ k ∈ ks, ∀ o, c.output k = some o →
          c'.output k = some (o.chained (w + widthsBefore env c ks k))) := by
  induction ks with
  | nil =>
    intro c w _ _
    exact ⟨c, rfl, rfl, rfl, rfl, fun _ _ => rfl, fun k hk => absurd hk (List.not_mem_nil k)⟩
  | cons x xs ih =>
    intro c w hnd hkeys
    have hx : x ∈ c.keys := hkeys x (List.mem_cons_self _ _)
    obtain ⟨o, ho⟩ := Option.isSome_iff_exists.mp ((c.output_isSome_iff x).mpr hx)
    have hid : o.id = x := Config.output_id ho
    have hnd' := List.nodup_cons.mp hnd
    obtain ⟨c', hrun, hk', hm', hp', hout, hin⟩ :=
      ih (c.setOutput (o.chained w)) (w + ((o.chained w).geometry env).width) hnd'.2
        (fun k hk => by rw [Config.keys_setOutput]; exact hkeys k (List.mem_cons_of_mem _ hk))
    have hne : ∀ k, k ≠ x → (c.setOutput (o.chained w)).output k = c.output k := fun k hk =>
      Config.output_setOutput_of_ne (by rw [Output.id_chained, hid]; exact fun h => hk h.symm)
    refine ⟨c', ?_, ?_, ?_, ?_, ?_, ?_⟩
    · simp only [chainLoop, ho]; exact hrun
    · rw [hk', Config.keys_setOutput]
    · rw [hm']; rfl
    · rw [hp']; rfl
    · intro k hk
      rw [List.mem_cons, not_or] at hk
      rw [hout k hk.2, hne k hk.1]
    · intro k hk ok hok
      by_cases hkx : k = x
      · subst hkx
        rw [hout k hnd'.1]
        have : ok = o := by rw [ho] at hok; exact (Option.some.inj hok).symm
        subst this
        rw [widthsBefore_cons, if_pos rfl, add_zero]
        have h := Config.output_setOutput_self c ok (ok.chained w)
          (by rw [Output.id_chained, hid]; exact ho)
        rw [Output.id_chained, hid] at h
        exact h
      · have hkxs : k ∈ xs := (List.mem_cons.mp hk).resolve_left hkx
        have h := hin k hkxs ok (by rw [hne k hkx]; exact hok)
        rw [h, widthsBefore_cons, if_neg (fun h => hkx h.symm)]
        have hw : widthsBefore env (c.setOutput (o.chained w)) xs k = widthsBefore env c xs k :=
          widthsBefore_congr env c _ xs k (fun y hy => hne y (fun h => hnd'.1 (h ▸ hy)))
        have hg : c.geometryWidth env x = (o.geometry env).width := by
          unfold Config.geometryWidth; rw [ho]
        rw [hw, hg, Output.geometry_chained, add_assoc]

/-! ## Assertions and classification -/

theorem qAssert_true (env : Platform) : qAssert env true = some () := by
  unfold qAssert; simp

theorem assertOutputs_ok (env : Platform) (c : Config) (ws : List Int) (hne : ws ≠ [])
    (hconn : ∀ k ∈ ws, ∃ o, c.output k = some o ∧ o.connected = true) :
    assertOutputs env c ws = some () := by
  unfold assertOutputs
  have h1 : ws.isEmpty = false := by cases ws <;> simp at hne ⊢
  have h2 : ws.all (fun k => c.connectedAt k) = true := by
    rw [List.all_eq_true]
    intro k hk
    obtain ⟨o, ho, hc⟩ := hconn k hk
    simp [Config.connectedAt, ho, hc]
  rw [h1, h2]; exact qAssert_true env

theorem all_congr_mem {α : Type} (l : List α) (p q : α → Bool) (h : ∀ x ∈ l, p x = q x) :
    l.all p = l.all q := by
  induction l with
  | nil => rfl
  | cons x xs ih =>
    rw [List.all_cons, List.all_cons, h x (List.mem_cons_self _ _),
      ih (fun y hy => h y (List.mem_cons_of_mem _ hy))]

theorem assertOutputs_congr (env : Platform) (c c' : Config) (ws : List Int)
    (h : ∀ k ∈ ws, c'.output k = c.output k) :
    assertOutputs env c' ws = assertOutputs env c ws := by
  unfold assertOutputs
  rw [all_congr_mem ws (fun k => c'.connectedAt k) (fun k => c.connectedAt k)
    (fun k hk => by simp only [Config.connectedAt, h k hk])]

theorem biggestOutputLoop_mem (env : Platform) (c : Config) (ks : List Int) :
    ∀ (total : Int) (init : Option Int) (b : Int),
      biggestOutputLoop env c total init ks = some (some b) → init = some b ∨ b ∈ ks := by
  induction ks with
  | nil =>
    intro total init b h
    simp only [biggestOutputLoop] at h
    exact Or.inl (Option.some.inj h)
  | cons x xs ih =>
    intro total init b h
    simp only [biggestOutputLoop] at h
    split at h
    · exact absurd h (by simp)
    · split at h
      · exact absurd h (by simp)
      · exact (ih _ _ _ h).imp id (List.mem_cons_of_mem _)
      · split at h
        · exact (ih _ _ _ h).imp id (List.mem_cons_of_mem _)
        · rcases ih _ _ _ h with h' | h'
          · right; rw [Option.some.inj h']; exact List.mem_cons_self _ _
          · exact Or.inr (List.mem_cons_of_mem _ h')

theorem biggestOutputLoop_congr (env : Platform) (c c' : Config) (ks : List Int)
    (h : ∀ k ∈ ks, c'.output k = c.output k) :
    ∀ (total : Int) (init : Option Int),
      biggestOutputLoop env c' total init ks = biggestOutputLoop env c total init ks := by
  induction ks with
  | nil => intro total init; rfl
  | cons x xs ih =>
    intro total init
    have ih' := ih (fun k hk => h k (List.mem_cons_of_mem _ hk))
    simp only [biggestOutputLoop, h x (List.mem_cons_self _ _), ih']

theorem biggestOutput_congr (env : Platform) (c c' : Config) (ws : List Int)
    (h : ∀ k ∈ ws, c'.output k = c.output k) :
    biggestOutput env c' ws = biggestOutput env c ws := by
  unfold biggestOutput
  rw [assertOutputs_congr env c c' ws h, biggestOutputLoop_congr env c c' ws h]

theorem biggestOutput_mem (env : Platform) (c : Config) (ws : List Int) (b : Int)
    (h : biggestOutput env c ws = some (some b)) : b ∈ ws := by
  unfold biggestOutput at h
  split at h
  · exact absurd h (by simp)
  · rcases biggestOutputLoop_mem env c ws 0 none b h with h' | h'
    · exact absurd h' (by simp)
    · exact h'

theorem mem_removeKey {l : List Int} {k x : Int} : x ∈ removeKey l k ↔ x ∈ l ∧ x ≠ k := by
  unfold removeKey; simp

theorem nodup_of_ascending {l : List Int} (h : l.Pairwise (fun a b => a < b)) : l.Nodup :=
  h.imp (fun hab => ne_of_lt hab)

theorem removeKey_ascending {l : List Int} (k : Int) (h : l.Pairwise (fun a b => a < b)) :
    (removeKey l k).Pairwise (fun a b => a < b) := h.filter _

theorem Config.geometryWidth_of_output {env : Platform} {c : Config} {k : Int} {o : Output}
    (h : c.output k = some o) : c.geometryWidth env k = (o.geometry env).width := by
  unfold Config.geometryWidth; rw [h]

/-! ## Extend-right policy -/

/-- The extend-right policy on a list of connected outputs among which `biggestOutput` chooses
`b`: it completes, `b` is placed at the origin as the primary output, every other listed output
is chained at the width of `b` plus the widths of the listed outputs before it, and no other
output changes. -/
theorem extendToRight_spec (env : Platform) (c : Config) (ws : List Int) (b : Int)
    (hasc : ws.Pairwise (fun a b => a < b))
    (hconn : ∀ k ∈ ws, ∃ o, c.output k = some o ∧ o.connected = true)
    (hb : biggestOutput env c ws = some (some b)) :
    ∃ c', extendToRight env c ws = some c' ∧ c'.keys = c.keys ∧ c'.maxSize = c.maxSize ∧
      c'.perOutputScaling = c.perOutputScaling ∧
      (∀ ob, c.output b = some ob → c'.output b = some ob.placedPrimary) ∧
      (∀ k ∈ ws, k ≠ b → ∀ o, c.output k = some o →
        c'.output k = some
          (o.chained (c.geometryWidth env b + widthsBefore env c (removeKey ws b) k))) ∧
      (∀ k, k ∉ ws → c'.output k = c.output k) := by
  have hbm : b ∈ ws := biggestOutput_mem env c ws b hb
  have hne : ws ≠ [] := List.ne_nil_of_mem hbm
  obtain ⟨ob, hob, _⟩ := hconn b hbm
  have hid : ob.id = b := Config.output_id hob
  have hkeys : ∀ k ∈ ws, k ∈ c.keys := fun k hk => by
    obtain ⟨o, ho, _⟩ := hconn k hk
    exact (c.output_isSome_iff k).mp (by rw [ho]; rfl)
  have hidp : ob.placedPrimary.id = b := hid
  obtain ⟨c', hrun, hk', hm', hp', hout, hin⟩ :=
    chainLoop_spec env (removeKey ws b) (c.setOutput ob.placedPrimary)
      (ob.placedPrimary.geometry env).width
      (nodup_of_ascending (removeKey_ascending b hasc))
      (fun k hk => by rw [Config.keys_setOutput]; exact hkeys k (mem_removeKey.mp hk).1)
  have hneb : ∀ k, k ≠ b → (c.setOutput ob.placedPrimary).output k = c.output k := fun k hk =>
    Config.output_setOutput_of_ne (by rw [hidp]; exact fun h => hk h.symm)
  have hempty : ws.isEmpty = false := by cases ws <;> simp at hne ⊢
  refine ⟨c', ?_, ?_, ?_, ?_, ?_, ?_, ?_⟩
  · unfold extendToRight
    rw [assertOutputs_ok env c ws hne hconn]
    simp only [hempty, hb, hob, hid]
    exact hrun
  · rw [hk', Config.keys_setOutput]
  · rw [hm']; rfl
  · rw [hp']; rfl
  · intro ob' hob'
    have : ob' = ob := by rw [hob] at hob'; exact (Option.some.inj hob').symm
    subst this
    rw [hout b (fun h => (mem_removeKey.mp h).2 rfl)]
    have h := Config.output_setOutput_self c ob' ob'.placedPrimary
      (by rw [hidp]; exact hob)
    rw [hidp] at h
    exact h
  · intro k hk hkb o ho
    have hkr : k ∈ removeKey ws b := mem_removeKey.mpr ⟨hk, hkb⟩
    rw [hin k hkr o (by rw [hneb k hkb]; exact ho)]
    have hw : widthsBefore env (c.setOutput ob.placedPrimary) (removeKey ws b) k =
        widthsBefore env c (removeKey ws b) k :=
      widthsBefore_congr env c _ _ k (fun y hy => hneb y (mem_removeKey.mp hy).2)
    rw [hw, Config.geometryWidth_of_output hob]
    rfl
  · intro k hk
    have hkb : k ≠ b := fun h => hk (h ▸ hbm)
    rw [hout k (fun h => hk (mem_removeKey.mp h).1), hneb k hkb]

theorem Config.geometryWidth_congr {env : Platform} {c c' : Config} {k : Int} {o o' : Output}
    (h : c.output k = some o) (h' : c'.output k = some o')
    (hg : o'.geometry env = o.geometry env) :
    c'.geometryWidth env k = c.geometryWidth env k := by
  rw [Config.geometryWidth_of_output h, Config.geometryWidth_of_output h', hg]

theorem Config.exists_of_connectedAt {c : Config} {k : Int} (h : c.connectedAt k = true) :
    ∃ o, c.output k = some o ∧ o.connected = true := by
  unfold Config.connectedAt at h
  cases ho : c.output k with
  | none => rw [ho] at h; exact absurd h (by simp)
  | some o => rw [ho] at h; exact ⟨o, rfl, h⟩

theorem Config.geometryWidth_eq_of_none {env : Platform} {c c' : Config} {k : Int}
    (h : c.output k = none) (h' : c'.output k = c.output k) :
    c'.geometryWidth env k = c.geometryWidth env k := by
  unfold Config.geometryWidth; rw [h', h]

theorem widthsBefore_congr_width (env : Platform) (c c' : Config) (ks : List Int) (k : Int)
    (h : ∀ x ∈ ks, c'.geometryWidth env x = c.geometryWidth env x) :
    widthsBefore env c' ks k = widthsBefore env c ks k := by
  induction ks with
  | nil => rfl
  | cons x xs ih =>
    rw [widthsBefore_cons, widthsBefore_cons, ih (fun y hy => h y (List.mem_cons_of_mem _ hy)),
      h x (List.mem_cons_self _ _)]

/-- The extend-right policy changes no geometry width. -/
theorem extendToRight_geometryWidth (env : Platform) (c : Config) (ws : List Int) (b : Int)
    (hasc : ws.Pairwise (fun a b => a < b))
    (hconn : ∀ k ∈ ws, ∃ o, c.output k = some o ∧ o.connected = true)
    (hb : biggestOutput env c ws = some (some b)) (c' : Config)
    (hrun : extendToRight env c ws = some c') (k : Int) :
    c'.geometryWidth env k = c.geometryWidth env k := by
  obtain ⟨c'', hrun', _, _, _, hbig, hrest, hout⟩ := extendToRight_spec env c ws b hasc hconn hb
  have : c'' = c' := by rw [hrun] at hrun'; exact (Option.some.inj hrun').symm
  subst this
  by_cases hk : k ∈ ws
  · obtain ⟨o, ho, _⟩ := hconn k hk
    by_cases hkb : k = b
    · subst hkb
      exact Config.geometryWidth_congr ho (hbig o ho) rfl
    · exact Config.geometryWidth_congr ho (hrest k hk hkb o ho) rfl
  · unfold Config.geometryWidth; rw [hout k hk]

/-! ## Laptop policy -/

theorem embeddedOutput_mem (c : Config) (ks : List Int) :
    ∀ k, embeddedOutput c ks = some (some k) → k ∈ ks := by
  induction ks with
  | nil => intro k h; simp [embeddedOutput] at h
  | cons x xs ih =>
    intro k h
    simp only [embeddedOutput] at h
    split at h
    · exact absurd h (by simp)
    · split at h
      · exact List.mem_cons_of_mem _ (ih k h)
      · rw [Option.some.inj (Option.some.inj h)]; exact List.mem_cons_self _ _

theorem embeddedKey_spec {c : Config} {ws : List Int} {e : Int} (h : embeddedKey c ws = some e) :
    e ∈ ws ∧ ∃ first rest found, ws = first :: rest ∧ embeddedOutput c ws = some found ∧
      found.getD first = e := by
  unfold embeddedKey at h
  split at h
  · rename_i found first rest hf
    refine ⟨?_, first, rest, found, rfl, hf, Option.some.inj h⟩
    rw [← Option.some.inj h]
    cases found with
    | none => exact List.mem_cons_self _ _
    | some k => exact embeddedOutput_mem c _ k hf
  · exact absurd h (by simp)

/-- The lid-closed branch of the laptop policy with a single other output. -/
theorem laptop_lidClosed_single (g : Generator) (c : Config) (ws : List Int) (e x : Int)
    (oe ox : Output)
    (hconn : ∀ k ∈ ws, ∃ o, c.output k = some o ∧ o.connected = true)
    (he : embeddedKey c ws = some e) (hx : removeKey ws e = [x])
    (hoe : c.output e = some oe) (hox : c.output x = some ox)
    (hme : oe.modes ≠ []) (hlid : isLidClosed g = true) :
    laptop g c ws =
      if ox.modes.isEmpty then some (c.setOutput ((oe.setEnabled false).setPrimary false))
      else some ((c.setOutput ((oe.setEnabled false).setPrimary false)).setOutput
        ox.placedPrimary) := by
  obtain ⟨hew, first, rest, found, hws, hfound, hget⟩ := embeddedKey_spec he
  have hne : ws ≠ [] := List.ne_nil_of_mem hew
  have hide : oe.id = e := Config.output_id hoe
  have hxe : x ≠ e := by
    have : x ∈ removeKey ws e := by rw [hx]; exact List.mem_singleton_self x
    exact (mem_removeKey.mp this).2
  have hox' : (c.setOutput ((oe.setEnabled false).setPrimary false)).output x = some ox := by
    rw [Config.output_setOutput_of_ne (by show oe.id ≠ x; rw [hide]; exact fun h => hxe h.symm)]
    exact hox
  have hmeb : oe.modes.isEmpty = false := by cases hm : oe.modes <;> simp [hm] at hme ⊢
  unfold laptop
  rw [assertOutputs_ok g.env c ws hne hconn]
  subst hws
  simp only [hfound, hget, hoe, hide, hx, hmeb, hlid, hox']
  simp
  rfl

/-- The lid-open branch of the laptop policy, when `biggestOutput` chooses `b` among the outputs
other than the embedded one. -/
theorem laptop_lidOpen_spec (g : Generator) (c : Config) (ws : List Int) (e b : Int)
    (oe ob : Output)
    (hasc : ws.Pairwise (fun x y => x < y))
    (hconn : ∀ k ∈ ws, ∃ o, c.output k = some o ∧ o.connected = true)
    (he : embeddedKey c ws = some e) (hoe : c.output e = some oe) (hob : c.output b = some ob)
    (hme : oe.modes ≠ []) (hlid : isLidClosed g = false)
    (hb : biggestOutput g.env c (removeKey ws e) = some (some b)) :
    ∃ c', laptop g c ws = some c' ∧ c'.keys = c.keys ∧ c'.maxSize = c.maxSize ∧
      c'.perOutputScaling = c.perOutputScaling ∧
      c'.output e = some (((oe.setPos ⟨0, 0⟩).setEnabled true).setPrimary (!isDocked g)) ∧
      c'.output b = some (((ob.setPos ⟨c.geometryWidth g.env e, 0⟩).setEnabled true).setPrimary
        (isDocked g)) ∧
      (∀ k ∈ ws, k ≠ e → k ≠ b → ∀ o, c.output k = some o →
        c'.output k = some (o.chained (c.geometryWidth g.env e + c.geometryWidth g.env b +
          widthsBefore g.env c (removeKey (removeKey ws e) b) k))) ∧
      (∀ k, k ∉ ws → c'.output k = c.output k) := by
  obtain ⟨hew, first, rest, found, hws, hfound, hget⟩ := embeddedKey_spec he
  have hne : ws ≠ [] := List.ne_nil_of_mem hew
  have hide : oe.id = e := Config.output_id hoe
  have hidb : ob.id = b := Config.output_id hob
  have hbr : b ∈ removeKey ws e := biggestOutput_mem g.env c _ b hb
  have hbw : b ∈ ws := (mem_removeKey.mp hbr).1
  have hbe : b ≠ e := (mem_removeKey.mp hbr).2
  have hkeys : ∀ k ∈ ws, k ∈ c.keys := fun k hk => by
    obtain ⟨o, ho, _⟩ := hconn k hk
    exact (c.output_isSome_iff k).mp (by rw [ho]; rfl)
  have hmeb : oe.modes.isEmpty = false := by cases hm : oe.modes <;> simp [hm] at hme ⊢
  have hrne : (removeKey ws e).isEmpty = false := by
    cases hr : removeKey ws e with
    | nil => rw [hr] at hbr; exact absurd hbr (List.not_mem_nil b)
    | cons _ _ => rfl
  -- the embedded output is placed
  let oe1 : Output := ((oe.setPos ⟨0, 0⟩).setPrimary true).setEnabled true
  have hc1 : ∀ k, k ≠ e → (c.setOutput oe1).output k = c.output k := fun k hk =>
    Config.output_setOutput_of_ne (by show oe.id ≠ k; rw [hide]; exact fun h => hk h.symm)
  have hc1e : (c.setOutput oe1).output e = some oe1 := by
    have h := Config.output_setOutput_self c oe oe1
      (by show c.output oe.id = some oe; rw [hide]; exact hoe)
    have hid1 : oe1.id = e := hide
    rw [hid1] at h; exact h
  have hb1 : biggestOutput g.env (c.setOutput oe1) (removeKey ws e) = some (some b) := by
    rw [biggestOutput_congr g.env c _ _ (fun k hk => hc1 k (mem_removeKey.mp hk).2)]; exact hb
  have hob1 : (c.setOutput oe1).output b = some ob := by rw [hc1 b hbe]; exact hob
  -- the biggest external output is placed
  let ob1 : Output :=
    ((ob.setPos ⟨(oe1.geometry g.env).width, 0⟩).setEnabled true).setPrimary false
  let c2 : Config := (c.setOutput oe1).setOutput ob1
  have hc2 : ∀ k, k ≠ e → k ≠ b → c2.output k = c.output k := fun k hke hkb => by
    show ((c.setOutput oe1).setOutput ob1).output k = _
    rw [Config.output_setOutput_of_ne (by show ob.id ≠ k; rw [hidb]; exact fun h => hkb h.symm)]
    exact hc1 k hke
  have hc2e : c2.output e = some oe1 := by
    show ((c.setOutput oe1).setOutput ob1).output e = _
    rw [Config.output_setOutput_of_ne (by show ob.id ≠ e; rw [hidb]; exact hbe)]; exact hc1e
  have hc2b : c2.output b = some ob1 := by
    have h := Config.output_setOutput_self (c.setOutput oe1) ob ob1
      (by show (c.setOutput oe1).output ob.id = some ob; rw [hidb]; exact hob1)
    have hid1 : ob1.id = b := hidb
    rw [hid1] at h; exact h
  obtain ⟨c3, hrun, hk3, hm3, hp3, hout, hin⟩ :=
    chainLoop_spec g.env (removeKey (removeKey ws e) b) c2
      ((oe1.geometry g.env).width + (ob1.geometry g.env).width)
      (nodup_of_ascending (removeKey_ascending b (removeKey_ascending e hasc)))
      (fun k hk => by
        show k ∈ ((c.setOutput oe1).setOutput ob1).keys
        rw [Config.keys_setOutput, Config.keys_setOutput]
        exact hkeys k (mem_removeKey.mp (mem_removeKey.mp hk).1).1)
  have hk3' : c3.keys = c.keys := by
    rw [hk3]; show ((c.setOutput oe1).setOutput ob1).keys = _
    rw [Config.keys_setOutput, Config.keys_setOutput]
  have h3e : c3.output e = some oe1 := by
    rw [hout e (fun h => (mem_removeKey.mp (mem_removeKey.mp h).1).2 rfl)]; exact hc2e
  have h3b : c3.output b = some ob1 := by
    rw [hout b (fun h => (mem_removeKey.mp h).2 rfl)]; exact hc2b
  have h3rest : ∀ k ∈ ws, k ≠ e → k ≠ b → ∀ o, c.output k = some o →
      c3.output k = some (o.chained (c.geometryWidth g.env e + c.geometryWidth g.env b +
        widthsBefore g.env c (removeKey (removeKey ws e) b) k)) := by
    intro k hk hke hkb o ho
    have hkr : k ∈ removeKey (removeKey ws e) b :=
      mem_removeKey.mpr ⟨mem_removeKey.mpr ⟨hk, hke⟩, hkb⟩
    rw [hin k hkr o (by rw [hc2 k hke hkb]; exact ho)]
    have hw : widthsBefore g.env c2 (removeKey (removeKey ws e) b) k =
        widthsBefore g.env c (removeKey (removeKey ws e) b) k :=
      widthsBefore_congr g.env c _ _ k (fun y hy =>
        hc2 y (mem_removeKey.mp (mem_removeKey.mp hy).1).2 (mem_removeKey.mp hy).2)
    rw [hw, Config.geometryWidth_of_output hoe, Config.geometryWidth_of_output hob]
    rfl
  have h3out : ∀ k, k ∉ ws → c3.output k = c.output k := by
    intro k hk
    have hke : k ≠ e := fun h => hk (h ▸ hew)
    have hkb : k ≠ b := fun h => hk (h ▸ hbw)
    rw [hout k (fun h => hk (mem_removeKey.mp (mem_removeKey.mp h).1).1)]
    exact hc2 k hke hkb
  have hrunL : laptop g c ws =
      if isDocked g = true then
        some ((c3.setOutput (oe1.setPrimary false)).setOutput (ob1.setPrimary true))
      else some c3 := by
    unfold laptop
    rw [assertOutputs_ok g.env c ws hne hconn]
    subst hws
    simp only [hfound, hget, hoe, hide, hrne, hmeb, hlid, hb1, hob1, hidb]
    simp only [Bool.false_eq_true, false_or, false_and, if_false]
    have hrun' : chainLoop g.env ((c.setOutput oe1).setOutput ob1)
        ((oe1.geometry g.env).width + (ob1.geometry g.env).width)
        (removeKey (removeKey (first :: rest) e) b) = some c3 := hrun
    simp only [oe1, ob1] at hrun'
    simp only [hrun']
    have h3e' := h3e
    have h3b' := h3b
    simp only [oe1, ob1] at h3e' h3b'
    have hee : (((oe.setPos ⟨0, 0⟩).setPrimary true).setEnabled true).id = e := hide
    have hbb : (((ob.setPos ⟨((((oe.setPos ⟨0, 0⟩).setPrimary true).setEnabled true).geometry
        g.env).width, 0⟩).setEnabled true).setPrimary false).id = b := hidb
    simp only [hee, hbb, h3e', h3b']
  cases hd : isDocked g with
  | false =>
    rw [hd] at hrunL
    refine ⟨c3, by simpa using hrunL, hk3', by rw [hm3]; rfl, by rw [hp3]; rfl, ?_, ?_,
      h3rest, h3out⟩
    · rw [h3e]; rfl
    · rw [h3b, Config.geometryWidth_of_output hoe]; rfl
  | true =>
    rw [hd] at hrunL
    have hfe : (oe1.setPrimary false).id ≠ b := by
      show oe.id ≠ b; rw [hide]; exact fun h => hbe h.symm
    have hfb : (ob1.setPrimary true).id = b := hidb
    have hfe' : (oe1.setPrimary false).id = e := hide
    refine ⟨(c3.setOutput (oe1.setPrimary false)).setOutput (ob1.setPrimary true),
      by simpa using hrunL, ?_, by show c3.maxSize = c.maxSize; rw [hm3]; rfl,
      by show c3.perOutputScaling = c.perOutputScaling; rw [hp3]; rfl, ?_, ?_, ?_, ?_⟩
    · rw [Config.keys_setOutput, Config.keys_setOutput, hk3']
    · rw [Config.output_setOutput_of_ne (by rw [hfb]; exact hbe)]
      have h := Config.output_setOutput_self c3 oe1 (oe1.setPrimary false)
        (by rw [hfe']; exact h3e)
      rw [hfe'] at h; rw [h]; rfl
    · have h := Config.output_setOutput_self (c3.setOutput (oe1.setPrimary false)) ob1
        (ob1.setPrimary true)
        (by rw [hfb, Config.output_setOutput_of_ne hfe]; exact h3b)
      rw [hfb] at h; rw [h, Config.geometryWidth_of_output hoe]; rfl
    · intro k hk hke hkb o ho
      rw [Config.output_setOutput_of_ne (by rw [hfb]; exact fun h => hkb h.symm),
        Config.output_setOutput_of_ne (by rw [hfe']; exact fun h => hke h.symm)]
      exact h3rest k hk hke hkb o ho
    · intro k hk
      have hke : k ≠ e := fun h => hk (h ▸ hew)
      have hkb : k ≠ b := fun h => hk (h ▸ hbw)
      rw [Config.output_setOutput_of_ne (by rw [hfb]; exact fun h => hkb h.symm),
        Config.output_setOutput_of_ne (by rw [hfe']; exact fun h => hke h.symm)]
      exact h3out k hk

theorem Config.modes_of_hasModesAt {c : Config} {k : Int} {o : Output}
    (h : c.hasModesAt k = true) (ho : c.output k = some o) : o.modes ≠ [] := by
  unfold Config.hasModesAt at h
  rw [ho] at h
  intro hm
  simp [hm] at h

/-- C5: in the laptop policy with the lid closed, when exactly one connected output `x` remains
beside the embedded output `e` and both have modes, the policy completes, `e` is left disabled
and non-primary, and `x` is left enabled, primary and at position (0,0). -/
theorem laptop_lid_closed_one_external (g : Generator) (c : Config) (ws : List Int) (e x : Int)
    (hconn : ∀ k ∈ ws, c.connectedAt k = true)
    (he : embeddedKey c ws = some e) (hx : removeKey ws e = [x])
    (hmodes : ∀ k ∈ ws, c.hasModesAt k = true)
    (hlid : isLidClosed g = true) :
    ∃ c' oe ox, laptop g c ws = some c' ∧ c.output e = some oe ∧ c.output x = some ox ∧
      c'.output e = some ((oe.setEnabled false).setPrimary false) ∧
      c'.output x = some (((ox.setEnabled true).setPrimary true).setPos ⟨0, 0⟩) := by
  have hconn' : ∀ k ∈ ws, ∃ o, c.output k = some o ∧ o.connected = true :=
    fun k hk => Config.exists_of_connectedAt (hconn k hk)
  have hew : e ∈ ws := (embeddedKey_spec he).1
  have hxr : x ∈ removeKey ws e := by rw [hx]; exact List.mem_singleton_self x
  have hxw : x ∈ ws := (mem_removeKey.mp hxr).1
  have hxe : x ≠ e := (mem_removeKey.mp hxr).2
  obtain ⟨oe, hoe, _⟩ := hconn' e hew
  obtain ⟨ox, hox, _⟩ := hconn' x hxw
  have hme : oe.modes ≠ [] := Config.modes_of_hasModesAt (hmodes e hew) hoe
  have hmx : ox.modes ≠ [] := Config.modes_of_hasModesAt (hmodes x hxw) hox
  have hmxb : ox.modes.isEmpty = false := by cases hm : ox.modes <;> simp [hm] at hmx ⊢
  have hide : oe.id = e := Config.output_id hoe
  have hidx : ox.id = x := Config.output_id hox
  have hrun := laptop_lidClosed_single g c ws e x oe ox hconn' he hx hoe hox hme hlid
  rw [hmxb] at hrun
  refine ⟨_, oe, ox, by simpa using hrun, hoe, hox, ?_, ?_⟩
  · rw [Config.output_setOutput_of_ne (by show ox.id ≠ e; rw [hidx]; exact hxe)]
    have h := Config.output_setOutput_self c oe ((oe.setEnabled false).setPrimary false)
      (by show c.output oe.id = some oe; rw [hide]; exact hoe)
    have hid' : ((oe.setEnabled false).setPrimary false).id = e := hide
    rw [hid'] at h; exact h
  · have hid' : ox.placedPrimary.id = x := hidx
    have h := Config.output_setOutput_self
      (c.setOutput ((oe.setEnabled false).setPrimary false)) ox ox.placedPrimary (by
        rw [hid', Config.output_setOutput_of_ne
          (by show oe.id ≠ x; rw [hide]; exact fun h => hxe h.symm)]
        exact hox)
    rw [hid'] at h; exact h

/-- Witness of C5: a panel and one external screen with the lid closed. -/
theorem laptop_lid_closed_one_external_witness :
    (∀ k ∈ ([1, 2] : List Int), laptopScreens.connectedAt k = true) ∧
    embeddedKey laptopScreens [1, 2] = some 1 ∧ removeKey [1, 2] 1 = [2] ∧
    (∀ k ∈ ([1, 2] : List Int), laptopScreens.hasModesAt k = true) ∧
    isLidClosed (sampleGenerator true true false laptopScreens (fun _ => true)) = true ∧
    ∃ c' oe ox, laptop (sampleGenerator true true false laptopScreens (fun _ => true))
        laptopScreens [1, 2] = some c' ∧
      laptopScreens.output 1 = some oe ∧ laptopScreens.output 2 = some ox ∧
      c'.output 1 = some ((oe.setEnabled false).setPrimary false) ∧
      c'.output 2 = some (((ox.setEnabled true).setPrimary true).setPos ⟨0, 0⟩) :=
  ⟨by decide, by decide, by decide, by decide, by decide,
    laptop_lid_closed_one_external (sampleGenerator true true false laptopScreens (fun _ => true))
      laptopScreens [1, 2] 1 2 (by decide) (by decide) (by decide) (by decide) (by decide)⟩

/-- The lid-open branch of the laptop policy changes no geometry width. -/
theorem laptop_lidOpen_geometryWidth (g : Generator) (c : Config) (ws : List Int) (e b : Int)
    (oe ob : Output)
    (hasc : ws.Pairwise (fun x y => x < y))
    (hconn : ∀ k ∈ ws, ∃ o, c.output k = some o ∧ o.connected = true)
    (he : embeddedKey c ws = some e) (hoe : c.output e = some oe) (hob : c.output b = some ob)
    (hme : oe.modes ≠ []) (hlid : isLidClosed g = false)
    (hb : biggestOutput g.env c (removeKey ws e) = some (some b)) (c' : Config)
    (hrun : laptop g c ws = some c') (k : Int) :
    c'.geometryWidth g.env k = c.geometryWidth g.env k := by
  obtain ⟨c'', hrun', _, _, _, hce, hcb, hrest, hout⟩ :=
    laptop_lidOpen_spec g c ws e b oe ob hasc hconn he hoe hob hme hlid hb
  have : c'' = c' := by rw [hrun] at hrun'; exact (Option.some.inj hrun').symm
  subst this
  by_cases hk : k ∈ ws
  · obtain ⟨o, ho, _⟩ := hconn k hk
    by_cases hke : k = e
    · subst hke
      exact Config.geometryWidth_congr hoe hce rfl
    · by_cases hkb : k = b
      · subst hkb
        exact Config.geometryWidth_congr hob hcb rfl
      · exact Config.geometryWidth_congr ho (hrest k hk hke hkb o ho) rfl
  · unfold Config.geometryWidth; rw [hout k hk]

/-! ## Clone policy -/

theorem mem_sizeSetInsert {l : List QSize} {x s : QSize} :
    s ∈ sizeSetInsert l x ↔ s ∈ l ∨ s = x := by
  unfold sizeSetInsert
  split
  · constructor
    · exact Or.inl
    · rintro (h | h)
      · exact h
      · rw [h]; assumption
  · simp

theorem mem_modeSizesLoop (maxScreenSize : QSize) (modes : List Mode) :
    ∀ (acc : List QSize) (s : QSize), s ∈ modeSizesLoop maxScreenSize acc modes ↔
      s ∈ acc ∨ (s.width ≤ maxScreenSize.width ∧ s.height ≤ maxScreenSize.height ∧
        ∃ m ∈ modes, m.size = s) := by
  induction modes with
  | nil => intro acc s; simp [modeSizesLoop]
  | cons m ms ih =>
    intro acc s
    simp only [modeSizesLoop]
    split
    · rename_i hbig
      rw [ih]
      constructor
      · rintro (h | ⟨hw, hh, m', hm', hs⟩)
        · exact Or.inl h
        · exact Or.inr ⟨hw, hh, m', List.mem_cons_of_mem _ hm', hs⟩
      · rintro (h | ⟨hw, hh, m', hm', hs⟩)
        · exact Or.inl h
        · rcases List.mem_cons.mp hm' with rfl | hm''
          · rw [hs] at hbig
            rcases hbig with hb | hb
            · exact absurd hw (not_le.mpr hb)
            · exact absurd hh (not_le.mpr hb)
          · exact Or.inr ⟨hw, hh, m', hm'', hs⟩
    · rename_i hfit
      rw [ih, mem_sizeSetInsert]
      rw [not_or, not_lt, not_lt] at hfit
      constructor
      · rintro ((h | h) | ⟨hw, hh, m', hm', hs⟩)
        · exact Or.inl h
        · exact Or.inr ⟨h ▸ hfit.1, h ▸ hfit.2, m, List.mem_cons_self _ _, h.symm⟩
        · exact Or.inr ⟨hw, hh, m', List.mem_cons_of_mem _ hm', hs⟩
      · rintro (h | ⟨hw, hh, m', hm', hs⟩)
        · exact Or.inl (Or.inl h)
        · rcases List.mem_cons.mp hm' with rfl | hm''
          · exact Or.inl (Or.inr hs.symm)
          · exact Or.inr ⟨hw, hh, m', hm'', hs⟩

theorem Output.offersSize_iff (maxScreenSize : QSize) (o : Output) (s : QSize) :
    o.offersSize maxScreenSize s = true ↔
      s.width ≤ maxScreenSize.width ∧ s.height ≤ maxScreenSize.height ∧
        ∃ m ∈ o.modes, m.size = s := by
  unfold Output.offersSize
  simp [and_assoc]

theorem mem_modeSizes_iff (maxScreenSize : QSize) (o : Output) (s : QSize) :
    s ∈ modeSizesLoop maxScreenSize [] o.modes ↔ o.offersSize maxScreenSize s = true := by
  rw [mem_modeSizesLoop, Output.offersSize_iff]; simp

theorem Config.commonSize_cons (c : Config) (maxScreenSize : QSize) (k : Int) (ks : List Int)
    (s : QSize) (o : Output) (ho : c.output k = some o) :
    c.commonSize maxScreenSize (k :: ks) s =
      (o.offersSize maxScreenSize s && c.commonSize maxScreenSize ks s) := by
  unfold Config.commonSize
  rw [List.all_cons, ho]

theorem Config.commonSize_at {c : Config} {maxScreenSize : QSize} {ws : List Int} {s : QSize}
    (h : c.commonSize maxScreenSize ws s = true) {k : Int} (hk : k ∈ ws) {o : Output}
    (ho : c.output k = some o) : o.offersSize maxScreenSize s = true := by
  unfold Config.commonSize at h
  have := List.all_eq_true.mp h k hk
  rw [ho] at this
  exact this

theorem isEmpty_eq_false_of_ne {α : Type} {l : List α} (h : l ≠ []) : l.isEmpty = false := by
  cases l <;> simp at h ⊢

theorem commonSizesLoop_spec (c : Config) (maxScreenSize : QSize) (ks : List Int) :
    ∀ (acc : List QSize), (∀ k ∈ ks, k ∈ c.keys) → acc ≠ [] →
      ∃ cs, commonSizesLoop c maxScreenSize acc ks = some cs ∧
        ∀ s, s ∈ cs ↔ (s ∈ acc ∧ c.commonSize maxScreenSize ks s = true) := by
  induction ks with
  | nil =>
    intro acc _ _
    exact ⟨acc, rfl, fun s => by simp [Config.commonSize]⟩
  | cons k ks ih =>
    intro acc hkeys hacc
    obtain ⟨o, ho⟩ := Option.isSome_iff_exists.mp
      ((c.output_isSome_iff k).mpr (hkeys k (List.mem_cons_self _ _)))
    simp only [commonSizesLoop, ho, isEmpty_eq_false_of_ne hacc, Bool.false_eq_true, if_false]
    by_cases hemp :
        (acc.filter (fun s => decide (s ∈ modeSizesLoop maxScreenSize [] o.modes))).isEmpty
          = true
    · rw [if_pos hemp]
      refine ⟨_, rfl, fun s => ?_⟩
      rw [List.isEmpty_iff] at hemp
      rw [hemp, Config.commonSize_cons c maxScreenSize k ks s o ho]
      constructor
      · intro h; exact absurd h (List.not_mem_nil s)
      · rintro ⟨hs, hc⟩
        rw [Bool.and_eq_true] at hc
        have : s ∈ acc.filter (fun s => decide (s ∈ modeSizesLoop maxScreenSize [] o.modes)) := by
          rw [List.mem_filter]
          exact ⟨hs, by simpa using (mem_modeSizes_iff maxScreenSize o s).mpr hc.1⟩
        rw [hemp] at this
        exact absurd this (List.not_mem_nil s)
    · rw [if_neg hemp]
      have hne : acc.filter (fun s => decide (s ∈ modeSizesLoop maxScreenSize [] o.modes)) ≠ [] :=
        fun h => hemp (by rw [h]; rfl)
      obtain ⟨cs, hrun, hcs⟩ := ih _ (fun k' hk' => hkeys k' (List.mem_cons_of_mem _ hk')) hne
      refine ⟨cs, hrun, fun s => ?_⟩
      rw [hcs, Config.commonSize_cons c maxScreenSize k ks s o ho, List.mem_filter,
        Bool.and_eq_true, ← mem_modeSizes_iff]
      simp only [decide_eq_true_eq]
      tauto

/-- The running intersection of `cloneScreens` is the set of the sizes common to all listed
outputs. -/
theorem commonSizes_spec (c : Config) (maxScreenSize : QSize) (ws : List Int) (hne : ws ≠ [])
    (hkeys : ∀ k ∈ ws, k ∈ c.keys) :
    ∃ cs, commonSizesLoop c maxScreenSize [] ws = some cs ∧
      ∀ s, s ∈ cs ↔ c.commonSize maxScreenSize ws s = true := by
  cases ws with
  | nil => exact absurd rfl hne
  | cons k ks =>
    obtain ⟨o, ho⟩ := Option.isSome_iff_exists.mp
      ((c.output_isSome_iff k).mpr (hkeys k (List.mem_cons_self _ _)))
    simp only [commonSizesLoop, ho, List.isEmpty_nil, if_true]
    by_cases hemp : (modeSizesLoop maxScreenSize [] o.modes).isEmpty = true
    · rw [if_pos hemp]
      refine ⟨_, rfl, fun s => ?_⟩
      rw [List.isEmpty_iff] at hemp
      rw [Config.commonSize_cons c maxScreenSize k ks s o ho, Bool.and_eq_true,
        ← mem_modeSizes_iff, hemp]
      simp
    · rw [if_neg hemp]
      have hne' : modeSizesLoop maxScreenSize [] o.modes ≠ [] := fun h => hemp (by rw [h]; rfl)
      obtain ⟨cs, hrun, hcs⟩ := commonSizesLoop_spec c maxScreenSize ks _
        (fun k' hk' => hkeys k' (List.mem_cons_of_mem _ hk')) hne'
      refine ⟨cs, hrun, fun s => ?_⟩
      rw [hcs, Config.commonSize_cons c maxScreenSize k ks s o ho, Bool.and_eq_true,
        ← mem_modeSizes_iff]

theorem getLast?_ge_of_pairwise (l : List QSize) (h : l.Pairwise QSize.areaLE) :
    ∀ S, l.getLast? = some S → S ∈ l ∧ ∀ s ∈ l, QSize.areaLE s S := by
  induction l with
  | nil => intro S hS; simp at hS
  | cons a t ih =>
    intro S hS
    rw [List.pairwise_cons] at h
    cases t with
    | nil =>
      simp at hS
      subst hS
      exact ⟨List.mem_singleton_self _, fun s hs => by
        rw [List.mem_singleton] at hs; subst hs; exact le_refl _⟩
    | cons b t' =>
      rw [List.getLast?_cons_cons] at hS
      obtain ⟨hmem, hall⟩ := ih h.2 S hS
      refine ⟨List.mem_cons_of_mem _ hmem, fun s hs => ?_⟩
      rcases List.mem_cons.mp hs with rfl | hs'
      · exact h.1 S hmem
      · exact hall s hs'

/-- The last element of the sorted list of common sizes is a common size of largest area. -/
theorem sortedSizes_last (l : List QSize) (hne : l ≠ []) :
    ∃ S, (sortedSizes l).getLast? = some S ∧ S ∈ l ∧ ∀ s ∈ l, s.intArea ≤ S.intArea := by
  have hperm : (sortedSizes l).Perm l := List.perm_insertionSort QSize.areaLE l
  have hsorted : (sortedSizes l).Pairwise QSize.areaLE := List.sorted_insertionSort QSize.areaLE l
  have hne' : sortedSizes l ≠ [] := fun h => hne (by
    have := hperm.length_eq; rw [h] at this; exact List.length_eq_zero.mp this.symm)
  cases hl : (sortedSizes l).getLast? with
  | none => exact absurd (List.getLast?_eq_none_iff.mp hl) hne'
  | some S =>
    obtain ⟨hmem, hall⟩ := getLast?_ge_of_pairwise _ hsorted S hl
    exact ⟨S, rfl, hperm.mem_iff.mp hmem, fun s hs => hall s (hperm.mem_iff.mpr hs)⟩

theorem bestModeForSizeLoop_spec (size : QSize) (modes : List Mode) :
    ∀ (best : Option Mode), (∀ b, best = some b → b.size = size) →
      (bestModeForSizeLoop size best modes = none ↔
        best = none ∧ ∀ m ∈ modes, m.size ≠ size) ∧
      ∀ r, bestModeForSizeLoop size best modes = some r →
        r.size = size ∧ (r ∈ modes ∨ best = some r) ∧
        (∀ m ∈ modes, m.size = size → ¬ r.refreshRate < m.refreshRate) ∧
        (∀ b, best = some b → r = b ∨ b.refreshRate < r.refreshRate) := by
  induction modes with
  | nil =>
    intro best hbest
    simp only [bestModeForSizeLoop]
    refine ⟨by simp, fun r hr => ⟨hbest r hr, Or.inr hr, by simp, fun b hb => ?_⟩⟩
    rw [hr] at hb; exact Or.inl (Option.some.inj hb)
  | cons m ms ih =>
    intro best hbest
    simp only [bestModeForSizeLoop]
    by_cases hsz : m.size = size
    · rw [if_neg (not_not.mpr hsz)]
      cases best with
      | none =>
        obtain ⟨h1, h2⟩ := ih (some m) (fun b hb => by rw [← Option.some.inj hb]; exact hsz)
        refine ⟨?_, fun r hr => ?_⟩
        · constructor
          · intro h; exact absurd (h1.mp h).1 (by simp)
          · rintro ⟨_, h⟩; exact absurd hsz (h m (List.mem_cons_self _ _))
        · obtain ⟨hs, hmem, hall, hb⟩ := h2 r hr
          refine ⟨hs, Or.inl ?_, ?_, by simp⟩
          · rcases hmem with h | h
            · exact List.mem_cons_of_mem _ h
            · rw [← Option.some.inj h]; exact List.mem_cons_self _ _
          · intro m' hm' hs'
            rcases List.mem_cons.mp hm' with rfl | h
            · rcases hb _ rfl with h' | h'
              · rw [h']; exact CFloat.not_lt_self _
              · exact CFloat.not_lt_of_lt h'
            · exact hall m' h hs'
      | some b =>
        simp only
        by_cases hgt : m.refreshRate > b.refreshRate
        · rw [if_pos hgt]
          obtain ⟨h1, h2⟩ := ih (some m) (fun b' hb' => by rw [← Option.some.inj hb']; exact hsz)
          refine ⟨?_, fun r hr => ?_⟩
          · constructor
            · intro h; exact absurd (h1.mp h).1 (by simp)
            · rintro ⟨h, _⟩; exact absurd h (by simp)
          · obtain ⟨hs, hmem, hall, hb⟩ := h2 r hr
            refine ⟨hs, Or.inl ?_, ?_, ?_⟩
            · rcases hmem with h | h
              · exact List.mem_cons_of_mem _ h
              · rw [← Option.some.inj h]; exact List.mem_cons_self _ _
            · intro m' hm' hs'
              rcases List.mem_cons.mp hm' with rfl | h
              · rcases hb _ rfl with h' | h'
                · rw [h']; exact CFloat.not_lt_self _
                · exact CFloat.not_lt_of_lt h'
              · exact hall m' h hs'
            · intro b' hb'
              rw [← Option.some.inj hb']
              rcases hb m rfl with h' | h'
              · rw [h']; exact Or.inr hgt
              · exact Or.inr (CFloat.lt_chain hgt h')
        · rw [if_neg hgt]
          obtain ⟨h1, h2⟩ := ih (some b) hbest
          refine ⟨?_, fun r hr => ?_⟩
          · constructor
            · intro h; exact absurd (h1.mp h).1 (by simp)
            · rintro ⟨h, _⟩; exact absurd h (by simp)
          · obtain ⟨hs, hmem, hall, hb⟩ := h2 r hr
            refine ⟨hs, hmem.imp (List.mem_cons_of_mem _) id, ?_, hb⟩
            intro m' hm' hs'
            rcases List.mem_cons.mp hm' with rfl | h
            · rcases hb b rfl with h' | h'
              · rw [h']; exact hgt
              · exact fun hlt => hgt (CFloat.lt_chain h' hlt)
            · exact hall m' h hs'
    · rw [if_pos hsz]
      obtain ⟨h1, h2⟩ := ih best hbest
      refine ⟨?_, fun r hr => ?_⟩
      · rw [h1]
        constructor
        · rintro ⟨hb, h⟩
          refine ⟨hb, fun m' hm' => ?_⟩
          rcases List.mem_cons.mp hm' with rfl | h'
          · exact hsz
          · exact h m' h'
        · rintro ⟨hb, h⟩
          exact ⟨hb, fun m' hm' => h m' (List.mem_cons_of_mem _ hm')⟩
      · obtain ⟨hs, hmem, hall, hb⟩ := h2 r hr
        refine ⟨hs, hmem.imp (List.mem_cons_of_mem _) id, ?_, hb⟩
        intro m' hm' hs'
        rcases List.mem_cons.mp hm' with rfl | h
        · exact absurd hs' hsz
        · exact hall m' h hs'

/-- The function `bestModeForSize` returns null exactly when no mode has the size, and
otherwise a mode of that size than which no mode of that size has a higher refresh rate. -/
theorem bestModeForSize_spec (modes : List Mode) (size : QSize) :
    (bestModeForSize modes size = none ↔ ∀ m ∈ modes, m.size ≠ size) ∧
    ∀ r, bestModeForSize modes size = some r →
      r ∈ modes ∧ r.size = size ∧
      ∀ m ∈ modes, m.size = size → ¬ r.refreshRate < m.refreshRate := by
  obtain ⟨h1, h2⟩ := bestModeForSizeLoop_spec size modes none (fun b hb => absurd hb (by simp))
  refine ⟨by rw [bestModeForSize, h1]; simp, fun r hr => ?_⟩
  obtain ⟨hs, hmem, hall, _⟩ := h2 r hr
  exact ⟨hmem.resolve_right (by simp), hs, hall⟩

/-- The loop that sets the best mode of a size that every listed output offers. -/
theorem cloneBestLoop_spec (size : QSize) (ks : List Int) :
    ∀ (c : Config), ks.Nodup → (∀ k ∈ ks, k ∈ c.keys) →
      (∀ k ∈ ks, ∀ o, c.output k = some o → ∃ m ∈ o.modes, m.size = size) →
      ∃ c', cloneBestLoop size c ks = some c' ∧ c'.keys = c.keys ∧ c'.maxSize = c.maxSize ∧
        c'.perOutputScaling = c.perOutputScaling ∧
        (∀ k, k ∉ ks → c'.output k = c.output k) ∧
        (∀ k ∈ ks, ∀ o, c.output k = some o → ∃ m, bestModeForSize o.modes size = some m ∧
          c'.output k = some (((o.setEnabled true).setPos ⟨0, 0⟩).setCurrentModeId m.id)) := by
  induction ks with
  | nil =>
    intro c _ _ _
    exact ⟨c, rfl, rfl, rfl, rfl, fun _ _ => rfl, fun k hk => absurd hk (List.not_mem_nil k)⟩
  | cons x xs ih =>
    intro c hnd hkeys hoff
    obtain ⟨o, ho⟩ := Option.isSome_iff_exists.mp
      ((c.output_isSome_iff x).mpr (hkeys x (List.mem_cons_self _ _)))
    have hid : o.id = x := Config.output_id ho
    have hnd' := List.nodup_cons.mp hnd
    obtain ⟨m0, hm0, hs0⟩ := hoff x (List.mem_cons_self _ _) o ho
    have hmne : o.modes.isEmpty = false := isEmpty_eq_false_of_ne (List.ne_nil_of_mem hm0)
    obtain ⟨m, hm⟩ : ∃ m, bestModeForSize o.modes size = some m := by
      cases hb : bestModeForSize o.modes size with
      | none => exact absurd hs0 ((bestModeForSize_spec o.modes size).1.mp hb m0 hm0)
      | some m => exact ⟨m, rfl⟩
    let o1 : Output := ((o.setEnabled true).setPos ⟨0, 0⟩).setCurrentModeId m.id
    have hne : ∀ k, k ≠ x → (c.setOutput o1).output k = c.output k := fun k hk =>
      Config.output_setOutput_of_ne (by show o.id ≠ k; rw [hid]; exact fun h => hk h.symm)
    obtain ⟨c', hrun, hk', hm', hp', hout, hin⟩ := ih (c.setOutput o1) hnd'.2
      (fun k hk => by rw [Config.keys_setOutput]; exact hkeys k (List.mem_cons_of_mem _ hk))
      (fun k hk o' ho' => hoff k (List.mem_cons_of_mem _ hk) o' (by
        rw [hne k (fun h => hnd'.1 (h ▸ hk))] at ho'; exact ho'))
    refine ⟨c', ?_, ?_, ?_, ?_, ?_, ?_⟩
    · simp only [cloneBestLoop, ho, hmne, hm, Bool.false_eq_true, if_false]; exact hrun
    · rw [hk', Config.keys_setOutput]
    · rw [hm']; rfl
    · rw [hp']; rfl
    · intro k hk
      rw [List.mem_cons, not_or] at hk
      rw [hout k hk.2, hne k hk.1]
    · intro k hk ok hok
      by_cases hkx : k = x
      · subst hkx
        have : ok = o := by rw [ho] at hok; exact (Option.some.inj hok).symm
        subst this
        refine ⟨m, hm, ?_⟩
        rw [hout k hnd'.1]
        have h := Config.output_setOutput_self c ok o1
          (by show c.output ok.id = some ok; rw [hid]; exact ho)
        have hid1 : o1.id = k := hid
        rw [hid1] at h; exact h
      · have hkxs : k ∈ xs := (List.mem_cons.mp hk).resolve_left hkx
        exact hin k hkxs ok (by rw [hne k hkx]; exact hok)

theorem find?_modeId_of_nodup (l : List Mode) (h : (l.map (fun m => m.id)).Nodup) {m : Mode}
    (hm : m ∈ l) : l.find? (fun x => x.id == m.id) = some m := by
  induction l with
  | nil => simp at hm
  | cons x xs ih =>
    rw [List.map_cons, List.nodup_cons] at h
    rcases List.mem_cons.mp hm with rfl | hm'
    · simp
    · have hne : ¬ x.id = m.id := fun heq => h.1 (heq ▸ List.mem_map_of_mem _ hm')
      have hb : (x.id == m.id) = false := by simpa using hne
      rw [List.find?_cons, hb]
      exact ih h.2 hm'

/-- The clone policy on outputs with a common mode size: for a non-empty ascending list of
connected outputs whose sets of mode sizes within the maximum screen size have a common element,
`cloneScreens` completes and there is a size `S` in the intersection, of largest area as
computed in `int` among the common sizes, such that every listed output is left enabled at (0,0)
with a mode of size `S` as current mode, than which no mode of that size of the output has a
higher refresh rate. -/
theorem cloneScreens_common_size (g : Generator) (c : Config) (ws : List Int)
    (hne : ws ≠ [])
    (hasc : ws.Pairwise (fun x y => x < y))
    (hconn : ∀ k ∈ ws, c.connectedAt k = true)
    (hids : ∀ o ∈ c.outputs, o.id ∈ ws → (o.modes.map (fun m => m.id)).Nodup)
    (hcommon : ∃ s, c.commonSize g.m_currentConfig.maxSize ws s = true) :
    ∃ c' S, cloneScreens g c ws = some c' ∧
      c.commonSize g.m_currentConfig.maxSize ws S = true ∧
      (∀ s, c.commonSize g.m_currentConfig.maxSize ws s = true → s.intArea ≤ S.intArea) ∧
      ∀ k ∈ ws, ∃ o m, c.output k = some o ∧ m ∈ o.modes ∧ m.size = S ∧
        (∀ m' ∈ o.modes, m'.size = S → ¬ m.refreshRate < m'.refreshRate) ∧
        c'.output k = some (((o.setEnabled true).setPos ⟨0, 0⟩).setCurrentModeId m.id) ∧
        (((o.setEnabled true).setPos ⟨0, 0⟩).setCurrentModeId m.id).currentMode = some m := by
  have hconn' : ∀ k ∈ ws, ∃ o, c.output k = some o ∧ o.connected = true :=
    fun k hk => Config.exists_of_connectedAt (hconn k hk)
  have hkeys : ∀ k ∈ ws, k ∈ c.keys := fun k hk => by
    obtain ⟨o, ho, _⟩ := hconn' k hk
    exact (c.output_isSome_iff k).mp (by rw [ho]; rfl)
  obtain ⟨cs, hcs, hmem⟩ := commonSizes_spec c g.m_currentConfig.maxSize ws hne hkeys
  obtain ⟨s0, hs0⟩ := hcommon
  have hcsne : cs ≠ [] := List.ne_nil_of_mem ((hmem s0).mpr hs0)
  obtain ⟨S, hlast, hSmem, hSmax⟩ := sortedSizes_last cs hcsne
  have hS : c.commonSize g.m_currentConfig.maxSize ws S = true := (hmem S).mp hSmem
  have hoff : ∀ k ∈ ws, ∀ o, c.output k = some o → ∃ m ∈ o.modes, m.size = S :=
    fun k hk o ho =>
      ((Output.offersSize_iff _ o S).mp (Config.commonSize_at hS hk ho)).2.2
  obtain ⟨c', hrun, _, _, _, _, hin⟩ :=
    cloneBestLoop_spec S ws c (nodup_of_ascending hasc) hkeys hoff
  refine ⟨c', S, ?_, hS, fun s hs => hSmax s ((hmem s).mpr hs), fun k hk => ?_⟩
  · unfold cloneScreens
    rw [assertOutputs_ok g.env c ws hne hconn']
    simp only [isEmpty_eq_false_of_ne hne, hcs, isEmpty_eq_false_of_ne hcsne, hlast,
      Bool.false_eq_true, if_false]
    exact hrun
  · obtain ⟨o, ho, _⟩ := hconn' k hk
    obtain ⟨m, hm, hout⟩ := hin k hk o ho
    obtain ⟨hmm, hms, hmr⟩ := (bestModeForSize_spec o.modes S).2 m hm
    refine ⟨o, m, ho, hmm, hms, hmr, hout, ?_⟩
    have hnd := hids o (Config.output_mem ho) (by rw [Config.output_id ho]; exact hk)
    exact find?_modeId_of_nodup o.modes hnd hmm

/-- The clone policy on screens with modes [1024x768] and [1920x1080, 1024x768]: both are set to
1024x768 at the origin. -/
theorem cloneScreens_common_size_witness :
    ([1, 2] : List Int) ≠ [] ∧ ([1, 2] : List Int).Pairwise (fun x y => x < y) ∧
    (∀ k ∈ ([1, 2] : List Int), cloneSample.connectedAt k = true) ∧
    (∀ o ∈ cloneSample.outputs, o.id ∈ ([1, 2] : List Int) →
      (o.modes.map (fun m => m.id)).Nodup) ∧
    (∃ s, cloneSample.commonSize
      (sampleGenerator false false false cloneSample (fun _ => true)).m_currentConfig.maxSize
      [1, 2] s = true) ∧
    (∃ c' S, cloneScreens (sampleGenerator false false false cloneSample (fun _ => true))
        cloneSample [1, 2] = some c' ∧
      cloneSample.commonSize
        (sampleGenerator false false false cloneSample (fun _ => true)).m_currentConfig.maxSize
        [1, 2] S = true ∧
      (∀ s, cloneSample.commonSize
        (sampleGenerator false false false cloneSample (fun _ => true)).m_currentConfig.maxSize
        [1, 2] s = true → s.intArea ≤ S.intArea) ∧
      ∀ k ∈ ([1, 2] : List Int), ∃ o m, cloneSample.output k = some o ∧ m ∈ o.modes ∧
        m.size = S ∧ (∀ m' ∈ o.modes, m'.size = S → ¬ m.refreshRate < m'.refreshRate) ∧
        c'.output k = some (((o.setEnabled true).setPos ⟨0, 0⟩).setCurrentModeId m.id) ∧
        (((o.setEnabled true).setPos ⟨0, 0⟩).setCurrentModeId m.id).currentMode = some m) ∧
    (cloneScreens (sampleGenerator false false false cloneSample (fun _ => true))
      cloneSample [1, 2]).map (fun c => c.outputs.map
        (fun o => (o.enabled, o.pos, o.currentMode.map (fun m => m.size)))) =
      some [(true, ⟨0, 0⟩, some ⟨1024, 768⟩), (true, ⟨0, 0⟩, some ⟨1024, 768⟩)] :=
  ⟨by decide, by decide, by decide, by decide, ⟨⟨1024, 768⟩, by decide⟩,
    cloneScreens_common_size (sampleGenerator false false false cloneSample (fun _ => true))
      cloneSample [1, 2] (by decide) (by decide) (by decide) (by decide)
      ⟨⟨1024, 768⟩, by decide⟩, by decide⟩

/-! ## Initialization -/

theorem Output.modesValid_iff (o : Output) :
    o.modesValid = true ↔
      o.modes ≠ [] ∧ (∀ m ∈ o.modes, 0 < m.size.intArea) ∧
      (∀ m, o.preferredMode = some m → m ∈ o.modes) ∧
      (∀ id, o.global.modeId = some id → ∃ m ∈ o.modes, m.id = id) := by
  unfold Output.modesValid
  cases hp : o.preferredMode <;> cases hg : o.global.modeId <;> cases hm : o.modes <;>
    simp [and_assoc]

theorem biggestModeLoop_exists (modes : List Mode)
    (hpos : ∀ m ∈ modes, 0 < m.size.intArea) :
    ∀ (st : Int × Option Mode), (st.2 = none → st.1 ≤ 0) →
      ∃ st', biggestModeLoop st modes = some st' ∧
        (st'.2 = st.2 ∨ ∃ m ∈ modes, st'.2 = some m) ∧
        (modes ≠ [] → ∃ m, st'.2 = some m) ∧ (st'.2 = none → st'.1 ≤ 0) := by
  induction modes with
  | nil =>
    intro st hst
    exact ⟨st, rfl, Or.inl rfl, fun h => absurd rfl h, hst⟩
  | cons m ms ih =>
    intro st hst
    have hm : 0 < m.size.intArea := hpos m (List.mem_cons_self _ _)
    have hstep : ∃ st1, biggestModeStep st m = some st1 ∧ (st1.2 = st.2 ∨ st1.2 = some m) ∧
        (∃ b, st1.2 = some b) := by
      unfold biggestModeStep
      simp only
      by_cases h1 : m.size.intArea < st.1
      · rw [if_pos h1]
        refine ⟨st, rfl, Or.inl rfl, ?_⟩
        cases h2 : st.2 with
        | none => exact absurd (hst h2) (not_le.mpr (lt_trans hm h1))
        | some b => exact ⟨b, rfl⟩
      · rw [if_neg h1]
        by_cases h2 : m.size.intArea = st.1
        · rw [if_pos h2]
          cases h3 : st.2 with
          | none => exact absurd (hst h3) (not_le.mpr (h2 ▸ hm))
          | some b =>
            simp only
            by_cases h4 : m.refreshRate < b.refreshRate
            · rw [if_pos h4]; exact ⟨st, rfl, Or.inl h3, b, h3⟩
            · rw [if_neg h4]
              by_cases h5 : m.refreshRate > b.refreshRate
              · rw [if_pos h5]; exact ⟨_, rfl, Or.inr rfl, m, rfl⟩
              · rw [if_neg h5]; exact ⟨_, rfl, Or.inr rfl, m, rfl⟩
        · rw [if_neg h2]; exact ⟨_, rfl, Or.inr rfl, m, rfl⟩
    obtain ⟨st1, hst1, hor, b, hb⟩ := hstep
    obtain ⟨st', hrun, hor', _, hinv⟩ :=
      ih (fun m' hm' => hpos m' (List.mem_cons_of_mem _ hm')) st1
        (fun h => by rw [hb] at h; exact absurd h (by simp))
    refine ⟨st', by simp only [biggestModeLoop, hst1]; exact hrun, ?_, fun _ => ?_, hinv⟩
    · rcases hor' with h | ⟨m', hm', h⟩
      · rcases hor with h' | h'
        · exact Or.inl (h.trans h')
        · exact Or.inr ⟨m, List.mem_cons_self _ _, h.trans h'⟩
      · exact Or.inr ⟨m', List.mem_cons_of_mem _ hm', h⟩
    · rcases hor' with h | ⟨m', _, h⟩
      · exact ⟨b, h.trans hb⟩
      · exact ⟨m', h⟩

/-- On a non-empty list of modes of positive area `biggestMode` returns one of the modes. -/
theorem biggestMode_exists (env : Platform) (modes : List Mode) (hne : modes ≠ [])
    (hpos : ∀ m ∈ modes, 0 < m.size.intArea) :
    ∃ m ∈ modes, biggestMode env modes = some (some m) := by
  obtain ⟨st', hrun, hor, hsome, _⟩ := biggestModeLoop_exists modes hpos (0, none)
    (fun _ => le_refl _)
  obtain ⟨m, hm⟩ := hsome hne
  have hmem : m ∈ modes := by
    rcases hor with h | ⟨m', hm', h⟩
    · rw [hm] at h; exact absurd h (by simp)
    · rw [hm] at h; rw [Option.some.inj h]; exact hm'
  refine ⟨m, hmem, ?_⟩
  unfold biggestMode
  rw [isEmpty_eq_false_of_ne hne]
  simp only [Bool.not_false, qAssert_true, hrun, hm]

/-- The best mode of an output with valid mode data is one of its modes. -/
theorem bestModeForOutput_exists (env : Platform) (o : Output) (h : o.modesValid = true) :
    ∃ m ∈ o.modes, bestModeForOutput env o = some (some m) := by
  obtain ⟨hne, hpos, hpref, _⟩ := (o.modesValid_iff).mp h
  unfold bestModeForOutput
  cases hp : o.preferredMode with
  | some m => exact ⟨m, hpref m hp, rfl⟩
  | none => exact biggestMode_exists env o.modes hne hpos

theorem find?_modeId_isSome (l : List Mode) (id : Nat) (h : ∃ m ∈ l, m.id = id) :
    ∃ m, l.find? (fun x => x.id == id) = some m := by
  cases hf : l.find? (fun x => x.id == id) with
  | some m => exact ⟨m, rfl⟩
  | none =>
    obtain ⟨m, hm, hid⟩ := h
    have := List.find?_eq_none.mp hf m hm
    simp [hid] at this

/-- The function `bestScaleForOutput` completes on an output with a current mode. -/
theorem bestScaleForOutput_exists (o : Output) (m : Mode) (hm : o.currentMode = some m) :
    ∃ s, bestScaleForOutput o = some s := by
  unfold bestScaleForOutput
  rw [hm]
  by_cases hh : o.sizeMm.height ≤ 0
  · rw [if_pos hh]; exact ⟨_, rfl⟩
  · rw [if_neg hh]
    simp only
    split <;> exact ⟨_, rfl⟩

/-- The function `initializeOutput` only changes the current mode id, the rotation and the
scale of an output. -/
theorem initializeOutput_shape {env : Platform} {features : Bool} {o o' : Output}
    (h : initializeOutput env features o = some o') :
    ∃ m r s, o' = ((o.setCurrentModeId m).setRotation r).setScale s := by
  unfold initializeOutput at h
  split at h
  · exact absurd h (by simp)
  · exact absurd h (by simp)
  · rename_i best _
    simp only at h
    split at h
    · split at h
      · exact absurd h (by simp)
      · exact ⟨_, _, _, (Option.some.inj h).symm⟩
    · refine ⟨o.global.modeId.getD best.id, o.global.rotation.getD o.rotation, o.scale, ?_⟩
      rw [← Option.some.inj h]; rfl

/-- The function `initializeOutput` completes on an output with valid mode data. -/
theorem initializeOutput_exists (env : Platform) (features : Bool) (o : Output)
    (h : o.modesValid = true) : ∃ o', initializeOutput env features o = some o' := by
  obtain ⟨best, hbm, hbest⟩ := bestModeForOutput_exists env o h
  obtain ⟨_, _, _, hglob⟩ := (o.modesValid_iff).mp h
  unfold initializeOutput
  simp only [hbest]
  cases features with
  | false => exact ⟨_, rfl⟩
  | true =>
    simp only [if_true]
    have hcur : ∃ m, ((o.setCurrentModeId (o.global.modeId.getD best.id)).setRotation
        (o.global.rotation.getD (o.setCurrentModeId
          (o.global.modeId.getD best.id)).rotation)).currentMode = some m := by
      show ∃ m, o.modes.find? (fun x => x.id == o.global.modeId.getD best.id) = some m
      apply find?_modeId_isSome
      cases hg : o.global.modeId with
      | none => exact ⟨best, hbm, rfl⟩
      | some id => exact hglob id hg
    obtain ⟨m, hm⟩ := hcur
    obtain ⟨s, hs⟩ := bestScaleForOutput_exists _ m hm
    rw [hs]
    exact ⟨_, rfl⟩

theorem initializeOutput_id {env : Platform} {features : Bool} {o o' : Output}
    (h : initializeOutput env features o = some o') : o'.id = o.id := by
  obtain ⟨m, r, s, rfl⟩ := initializeOutput_shape h; rfl

theorem initializeOutputs_spec (env : Platform) (features : Bool) (ks : List Int) :
    ∀ (c : Config), ks.Nodup →
      (∀ k ∈ ks, ∃ o, c.output k = some o ∧ o.modesValid = true) →
      ∃ c', initializeOutputs env features c ks = some c' ∧ c'.keys = c.keys ∧
        c'.maxSize = c.maxSize ∧ c'.perOutputScaling = c.perOutputScaling ∧
        (∀ k, k ∉ ks → c'.output k = c.output k) ∧
        (∀ k ∈ ks, ∀ o, c.output k = some o →
          ∃ o', initializeOutput env features o = some o' ∧ c'.output k = some o') := by
  induction ks with
  | nil =>
    intro c _ _
    exact ⟨c, rfl, rfl, rfl, rfl, fun _ _ => rfl, fun k hk => absurd hk (List.not_mem_nil k)⟩
  | cons x xs ih =>
    intro c hnd hval
    obtain ⟨o, ho, hv⟩ := hval x (List.mem_cons_self _ _)
    obtain ⟨o1, ho1⟩ := initializeOutput_exists env features o hv
    have hid : o.id = x := Config.output_id ho
    have hid1 : o1.id = x := (initializeOutput_id ho1).trans hid
    have hnd' := List.nodup_cons.mp hnd
    have hne : ∀ k, k ≠ x → (c.setOutput o1).output k = c.output k := fun k hk =>
      Config.output_setOutput_of_ne (by rw [hid1]; exact fun h => hk h.symm)
    obtain ⟨c', hrun, hk', hm', hp', hout, hin⟩ := ih (c.setOutput o1) hnd'.2
      (fun k hk => by
        rw [hne k (fun h => hnd'.1 (h ▸ hk))]
        exact hval k (List.mem_cons_of_mem _ hk))
    refine ⟨c', ?_, ?_, ?_, ?_, ?_, ?_⟩
    · simp only [initializeOutputs, ho, ho1]; exact hrun
    · rw [hk', Config.keys_setOutput]
    · rw [hm']; rfl
    · rw [hp']; rfl
    · intro k hk
      rw [List.mem_cons, not_or] at hk
      rw [hout k hk.2, hne k hk.1]
    · intro k hk ok hok
      by_cases hkx : k = x
      · subst hkx
        have : ok = o := by rw [ho] at hok; exact (Option.some.inj hok).symm
        subst this
        refine ⟨o1, ho1, ?_⟩
        rw [hout k hnd'.1]
        have h := Config.output_setOutput_self c ok o1
          (by rw [hid1]; exact ho)
        rw [hid1] at h; exact h
      · have hkxs : k ∈ xs := (List.mem_cons.mp hk).resolve_left hkx
        exact hin k hkxs ok (by rw [hne k hkx]; exact hok)

/-- The initialization loop has no result as soon as one listed output cannot be initialized. -/
theorem initializeOutputs_fails (env : Platform) (features : Bool) (ks : List Int) :
    ∀ (c : Config) (k0 : Int) (o0 : Output), ks.Nodup → k0 ∈ ks → c.output k0 = some o0 →
      initializeOutput env features o0 = none →
      initializeOutputs env features c ks = none := by
  induction ks with
  | nil => intro c k0 o0 _ hk; exact absurd hk (List.not_mem_nil k0)
  | cons x xs ih =>
    intro c k0 o0 hnd hk ho0 hfail
    have hnd' := List.nodup_cons.mp hnd
    simp only [initializeOutputs]
    cases ho : c.output x with
    | none => rfl
    | some o =>
      simp only
      cases ho1 : initializeOutput env features o with
      | none => rfl
      | some o1 =>
        simp only
        have hid1 : o1.id = x := (initializeOutput_id ho1).trans (Config.output_id ho)
        have hk0 : k0 ≠ x := by
          intro h
          subst h
          rw [ho] at ho0
          rw [Option.some.inj ho0, hfail] at ho1
          exact absurd ho1 (by simp)
        exact ih (c.setOutput o1) k0 o0 hnd'.2 ((List.mem_cons.mp hk).resolve_left hk0)
          (by rw [Config.output_setOutput_of_ne (by rw [hid1]; exact fun h => hk0 h.symm)]
              exact ho0) hfail

/-! ## Disconnected outputs and connected keys -/

theorem find?_map_of_id (l : List Output) (f : Output → Output) (hf : ∀ o, (f o).id = o.id)
    (k : Int) :
    (l.map f).find? (fun o => o.id == k) = (l.find? (fun o => o.id == k)).map f := by
  induction l with
  | nil => rfl
  | cons x xs ih =>
    rw [List.map_cons, List.find?_cons, List.find?_cons, hf x]
    cases hx : (x.id == k) with
    | true => rfl
    | false => exact ih

theorem disableAll_output (c : Config) (k : Int) :
    (disableAllDisconnectedOutputs c).output k =
      (c.output k).map (fun o => if !o.connected then o.disabled else o) := by
  unfold disableAllDisconnectedOutputs Config.output
  exact find?_map_of_id c.outputs _ (fun o => by split <;> rfl) k

theorem disableAll_keys (c : Config) : (disableAllDisconnectedOutputs c).keys = c.keys := by
  unfold disableAllDisconnectedOutputs Config.keys
  simp only [List.map_map]
  apply List.map_congr_left
  intro o _
  simp only [Function.comp]
  split <;> rfl

theorem disableAll_connectedOutputs (c : Config) :
    (disableAllDisconnectedOutputs c).connectedOutputs = c.connectedOutputs := by
  unfold disableAllDisconnectedOutputs Config.connectedOutputs
  simp only
  induction c.outputs with
  | nil => rfl
  | cons x xs ih =>
    cases hx : x.connected with
    | true => simp [List.filter_cons, hx] at ih ⊢; exact ih
    | false =>
      simp [List.filter_cons, hx, Output.setEnabled, Output.setPrimary] at ih ⊢; exact ih

theorem disableAll_WF {c : Config} (h : c.WF) : (disableAllDisconnectedOutputs c).WF := by
  unfold Config.WF at *; rw [disableAll_keys]; exact h

theorem Config.connectedOutputs_ascending {c : Config} (h : c.WF) :
    c.connectedOutputs.Pairwise (fun x y => x < y) := by
  unfold Config.WF Config.keys at h
  unfold Config.connectedOutputs
  exact h.sublist ((List.filter_sublist _).map _)

theorem Config.connectedOutputs_spec {c : Config} (h : c.WF) (k : Int) :
    k ∈ c.connectedOutputs ↔ ∃ o, c.output k = some o ∧ o.connected = true := by
  unfold Config.connectedOutputs
  constructor
  · intro hk
    obtain ⟨o, ho, rfl⟩ := List.mem_map.mp hk
    rw [List.mem_filter] at ho
    exact ⟨o, Config.output_of_mem h ho.1, ho.2⟩
  · rintro ⟨o, ho, hc⟩
    exact List.mem_map.mpr ⟨o, List.mem_filter.mpr ⟨Config.output_mem ho, hc⟩,
      Config.output_id ho⟩

theorem Config.connectedAt_of_mem {c : Config} (h : c.WF) {k : Int}
    (hk : k ∈ c.connectedOutputs) : c.connectedAt k = true := by
  obtain ⟨o, ho, hc⟩ := (Config.connectedOutputs_spec h k).mp hk
  unfold Config.connectedAt; rw [ho]; exact hc

theorem embeddedOutput_total (c : Config) (ks : List Int) (hkeys : ∀ k ∈ ks, k ∈ c.keys) :
    ∃ r, embeddedOutput c ks = some r := by
  induction ks with
  | nil => exact ⟨none, rfl⟩
  | cons x xs ih =>
    obtain ⟨o, ho⟩ := Option.isSome_iff_exists.mp
      ((c.output_isSome_iff x).mpr (hkeys x (List.mem_cons_self _ _)))
    simp only [embeddedOutput, ho]
    split
    · exact ih (fun k hk => hkeys k (List.mem_cons_of_mem _ hk))
    · exact ⟨_, rfl⟩

theorem embeddedKey_total (c : Config) (ws : List Int) (hne : ws ≠ [])
    (hkeys : ∀ k ∈ ws, k ∈ c.keys) : ∃ e, embeddedKey c ws = some e := by
  obtain ⟨r, hr⟩ := embeddedOutput_total c ws hkeys
  cases ws with
  | nil => exact absurd rfl hne
  | cons x xs => exact ⟨r.getD x, by unfold embeddedKey; rw [hr]⟩

theorem biggestOutputLoop_exists (env : Platform) (c : Config) (ks : List Int)
    (hval : ∀ k ∈ ks, ∃ o, c.output k = some o ∧ o.modesValid = true) :
    ∀ (total : Int) (init : Option Int), (init = none → total ≤ 0) →
      ∃ r, biggestOutputLoop env c total init ks = some r ∧
        ((ks ≠ [] ∨ init ≠ none) → r ≠ none) := by
  induction ks with
  | nil =>
    intro total init _
    exact ⟨init, rfl, fun h => h.resolve_left (fun h' => h' rfl)⟩
  | cons x xs ih =>
    intro total init hinit
    obtain ⟨o, ho, hv⟩ := hval x (List.mem_cons_self _ _)
    obtain ⟨m, hm, hbest⟩ := bestModeForOutput_exists env o hv
    have hpos : 0 < m.size.intArea := ((o.modesValid_iff).mp hv).2.1 m hm
    simp only [biggestOutputLoop, ho, hbest]
    by_cases hle : m.size.intArea ≤ total
    · rw [if_pos hle]
      have hin : init ≠ none := fun h => absurd (le_trans hle (hinit h)) (not_le.mpr hpos)
      obtain ⟨r, hr, hrn⟩ := ih (fun k hk => hval k (List.mem_cons_of_mem _ hk)) total init hinit
      exact ⟨r, hr, fun _ => hrn (Or.inr hin)⟩
    · rw [if_neg hle]
      obtain ⟨r, hr, hrn⟩ := ih (fun k hk => hval k (List.mem_cons_of_mem _ hk))
        (m.size.intArea) (some x) (fun h => absurd h (by simp))
      exact ⟨r, hr, fun _ => hrn (Or.inr (by simp))⟩

/-- Among a non-empty list of connected outputs with valid mode data `biggestOutput` chooses
one. -/
theorem biggestOutput_exists (env : Platform) (c : Config) (ws : List Int) (hne : ws ≠ [])
    (hval : ∀ k ∈ ws, ∃ o, c.output k = some o ∧ o.connected = true ∧ o.modesValid = true) :
    ∃ b, biggestOutput env c ws = some (some b) := by
  obtain ⟨r, hr, hrn⟩ := biggestOutputLoop_exists env c ws
    (fun k hk => by obtain ⟨o, ho, _, hv⟩ := hval k hk; exact ⟨o, ho, hv⟩) 0 none
    (fun _ => le_refl _)
  unfold biggestOutput
  rw [assertOutputs_ok env c ws hne
    (fun k hk => by obtain ⟨o, ho, hc, _⟩ := hval k hk; exact ⟨o, ho, hc⟩)]
  cases r with
  | none => exact absurd rfl (hrn (Or.inl hne))
  | some b => exact ⟨b, hr⟩

/-! ## Single-output policy and ideal configuration -/

theorem initializeOutput_preserves {env : Platform} {features : Bool} {o o' : Output}
    (h : initializeOutput env features o = some o') :
    o'.id = o.id ∧ o'.connected = o.connected ∧ o'.modes = o.modes ∧
      o'.enabled = o.enabled ∧ o'.primary = o.primary ∧ o'.pos = o.pos ∧
      o'.modesValid = o.modesValid := by
  obtain ⟨m, r, s, rfl⟩ := initializeOutput_shape h
  exact ⟨rfl, rfl, rfl, rfl, rfl, rfl, rfl⟩

/-- The single-output policy on a list whose first output is connected and has modes. -/
theorem singleOutput_spec (env : Platform) (c : Config) (k : Int) (ks : List Int) (o : Output)
    (hconn : ∀ x ∈ k :: ks, ∃ o, c.output x = some o ∧ o.connected = true)
    (ho : c.output k = some o) (hm : o.modes ≠ []) :
    singleOutput env c (k :: ks) = some (c.setOutput o.placedPrimary) := by
  unfold singleOutput
  rw [assertOutputs_ok env c (k :: ks) (List.cons_ne_nil _ _) hconn]
  simp only [ho, isEmpty_eq_false_of_ne hm, Bool.false_eq_true, if_false]
  rfl

/-- The state of the configuration when `idealConfig` has disabled the disconnected outputs and
initialized the connected ones. -/
theorem idealConfig_prepare (env : Platform) (cur : Config) (hwf : cur.WF)
    (hval : ∀ o ∈ cur.outputs, o.connected = true → o.modesValid = true) :
    ∃ c1, initializeOutputs env (disableAllDisconnectedOutputs cur).perOutputScaling
        (disableAllDisconnectedOutputs cur) cur.connectedOutputs = some c1 ∧
      c1.keys = cur.keys ∧ c1.maxSize = cur.maxSize ∧
      c1.perOutputScaling = cur.perOutputScaling ∧
      (∀ k ∈ cur.connectedOutputs, ∀ o, cur.output k = some o →
        ∃ o', initializeOutput env cur.perOutputScaling o = some o' ∧ c1.output k = some o') ∧
      (∀ k ∈ cur.connectedOutputs, ∃ o', c1.output k = some o' ∧ o'.connected = true ∧
        o'.modesValid = true) ∧
      (∀ k, k ∉ cur.connectedOutputs → ∀ o', c1.output k = some o' →
        o'.enabled = false ∧ o'.primary = false) := by
  have hc0 : ∀ k ∈ cur.connectedOutputs, ∀ o, cur.output k = some o →
      (disableAllDisconnectedOutputs cur).output k = some o ∧ o.connected = true := by
    intro k hk o ho
    obtain ⟨o2, ho2, hc2⟩ := (Config.connectedOutputs_spec hwf k).mp hk
    have : o2 = o := by rw [ho] at ho2; exact (Option.some.inj ho2).symm
    subst this
    rw [disableAll_output, ho]
    simp [hc2]
  obtain ⟨c1, hrun, hk1, hm1, hp1, hout, hin⟩ :=
    initializeOutputs_spec env (disableAllDisconnectedOutputs cur).perOutputScaling
      cur.connectedOutputs (disableAllDisconnectedOutputs cur)
      (nodup_of_ascending (Config.connectedOutputs_ascending hwf))
      (fun k hk => by
        obtain ⟨o, ho, hc⟩ := (Config.connectedOutputs_spec hwf k).mp hk
        exact ⟨o, (hc0 k hk o ho).1, hval o (Config.output_mem ho) hc⟩)
  refine ⟨c1, hrun, by rw [hk1, disableAll_keys], by rw [hm1]; rfl, by rw [hp1]; rfl, ?_, ?_, ?_⟩
  · intro k hk o ho
    exact hin k hk o (hc0 k hk o ho).1
  · intro k hk
    obtain ⟨o, ho, hc⟩ := (Config.connectedOutputs_spec hwf k).mp hk
    obtain ⟨o', hinit, ho'⟩ := hin k hk o (hc0 k hk o ho).1
    obtain ⟨_, hconn, _, _, _, _, hv⟩ := initializeOutput_preserves hinit
    exact ⟨o', ho', by rw [hconn]; exact hc,
      by rw [hv]; exact hval o (Config.output_mem ho) hc⟩
  · intro k hk o' ho'
    rw [hout k hk, disableAll_output] at ho'
    cases ho : cur.output k with
    | none => rw [ho] at ho'; exact absurd ho' (by simp)
    | some o =>
      rw [ho] at ho'
      have hnc : o.connected = false := by
        cases hc : o.connected with
        | false => rfl
        | true => exact absurd ((Config.connectedOutputs_spec hwf k).mpr ⟨o, ho, hc⟩) hk
      simp [hnc] at ho'
      subst ho'
      exact ⟨rfl, rfl⟩

theorem initializeOutput_canBeApplied (env : Platform) (f : Config → Bool) (features : Bool)
    (o : Output) :
    initializeOutput { env with canBeApplied := f } features o =
      initializeOutput env features o := rfl

theorem initializeOutputs_canBeApplied (env : Platform) (f : Config → Bool) (features : Bool)
    (ks : List Int) : ∀ c : Config,
      initializeOutputs { env with canBeApplied := f } features c ks =
        initializeOutputs env features c ks := by
  induction ks with
  | nil => intro c; rfl
  | cons x xs ih =>
    intro c
    simp only [initializeOutputs, initializeOutput_canBeApplied, ih]

theorem singleOutput_canBeApplied (env : Platform) (f : Config → Bool) (c : Config)
    (ks : List Int) :
    singleOutput { env with canBeApplied := f } c ks = singleOutput env c ks := rfl

/-- C4: the only connected output has a non-empty mode list, whose single mode has size 0x0;
`idealConfig` has no result, with or without assertions, because `biggestMode` compares the
refresh rate of that mode with the one of a null pointer. -/
theorem idealConfig_single_output_zero_area :
    zeroAreaScreen.connectedOutputs = [1] ∧ zeroAreaScreen.hasModesAt 1 = true ∧
    (idealConfig (sampleGenerator false false false zeroAreaScreen (fun _ => true))
      zeroAreaScreen).isNone = true ∧
    (idealConfig (releaseGenerator false false false zeroAreaScreen (fun _ => true))
      zeroAreaScreen).isNone = true := by
  refine ⟨by decide, by decide, by decide, by decide⟩

/-! ## Clone policy: results whenever it completes -/

theorem cloneBestLoop_partial (size : QSize) (ks : List Int) :
    ∀ (c c' : Config), ks.Nodup → cloneBestLoop size c ks = some c' →
      c'.keys = c.keys ∧ (∀ k, k ∉ ks → c'.output k = c.output k) ∧
      (∀ k ∈ ks, ∀ o, c.output k = some o →
        (o.modes = [] → c'.output k = some o) ∧
        (o.modes ≠ [] → ∃ id, c'.output k = some (o.cloned id))) := by
  induction ks with
  | nil =>
    intro c c' _ h
    simp only [cloneBestLoop] at h
    rw [← Option.some.inj h]
    exact ⟨rfl, fun _ _ => rfl, fun k hk => absurd hk (List.not_mem_nil k)⟩
  | cons x xs ih =>
    intro c c' hnd h
    have hnd' := List.nodup_cons.mp hnd
    simp only [cloneBestLoop] at h
    cases ho : c.output x with
    | none => rw [ho] at h; exact absurd h (by simp)
    | some o =>
      rw [ho] at h
      simp only at h
      have hid : o.id = x := Config.output_id ho
      by_cases hm : o.modes = []
      · rw [hm] at h
        simp only [List.isEmpty_nil, if_true] at h
        obtain ⟨hk, hout, hin⟩ := ih c c' hnd'.2 h
        refine ⟨hk, fun k hk' => hout k (fun h' => hk' (List.mem_cons_of_mem _ h')), ?_⟩
        intro k hk' ok hok
        by_cases hkx : k = x
        · subst hkx
          have : ok = o := by rw [ho] at hok; exact (Option.some.inj hok).symm
          subst this
          exact ⟨fun _ => by rw [hout k hnd'.1]; exact ho, fun h' => absurd hm h'⟩
        · exact hin k ((List.mem_cons.mp hk').resolve_left hkx) ok hok
      · rw [isEmpty_eq_false_of_ne hm] at h
        simp only [Bool.false_eq_true, if_false] at h
        cases hb : bestModeForSize o.modes size with
        | none => rw [hb] at h; exact absurd h (by simp)
        | some best =>
          rw [hb] at h
          simp only at h
          have hne : ∀ k, k ≠ x → (c.setOutput (o.cloned best.id)).output k = c.output k :=
            fun k hk => Config.output_setOutput_of_ne
              (by show o.id ≠ k; rw [hid]; exact fun h => hk h.symm)
          obtain ⟨hk, hout, hin⟩ := ih (c.setOutput (o.cloned best.id)) c' hnd'.2 h
          refine ⟨by rw [hk, Config.keys_setOutput], ?_, ?_⟩
          · intro k hk'
            rw [List.mem_cons, not_or] at hk'
            rw [hout k hk'.2, hne k hk'.1]
          · intro k hk' ok hok
            by_cases hkx : k = x
            · subst hkx
              have : ok = o := by rw [ho] at hok; exact (Option.some.inj hok).symm
              subst this
              refine ⟨fun h' => absurd h' hm, fun _ => ⟨best.id, ?_⟩⟩
              rw [hout k hnd'.1]
              have h2 := Config.output_setOutput_self c ok (ok.cloned best.id)
                (by show c.output ok.id = some ok; rw [hid]; exact ho)
              have hid1 : (ok.cloned best.id).id = k := hid
              rw [hid1] at h2; exact h2
            · exact hin k ((List.mem_cons.mp hk').resolve_left hkx) ok
                (by rw [hne k hkx]; exact hok)

theorem cloneBiggestLoop_partial (env : Platform) (ks : List Int) :
    ∀ (c c' : Config), ks.Nodup → cloneBiggestLoop env c ks = some c' →
      c'.keys = c.keys ∧ (∀ k, k ∉ ks → c'.output k = c.output k) ∧
      (∀ k ∈ ks, ∀ o, c.output k = some o →
        (o.modes = [] → c'.output k = some o) ∧
        (o.modes ≠ [] → ∃ id, c'.output k = some (o.cloned id))) := by
  induction ks with
  | nil =>
    intro c c' _ h
    simp only [cloneBiggestLoop] at h
    rw [← Option.some.inj h]
    exact ⟨rfl, fun _ _ => rfl, fun k hk => absurd hk (List.not_mem_nil k)⟩
  | cons x xs ih =>
    intro c c' hnd h
    have hnd' := List.nodup_cons.mp hnd
    simp only [cloneBiggestLoop] at h
    cases ho : c.output x with
    | none => rw [ho] at h; exact absurd h (by simp)
    | some o =>
      rw [ho] at h
      simp only at h
      have hid : o.id = x := Config.output_id ho
      by_cases hm : o.modes = []
      · rw [hm] at h
        simp only [List.isEmpty_nil, if_true] at h
        obtain ⟨hk, hout, hin⟩ := ih c c' hnd'.2 h
        refine ⟨hk, fun k hk' => hout k (fun h' => hk' (List.mem_cons_of_mem _ h')), ?_⟩
        intro k hk' ok hok
        by_cases hkx : k = x
        · subst hkx
          have : ok = o := by rw [ho] at hok; exact (Option.some.inj hok).symm
          subst this
          exact ⟨fun _ => by rw [hout k hnd'.1]; exact ho, fun h' => absurd hm h'⟩
        · exact hin k ((List.mem_cons.mp hk').resolve_left hkx) ok hok
      · rw [isEmpty_eq_false_of_ne hm] at h
        simp only [Bool.false_eq_true, if_false] at h
        have hmodes : ((o.setEnabled true).setPos ⟨0, 0⟩).modes = o.modes := rfl
        rw [hmodes] at h
        cases hb : biggestMode env o.modes with
        | none => rw [hb] at h; exact absurd h (by simp)
        | some r =>
          rw [hb] at h
          cases r with
          | none => exact absurd h (by simp)
          | some best =>
            simp only at h
            have hne : ∀ k, k ≠ x → (c.setOutput (o.cloned best.id)).output k = c.output k :=
              fun k hk => Config.output_setOutput_of_ne
                (by show o.id ≠ k; rw [hid]; exact fun h => hk h.symm)
            obtain ⟨hk, hout, hin⟩ := ih (c.setOutput (o.cloned best.id)) c' hnd'.2 h
            refine ⟨by rw [hk, Config.keys_setOutput], ?_, ?_⟩
            · intro k hk'
              rw [List.mem_cons, not_or] at hk'
              rw [hout k hk'.2, hne k hk'.1]
            · intro k hk' ok hok
              by_cases hkx : k = x
              · subst hkx
                have : ok = o := by rw [ho] at hok; exact (Option.some.inj hok).symm
                subst this
                refine ⟨fun h' => absurd h' hm, fun _ => ⟨best.id, ?_⟩⟩
                rw [hout k hnd'.1]
                have h2 := Config.output_setOutput_self c ok (ok.cloned best.id)
                  (by show c.output ok.id = some ok; rw [hid]; exact ho)
                have hid1 : (ok.cloned best.id).id = k := hid
                rw [hid1] at h2; exact h2
              · exact hin k ((List.mem_cons.mp hk').resolve_left hkx) ok
                  (by rw [hne k hkx]; exact hok)

/-- Whenever the clone policy completes, it leaves every listed output that has modes enabled at
the origin with some current mode id, and changes nothing else. -/
theorem cloneScreens_partial (g : Generator) (c c' : Config) (ws : List Int) (hnd : ws.Nodup)
    (h : cloneScreens g c ws = some c') :
    c'.keys = c.keys ∧ (∀ k, k ∉ ws → c'.output k = c.output k) ∧
    (∀ k ∈ ws, ∀ o, c.output k = some o →
      (o.modes = [] → c'.output k = some o) ∧
      (o.modes ≠ [] → ∃ id, c'.output k = some (o.cloned id))) := by
  unfold cloneScreens at h
  split at h
  · exact absurd h (by simp)
  · split at h
    · rename_i hemp
      rw [List.isEmpty_iff] at hemp
      subst hemp
      rw [← Option.some.inj h]
      exact ⟨rfl, fun _ _ => rfl, fun k hk => absurd hk (List.not_mem_nil k)⟩
    · simp only at h
      split at h
      · exact absurd h (by simp)
      · split at h
        · exact cloneBiggestLoop_partial g.env ws c c' hnd h
        · split at h
          · exact absurd h (by simp)
          · exact cloneBestLoop_partial _ ws c c' hnd h

/-- The function `initializeOutput` has no result on an output without modes and without a
preferred mode: `biggestMode` fails its assertion or returns null, which is dereferenced. -/
theorem initializeOutput_no_modes (env : Platform) (features : Bool) (o : Output)
    (hm : o.modes = []) (hp : o.preferredMode = none) :
    initializeOutput env features o = none := by
  unfold initializeOutput bestModeForOutput biggestMode qAssert
  rw [hp, hm]
  cases env.assertions <;> simp [biggestModeLoop]

/-- C2: `idealConfig` has no result on any configuration (with ascending output ids) in which
some connected output has an empty mode list and no preferred mode, whatever the posture and
the applicability check: initializing that output dereferences a null mode. -/
theorem idealConfig_fails_without_modes (g : Generator) (cur : Config) (o : Output)
    (hwf : cur.WF) (ho : o ∈ cur.outputs) (hc : o.connected = true) (hm : o.modes = [])
    (hp : o.preferredMode = none) : idealConfig g cur = none := by
  have hout : cur.output o.id = some o := Config.output_of_mem hwf ho
  have hk : o.id ∈ cur.connectedOutputs := (Config.connectedOutputs_spec hwf o.id).mpr ⟨o, hout, hc⟩
  have hout0 : (disableAllDisconnectedOutputs cur).output o.id = some o := by
    rw [disableAll_output, hout]; simp [hc]
  have hfail := initializeOutputs_fails g.env (disableAllDisconnectedOutputs cur).perOutputScaling
    cur.connectedOutputs (disableAllDisconnectedOutputs cur) o.id o
    (nodup_of_ascending (Config.connectedOutputs_ascending hwf)) hk hout0
    (initializeOutput_no_modes _ _ o hm hp)
  unfold idealConfig
  simp only [disableAll_connectedOutputs, isEmpty_eq_false_of_ne (List.ne_nil_of_mem hk), hfail]
  simp

/-- Witness of C2: a single connected screen without modes. -/
theorem idealConfig_fails_without_modes_witness :
    noModesScreen.WF ∧ sampleOutput 1 OutputType.HDMI [] 0 ∈ noModesScreen.outputs ∧
    (sampleOutput 1 OutputType.HDMI [] 0).connected = true ∧
    (sampleOutput 1 OutputType.HDMI [] 0).modes = [] ∧
    (sampleOutput 1 OutputType.HDMI [] 0).preferredMode = none ∧
    idealConfig (sampleGenerator false false false noModesScreen (fun _ => true)) noModesScreen =
      none :=
  ⟨by decide, by decide, by decide, by decide, by decide,
    idealConfig_fails_without_modes (sampleGenerator false false false noModesScreen
      (fun _ => true)) noModesScreen (sampleOutput 1 OutputType.HDMI [] 0) (by decide) (by decide)
      (by decide) (by decide) (by decide)⟩

/-- C8: outside a laptop, with an applicability check that rejects every configuration, the
configuration returned for two screens is not the extended layout that the extend-right policy
computed but the layout left by the clone attempt: both screens at the origin, both primary. -/
theorem fallbackIfNeeded_returns_clone_attempt :
    scenarioConfig (sampleGenerator false false false twoScreens (fun _ => false)) twoScreens =
      some twoScreensExtended ∧
    (fallbackIfNeeded (sampleGenerator false false false twoScreens (fun _ => false))
      twoScreensExtended).map (fun r => r.1) = some twoScreensCloned ∧
    (idealConfig (sampleGenerator false false false twoScreens (fun _ => false))
      twoScreens).map (fun r => r.1) = some twoScreensCloned ∧
    twoScreensCloned ≠ twoScreensExtended ∧
    twoScreensExtended.output 1 =
      some ((sampleOutput 1 OutputType.HDMI [mode1080] 1).chained 2560) ∧
    twoScreensCloned.output 1 =
      some (sampleOutput 1 OutputType.HDMI [mode1080] 1).placedPrimary := by
  refine ⟨by decide, by decide, by decide, by decide, by decide, by decide⟩

/-- C9: on a laptop whose applicability check rejects the extended layout of the laptop policy
and accepts the layout of `displaySwitch(Clone)`, `idealConfig` returns the rejected extended
layout, not the cloned one. -/
theorem idealConfig_laptop_returns_rejected_layout :
    isLaptop (sampleGenerator true false false laptopScreens onlyAtOrigin) = true ∧
    scenarioConfig (sampleGenerator true false false laptopScreens onlyAtOrigin) laptopScreens =
      some laptopScreensExtended ∧
    onlyAtOrigin laptopScreensExtended = false ∧
    (displaySwitch (sampleGenerator true false false laptopScreens onlyAtOrigin)
      DisplaySwitchAction.Clone).map (fun g => g.m_currentConfig) = some laptopScreensCloned ∧
    onlyAtOrigin laptopScreensCloned = true ∧
    (idealConfig (sampleGenerator true false false laptopScreens onlyAtOrigin)
      laptopScreens).map (fun r => r.1) = some laptopScreensExtended ∧
    laptopScreensExtended ≠ laptopScreensCloned := by
  refine ⟨by decide, by decide, by decide, by decide, by decide, by decide, by decide⟩

/-- C1: outside a laptop, when the applicability check rejects the extended layout of two
screens, the configuration returned by `idealConfig` has two enabled outputs marked primary:
the fallback marks the first connected output primary and leaves the flag of the biggest
output set. -/
theorem idealConfig_two_primaries :
    twoScreens.connectedOutputs = [1, 2] ∧
    (idealConfig (sampleGenerator false false false twoScreens (fun _ => false))
      twoScreens).map (fun r => r.1.primaryCount) = some 2 := by
  refine ⟨by decide, by decide⟩

/-! ## Fallback ladder -/

/-- A configuration that passes the applicability check is returned as it is. -/
theorem fallbackIfNeeded_applicable (g : Generator) (config : Config)
    (h : g.env.canBeApplied config = true) : fallbackIfNeeded g config = some (config, g) := by
  unfold fallbackIfNeeded
  simp [h]

/-- On a laptop the configuration handed in is returned whenever `displaySwitch(Clone)`
completes. -/
theorem fallbackIfNeeded_laptop (g g' : Generator) (config : Config)
    (hlap : isLaptop g = true) (hna : g.env.canBeApplied config = false)
    (hsw : displaySwitch g DisplaySwitchAction.Clone = some g') :
    fallbackIfNeeded g config = some (config, g') := by
  unfold fallbackIfNeeded
  simp [hna, hlap, hsw]

/-- Outside a laptop a rejected configuration is handed to the clone policy, after its first
connected output has been made primary. -/
theorem fallbackIfNeeded_not_laptop (g : Generator) (config : Config) (first : Int)
    (rest : List Int) (f : Output)
    (hlap : isLaptop g = false) (hna : g.env.canBeApplied config = false)
    (hws : config.connectedOutputs = first :: rest) (hf : config.output first = some f) :
    fallbackIfNeeded g config =
      (cloneScreens g (config.setOutput (f.setPrimary true)) (first :: rest)).map
        (fun c => (c, g)) := by
  unfold fallbackIfNeeded
  simp only [hna, hlap, hws, hf]
  cases cloneScreens g (config.setOutput (f.setPrimary true)) (first :: rest) <;> simp

theorem length_le_one_of_all_eq {α : Type} (l : List α) (a : α) (hnd : l.Nodup)
    (h : ∀ x ∈ l, x = a) : l.length ≤ 1 := by
  cases l with
  | nil => simp
  | cons x xs =>
    cases xs with
    | nil => simp
    | cons y ys =>
      have hx : x = a := h x (List.mem_cons_self _ _)
      have hy : y = a := h y (List.mem_cons_of_mem _ (List.mem_cons_self _ _))
      rw [List.nodup_cons] at hnd
      exact absurd (by rw [hx, ← hy]; exact List.mem_cons_self _ _) hnd.1

/-- A configuration in which the output under `p` is enabled and primary and no other output is
both has exactly one enabled primary output. -/
theorem Config.primaryCount_eq_one {c : Config} (hwf : c.WF) (p : Int) (op : Output)
    (hp : c.output p = some op) (hpe : op.enabled = true) (hpp : op.primary = true)
    (hother : ∀ k o, c.output k = some o → k ≠ p → o.enabled = false ∨ o.primary = false) :
    c.primaryCount = 1 := by
  unfold Config.primaryCount
  rw [List.countP_eq_length_filter]
  have hnd : c.outputs.Nodup := List.Nodup.of_map _ (Config.keys_nodup hwf)
  have hall : ∀ x ∈ c.outputs.filter (fun o => o.enabled && o.primary), x = op := by
    intro x hx
    rw [List.mem_filter] at hx
    have hxo := Config.output_of_mem hwf hx.1
    by_cases hk : x.id = p
    · rw [hk, hp] at hxo; exact (Option.some.inj hxo).symm
    · rcases hother x.id x hxo hk with h | h
      · simp [h] at hx
      · simp [h] at hx
  have hmem : op ∈ c.outputs.filter (fun o => o.enabled && o.primary) := by
    rw [List.mem_filter]
    exact ⟨Config.output_mem hp, by simp [hpe, hpp]⟩
  have hle := length_le_one_of_all_eq _ op (hnd.filter _) hall
  have hpos : 0 < (c.outputs.filter (fun o => o.enabled && o.primary)).length :=
    List.length_pos_of_mem hmem
  omega

/-! ## Policies leave a single primary output -/

/-- The lid-closed branch of the laptop policy with several other outputs. -/
theorem laptop_lidClosed_many (g : Generator) (c : Config) (ws : List Int) (e : Int)
    (oe : Output)
    (hconn : ∀ k ∈ ws, ∃ o, c.output k = some o ∧ o.connected = true)
    (he : embeddedKey c ws = some e) (hlen : (removeKey ws e).length > 1)
    (hoe : c.output e = some oe) (hme : oe.modes ≠ []) (hlid : isLidClosed g = true) :
    laptop g c ws =
      extendToRight g.env (c.setOutput ((oe.setEnabled false).setPrimary false))
        (removeKey ws e) := by
  obtain ⟨hew, first, rest, found, hws, hfound, hget⟩ := embeddedKey_spec he
  have hne : ws ≠ [] := List.ne_nil_of_mem hew
  have hide : oe.id = e := Config.output_id hoe
  have hmeb : oe.modes.isEmpty = false := isEmpty_eq_false_of_ne hme
  have hrne : (removeKey ws e).isEmpty = false :=
    isEmpty_eq_false_of_ne (fun h => by rw [h] at hlen; simp at hlen)
  have hl1 : ¬ (removeKey ws e).length = 1 := by omega
  unfold laptop
  rw [assertOutputs_ok g.env c ws hne hconn]
  subst hws
  simp only [hfound, hget, hoe, hide, hmeb, hrne, hlid, hl1, hlen]
  simp

/-- What a scenario policy guarantees on the listed outputs: it completes with the same keys,
leaves the other outputs alone, and exactly one listed output is left enabled and primary. -/
theorem extendToRight_single_primary (env : Platform) (c : Config) (ws : List Int)
    (hne : ws ≠ []) (hasc : ws.Pairwise (fun x y => x < y))
    (hval : ∀ k ∈ ws, ∃ o, c.output k = some o ∧ o.connected = true ∧ o.modesValid = true) :
    ∃ c' p, extendToRight env c ws = some c' ∧ c'.keys = c.keys ∧
      (∀ k, k ∉ ws → c'.output k = c.output k) ∧ p ∈ ws ∧
      (∃ o, c'.output p = some o ∧ o.enabled = true ∧ o.primary = true) ∧
      (∀ k ∈ ws, k ≠ p → ∀ o, c'.output k = some o → o.enabled = false ∨ o.primary = false) := by
  have hconn : ∀ k ∈ ws, ∃ o, c.output k = some o ∧ o.connected = true :=
    fun k hk => by obtain ⟨o, ho, hc, _⟩ := hval k hk; exact ⟨o, ho, hc⟩
  obtain ⟨b, hb⟩ := biggestOutput_exists env c ws hne hval
  have hbm := biggestOutput_mem env c ws b hb
  obtain ⟨c', hrun, hk, _, _, hbig, hrest, hout⟩ := extendToRight_spec env c ws b hasc hconn hb
  obtain ⟨ob, hob, _⟩ := hconn b hbm
  refine ⟨c', b, hrun, hk, hout, hbm, ⟨_, hbig ob hob, rfl, rfl⟩, ?_⟩
  intro k hk hkb o ho
  obtain ⟨ok, hok, _⟩ := hconn k hk
  rw [hrest k hk hkb ok hok] at ho
  rw [← Option.some.inj ho]
  exact Or.inr rfl

theorem length_removeKey_of_nodup {l : List Int} {k : Int} (hnd : l.Nodup) (hk : k ∈ l) :
    (removeKey l k).length + 1 = l.length := by
  induction l with
  | nil => exact absurd hk (List.not_mem_nil k)
  | cons x xs ih =>
    rw [List.nodup_cons] at hnd
    unfold removeKey at *
    by_cases hx : x = k
    · subst hx
      have : xs.filter (fun y => y != x) = xs := by
        rw [List.filter_eq_self]
        intro y hy
        have : y ≠ x := fun h => hnd.1 (h ▸ hy)
        simpa using this
      simp [List.filter_cons, this]
    · have hk' : k ∈ xs := (List.mem_cons.mp hk).resolve_left (fun h => hx h.symm)
      have := ih hnd.2 hk'
      simp [List.filter_cons, hx] at this ⊢
      omega

theorem laptop_single_primary (g : Generator) (c : Config) (ws : List Int)
    (hlen : 2 ≤ ws.length) (hasc : ws.Pairwise (fun x y => x < y))
    (hval : ∀ k ∈ ws, ∃ o, c.output k = some o ∧ o.connected = true ∧ o.modesValid = true) :
    ∃ c' p, laptop g c ws = some c' ∧ c'.keys = c.keys ∧
      (∀ k, k ∉ ws → c'.output k = c.output k) ∧ p ∈ ws ∧
      (∃ o, c'.output p = some o ∧ o.enabled = true ∧ o.primary = true) ∧
      (∀ k ∈ ws, k ≠ p → ∀ o, c'.output k = some o → o.enabled = false ∨ o.primary = false) := by
  have hconn : ∀ k ∈ ws, ∃ o, c.output k = some o ∧ o.connected = true :=
    fun k hk => by obtain ⟨o, ho, hc, _⟩ := hval k hk; exact ⟨o, ho, hc⟩
  have hkeys : ∀ k ∈ ws, k ∈ c.keys := fun k hk => by
    obtain ⟨o, ho, _⟩ := hconn k hk
    exact (c.output_isSome_iff k).mp (by rw [ho]; rfl)
  have hne : ws ≠ [] := fun h => by rw [h] at hlen; simp at hlen
  obtain ⟨e, he⟩ := embeddedKey_total c ws hne hkeys
  have hew : e ∈ ws := (embeddedKey_spec he).1
  obtain ⟨oe, hoe, _, hve⟩ := hval e hew
  have hme : oe.modes ≠ [] := ((oe.modesValid_iff).mp hve).1
  have hide : oe.id = e := Config.output_id hoe
  have hrlen := length_removeKey_of_nodup (nodup_of_ascending hasc) hew
  have hrne : removeKey ws e ≠ [] := fun h => by rw [h] at hrlen; simp at hrlen; omega
  have hrasc := removeKey_ascending e hasc
  let od : Output := (oe.setEnabled false).setPrimary false
  have hidd : od.id = e := hide
  have hc2 : ∀ k, k ≠ e → (c.setOutput od).output k = c.output k := fun k hk =>
    Config.output_setOutput_of_ne (by rw [hidd]; exact fun h => hk h.symm)
  have hc2e : (c.setOutput od).output e = some od := by
    have h := Config.output_setOutput_self c oe od
      (by rw [hidd]; exact hoe)
    rw [hidd] at h; exact h
  cases hlid : isLidClosed g with
  | true =>
    by_cases h1 : (removeKey ws e).length = 1
    · obtain ⟨x, hx⟩ := List.length_eq_one.mp h1
      have hxr : x ∈ removeKey ws e := by rw [hx]; exact List.mem_singleton_self x
      have hxw : x ∈ ws := (mem_removeKey.mp hxr).1
      have hxe : x ≠ e := (mem_removeKey.mp hxr).2
      obtain ⟨ox, hox, _, hvx⟩ := hval x hxw
      have hmx : ox.modes.isEmpty = false :=
        isEmpty_eq_false_of_ne ((ox.modesValid_iff).mp hvx).1
      have hidx : ox.placedPrimary.id = x := (Config.output_id hox : ox.id = x)
      have hrun := laptop_lidClosed_single g c ws e x oe ox hconn he hx hoe hox hme hlid
      rw [hmx] at hrun
      have hwsx : ∀ k ∈ ws, k = e ∨ k = x := fun k hk => by
        by_cases hke : k = e
        · exact Or.inl hke
        · have : k ∈ removeKey ws e := mem_removeKey.mpr ⟨hk, hke⟩
          rw [hx, List.mem_singleton] at this
          exact Or.inr this
      refine ⟨_, x, by simpa using hrun, by rw [Config.keys_setOutput, Config.keys_setOutput],
        ?_, hxw, ⟨ox.placedPrimary, ?_, rfl, rfl⟩, ?_⟩
      · intro k hk
        rw [Config.output_setOutput_of_ne (by rw [hidx]; exact fun h => hk (h ▸ hxw)),
          hc2 k (fun h => hk (h ▸ hew))]
      · have h := Config.output_setOutput_self (c.setOutput od) ox ox.placedPrimary
            (by rw [hidx, hc2 x hxe]; exact hox)
        rw [hidx] at h; exact h
      · intro k hk hkx o ho
        have hke : k = e := (hwsx k hk).resolve_right hkx
        subst hke
        rw [Config.output_setOutput_of_ne (by rw [hidx]; exact hxe), hc2e] at ho
        rw [← Option.some.inj ho]
        exact Or.inl rfl
    · have hgt : (removeKey ws e).length > 1 := by
        have : (removeKey ws e).length ≠ 0 := fun h => hrne (List.length_eq_zero.mp h)
        omega
      have hrun := laptop_lidClosed_many g c ws e oe hconn he hgt hoe hme hlid
      obtain ⟨c', p, hext, hk, hout, hpm, hp, hrest⟩ :=
        extendToRight_single_primary g.env (c.setOutput od) (removeKey ws e) hrne hrasc
          (fun k hk => by rw [hc2 k (mem_removeKey.mp hk).2]; exact hval k (mem_removeKey.mp hk).1)
      refine ⟨c', p, by rw [hrun]; exact hext, by rw [hk, Config.keys_setOutput], ?_,
        (mem_removeKey.mp hpm).1, hp, ?_⟩
      · intro k hk'
        rw [hout k (fun h => hk' (mem_removeKey.mp h).1), hc2 k (fun h => hk' (h ▸ hew))]
      · intro k hk' hkp o ho
        by_cases hke : k = e
        · subst hke
          rw [hout k (fun h => (mem_removeKey.mp h).2 rfl), hc2e] at ho
          rw [← Option.some.inj ho]
          exact Or.inl rfl
        · exact hrest k (mem_removeKey.mpr ⟨hk', hke⟩) hkp o ho
  | false =>
    obtain ⟨b, hb⟩ := biggestOutput_exists g.env c (removeKey ws e) hrne
      (fun k hk => hval k (mem_removeKey.mp hk).1)
    have hbr := biggestOutput_mem g.env c _ b hb
    have hbw : b ∈ ws := (mem_removeKey.mp hbr).1
    have hbe : b ≠ e := (mem_removeKey.mp hbr).2
    obtain ⟨ob, hob, _⟩ := hconn b hbw
    obtain ⟨c', hrun, hk, _, _, hce, hcb, hrest, hout⟩ :=
      laptop_lidOpen_spec g c ws e b oe ob hasc hconn he hoe hob hme hlid hb
    cases hd : isDocked g with
    | true =>
      rw [hd] at hce hcb
      refine ⟨c', b, hrun, hk, hout, hbw, ⟨_, hcb, rfl, rfl⟩, ?_⟩
      intro k hk' hkb o ho
      by_cases hke : k = e
      · subst hke
        rw [hce] at ho
        rw [← Option.some.inj ho]
        exact Or.inr rfl
      · obtain ⟨ok, hok, _⟩ := hconn k hk'
        rw [hrest k hk' hke hkb ok hok] at ho
        rw [← Option.some.inj ho]
        exact Or.inr rfl
    | false =>
      rw [hd] at hce hcb
      refine ⟨c', e, hrun, hk, hout, hew, ⟨_, hce, rfl, rfl⟩, ?_⟩
      intro k hk' hke o ho
      by_cases hkb : k = b
      · subst hkb
        rw [hcb] at ho
        rw [← Option.some.inj ho]
        exact Or.inr rfl
      · obtain ⟨ok, hok, _⟩ := hconn k hk'
        rw [hrest k hk' hke hkb ok hok] at ho
        rw [← Option.some.inj ho]
        exact Or.inr rfl

/-! ## The ideal configuration -/

/-- The function `idealConfig` runs the fallback ladder on the computed configuration when two
or more outputs are connected, and returns the computed configuration otherwise. -/
theorem idealConfig_eq (g : Generator) (cur : Config) :
    idealConfig g cur =
      match scenarioConfig g cur with
      | none => none
      | some cfg =>
        if cur.connectedOutputs.length ≤ 1 then some (cfg, g) else fallbackIfNeeded g cfg := by
  unfold idealConfig scenarioConfig
  simp only [disableAll_connectedOutputs]
  cases hws : cur.connectedOutputs with
  | nil => simp
  | cons x xs =>
    simp only [List.isEmpty_cons, Bool.false_eq_true, if_false]
    cases hinit : initializeOutputs g.env (disableAllDisconnectedOutputs cur).perOutputScaling
        (disableAllDisconnectedOutputs cur) (x :: xs) with
    | none => rfl
    | some c1 =>
      simp only
      cases xs with
      | nil =>
        simp only [List.length_singleton, if_true, le_refl]
      | cons y ys =>
        have h1 : ¬ (x :: y :: ys).length = 1 := by simp
        have h2 : ¬ (x :: y :: ys).length ≤ 1 := by simp
        simp only [h1, h2, if_false]
        cases isLaptop g with
        | true =>
          simp only [if_true]
        | false =>
          simp only [Bool.false_eq_true, if_false]

/-- The configuration computed for two or more connected outputs with valid mode data has
exactly one enabled primary output. -/
theorem scenarioConfig_single_primary (g : Generator) (cur : Config) (hwf : cur.WF)
    (hlen : 2 ≤ cur.connectedOutputs.length)
    (hval : ∀ o ∈ cur.outputs, o.connected = true → o.modesValid = true) :
    ∃ cfg, scenarioConfig g cur = some cfg ∧ cfg.primaryCount = 1 := by
  obtain ⟨c1, hrun, hk1, _, _, _, hconn, hout⟩ := idealConfig_prepare g.env cur hwf hval
  have hasc := Config.connectedOutputs_ascending hwf
  have hne : cur.connectedOutputs ≠ [] := fun h => by rw [h] at hlen; simp at hlen
  have hpolicy : ∃ c' p, (if isLaptop g = true then laptop g c1 cur.connectedOutputs
        else extendToRight g.env c1 cur.connectedOutputs) = some c' ∧ c'.keys = c1.keys ∧
      (∀ k, k ∉ cur.connectedOutputs → c'.output k = c1.output k) ∧ p ∈ cur.connectedOutputs ∧
      (∃ o, c'.output p = some o ∧ o.enabled = true ∧ o.primary = true) ∧
      (∀ k ∈ cur.connectedOutputs, k ≠ p → ∀ o, c'.output k = some o →
        o.enabled = false ∨ o.primary = false) := by
    cases isLaptop g with
    | true => exact laptop_single_primary g c1 cur.connectedOutputs hlen hasc hconn
    | false => exact extendToRight_single_primary g.env c1 cur.connectedOutputs hne hasc hconn
  obtain ⟨c', p, hpol, hk', hout', hpm, ⟨op, hop, hpe, hpp⟩, hrest⟩ := hpolicy
  refine ⟨c', ?_, ?_⟩
  · unfold scenarioConfig
    have h1 : ¬ cur.connectedOutputs.length = 1 := by omega
    simp only [disableAll_connectedOutputs, isEmpty_eq_false_of_ne hne, hrun, h1,
      Bool.false_eq_true, if_false]
    exact hpol
  · have hwf' : c'.WF := by unfold Config.WF at *; rw [hk', hk1]; exact hwf
    apply Config.primaryCount_eq_one hwf' p op hop hpe hpp
    intro k o ho hkp
    by_cases hk : k ∈ cur.connectedOutputs
    · exact hrest k hk hkp o ho
    · rw [hout' k hk] at ho
      exact Or.inl (hout k hk o ho).1

/-! ## Results of the policies whenever they complete -/

theorem initializeOutputs_partial (env : Platform) (features : Bool) (ks : List Int) :
    ∀ (c c' : Config), ks.Nodup → initializeOutputs env features c ks = some c' →
      c'.keys = c.keys ∧ (∀ k, k ∉ ks → c'.output k = c.output k) ∧
      (∀ k ∈ ks, ∀ o, c.output k = some o →
        ∃ o', initializeOutput env features o = some o' ∧ c'.output k = some o') := by
  induction ks with
  | nil =>
    intro c c' _ h
    simp only [initializeOutputs] at h
    rw [← Option.some.inj h]
    exact ⟨rfl, fun _ _ => rfl, fun k hk => absurd hk (List.not_mem_nil k)⟩
  | cons x xs ih =>
    intro c c' hnd h
    have hnd' := List.nodup_cons.mp hnd
    simp only [initializeOutputs] at h
    cases ho : c.output x with
    | none => rw [ho] at h; exact absurd h (by simp)
    | some o =>
      rw [ho] at h
      simp only at h
      cases ho1 : initializeOutput env features o with
      | none => rw [ho1] at h; exact absurd h (by simp)
      | some o1 =>
        rw [ho1] at h
        simp only at h
        have hid1 : o1.id = x := (initializeOutput_id ho1).trans (Config.output_id ho)
        have hne : ∀ k, k ≠ x → (c.setOutput o1).output k = c.output k := fun k hk =>
          Config.output_setOutput_of_ne (by rw [hid1]; exact fun h => hk h.symm)
        obtain ⟨hk, hout, hin⟩ := ih (c.setOutput o1) c' hnd'.2 h
        refine ⟨by rw [hk, Config.keys_setOutput], ?_, ?_⟩
        · intro k hk'
          rw [List.mem_cons, not_or] at hk'
          rw [hout k hk'.2, hne k hk'.1]
        · intro k hk' ok hok
          by_cases hkx : k = x
          · subst hkx
            have : ok = o := by rw [ho] at hok; exact (Option.some.inj hok).symm
            subst this
            refine ⟨o1, ho1, ?_⟩
            rw [hout k hnd'.1]
            have h2 := Config.output_setOutput_self c ok o1 (by rw [hid1]; exact ho)
            rw [hid1] at h2; exact h2
          · exact hin k ((List.mem_cons.mp hk').resolve_left hkx) ok
              (by rw [hne k hkx]; exact hok)

/-- When `extendToRight` completes on a non-empty list of connected outputs, `biggestOutput`
has chosen one of them. -/
theorem extendToRight_inv (env : Platform) (c c' : Config) (ws : List Int) (hne : ws ≠ [])
    (hconn : ∀ k ∈ ws, ∃ o, c.output k = some o ∧ o.connected = true)
    (hrun : extendToRight env c ws = some c') :
    ∃ b, biggestOutput env c ws = some (some b) := by
  unfold extendToRight at hrun
  rw [assertOutputs_ok env c ws hne hconn] at hrun
  simp only [isEmpty_eq_false_of_ne hne, Bool.false_eq_true, if_false] at hrun
  cases hb : biggestOutput env c ws with
  | none => rw [hb] at hrun; exact absurd hrun (by simp)
  | some r =>
    cases r with
    | none => rw [hb] at hrun; exact absurd hrun (by simp)
    | some b => exact ⟨b, rfl⟩

/-- When the extend-right policy completes, exactly one listed output is left enabled and
primary and the other outputs keep their state. -/
theorem extendToRight_primary (env : Platform) (c c' : Config) (ws : List Int)
    (hne : ws ≠ []) (hasc : ws.Pairwise (fun x y => x < y))
    (hconn : ∀ k ∈ ws, ∃ o, c.output k = some o ∧ o.connected = true)
    (hrun : extendToRight env c ws = some c') :
    c'.keys = c.keys ∧ (∀ k, k ∉ ws → c'.output k = c.output k) ∧
      ∃ p, p ∈ ws ∧ (∃ o, c'.output p = some o ∧ o.enabled = true ∧ o.primary = true) ∧
        (∀ k ∈ ws, k ≠ p → ∀ o, c'.output k = some o →
          o.enabled = false ∨ o.primary = false) := by
  obtain ⟨b, hb⟩ := extendToRight_inv env c c' ws hne hconn hrun
  have hbm := biggestOutput_mem env c ws b hb
  obtain ⟨c'', hrun', hk, _, _, hbig, hrest, hout⟩ :=
    extendToRight_spec env c ws b hasc hconn hb
  have : c'' = c' := by rw [hrun] at hrun'; exact (Option.some.inj hrun').symm
  subst this
  obtain ⟨ob, hob, _⟩ := hconn b hbm
  refine ⟨hk, hout, b, hbm, ⟨_, hbig ob hob, rfl, rfl⟩, ?_⟩
  intro k hk hkb o ho
  obtain ⟨ok, hok, _⟩ := hconn k hk
  rw [hrest k hk hkb ok hok] at ho
  rw [← Option.some.inj ho]
  exact Or.inr rfl

/-- When the lid-open branch of the laptop policy completes, `biggestOutput` has chosen one of
the outputs other than the embedded one. -/
theorem laptop_lidOpen_inv (g : Generator) (c c' : Config) (ws : List Int) (e : Int)
    (oe : Output)
    (hconn : ∀ k ∈ ws, ∃ o, c.output k = some o ∧ o.connected = true)
    (he : embeddedKey c ws = some e) (hoe : c.output e = some oe)
    (hme : oe.modes ≠ []) (hrne : removeKey ws e ≠ []) (hlid : isLidClosed g = false)
    (hrun : laptop g c ws = some c') :
    ∃ b, biggestOutput g.env c (removeKey ws e) = some (some b) := by
  obtain ⟨hew, first, rest, found, hws, hfound, hget⟩ := embeddedKey_spec he
  have hne : ws ≠ [] := List.ne_nil_of_mem hew
  have hide : oe.id = e := Config.output_id hoe
  have hmeb : oe.modes.isEmpty = false := isEmpty_eq_false_of_ne hme
  have hrneb : (removeKey ws e).isEmpty = false := isEmpty_eq_false_of_ne hrne
  have hcongr : biggestOutput g.env
      (c.setOutput (((oe.setPos ⟨0, 0⟩).setPrimary true).setEnabled true)) (removeKey ws e) =
      biggestOutput g.env c (removeKey ws e) :=
    biggestOutput_congr g.env c _ _ (fun k hk => Config.output_setOutput_of_ne
      (by show oe.id ≠ k; rw [hide]; exact fun h => (mem_removeKey.mp hk).2 h.symm))
  unfold laptop at hrun
  rw [assertOutputs_ok g.env c ws hne hconn] at hrun
  subst hws
  simp only [hfound, hget, hoe, hide, hrneb, hmeb, hlid, hcongr] at hrun
  simp only [Bool.false_eq_true, false_or, false_and, if_false] at hrun
  cases hb : biggestOutput g.env c (removeKey (first :: rest) e) with
  | none => rw [hb] at hrun; exact absurd hrun (by simp)
  | some r =>
    cases r with
    | none => rw [hb] at hrun; exact absurd hrun (by simp)
    | some b => exact ⟨b, rfl⟩

/-- When the laptop policy completes on two or more connected outputs with modes, exactly one
listed output is left enabled and primary and the other outputs keep their state. -/
theorem laptop_primary (g : Generator) (c c' : Config) (ws : List Int)
    (hlen : 2 ≤ ws.length) (hasc : ws.Pairwise (fun x y => x < y))
    (hconn : ∀ k ∈ ws, ∃ o, c.output k = some o ∧ o.connected = true ∧ o.modes ≠ [])
    (hrun : laptop g c ws = some c') :
    c'.keys = c.keys ∧ (∀ k, k ∉ ws → c'.output k = c.output k) ∧
      ∃ p, p ∈ ws ∧ (∃ o, c'.output p = some o ∧ o.enabled = true ∧ o.primary = true) ∧
        (∀ k ∈ ws, k ≠ p → ∀ o, c'.output k = some o →
          o.enabled = false ∨ o.primary = false) := by
  have hconn' : ∀ k ∈ ws, ∃ o, c.output k = some o ∧ o.connected = true :=
    fun k hk => by obtain ⟨o, ho, hc, _⟩ := hconn k hk; exact ⟨o, ho, hc⟩
  have hkeys : ∀ k ∈ ws, k ∈ c.keys := fun k hk => by
    obtain ⟨o, ho, _⟩ := hconn k hk
    exact (c.output_isSome_iff k).mp (by rw [ho]; rfl)
  have hne : ws ≠ [] := fun h => by rw [h] at hlen; simp at hlen
  obtain ⟨e, he⟩ := embeddedKey_total c ws hne hkeys
  have hew : e ∈ ws := (embeddedKey_spec he).1
  obtain ⟨oe, hoe, _, hme⟩ := hconn e hew
  have hide : oe.id = e := Config.output_id hoe
  have hrlen := length_removeKey_of_nodup (nodup_of_ascending hasc) hew
  have hrne : removeKey ws e ≠ [] := fun h => by rw [h] at hrlen; simp at hrlen; omega
  have hrasc := removeKey_ascending e hasc
  let od : Output := (oe.setEnabled false).setPrimary false
  have hidd : od.id = e := hide
  have hc2 : ∀ k, k ≠ e → (c.setOutput od).output k = c.output k := fun k hk =>
    Config.output_setOutput_of_ne (by rw [hidd]; exact fun h => hk h.symm)
  have hc2e : (c.setOutput od).output e = some od := by
    have h := Config.output_setOutput_self c oe od (by rw [hidd]; exact hoe)
    rw [hidd] at h; exact h
  cases hlid : isLidClosed g with
  | true =>
    by_cases h1 : (removeKey ws e).length = 1
    · obtain ⟨x, hx⟩ := List.length_eq_one.mp h1
      have hxr : x ∈ removeKey ws e := by rw [hx]; exact List.mem_singleton_self x
      have hxw : x ∈ ws := (mem_removeKey.mp hxr).1
      have hxe : x ≠ e := (mem_removeKey.mp hxr).2
      obtain ⟨ox, hox, _, hmx'⟩ := hconn x hxw
      have hmx : ox.modes.isEmpty = false := isEmpty_eq_false_of_ne hmx'
      have hidx : ox.placedPrimary.id = x := (Config.output_id hox : ox.id = x)
      have hrun' := laptop_lidClosed_single g c ws e x oe ox hconn' he hx hoe hox hme hlid
      rw [hmx, hrun] at hrun'
      simp only [Bool.false_eq_true, if_false] at hrun'
      have hc' : c' = (c.setOutput od).setOutput ox.placedPrimary := Option.some.inj hrun'
      subst hc'
      have hwsx : ∀ k ∈ ws, k = e ∨ k = x := fun k hk => by
        by_cases hke : k = e
        · exact Or.inl hke
        · have : k ∈ removeKey ws e := mem_removeKey.mpr ⟨hk, hke⟩
          rw [hx, List.mem_singleton] at this
          exact Or.inr this
      refine ⟨by rw [Config.keys_setOutput, Config.keys_setOutput], ?_, x, hxw,
        ⟨ox.placedPrimary, ?_, rfl, rfl⟩, ?_⟩
      · intro k hk
        rw [Config.output_setOutput_of_ne (by rw [hidx]; exact fun h => hk (h ▸ hxw)),
          hc2 k (fun h => hk (h ▸ hew))]
      · have h := Config.output_setOutput_self (c.setOutput od) ox ox.placedPrimary
          (by rw [hidx, hc2 x hxe]; exact hox)
        rw [hidx] at h; exact h
      · intro k hk hkx o ho
        have hke : k = e := (hwsx k hk).resolve_right hkx
        subst hke
        rw [Config.output_setOutput_of_ne (by rw [hidx]; exact hxe), hc2e] at ho
        rw [← Option.some.inj ho]
        exact Or.inl rfl
    · have hgt : (removeKey ws e).length > 1 := by
        have : (removeKey ws e).length ≠ 0 := fun h => hrne (List.length_eq_zero.mp h)
        omega
      have hrun' := laptop_lidClosed_many g c ws e oe hconn' he hgt hoe hme hlid
      rw [hrun] at hrun'
      obtain ⟨hk, hout, p, hpm, hp, hrest⟩ :=
        extendToRight_primary g.env (c.setOutput od) c' (removeKey ws e) hrne hrasc
          (fun k hk => by
            rw [hc2 k (mem_removeKey.mp hk).2]; exact hconn' k (mem_removeKey.mp hk).1)
          hrun'.symm
      refine ⟨by rw [hk, Config.keys_setOutput], ?_, p, (mem_removeKey.mp hpm).1, hp, ?_⟩
      · intro k hk'
        rw [hout k (fun h => hk' (mem_removeKey.mp h).1), hc2 k (fun h => hk' (h ▸ hew))]
      · intro k hk' hkp o ho
        by_cases hke : k = e
        · subst hke
          rw [hout k (fun h => (mem_removeKey.mp h).2 rfl), hc2e] at ho
          rw [← Option.some.inj ho]
          exact Or.inl rfl
        · exact hrest k (mem_removeKey.mpr ⟨hk', hke⟩) hkp o ho
  | false =>
    obtain ⟨b, hb⟩ := laptop_lidOpen_inv g c c' ws e oe hconn' he hoe hme hrne hlid hrun
    have hbr := biggestOutput_mem g.env c _ b hb
    have hbw : b ∈ ws := (mem_removeKey.mp hbr).1
    have hbe : b ≠ e := (mem_removeKey.mp hbr).2
    obtain ⟨ob, hob, _⟩ := hconn' b hbw
    obtain ⟨c'', hrun', hk, _, _, hce, hcb, hrest, hout⟩ :=
      laptop_lidOpen_spec g c ws e b oe ob hasc hconn' he hoe hob hme hlid hb
    have : c'' = c' := by rw [hrun] at hrun'; exact (Option.some.inj hrun').symm
    subst this
    cases hd : isDocked g with
    | true =>
      rw [hd] at hce hcb
      refine ⟨hk, hout, b, hbw, ⟨_, hcb, rfl, rfl⟩, ?_⟩
      intro k hk' hkb o ho
      by_cases hke : k = e
      · subst hke
        rw [hce] at ho
        rw [← Option.some.inj ho]
        exact Or.inr rfl
      · obtain ⟨ok, hok, _⟩ := hconn' k hk'
        rw [hrest k hk' hke hkb ok hok] at ho
        rw [← Option.some.inj ho]
        exact Or.inr rfl
    | false =>
      rw [hd] at hce hcb
      refine ⟨hk, hout, e, hew, ⟨_, hce, rfl, rfl⟩, ?_⟩
      intro k hk' hke o ho
      by_cases hkb : k = b
      · subst hkb
        rw [hcb] at ho
        rw [← Option.some.inj ho]
        exact Or.inr rfl
      · obtain ⟨ok, hok, _⟩ := hconn' k hk'
        rw [hrest k hk' hke hkb ok hok] at ho
        rw [← Option.some.inj ho]
        exact Or.inr rfl

/-! ## The ideal configuration: single output -/

/-- The ideal configuration for a single connected output with modes that `initializeOutput`
initializes to `o'`. -/
theorem idealConfig_single (g : Generator) (cur : Config) (k : Int) (o o' : Output)
    (hwf : cur.WF) (hone : cur.connectedOutputs = [k]) (ho : cur.output k = some o)
    (hm : o.modes ≠ []) (hinit : initializeOutput g.env cur.perOutputScaling o = some o') :
    idealConfig g cur =
        some (((disableAllDisconnectedOutputs cur).setOutput o').setOutput o'.placedPrimary, g) ∧
      scenarioConfig g cur =
        some (((disableAllDisconnectedOutputs cur).setOutput o').setOutput o'.placedPrimary) ∧
      (((disableAllDisconnectedOutputs cur).setOutput o').setOutput o'.placedPrimary).keys =
        cur.keys ∧
      (((disableAllDisconnectedOutputs cur).setOutput o').setOutput o'.placedPrimary).output k =
        some o'.placedPrimary ∧
      (∀ x, x ≠ k → ∀ ox,
        (((disableAllDisconnectedOutputs cur).setOutput o').setOutput o'.placedPrimary).output x =
          some ox → ox.enabled = false ∧ ox.primary = false) := by
  have hkm : k ∈ cur.connectedOutputs := by rw [hone]; exact List.mem_singleton_self k
  obtain ⟨o2, ho2, hc⟩ := (Config.connectedOutputs_spec hwf k).mp hkm
  have : o2 = o := by rw [ho] at ho2; exact (Option.some.inj ho2).symm
  subst this
  have hc0 : (disableAllDisconnectedOutputs cur).output k = some o2 := by
    rw [disableAll_output, ho]; simp [hc]
  obtain ⟨hid, hconn, hmodes, _, _, _, _⟩ := initializeOutput_preserves hinit
  have hidk : o'.id = k := hid.trans (Config.output_id ho)
  have hidp : o'.placedPrimary.id = k := hidk
  have hc1 : ((disableAllDisconnectedOutputs cur).setOutput o').output k = some o' := by
    have h := Config.output_setOutput_self (disableAllDisconnectedOutputs cur) o2 o'
      (by rw [hidk]; exact hc0)
    rw [hidk] at h; exact h
  have hrun : initializeOutputs g.env (disableAllDisconnectedOutputs cur).perOutputScaling
      (disableAllDisconnectedOutputs cur) [k] =
      some ((disableAllDisconnectedOutputs cur).setOutput o') := by
    have hinit' : initializeOutput g.env (disableAllDisconnectedOutputs cur).perOutputScaling o2 =
        some o' := hinit
    simp only [initializeOutputs, hc0, hinit']
  have hsingle : singleOutput g.env ((disableAllDisconnectedOutputs cur).setOutput o') [k] =
      some (((disableAllDisconnectedOutputs cur).setOutput o').setOutput o'.placedPrimary) :=
    singleOutput_spec g.env _ k [] o' (fun x hx => by
      rw [List.mem_singleton] at hx; subst hx
      exact ⟨o', hc1, by rw [hconn]; exact hc⟩) hc1 (by rw [hmodes]; exact hm)
  refine ⟨?_, ?_, ?_, ?_, ?_⟩
  · unfold idealConfig
    simp only [disableAll_connectedOutputs, hone, hrun, hsingle]
    simp
  · unfold scenarioConfig
    simp only [disableAll_connectedOutputs, hone, hrun, hsingle]
    simp
  · rw [Config.keys_setOutput, Config.keys_setOutput, disableAll_keys]
  · have h := Config.output_setOutput_self _ o' o'.placedPrimary (by rw [hidp]; exact hc1)
    rw [hidp] at h; exact h
  · intro x hx ox hox
    rw [Config.output_setOutput_of_ne (by rw [hidp]; exact fun h => hx h.symm),
      Config.output_setOutput_of_ne (by rw [hidk]; exact fun h => hx h.symm),
      disableAll_output] at hox
    cases hcx : cur.output x with
    | none => rw [hcx] at hox; exact absurd hox (by simp)
    | some o3 =>
      rw [hcx] at hox
      have hnc : o3.connected = false := by
        cases hc3 : o3.connected with
        | false => rfl
        | true =>
          have := (Config.connectedOutputs_spec hwf x).mpr ⟨o3, hcx, hc3⟩
          rw [hone, List.mem_singleton] at this
          exact absurd this hx
      simp [hnc] at hox
      subst hox
      exact ⟨rfl, rfl⟩

/-- The ideal configuration of a single screen: for every input configuration with ascending output ids and exactly one
connected output, whose mode list is not empty and which `initializeOutput` initializes without
dereferencing a null mode, and for every posture, `idealConfig` returns a configuration in which
that output, initialized, is enabled, primary and at position (0,0); the result is the same for
every applicability check. -/
theorem idealConfig_single_output_primary (g : Generator) (cur : Config) (k : Int)
    (o o' : Output) (hwf : cur.WF) (hone : cur.connectedOutputs = [k])
    (ho : cur.output k = some o) (hm : o.modes ≠ [])
    (hinit : initializeOutput g.env cur.perOutputScaling o = some o') :
    ∃ c', idealConfig g cur = some (c', g) ∧
      c'.output k = some (((o'.setEnabled true).setPrimary true).setPos ⟨0, 0⟩) ∧
      ∀ f : Config → Bool,
        (idealConfig { g with env := { g.env with canBeApplied := f } } cur).map (fun r => r.1) =
          some c' := by
  obtain ⟨hrun, _, _, hout, _⟩ := idealConfig_single g cur k o o' hwf hone ho hm hinit
  refine ⟨_, hrun, hout, fun f => ?_⟩
  obtain ⟨hrun2, _⟩ := idealConfig_single { g with env := { g.env with canBeApplied := f } }
    cur k o o' hwf hone ho hm hinit
  rw [hrun2]; rfl

/-- The ideal configuration of a single screen, evaluated: a single screen with the mode 1920x1080, on a laptop with the
lid closed and an applicability check that rejects everything. -/
theorem idealConfig_single_output_primary_witness :
    oneScreen.WF ∧ oneScreen.connectedOutputs = [1] ∧
    oneScreen.output 1 = some (sampleOutput 1 OutputType.HDMI [mode1080] 0) ∧
    (sampleOutput 1 OutputType.HDMI [mode1080] 0).modes ≠ [] ∧
    initializeOutput (sampleGenerator true true false oneScreen (fun _ => false)).env
      oneScreen.perOutputScaling (sampleOutput 1 OutputType.HDMI [mode1080] 0) =
        some (sampleOutput 1 OutputType.HDMI [mode1080] 1) ∧
    ∃ c', idealConfig (sampleGenerator true true false oneScreen (fun _ => false)) oneScreen =
        some (c', sampleGenerator true true false oneScreen (fun _ => false)) ∧
      c'.output 1 = some ((((sampleOutput 1 OutputType.HDMI [mode1080] 1).setEnabled
        true).setPrimary true).setPos ⟨0, 0⟩) ∧
      ∀ f : Config → Bool,
        (idealConfig { sampleGenerator true true false oneScreen (fun _ => false) with
          env := { (sampleGenerator true true false oneScreen (fun _ => false)).env with
            canBeApplied := f } } oneScreen).map (fun r => r.1) = some c' :=
  ⟨by decide, by decide, by decide, by decide, by decide,
    idealConfig_single_output_primary (sampleGenerator true true false oneScreen (fun _ => false))
      oneScreen 1 (sampleOutput 1 OutputType.HDMI [mode1080] 0)
      (sampleOutput 1 OutputType.HDMI [mode1080] 1) (by decide) (by decide)
      (by decide) (by decide) (by decide)⟩

/-! ## The ideal configuration: a single primary output -/

/-- Every configuration computed for at least one connected output, all connected outputs having
modes, has exactly one enabled primary output. -/
theorem scenarioConfig_primary (g : Generator) (cur cfg : Config) (hwf : cur.WF)
    (hne : cur.connectedOutputs ≠ [])
    (hmodes : ∀ o ∈ cur.outputs, o.connected = true → o.modes ≠ [])
    (hs : scenarioConfig g cur = some cfg) : cfg.primaryCount = 1 := by
  have hasc := Config.connectedOutputs_ascending hwf
  have hnd := nodup_of_ascending hasc
  unfold scenarioConfig at hs
  simp only [disableAll_connectedOutputs, isEmpty_eq_false_of_ne hne, Bool.false_eq_true,
    if_false] at hs
  cases hinit : initializeOutputs g.env (disableAllDisconnectedOutputs cur).perOutputScaling
      (disableAllDisconnectedOutputs cur) cur.connectedOutputs with
  | none => rw [hinit] at hs; exact absurd hs (by simp)
  | some c1 =>
    rw [hinit] at hs
    simp only at hs
    obtain ⟨hk1, hout1, hin1⟩ := initializeOutputs_partial g.env _ _ _ c1 hnd hinit
    have hconn1 : ∀ k ∈ cur.connectedOutputs, ∃ o', c1.output k = some o' ∧
        o'.connected = true ∧ o'.modes ≠ [] := by
      intro k hk
      obtain ⟨o, ho, hc⟩ := (Config.connectedOutputs_spec hwf k).mp hk
      have hc0 : (disableAllDisconnectedOutputs cur).output k = some o := by
        rw [disableAll_output, ho]; simp [hc]
      obtain ⟨o', hi, ho'⟩ := hin1 k hk o hc0
      obtain ⟨_, hconn, hm, _, _, _, _⟩ := initializeOutput_preserves hi
      exact ⟨o', ho', by rw [hconn]; exact hc,
        by rw [hm]; exact hmodes o (Config.output_mem ho) hc⟩
    have hdis : ∀ k, k ∉ cur.connectedOutputs → ∀ o', c1.output k = some o' →
        o'.enabled = false := by
      intro k hk o' ho'
      rw [hout1 k hk, disableAll_output] at ho'
      cases ho : cur.output k with
      | none => rw [ho] at ho'; exact absurd ho' (by simp)
      | some o =>
        rw [ho] at ho'
        have hnc : o.connected = false := by
          cases hc : o.connected with
          | false => rfl
          | true => exact absurd ((Config.connectedOutputs_spec hwf k).mpr ⟨o, ho, hc⟩) hk
        simp [hnc] at ho'
        subst ho'
        rfl
    have hpolicy : cfg.keys = c1.keys ∧ (∀ k, k ∉ cur.connectedOutputs →
          cfg.output k = c1.output k) ∧
        ∃ p, p ∈ cur.connectedOutputs ∧
          (∃ o, cfg.output p = some o ∧ o.enabled = true ∧ o.primary = true) ∧
          (∀ k ∈ cur.connectedOutputs, k ≠ p → ∀ o, cfg.output k = some o →
            o.enabled = false ∨ o.primary = false) := by
      by_cases h1 : cur.connectedOutputs.length = 1
      · rw [if_pos h1] at hs
        obtain ⟨k, hk⟩ := List.length_eq_one.mp h1
        rw [hk] at hs hconn1 ⊢
        obtain ⟨o', ho', _, hm'⟩ := hconn1 k (List.mem_singleton_self k)
        have hidp : o'.placedPrimary.id = k := (Config.output_id ho' : o'.id = k)
        rw [singleOutput_spec g.env c1 k [] o'
          (fun x hx => (hconn1 x hx).imp (fun _ h => ⟨h.1, h.2.1⟩)) ho' hm'] at hs
        rw [← Option.some.inj hs]
        refine ⟨Config.keys_setOutput _ _, fun x hx => ?_, k, List.mem_singleton_self k,
          ⟨o'.placedPrimary, ?_, rfl, rfl⟩, fun x hx hxk => ?_⟩
        · rw [List.mem_singleton] at hx
          exact Config.output_setOutput_of_ne (by rw [hidp]; exact fun h => hx h.symm)
        · have h := Config.output_setOutput_self c1 o' o'.placedPrimary
            (by rw [hidp]; exact ho')
          rw [hidp] at h; exact h
        · rw [List.mem_singleton] at hx
          exact absurd hx hxk
      · rw [if_neg h1] at hs
        have hlen : 2 ≤ cur.connectedOutputs.length := by
          have : cur.connectedOutputs.length ≠ 0 := fun h => hne (List.length_eq_zero.mp h)
          omega
        cases hlap : isLaptop g with
        | true =>
          rw [hlap] at hs
          simp only [if_true] at hs
          exact laptop_primary g c1 cfg cur.connectedOutputs hlen hasc hconn1 hs
        | false =>
          rw [hlap] at hs
          simp only [Bool.false_eq_true, if_false] at hs
          exact extendToRight_primary g.env c1 cfg cur.connectedOutputs hne hasc
            (fun k hk => (hconn1 k hk).imp (fun _ h => ⟨h.1, h.2.1⟩)) hs
    obtain ⟨hk', hout', p, _, ⟨op, hop, hpe, hpp⟩, hrest⟩ := hpolicy
    have hwf' : cfg.WF := by
      unfold Config.WF at *; rw [hk', hk1, disableAll_keys]; exact hwf
    apply Config.primaryCount_eq_one hwf' p op hop hpe hpp
    intro k o ho hkp
    by_cases hk : k ∈ cur.connectedOutputs
    · exact hrest k hk hkp o ho
    · rw [hout' k hk] at ho
      exact Or.inl (hdis k hk o ho)

/-- On a laptop, and whenever the configuration handed in passes the applicability check, the
fallback ladder returns the configuration handed in. -/
theorem fallbackIfNeeded_fst (g : Generator) (config : Config) (r : Config × Generator)
    (h : fallbackIfNeeded g config = some r)
    (hcase : isLaptop g = true ∨ g.env.canBeApplied config = true) : r.1 = config := by
  cases happ : g.env.canBeApplied config with
  | true =>
    rw [fallbackIfNeeded_applicable g config happ] at h
    rw [← Option.some.inj h]
  | false =>
    have hlap : isLaptop g = true := hcase.resolve_right (by rw [happ]; simp)
    cases hsw : displaySwitch g DisplaySwitchAction.Clone with
    | none =>
      unfold fallbackIfNeeded at h
      simp [happ, hlap, hsw] at h
    | some g' =>
      rw [fallbackIfNeeded_laptop g g' config hlap happ hsw] at h
      rw [← Option.some.inj h]

/-- One primary output: for every input configuration with ascending output ids and at least one
connected output, in which every connected output has a non-empty mode list, and for every
posture: every configuration that `idealConfig` returns has exactly one enabled output marked
primary, provided exactly one output is connected, or the device is a laptop, or the
applicability check accepts the computed configuration.  A configuration is returned when, in
addition, the mode data of every connected output are valid and exactly one output is
connected, or the applicability check accepts the computed configuration, or the device is a
laptop and `displaySwitch(Clone)` completes. -/
theorem idealConfig_one_primary (g : Generator) (cur : Config) (hwf : cur.WF)
    (hne : cur.connectedOutputs ≠ [])
    (hmodes : ∀ o ∈ cur.outputs, o.connected = true → o.modes ≠ []) :
    (∀ r, idealConfig g cur = some r →
      (cur.connectedOutputs.length = 1 ∨ isLaptop g = true ∨
        (∀ cfg, scenarioConfig g cur = some cfg → g.env.canBeApplied cfg = true)) →
      r.1.primaryCount = 1) ∧
    ((∀ o ∈ cur.outputs, o.connected = true → o.modesValid = true) →
      (cur.connectedOutputs.length = 1 ∨
        (∀ cfg, scenarioConfig g cur = some cfg → g.env.canBeApplied cfg = true) ∨
        (isLaptop g = true ∧ (displaySwitch g DisplaySwitchAction.Clone).isSome = true)) →
      ∃ r, idealConfig g cur = some r) := by
  constructor
  · intro r hr hcase
    rw [idealConfig_eq] at hr
    cases hs : scenarioConfig g cur with
    | none => rw [hs] at hr; exact absurd hr (by simp)
    | some cfg =>
      rw [hs] at hr
      simp only at hr
      have hcount := scenarioConfig_primary g cur cfg hwf hne hmodes hs
      by_cases hle : cur.connectedOutputs.length ≤ 1
      · rw [if_pos hle] at hr
        rw [← Option.some.inj hr]; exact hcount
      · rw [if_neg hle] at hr
        have hfst : r.1 = cfg := by
          apply fallbackIfNeeded_fst g cfg r hr
          rcases hcase with h | h | h
          · exact absurd (le_of_eq h) hle
          · exact Or.inl h
          · exact Or.inr (h cfg hs)
        rw [hfst]; exact hcount
  · intro hval hcase
    by_cases h1 : cur.connectedOutputs.length = 1
    · obtain ⟨k, hk⟩ := List.length_eq_one.mp h1
      have hkm : k ∈ cur.connectedOutputs := by rw [hk]; exact List.mem_singleton_self k
      obtain ⟨o, ho, hc⟩ := (Config.connectedOutputs_spec hwf k).mp hkm
      obtain ⟨o', hinit⟩ := initializeOutput_exists g.env cur.perOutputScaling o
        (hval o (Config.output_mem ho) hc)
      exact ⟨_, (idealConfig_single g cur k o o' hwf hk ho
        (hmodes o (Config.output_mem ho) hc) hinit).1⟩
    · have hlen : 2 ≤ cur.connectedOutputs.length := by
        have : cur.connectedOutputs.length ≠ 0 := fun h => hne (List.length_eq_zero.mp h)
        omega
      obtain ⟨cfg, hcfg, _⟩ := scenarioConfig_single_primary g cur hwf hlen hval
      have h2 : ¬ cur.connectedOutputs.length ≤ 1 := by omega
      have hideal : idealConfig g cur = fallbackIfNeeded g cfg := by
        rw [idealConfig_eq, hcfg]
        simp only [h2, if_false]
      rcases hcase with h | h | ⟨hlap, hsw⟩
      · exact absurd h h1
      · exact ⟨(cfg, g), by rw [hideal]; exact fallbackIfNeeded_applicable g cfg (h cfg hcfg)⟩
      · cases happ : g.env.canBeApplied cfg with
        | true => exact ⟨(cfg, g), by rw [hideal]; exact fallbackIfNeeded_applicable g cfg happ⟩
        | false =>
          obtain ⟨g', hg'⟩ := Option.isSome_iff_exists.mp hsw
          exact ⟨(cfg, g'), by
            rw [hideal]; exact fallbackIfNeeded_laptop g g' cfg hlap happ hg'⟩

/-- One primary output, evaluated: a laptop with the lid open, a panel and an external screen, and
an applicability check that rejects the extended layout; the configuration returned has one
enabled primary output. -/
theorem idealConfig_one_primary_witness :
    laptopScreens.WF ∧ laptopScreens.connectedOutputs ≠ [] ∧
    (∀ o ∈ laptopScreens.outputs, o.connected = true → o.modes ≠ []) ∧
    ((∀ r, idealConfig (sampleGenerator true false false laptopScreens onlyAtOrigin)
        laptopScreens = some r →
      (laptopScreens.connectedOutputs.length = 1 ∨
        isLaptop (sampleGenerator true false false laptopScreens onlyAtOrigin) = true ∨
        (∀ cfg, scenarioConfig (sampleGenerator true false false laptopScreens onlyAtOrigin)
          laptopScreens = some cfg →
          (sampleGenerator true false false laptopScreens onlyAtOrigin).env.canBeApplied cfg =
            true)) →
      r.1.primaryCount = 1) ∧
    ((∀ o ∈ laptopScreens.outputs, o.connected = true → o.modesValid = true) →
      (laptopScreens.connectedOutputs.length = 1 ∨
        (∀ cfg, scenarioConfig (sampleGenerator true false false laptopScreens onlyAtOrigin)
          laptopScreens = some cfg →
          (sampleGenerator true false false laptopScreens onlyAtOrigin).env.canBeApplied cfg =
            true) ∨
        (isLaptop (sampleGenerator true false false laptopScreens onlyAtOrigin) = true ∧
          (displaySwitch (sampleGenerator true false false laptopScreens onlyAtOrigin)
            DisplaySwitchAction.Clone).isSome = true)) →
      ∃ r, idealConfig (sampleGenerator true false false laptopScreens onlyAtOrigin)
        laptopScreens = some r)) ∧
    (idealConfig (sampleGenerator true false false laptopScreens onlyAtOrigin)
      laptopScreens).map (fun r => r.1.primaryCount) = some 1 :=
  ⟨by decide, by decide, by decide,
    idealConfig_one_primary (sampleGenerator true false false laptopScreens onlyAtOrigin)
      laptopScreens (by decide) (by decide) (by decide), by decide⟩

/-! ## Layout of the extend-right policy and of the open laptop -/

/-- The chain of the extend-right policy: on an ascending list of connected outputs, `biggestOutput` chooses an output whenever
the list is not empty and the listed outputs have valid mode data; and for the output `b` that
it chooses, `extendToRight` completes, leaves `b` enabled, primary and at position (0,0), and
leaves every other listed output enabled, non-primary and at position (x,0), where x is the
geometry width of `b` plus the geometry widths of the other listed outputs that come before it
in ascending id order.  The enabled outputs thus form a gap-free chain from the origin to the
right. -/
theorem extendToRight_chain (env : Platform) (c : Config) (ws : List Int)
    (hasc : ws.Pairwise (fun x y => x < y))
    (hconn : ∀ k ∈ ws, c.connectedAt k = true) :
    (ws ≠ [] → (∀ o ∈ c.outputs, o.id ∈ ws → o.modesValid = true) →
      ∃ b, biggestOutput env c ws = some (some b)) ∧
    ∀ b, biggestOutput env c ws = some (some b) →
      ∃ c', extendToRight env c ws = some c' ∧ b ∈ ws ∧
        (∃ ob, c.output b = some ob ∧
          c'.output b = some (((ob.setEnabled true).setPrimary true).setPos ⟨0, 0⟩)) ∧
        (∀ k ∈ ws, k ≠ b → ∃ o, c.output k = some o ∧
          c'.output k = some (((o.setEnabled true).setPrimary false).setPos
            ⟨c'.geometryWidth env b + widthsBefore env c' (removeKey ws b) k, 0⟩)) := by
  have hconn' : ∀ k ∈ ws, ∃ o, c.output k = some o ∧ o.connected = true :=
    fun k hk => Config.exists_of_connectedAt (hconn k hk)
  refine ⟨fun hne hval => biggestOutput_exists env c ws hne (fun k hk => ?_), fun b hb => ?_⟩
  · obtain ⟨o, ho, hc⟩ := hconn' k hk
    exact ⟨o, ho, hc, hval o (Config.output_mem ho) (by rw [Config.output_id ho]; exact hk)⟩
  · obtain ⟨c', hrun, _, _, _, hbig, hrest, _⟩ := extendToRight_spec env c ws b hasc hconn' hb
    have hw := extendToRight_geometryWidth env c ws b hasc hconn' hb c' hrun
    have hbm : b ∈ ws := biggestOutput_mem env c ws b hb
    refine ⟨c', hrun, hbm, ?_, ?_⟩
    · obtain ⟨ob, hob, _⟩ := hconn' b hbm
      exact ⟨ob, hob, hbig ob hob⟩
    · intro k hk hkb
      obtain ⟨o, ho, _⟩ := hconn' k hk
      refine ⟨o, ho, ?_⟩
      rw [hrest k hk hkb o ho, hw b,
        widthsBefore_congr_width env c c' (removeKey ws b) k (fun x _ => hw x)]
      rfl

/-- The chain of the extend-right policy on two screens of widths 1920 and 2560: the wider one is placed at the origin
as primary, the other one at (2560,0). -/
theorem extendToRight_chain_witness :
    ([1, 2] : List Int).Pairwise (fun x y => x < y) ∧
    (∀ k ∈ ([1, 2] : List Int), twoScreens.connectedAt k = true) ∧
    ((([1, 2] : List Int) ≠ [] →
        (∀ o ∈ twoScreens.outputs, o.id ∈ ([1, 2] : List Int) → o.modesValid = true) →
        ∃ b, biggestOutput (samplePlatform (fun _ => true)) twoScreens [1, 2] = some (some b)) ∧
      ∀ b, biggestOutput (samplePlatform (fun _ => true)) twoScreens [1, 2] = some (some b) →
        ∃ c', extendToRight (samplePlatform (fun _ => true)) twoScreens [1, 2] = some c' ∧
          b ∈ ([1, 2] : List Int) ∧
          (∃ ob, twoScreens.output b = some ob ∧
            c'.output b = some (((ob.setEnabled true).setPrimary true).setPos ⟨0, 0⟩)) ∧
          (∀ k ∈ ([1, 2] : List Int), k ≠ b → ∃ o, twoScreens.output k = some o ∧
            c'.output k = some (((o.setEnabled true).setPrimary false).setPos
              ⟨c'.geometryWidth (samplePlatform (fun _ => true)) b +
                widthsBefore (samplePlatform (fun _ => true)) c' (removeKey [1, 2] b) k, 0⟩))) ∧
    biggestOutput (samplePlatform (fun _ => true)) twoScreens [1, 2] = some (some 2) ∧
    extendToRight (samplePlatform (fun _ => true)) twoScreens [1, 2] = some twoScreensExtended ∧
    twoScreensExtended.output 2 =
      some (sampleOutput 2 OutputType.DisplayPort [mode1440] 2).placedPrimary ∧
    twoScreensExtended.output 1 =
      some ((sampleOutput 1 OutputType.HDMI [mode1080] 1).chained 2560) :=
  ⟨by decide, by decide,
    extendToRight_chain (samplePlatform (fun _ => true)) twoScreens [1, 2]
      (by decide) (by decide), by decide, by decide, by decide, by decide⟩

/-- The lid-open layout: in the laptop policy with the lid open, on an ascending list of connected outputs with
an embedded output `e` that has modes: `biggestOutput` chooses an output among the other listed
outputs whenever there is one and they have valid mode data; and for the output `b` that it
chooses, the policy completes; `e` is left enabled at (0,0); `b` is left enabled at (w_e,0),
where w_e is the geometry width of `e`; every further output is left enabled and non-primary at
the running sum of the widths placed before it (those of `e`, of `b` and of the further outputs
before it in ascending id order); and the primary flag is set on `e` alone when not docked and
on `b` alone when docked. -/
theorem laptop_lid_open_layout (g : Generator) (c : Config) (ws : List Int) (e : Int)
    (hasc : ws.Pairwise (fun x y => x < y))
    (hconn : ∀ k ∈ ws, c.connectedAt k = true)
    (he : embeddedKey c ws = some e) (hme : c.hasModesAt e = true)
    (hlid : isLidClosed g = false) :
    (removeKey ws e ≠ [] → (∀ o ∈ c.outputs, o.id ∈ removeKey ws e → o.modesValid = true) →
      ∃ b, biggestOutput g.env c (removeKey ws e) = some (some b)) ∧
    ∀ b, biggestOutput g.env c (removeKey ws e) = some (some b) →
      ∃ c' oe ob, laptop g c ws = some c' ∧ c.output e = some oe ∧ c.output b = some ob ∧
        b ∈ ws ∧ b ≠ e ∧
        c'.output e = some (((oe.setPos ⟨0, 0⟩).setEnabled true).setPrimary (!isDocked g)) ∧
        c'.output b = some (((ob.setPos ⟨c'.geometryWidth g.env e, 0⟩).setEnabled
          true).setPrimary (isDocked g)) ∧
        (∀ k ∈ ws, k ≠ e → k ≠ b → ∃ o, c.output k = some o ∧
          c'.output k = some (((o.setEnabled true).setPrimary false).setPos
            ⟨c'.geometryWidth g.env e + c'.geometryWidth g.env b +
              widthsBefore g.env c' (removeKey (removeKey ws e) b) k, 0⟩)) := by
  have hconn' : ∀ k ∈ ws, ∃ o, c.output k = some o ∧ o.connected = true :=
    fun k hk => Config.exists_of_connectedAt (hconn k hk)
  have hew : e ∈ ws := (embeddedKey_spec he).1
  refine ⟨fun hne hval => biggestOutput_exists g.env c _ hne (fun k hk => ?_), fun b hb => ?_⟩
  · obtain ⟨o, ho, hc⟩ := hconn' k (mem_removeKey.mp hk).1
    exact ⟨o, ho, hc, hval o (Config.output_mem ho) (by rw [Config.output_id ho]; exact hk)⟩
  · have hbr : b ∈ removeKey ws e := biggestOutput_mem g.env c _ b hb
    have hbw : b ∈ ws := (mem_removeKey.mp hbr).1
    have hbe : b ≠ e := (mem_removeKey.mp hbr).2
    obtain ⟨oe, hoe, _⟩ := hconn' e hew
    obtain ⟨ob, hob, _⟩ := hconn' b hbw
    have hme' : oe.modes ≠ [] := Config.modes_of_hasModesAt hme hoe
    obtain ⟨c', hrun, _, _, _, hce, hcb, hrest, _⟩ :=
      laptop_lidOpen_spec g c ws e b oe ob hasc hconn' he hoe hob hme' hlid hb
    have hw := laptop_lidOpen_geometryWidth g c ws e b oe ob hasc hconn' he hoe hob hme' hlid hb
      c' hrun
    refine ⟨c', oe, ob, hrun, hoe, hob, hbw, hbe, hce, ?_, ?_⟩
    · rw [hcb, hw e]
    · intro k hk hke hkb
      obtain ⟨o, ho, _⟩ := hconn' k hk
      refine ⟨o, ho, ?_⟩
      rw [hrest k hk hke hkb o ho, hw e, hw b,
        widthsBefore_congr_width g.env c c' _ k (fun x _ => hw x)]
      rfl

/-- The lid-open layout, evaluated: a panel and one external screen with the lid open, docked: the panel is left
enabled at the origin and the external screen enabled and primary at (1920,0). -/
theorem laptop_lid_open_layout_witness :
    ([1, 2] : List Int).Pairwise (fun x y => x < y) ∧
    (∀ k ∈ ([1, 2] : List Int), laptopScreens.connectedAt k = true) ∧
    embeddedKey laptopScreens [1, 2] = some 1 ∧ laptopScreens.hasModesAt 1 = true ∧
    isLidClosed (sampleGenerator true false true laptopScreens (fun _ => true)) = false ∧
    ((removeKey [1, 2] 1 ≠ [] →
        (∀ o ∈ laptopScreens.outputs, o.id ∈ removeKey [1, 2] 1 → o.modesValid = true) →
        ∃ b, biggestOutput (sampleGenerator true false true laptopScreens (fun _ => true)).env
          laptopScreens (removeKey [1, 2] 1) = some (some b)) ∧
      ∀ b, biggestOutput (sampleGenerator true false true laptopScreens (fun _ => true)).env
          laptopScreens (removeKey [1, 2] 1) = some (some b) →
        ∃ c' oe ob, laptop (sampleGenerator true false true laptopScreens (fun _ => true))
            laptopScreens [1, 2] = some c' ∧
          laptopScreens.output 1 = some oe ∧ laptopScreens.output b = some ob ∧
          b ∈ ([1, 2] : List Int) ∧ b ≠ 1 ∧
          c'.output 1 = some (((oe.setPos ⟨0, 0⟩).setEnabled true).setPrimary
            (!isDocked (sampleGenerator true false true laptopScreens (fun _ => true)))) ∧
          c'.output b = some (((ob.setPos ⟨c'.geometryWidth
            (sampleGenerator true false true laptopScreens (fun _ => true)).env 1, 0⟩).setEnabled
              true).setPrimary (isDocked (sampleGenerator true false true laptopScreens
                (fun _ => true)))) ∧
          (∀ k ∈ ([1, 2] : List Int), k ≠ 1 → k ≠ b → ∃ o, laptopScreens.output k = some o ∧
            c'.output k = some (((o.setEnabled true).setPrimary false).setPos
              ⟨c'.geometryWidth
                  (sampleGenerator true false true laptopScreens (fun _ => true)).env 1 +
                c'.geometryWidth
                  (sampleGenerator true false true laptopScreens (fun _ => true)).env b +
                widthsBefore (sampleGenerator true false true laptopScreens (fun _ => true)).env
                  c' (removeKey (removeKey [1, 2] 1) b) k, 0⟩))) ∧
    biggestOutput (sampleGenerator true false true laptopScreens (fun _ => true)).env
      laptopScreens (removeKey [1, 2] 1) = some (some 2) ∧
    (laptop (sampleGenerator true false true laptopScreens (fun _ => true))
      laptopScreens [1, 2]).map (fun c => c.outputs.map
        (fun o => (o.enabled, o.primary, o.pos))) =
      some [(true, false, ⟨0, 0⟩), (true, true, ⟨1920, 0⟩)] :=
  ⟨by decide, by decide, by decide, by decide, by decide,
    laptop_lid_open_layout (sampleGenerator true false true laptopScreens (fun _ => true))
      laptopScreens [1, 2] 1 (by decide) (by decide) (by decide) (by decide) (by decide),
    by decide, by decide⟩

/-! ## The display button -/

theorem KScreenDaemon.displayButton_initial :
    KScreenDaemon.initial.displayButton = (KScreenDaemon.initial, 0) := by decide

/-- C16: from the initial state of the daemon every press of the display button hands the same
value 0 to `displaySwitch`, and so the same action under every reading of that value: the
iteration counter is never advanced. -/
theorem displayButton_never_advances (decode : Int → DisplaySwitchAction) (n : Nat) :
    (KScreenDaemon.presses n KScreenDaemon.initial).map decode = List.replicate n (decode 0) := by
  induction n with
  | zero => rfl
  | succ n ih =>
    simp only [KScreenDaemon.presses, KScreenDaemon.displayButton_initial, List.map_cons,
      List.replicate_succ, ih]

/-! ## Outputs without modes and the display switch on sample configurations -/

/-- C12: when the external screen is primary before the switch, `displaySwitch(ExtendToLeft)`
leaves it primary: both outputs end up enabled and primary, the external one at (0,0) and the
embedded one at (2560,0). -/
theorem displaySwitch_extendToLeft_keeps_external_primary :
    (laptopScreensExternalPrimary.output 2).map (fun o => o.primary) = some true ∧
    embeddedKey laptopScreensExternalPrimary [1, 2] = some 1 ∧
    (displaySwitch (sampleGenerator true false false laptopScreensExternalPrimary (fun _ => true))
      DisplaySwitchAction.ExtendToLeft).map (fun g => g.m_currentConfig.outputs.map
        (fun o => (o.id, o.enabled, o.primary, o.pos))) =
      some [(1, true, true, ⟨2560, 0⟩), (2, true, true, ⟨0, 0⟩)] := by
  refine ⟨by decide, by decide, by decide⟩

/-- C15: `displaySwitch` has no result, whatever the action, when some connected output of the
current configuration has an empty mode list and no preferred mode: every connected output is
initialized before the mode lists are tested, and initializing that output dereferences a null
mode. -/
theorem displaySwitch_fails_without_modes (g : Generator) (action : DisplaySwitchAction)
    (o : Output) (hwf : g.m_currentConfig.WF) (ho : o ∈ g.m_currentConfig.outputs)
    (hc : o.connected = true) (hm : o.modes = []) (hp : o.preferredMode = none) :
    displaySwitch g action = none := by
  have hout : g.m_currentConfig.output o.id = some o := Config.output_of_mem hwf ho
  have hk : o.id ∈ g.m_currentConfig.connectedOutputs :=
    (Config.connectedOutputs_spec hwf o.id).mpr ⟨o, hout, hc⟩
  have hfail := initializeOutputs_fails g.env g.m_currentConfig.perOutputScaling
    g.m_currentConfig.connectedOutputs g.m_currentConfig o.id o
    (nodup_of_ascending (Config.connectedOutputs_ascending hwf)) hk hout
    (initializeOutput_no_modes _ _ o hm hp)
  unfold displaySwitch
  simp only [hfail]

/-- Witness of C15: a screen and a connected output without modes; the switch to
`TurnOffExternal` has no result. -/
theorem displaySwitch_fails_without_modes_witness :
    screenAndModeless.WF ∧
    sampleOutput 2 OutputType.DisplayPort [] 0 ∈ screenAndModeless.outputs ∧
    (sampleOutput 2 OutputType.DisplayPort [] 0).connected = true ∧
    (sampleOutput 2 OutputType.DisplayPort [] 0).modes = [] ∧
    (sampleOutput 2 OutputType.DisplayPort [] 0).preferredMode = none ∧
    screenAndModeless.connectedOutputs.length = 2 ∧
    displaySwitch (sampleGenerator false false false screenAndModeless (fun _ => true))
      DisplaySwitchAction.TurnOffExternal = none :=
  ⟨by decide, by decide, by decide, by decide, by decide, by decide,
    displaySwitch_fails_without_modes
      (sampleGenerator false false false screenAndModeless (fun _ => true))
      DisplaySwitchAction.TurnOffExternal (sampleOutput 2 OutputType.DisplayPort [] 0)
      (by decide) (by decide) (by decide) (by decide) (by decide)⟩

/-! ## The biggest mode -/

theorem biggestModeStep_inv (seen : List Mode) (st st' : Int × Option Mode) (mode : Mode)
    (hinv : biggestModeInv seen st) (hstep : biggestModeStep st mode = some st') :
    biggestModeInv (seen ++ [mode]) st' := by
  obtain ⟨hle, hnone, hsome⟩ := hinv
  unfold biggestModeStep at hstep
  simp only at hstep
  have hseen : (∀ x ∈ seen ++ [mode], x.refreshRate.isNum = true) →
      ∀ x ∈ seen, x.refreshRate.isNum = true :=
    fun h x hx => h x (List.mem_append_left _ hx)
  have hmode : (∀ x ∈ seen ++ [mode], x.refreshRate.isNum = true) →
      mode.refreshRate.isNum = true :=
    fun h => h mode (List.mem_append_right _ (List.mem_singleton.mpr rfl))
  by_cases h1 : mode.size.intArea < st.1
  · rw [if_pos h1] at hstep
    cases hstep
    refine ⟨?_, ?_, ?_⟩
    · intro x hx
      rcases List.mem_append.mp hx with hx | hx
      · exact hle x hx
      · rw [List.mem_singleton.mp hx]; exact le_of_lt h1
    · intro hn
      refine ⟨(hnone hn).1, ?_⟩
      intro x hx
      rcases List.mem_append.mp hx with hx | hx
      · exact (hnone hn).2 x hx
      · rw [List.mem_singleton.mp hx, ← (hnone hn).1]; exact h1
    · intro m hm
      obtain ⟨hmem, ha, htie⟩ := hsome m hm
      refine ⟨List.mem_append_left _ hmem, ha, ?_⟩
      intro hnum x hx hxa
      rcases List.mem_append.mp hx with hx | hx
      · exact htie (hseen hnum) x hx hxa
      · rw [List.mem_singleton.mp hx] at hxa
        exact absurd hxa (ne_of_lt h1)
  · rw [if_neg h1] at hstep
    by_cases h2 : mode.size.intArea = st.1
    · rw [if_pos h2] at hstep
      cases hb : st.2 with
      | none => rw [hb] at hstep; cases hstep
      | some b =>
        rw [hb] at hstep
        simp only at hstep
        obtain ⟨hmem, ha, htie⟩ := hsome b hb
        by_cases h4 : mode.refreshRate < b.refreshRate
        · rw [if_pos h4] at hstep
          cases hstep
          refine ⟨?_, ?_, ?_⟩
          · intro x hx
            rcases List.mem_append.mp hx with hx | hx
            · exact hle x hx
            · rw [List.mem_singleton.mp hx]; exact le_of_eq h2
          · intro hn; rw [hb] at hn; cases hn
          · intro m hm
            rw [hb] at hm
            cases hm
            refine ⟨List.mem_append_left _ hmem, ha, ?_⟩
            intro hnum x hx hxa
            rcases List.mem_append.mp hx with hx | hx
            · exact htie (hseen hnum) x hx hxa
            · rw [List.mem_singleton.mp hx]; exact CFloat.lt_imp_le h4
        · rw [if_neg h4] at hstep
          have hnew : st' = (st.1, some mode) := by
            by_cases h5 : mode.refreshRate > b.refreshRate
            · rw [if_pos h5] at hstep; cases hstep; rfl
            · rw [if_neg h5] at hstep; cases hstep; rw [h2]
          subst hnew
          refine ⟨?_, ?_, ?_⟩
          · intro x hx
            rcases List.mem_append.mp hx with hx | hx
            · exact hle x hx
            · rw [List.mem_singleton.mp hx]; exact le_of_eq h2
          · intro hn; cases hn
          · intro m hm
            cases hm
            refine ⟨List.mem_append_right _ (List.mem_singleton.mpr rfl), h2, ?_⟩
            intro hnum x hx hxa
            rcases List.mem_append.mp hx with hx | hx
            · exact CFloat.le_chain (htie (hseen hnum) x hx hxa)
                (CFloat.le_of_not_lt (hmode hnum) (hseen hnum b hmem) h4)
            · rw [List.mem_singleton.mp hx]; exact CFloat.le_self (hmode hnum)
    · rw [if_neg h2] at hstep
      cases hstep
      have h3 : st.1 < mode.size.intArea :=
        lt_of_le_of_ne (not_lt.mp h1) (Ne.symm h2)
      refine ⟨?_, ?_, ?_⟩
      · intro x hx
        rcases List.mem_append.mp hx with hx | hx
        · exact le_trans (hle x hx) (le_of_lt h3)
        · rw [List.mem_singleton.mp hx]
      · intro hn; cases hn
      · intro m hm
        cases hm
        refine ⟨List.mem_append_right _ (List.mem_singleton.mpr rfl), rfl, ?_⟩
        intro hnum x hx hxa
        rcases List.mem_append.mp hx with hx | hx
        · exact absurd hxa (ne_of_lt (lt_of_le_of_lt (hle x hx) h3))
        · rw [List.mem_singleton.mp hx]; exact CFloat.le_self (hmode hnum)

theorem biggestModeLoop_inv (modes : List Mode) :
    ∀ (seen : List Mode) (st st' : Int × Option Mode), biggestModeInv seen st →
      biggestModeLoop st modes = some st' → biggestModeInv (seen ++ modes) st' := by
  induction modes with
  | nil =>
    intro seen st st' hinv hrun
    simp only [biggestModeLoop] at hrun
    cases hrun
    rw [List.append_nil]
    exact hinv
  | cons m ms ih =>
    intro seen st st' hinv hrun
    simp only [biggestModeLoop] at hrun
    cases hstep : biggestModeStep st m with
    | none => rw [hstep] at hrun; cases hrun
    | some st1 =>
      rw [hstep] at hrun
      have h := ih (seen ++ [m]) st1 st' (biggestModeStep_inv seen st st1 m hinv hstep) hrun
      rw [List.append_assoc] at h
      exact h

/-- C20: on the non-empty collection whose only mode has size 0x0 `biggestMode` returns no mode
at all, with or without assertions: the area of the mode equals the initial `biggestArea`, and
its refresh rate is compared with the one of the null pointer `biggestMode`.  On the modes
1920x1080 and 65536x32768 it returns 1920x1080, the area of the larger mode being negative as
computed in `int`.  On three modes of size 1920x1080 with the refresh rates 60, NaN and 50 it
returns the mode at 50 Hz: a mode is taken whenever its rate compares neither below nor above
the one held. -/
theorem biggestMode_zero_area :
    [(⟨1, ⟨0, 0⟩, 60⟩ : Mode)] ≠ [] ∧
    biggestMode (samplePlatform (fun _ => true)) [⟨1, ⟨0, 0⟩, 60⟩] = none ∧
    biggestMode (releasePlatform (fun _ => true)) [⟨1, ⟨0, 0⟩, 60⟩] = none ∧
    mode1080.size.area < modeHuge.size.area ∧ modeHuge.size.intArea < 0 ∧
    biggestMode (samplePlatform (fun _ => true)) [mode1080, modeHuge] =
      some (some mode1080) ∧
    biggestMode (samplePlatform (fun _ => true))
        [mode1080, mode1080nan, ⟨10, ⟨1920, 1080⟩, 50⟩] =
      some (some ⟨10, ⟨1920, 1080⟩, 50⟩) ∧
    (⟨10, ⟨1920, 1080⟩, 50⟩ : Mode).refreshRate < mode1080.refreshRate := by
  refine ⟨by decide, by decide, by decide, by decide, by decide, by decide, by decide,
    by decide⟩

/-- The mode that `biggestMode` returns: it is a member of the collection, no mode of the
collection has a larger area as computed in `int`, and, when the refresh rates are numbers, no
mode of the same area has a higher refresh rate; and `biggestMode` does return a mode on every
non-empty collection of modes of positive area as computed in `int`. -/
theorem biggestMode_maximal (env : Platform) (modes : List Mode) :
    (∀ m, biggestMode env modes = some (some m) →
      m ∈ modes ∧ (∀ x ∈ modes, x.size.intArea ≤ m.size.intArea) ∧
      ((∀ x ∈ modes, x.refreshRate.isNum = true) →
        ∀ x ∈ modes, x.size.intArea = m.size.intArea → x.refreshRate ≤ m.refreshRate)) ∧
    (modes ≠ [] → (∀ x ∈ modes, 0 < x.size.intArea) →
      ∃ m, biggestMode env modes = some (some m)) := by
  constructor
  · intro m hm
    unfold biggestMode at hm
    cases hq : qAssert env (!modes.isEmpty) with
    | none => rw [hq] at hm; cases hm
    | some u =>
      rw [hq] at hm
      simp only at hm
      cases hrun : biggestModeLoop (0, none) modes with
      | none => rw [hrun] at hm; cases hm
      | some st =>
        rw [hrun] at hm
        simp only [Option.some.injEq] at hm
        have hinit : biggestModeInv [] (0, none) :=
          ⟨fun x hx => absurd hx (List.not_mem_nil x),
            fun _ => ⟨rfl, fun x hx => absurd hx (List.not_mem_nil x)⟩,
            fun m hm => by cases hm⟩
        have hinv := biggestModeLoop_inv modes [] (0, none) st hinit hrun
        rw [List.nil_append] at hinv
        obtain ⟨hle, _, hsome⟩ := hinv
        obtain ⟨hmem, ha, htie⟩ := hsome m hm
        refine ⟨hmem, ?_, ?_⟩
        · intro x hx; rw [ha]; exact hle x hx
        · intro hnum x hx hxa; rw [ha] at hxa; exact htie hnum x hx hxa
  · intro hne hpos
    obtain ⟨m, _, hm⟩ := biggestMode_exists env modes hne hpos
    exact ⟨m, hm⟩

/-- On the modes 1920x1080 at 60 Hz, 1920x1080 at 144 Hz and 1280x720 at 60 Hz `biggestMode`
returns 1920x1080 at 144 Hz. -/
theorem biggestMode_maximal_witness :
    exampleModes ≠ [] ∧ (∀ x ∈ exampleModes, 0 < x.size.intArea) ∧
    (∀ x ∈ exampleModes, x.refreshRate.isNum = true) ∧
    biggestMode (samplePlatform (fun _ => true)) exampleModes = some (some mode1080at144) ∧
    (mode1080at144 ∈ exampleModes ∧
      (∀ x ∈ exampleModes, x.size.intArea ≤ mode1080at144.size.intArea) ∧
      ∀ x ∈ exampleModes, x.size.intArea = mode1080at144.size.intArea →
        x.refreshRate ≤ mode1080at144.refreshRate) ∧
    ∃ m, biggestMode (samplePlatform (fun _ => true)) exampleModes = some (some m) :=
  ⟨by decide, by decide, by decide, by decide,
    ⟨((biggestMode_maximal (samplePlatform (fun _ => true)) exampleModes).1 mode1080at144
        (by decide)).1,
      ((biggestMode_maximal (samplePlatform (fun _ => true)) exampleModes).1 mode1080at144
        (by decide)).2.1,
      ((biggestMode_maximal (samplePlatform (fun _ => true)) exampleModes).1 mode1080at144
        (by decide)).2.2 (by decide)⟩,
    (biggestMode_maximal (samplePlatform (fun _ => true)) exampleModes).2 (by decide)
      (by decide)⟩

/-! ## The laptop policy degraded to the single-output policy -/

theorem insertKey_removeKey (l : List Int) (k : Int) (hasc : l.Pairwise (fun a b => a < b))
    (hk : k ∈ l) : insertKey (removeKey l k) k = l := by
  induction l with
  | nil => exact absurd hk (List.not_mem_nil k)
  | cons x xs ih =>
    have hlt : ∀ y ∈ xs, x < y := (List.pairwise_cons.mp hasc).1
    have hxs : xs.Pairwise (fun a b => a < b) := (List.pairwise_cons.mp hasc).2
    by_cases hkx : k = x
    · subst hkx
      have hrem : removeKey (k :: xs) k = xs := by
        unfold removeKey
        rw [List.filter_cons]
        simp only [bne_self_eq_false, Bool.false_eq_true, if_false]
        rw [List.filter_eq_self]
        intro y hy
        simp only [bne_iff_ne, ne_eq]
        exact fun h => absurd (hlt y hy) (by rw [h]; exact lt_irrefl _)
      rw [hrem]
      cases xs with
      | nil => rfl
      | cons y ys =>
        simp only [insertKey]
        rw [if_pos (hlt y (List.mem_cons_self _ _))]
    · have hkxs : k ∈ xs := (List.mem_cons.mp hk).resolve_left hkx
      have hxk : x < k := hlt k hkxs
      have hrem : removeKey (x :: xs) k = x :: removeKey xs k := by
        unfold removeKey
        rw [List.filter_cons]
        have : (x != k) = true := by simp only [bne_iff_ne, ne_eq]; exact fun h => hkx h.symm
        rw [this]
        simp only [if_true]
      rw [hrem]
      simp only [insertKey]
      rw [if_neg (not_lt.mpr (le_of_lt hxk)), if_neg hkx, ih hxs hkxs]

/-- The single-output policy can only change the first listed output. -/
theorem singleOutput_frame (env : Platform) (c c' : Config) (ws : List Int)
    (h : singleOutput env c ws = some c') :
    c'.keys = c.keys ∧ ∀ k, ws.head? ≠ some k → c'.output k = c.output k := by
  unfold singleOutput at h
  cases ha : assertOutputs env c ws with
  | none => rw [ha] at h; cases h
  | some u =>
    rw [ha] at h
    simp only at h
    cases ws with
    | nil =>
      simp only at h
      rw [← Option.some.inj h]
      exact ⟨rfl, fun _ _ => rfl⟩
    | cons first rest =>
      simp only at h
      cases ho : c.output first with
      | none => rw [ho] at h; cases h
      | some o =>
        rw [ho] at h
        simp only at h
        have hid : o.id = first := Config.output_id ho
        by_cases hm : o.modes.isEmpty = true
        · rw [if_pos hm] at h
          rw [← Option.some.inj h]
          exact ⟨rfl, fun _ _ => rfl⟩
        · rw [if_neg hm] at h
          rw [← Option.some.inj h]
          refine ⟨Config.keys_setOutput _ _, ?_⟩
          intro k hk
          apply Config.output_setOutput_of_ne
          intro hk'
          apply hk
          have : first = k := hid.symm.trans hk'
          rw [this]
          rfl

/-- On connected outputs the single-output policy depends on the first key of its list only. -/
theorem singleOutput_head (env : Platform) (c : Config) (first : Int) (rest : List Int)
    (hconn : ∀ k ∈ first :: rest, ∃ o, c.output k = some o ∧ o.connected = true) :
    singleOutput env c (first :: rest) = singleOutput env c [first] := by
  unfold singleOutput
  rw [assertOutputs_ok env c (first :: rest) (List.cons_ne_nil _ _) hconn,
    assertOutputs_ok env c [first] (List.cons_ne_nil _ _)
      (fun k hk => hconn k (by rw [List.mem_singleton.mp hk]; exact List.mem_cons_self _ _))]

/-- The single-output policy completes on every non-empty list of connected outputs. -/
theorem singleOutput_exists (env : Platform) (c : Config) (ws : List Int) (hne : ws ≠ [])
    (hconn : ∀ k ∈ ws, ∃ o, c.output k = some o ∧ o.connected = true) :
    ∃ c', singleOutput env c ws = some c' := by
  cases ws with
  | nil => exact absurd rfl hne
  | cons first rest =>
    obtain ⟨o, ho, _⟩ := hconn first (List.mem_cons_self _ _)
    unfold singleOutput
    rw [assertOutputs_ok env c (first :: rest) (List.cons_ne_nil _ _) hconn]
    simp only [ho]
    by_cases hm : o.modes.isEmpty = true
    · rw [if_pos hm]; exact ⟨_, rfl⟩
    · rw [if_neg hm]; exact ⟨_, rfl⟩

/-- The laptop policy on connected outputs of which only the embedded one is left, or whose
embedded output has no modes: the embedded output is inserted again and the single-output policy
runs on the whole list. -/
theorem laptop_degrade (g : Generator) (c : Config) (ws : List Int) (e : Int)
    (hasc : ws.Pairwise (fun x y => x < y))
    (hconn : ∀ k ∈ ws, ∃ o, c.output k = some o ∧ o.connected = true)
    (he : embeddedKey c ws = some e)
    (hdeg : removeKey ws e = [] ∨ c.hasModesAt e = false) :
    laptop g c ws = singleOutput g.env c ws := by
  obtain ⟨hew, first, rest, found, hws, hfound, hget⟩ := embeddedKey_spec he
  have hne : ws ≠ [] := List.ne_nil_of_mem hew
  obtain ⟨oe, hoe, _⟩ := hconn e hew
  have hide : oe.id = e := Config.output_id hoe
  have hcond : (removeKey ws e).isEmpty = true ∨ oe.modes.isEmpty = true := by
    rcases hdeg with h | h
    · exact Or.inl (by rw [h]; rfl)
    · unfold Config.hasModesAt at h
      rw [hoe] at h
      simp only [Bool.not_eq_false_eq_eq_true] at h
      exact Or.inr h
  unfold laptop
  rw [assertOutputs_ok g.env c ws hne hconn]
  subst hws
  simp only [hfound, hget, hoe, hide]
  rw [if_pos hcond, insertKey_removeKey _ e hasc hew]

/-- Counterexample to C19 as stated: the panel has no modes and the higher key; the laptop policy
enables the external screen as the primary output at the origin, while the single-output policy
on the panel alone changes nothing. -/
theorem laptop_modeless_panel_enables_external :
    embeddedKey modelessPanelSecond [1, 2] = some 2 ∧
    modelessPanelSecond.hasModesAt 2 = false ∧
    (laptop (sampleGenerator true false false modelessPanelSecond (fun _ => true))
      modelessPanelSecond [1, 2]).map
        (fun c => c.outputs.map (fun o => (o.id, o.enabled, o.primary, o.pos))) =
      some [(1, true, true, ⟨0, 0⟩), (2, false, false, ⟨0, 0⟩)] ∧
    (singleOutput (samplePlatform (fun _ => true)) modelessPanelSecond [2]).map
        (fun c => c.outputs.map (fun o => (o.id, o.enabled, o.primary, o.pos))) =
      some [(1, false, false, ⟨0, 0⟩), (2, false, false, ⟨0, 0⟩)] := by
  refine ⟨by decide, by decide, by decide, by decide⟩

/-- C19 (amended): in the laptop policy, when no output other than the embedded one is connected,
or when the embedded output has an empty mode list, the result is the one of the single-output
policy on all connected outputs: it completes and changes no output other than the connected
output with the lowest key.  It is the result of the single-output policy on the embedded output
alone when no other output is connected or the embedded output has the lowest key. -/
theorem laptop_degrades_to_singleOutput (g : Generator) (c : Config) (ws : List Int) (e : Int)
    (hasc : ws.Pairwise (fun x y => x < y))
    (hconn : ∀ k ∈ ws, ∃ o, c.output k = some o ∧ o.connected = true)
    (he : embeddedKey c ws = some e)
    (hdeg : removeKey ws e = [] ∨ c.hasModesAt e = false) :
    laptop g c ws = singleOutput g.env c ws ∧
    (removeKey ws e = [] ∨ ws.head? = some e → laptop g c ws = singleOutput g.env c [e]) ∧
    ∃ c', laptop g c ws = some c' ∧ c'.keys = c.keys ∧
      ∀ k, ws.head? ≠ some k → c'.output k = c.output k := by
  have hlap := laptop_degrade g c ws e hasc hconn he hdeg
  have hew : e ∈ ws := (embeddedKey_spec he).1
  have hne : ws ≠ [] := List.ne_nil_of_mem hew
  refine ⟨hlap, ?_, ?_⟩
  · intro hcase
    have hhead : ws.head? = some e := by
      rcases hcase with h | h
      · cases ws with
        | nil => exact absurd rfl hne
        | cons x xs =>
          by_cases hxe : x = e
          · rw [hxe]; rfl
          · have : x ∈ removeKey (x :: xs) e := mem_removeKey.mpr ⟨List.mem_cons_self _ _, hxe⟩
            rw [h] at this
            exact absurd this (List.not_mem_nil x)
      · exact h
    cases ws with
    | nil => exact absurd rfl hne
    | cons x xs =>
      have hxe : x = e := Option.some.inj hhead
      rw [hlap, ← hxe]
      exact singleOutput_head g.env c x xs hconn
  · obtain ⟨c', hc'⟩ := singleOutput_exists g.env c ws hne hconn
    obtain ⟨hk, hout⟩ := singleOutput_frame g.env c c' ws hc'
    exact ⟨c', by rw [hlap]; exact hc', hk, hout⟩

/-- Witness of C19: an external screen under key 1 and a panel without modes under key 2; the
laptop policy is the single-output policy on both and leaves the panel as it was. -/
theorem laptop_degrades_to_singleOutput_witness :
    [(1 : Int), 2].Pairwise (fun x y => x < y) ∧
    (∀ k ∈ [(1 : Int), 2], ∃ o, modelessPanelSecond.output k = some o ∧ o.connected = true) ∧
    embeddedKey modelessPanelSecond [1, 2] = some 2 ∧
    (removeKey [1, 2] 2 = [] ∨ modelessPanelSecond.hasModesAt 2 = false) ∧
    (laptop (sampleGenerator true false false modelessPanelSecond (fun _ => true))
        modelessPanelSecond [1, 2] =
      singleOutput (sampleGenerator true false false modelessPanelSecond (fun _ => true)).env
        modelessPanelSecond [1, 2] ∧
    (removeKey [1, 2] 2 = [] ∨ [(1 : Int), 2].head? = some 2 →
      laptop (sampleGenerator true false false modelessPanelSecond (fun _ => true))
        modelessPanelSecond [1, 2] =
      singleOutput (sampleGenerator true false false modelessPanelSecond (fun _ => true)).env
        modelessPanelSecond [2]) ∧
    ∃ c', laptop (sampleGenerator true false false modelessPanelSecond (fun _ => true))
        modelessPanelSecond [1, 2] = some c' ∧ c'.keys = modelessPanelSecond.keys ∧
      ∀ k, [(1 : Int), 2].head? ≠ some k → c'.output k = modelessPanelSecond.output k) :=
  ⟨by decide, by decide, by decide, Or.inr (by decide),
    laptop_degrades_to_singleOutput
      (sampleGenerator true false false modelessPanelSecond (fun _ => true))
      modelessPanelSecond [1, 2] 2 (by decide) (by decide) (by decide) (Or.inr (by decide))⟩

/-! ## Outputs outside the list of connected outputs -/

/-- The laptop policy changes no output outside its list. -/
theorem laptop_frame (g : Generator) (c c' : Config) (ws : List Int)
    (hasc : ws.Pairwise (fun x y => x < y))
    (hconn : ∀ k ∈ ws, ∃ o, c.output k = some o ∧ o.connected = true)
    (hrun : laptop g c ws = some c') :
    c'.keys = c.keys ∧ ∀ k, k ∉ ws → c'.output k = c.output k := by
  by_cases hne : ws = []
  · subst hne
    unfold laptop at hrun
    cases ha : assertOutputs g.env c [] with
    | none => rw [ha] at hrun; cases hrun
    | some u =>
      rw [ha] at hrun
      simp only at hrun
      rw [← Option.some.inj hrun]
      exact ⟨rfl, fun _ _ => rfl⟩
  · have hkeys : ∀ k ∈ ws, k ∈ c.keys := fun k hk => by
      obtain ⟨o, ho, _⟩ := hconn k hk
      exact (c.output_isSome_iff k).mp (by rw [ho]; rfl)
    obtain ⟨e, he⟩ := embeddedKey_total c ws hne hkeys
    have hew : e ∈ ws := (embeddedKey_spec he).1
    obtain ⟨oe, hoe, _⟩ := hconn e hew
    have hide : oe.id = e := Config.output_id hoe
    by_cases hdeg : removeKey ws e = [] ∨ oe.modes = []
    · have hdeg' : removeKey ws e = [] ∨ c.hasModesAt e = false := by
        rcases hdeg with h | h
        · exact Or.inl h
        · refine Or.inr ?_
          unfold Config.hasModesAt
          rw [hoe]
          simp only [h, List.isEmpty_nil, Bool.not_true]
      rw [laptop_degrade g c ws e hasc hconn he hdeg'] at hrun
      obtain ⟨hk, hout⟩ := singleOutput_frame g.env c c' ws hrun
      refine ⟨hk, fun k hkw => hout k ?_⟩
      intro hh
      exact hkw (List.mem_of_mem_head? hh)
    · have hrne : removeKey ws e ≠ [] := fun h => hdeg (Or.inl h)
      have hme : oe.modes ≠ [] := fun h => hdeg (Or.inr h)
      have hrasc := removeKey_ascending e hasc
      let od : Output := (oe.setEnabled false).setPrimary false
      have hidd : od.id = e := hide
      have hc2 : ∀ k, k ≠ e → (c.setOutput od).output k = c.output k := fun k hk =>
        Config.output_setOutput_of_ne (by rw [hidd]; exact fun h => hk h.symm)
      cases hlid : isLidClosed g with
      | true =>
        by_cases h1 : (removeKey ws e).length = 1
        · obtain ⟨x, hx⟩ := List.length_eq_one.mp h1
          have hxr : x ∈ removeKey ws e := by rw [hx]; exact List.mem_singleton_self x
          have hxw : x ∈ ws := (mem_removeKey.mp hxr).1
          obtain ⟨ox, hox, _⟩ := hconn x hxw
          have hidx : ox.placedPrimary.id = x := (Config.output_id hox : ox.id = x)
          have hrun' := laptop_lidClosed_single g c ws e x oe ox hconn he hx hoe hox hme hlid
          rw [hrun] at hrun'
          by_cases hmx : ox.modes.isEmpty = true
          · rw [if_pos hmx] at hrun'
            rw [Option.some.inj hrun']
            exact ⟨Config.keys_setOutput _ _, fun k hk => hc2 k (fun h => hk (h ▸ hew))⟩
          · rw [if_neg hmx] at hrun'
            rw [Option.some.inj hrun']
            refine ⟨by rw [Config.keys_setOutput, Config.keys_setOutput], ?_⟩
            intro k hk
            rw [Config.output_setOutput_of_ne (by rw [hidx]; exact fun h => hk (h ▸ hxw)),
              hc2 k (fun h => hk (h ▸ hew))]
        · have hgt : (removeKey ws e).length > 1 := by
            have : (removeKey ws e).length ≠ 0 := fun h => hrne (List.length_eq_zero.mp h)
            omega
          have hrun' := laptop_lidClosed_many g c ws e oe hconn he hgt hoe hme hlid
          rw [hrun] at hrun'
          obtain ⟨hk, hout, _⟩ :=
            extendToRight_primary g.env (c.setOutput od) c' (removeKey ws e) hrne hrasc
              (fun k hk => by
                rw [hc2 k (mem_removeKey.mp hk).2]; exact hconn k (mem_removeKey.mp hk).1)
              hrun'.symm
          refine ⟨by rw [hk, Config.keys_setOutput], ?_⟩
          intro k hk'
          rw [hout k (fun h => hk' (mem_removeKey.mp h).1), hc2 k (fun h => hk' (h ▸ hew))]
      | false =>
        obtain ⟨b, hb⟩ := laptop_lidOpen_inv g c c' ws e oe hconn he hoe hme hrne hlid hrun
        have hbr := biggestOutput_mem g.env c _ b hb
        have hbw : b ∈ ws := (mem_removeKey.mp hbr).1
        obtain ⟨ob, hob, _⟩ := hconn b hbw
        obtain ⟨c'', hrun', hk, _, _, _, _, _, hout⟩ :=
          laptop_lidOpen_spec g c ws e b oe ob hasc hconn he hoe hob hme hlid hb
        have : c'' = c' := by rw [hrun] at hrun'; exact (Option.some.inj hrun').symm
        subst this
        exact ⟨hk, hout⟩

/-- The configuration computed before the fallback ladder keeps every output that is not
connected as `disableAllDisconnectedOutputs` left it. -/
theorem scenarioConfig_frame (g : Generator) (cur cfg : Config) (hwf : cur.WF)
    (hs : scenarioConfig g cur = some cfg) :
    cfg.keys = cur.keys ∧
    ∀ k, k ∉ cur.connectedOutputs →
      cfg.output k = (disableAllDisconnectedOutputs cur).output k := by
  have hasc := Config.connectedOutputs_ascending hwf
  have hnd := nodup_of_ascending hasc
  unfold scenarioConfig at hs
  simp only [disableAll_connectedOutputs] at hs
  by_cases hemp : cur.connectedOutputs.isEmpty = true
  · rw [if_pos hemp] at hs
    rw [← Option.some.inj hs]
    exact ⟨disableAll_keys cur, fun _ _ => rfl⟩
  · rw [if_neg hemp] at hs
    have hne : cur.connectedOutputs ≠ [] := fun h => hemp (by rw [h]; rfl)
    cases hinit : initializeOutputs g.env (disableAllDisconnectedOutputs cur).perOutputScaling
        (disableAllDisconnectedOutputs cur) cur.connectedOutputs with
    | none => rw [hinit] at hs; exact absurd hs (by simp)
    | some c1 =>
      rw [hinit] at hs
      simp only at hs
      obtain ⟨hk1, hout1, hin1⟩ := initializeOutputs_partial g.env _ _ _ c1 hnd hinit
      have hconn1 : ∀ k ∈ cur.connectedOutputs, ∃ o', c1.output k = some o' ∧
          o'.connected = true := by
        intro k hk
        obtain ⟨o, ho, hc⟩ := (Config.connectedOutputs_spec hwf k).mp hk
        have hc0 : (disableAllDisconnectedOutputs cur).output k = some o := by
          rw [disableAll_output, ho]; simp [hc]
        obtain ⟨o', hi, ho'⟩ := hin1 k hk o hc0
        obtain ⟨_, hconn', _⟩ := initializeOutput_preserves hi
        exact ⟨o', ho', by rw [hconn']; exact hc⟩
      have hpolicy : cfg.keys = c1.keys ∧
          ∀ k, k ∉ cur.connectedOutputs → cfg.output k = c1.output k := by
        by_cases h1 : cur.connectedOutputs.length = 1
        · rw [if_pos h1] at hs
          obtain ⟨hk, hout⟩ := singleOutput_frame g.env c1 cfg _ hs
          exact ⟨hk, fun k hkw => hout k (fun hh => hkw (List.mem_of_mem_head? hh))⟩
        · rw [if_neg h1] at hs
          by_cases hlap : isLaptop g = true
          · rw [if_pos hlap] at hs
            exact laptop_frame g c1 cfg _ hasc hconn1 hs
          · rw [if_neg hlap] at hs
            obtain ⟨hk, hout, _⟩ := extendToRight_primary g.env c1 cfg _ hne hasc hconn1 hs
            exact ⟨hk, hout⟩
      refine ⟨by rw [hpolicy.1, hk1, disableAll_keys], ?_⟩
      intro k hk
      rw [hpolicy.2 k hk, hout1 k hk]

/-- The fallback ladder changes no output that is not connected. -/
theorem fallbackIfNeeded_frame (g : Generator) (cfg : Config) (r : Config × Generator)
    (hwf : cfg.WF) (h : fallbackIfNeeded g cfg = some r) :
    r.1.keys = cfg.keys ∧ ∀ k, k ∉ cfg.connectedOutputs → r.1.output k = cfg.output k := by
  by_cases hcase : isLaptop g = true ∨ g.env.canBeApplied cfg = true
  · rw [fallbackIfNeeded_fst g cfg r h hcase]
    exact ⟨rfl, fun _ _ => rfl⟩
  · have hlap : isLaptop g = false := by
      cases hl : isLaptop g with
      | true => exact absurd (Or.inl hl) hcase
      | false => rfl
    have hna : g.env.canBeApplied cfg = false := by
      cases ha : g.env.canBeApplied cfg with
      | true => exact absurd (Or.inr ha) hcase
      | false => rfl
    cases hws : cfg.connectedOutputs with
    | nil =>
      unfold fallbackIfNeeded at h
      simp [hna, hlap, hws] at h
      rw [← h]
      exact ⟨rfl, fun _ _ => rfl⟩
    | cons first rest =>
      have hfm : first ∈ cfg.connectedOutputs := by rw [hws]; exact List.mem_cons_self _ _
      obtain ⟨f, hf, _⟩ := (Config.connectedOutputs_spec hwf first).mp hfm
      have hidf : (f.setPrimary true).id = first := (Config.output_id hf : f.id = first)
      rw [fallbackIfNeeded_not_laptop g cfg first rest f hlap hna hws hf] at h
      cases hcl : cloneScreens g (cfg.setOutput (f.setPrimary true)) (first :: rest) with
      | none => rw [hcl] at h; exact absurd h (by simp)
      | some c2 =>
        rw [hcl] at h
        simp only [Option.map_some', Option.some.injEq] at h
        have hnd : (first :: rest).Nodup := by
          rw [← hws]; exact nodup_of_ascending (Config.connectedOutputs_ascending hwf)
        obtain ⟨hk, hout, _⟩ := cloneScreens_partial g _ c2 (first :: rest) hnd hcl
        rw [← h]
        refine ⟨by rw [hk, Config.keys_setOutput], ?_⟩
        intro k hkw
        rw [hout k hkw]
        exact Config.output_setOutput_of_ne
          (by rw [hidf]; exact fun hh => hkw (hh ▸ List.mem_cons_self _ _))

/-- Every output that is disconnected in the input of `idealConfig` is, in every configuration
returned, the record that `disableAllDisconnectedOutputs` left. -/
theorem idealConfig_frame (g : Generator) (cur : Config) (r : Config × Generator)
    (hwf : cur.WF) (hrun : idealConfig g cur = some r) (o : Output) (ho : o ∈ cur.outputs)
    (hd : o.connected = false) : r.1.output o.id = some o.disabled := by
  have hout : cur.output o.id = some o := Config.output_of_mem hwf ho
  have hnc : o.id ∉ cur.connectedOutputs := by
    intro hk
    obtain ⟨o2, ho2, hc2⟩ := (Config.connectedOutputs_spec hwf o.id).mp hk
    rw [hout] at ho2
    rw [← Option.some.inj ho2, hd] at hc2
    exact absurd hc2 (by simp)
  have hdis : (disableAllDisconnectedOutputs cur).output o.id = some o.disabled := by
    rw [disableAll_output, hout]
    simp [hd]
  rw [idealConfig_eq] at hrun
  cases hs : scenarioConfig g cur with
  | none => rw [hs] at hrun; exact absurd hrun (by simp)
  | some cfg =>
    rw [hs] at hrun
    simp only at hrun
    obtain ⟨hk, hframe⟩ := scenarioConfig_frame g cur cfg hwf hs
    have hcfg : cfg.output o.id = some o.disabled := by rw [hframe o.id hnc]; exact hdis
    by_cases hle : cur.connectedOutputs.length ≤ 1
    · rw [if_pos hle] at hrun
      rw [← Option.some.inj hrun]; exact hcfg
    · rw [if_neg hle] at hrun
      have hwf2 : cfg.WF := by unfold Config.WF at *; rw [hk]; exact hwf
      have hnc2 : o.id ∉ cfg.connectedOutputs := by
        intro hk2
        obtain ⟨o2, ho2, hc2⟩ := (Config.connectedOutputs_spec hwf2 o.id).mp hk2
        rw [hcfg] at ho2
        rw [← Option.some.inj ho2] at hc2
        have : o.disabled.connected = o.connected := rfl
        rw [this, hd] at hc2
        exact absurd hc2 (by simp)
      rw [(fallbackIfNeeded_frame g cfg r hwf2 hrun).2 o.id hnc2]
      exact hcfg

/-- A configuration is returned by `idealConfig` when the mode data of the connected outputs are
valid and the applicability check accepts the configuration computed. -/
theorem idealConfig_exists_applicable (g : Generator) (cur : Config) (hwf : cur.WF)
    (hval : ∀ o ∈ cur.outputs, o.connected = true → o.modesValid = true)
    (happ : ∀ cfg, scenarioConfig g cur = some cfg → g.env.canBeApplied cfg = true) :
    ∃ r, idealConfig g cur = some r := by
  by_cases hne : cur.connectedOutputs = []
  · unfold idealConfig
    simp only [disableAll_connectedOutputs, hne, List.isEmpty_nil, if_true]
    exact ⟨_, rfl⟩
  · by_cases h1 : cur.connectedOutputs.length = 1
    · obtain ⟨k, hk⟩ := List.length_eq_one.mp h1
      have hkm : k ∈ cur.connectedOutputs := by rw [hk]; exact List.mem_singleton_self k
      obtain ⟨o, ho, hc⟩ := (Config.connectedOutputs_spec hwf k).mp hkm
      have hv := hval o (Config.output_mem ho) hc
      obtain ⟨o', hinit⟩ := initializeOutput_exists g.env cur.perOutputScaling o hv
      exact ⟨_, (idealConfig_single g cur k o o' hwf hk ho
        ((o.modesValid_iff).mp hv).1 hinit).1⟩
    · have hlen : 2 ≤ cur.connectedOutputs.length := by
        have : cur.connectedOutputs.length ≠ 0 := fun h => hne (List.length_eq_zero.mp h)
        omega
      obtain ⟨cfg, hcfg, _⟩ := scenarioConfig_single_primary g cur hwf hlen hval
      have h2 : ¬ cur.connectedOutputs.length ≤ 1 := by omega
      refine ⟨(cfg, g), ?_⟩
      rw [idealConfig_eq, hcfg]
      simp only [h2, if_false]
      exact fallbackIfNeeded_applicable g cfg (happ cfg hcfg)

/-- C17: every output that is disconnected in the input configuration is disabled and not
primary in every configuration that `idealConfig` returns, whatever the posture and the
applicability check; and `idealConfig` does return a configuration when the mode data of the
connected outputs are valid and the applicability check accepts the configuration computed. -/
theorem idealConfig_disconnected_disabled (g : Generator) (cur : Config) (hwf : cur.WF) :
    (∀ r, idealConfig g cur = some r → ∀ o ∈ cur.outputs, o.connected = false →
      ∃ o', r.1.output o.id = some o' ∧ o'.enabled = false ∧ o'.primary = false ∧
        o' = o.disabled) ∧
    ((∀ o ∈ cur.outputs, o.connected = true → o.modesValid = true) →
      (∀ cfg, scenarioConfig g cur = some cfg → g.env.canBeApplied cfg = true) →
      ∃ r, idealConfig g cur = some r) :=
  ⟨fun r hr o ho hd => ⟨o.disabled, idealConfig_frame g cur r hwf hr o ho hd, rfl, rfl, rfl⟩,
    idealConfig_exists_applicable g cur hwf⟩

/-- Witness of C17: a connected screen and a disconnected output that is still enabled and
primary; the configuration returned has the disconnected output disabled and not primary. -/
theorem idealConfig_disconnected_disabled_witness :
    withUnpluggedScreen.WF ∧
    (withUnpluggedScreen.output 2).map (fun o => (o.connected, o.enabled, o.primary)) =
      some (false, true, true) ∧
    (∀ o ∈ withUnpluggedScreen.outputs, o.connected = true → o.modesValid = true) ∧
    (∃ r, idealConfig (sampleGenerator false false false withUnpluggedScreen (fun _ => true))
      withUnpluggedScreen = some r) ∧
    (∀ r, idealConfig (sampleGenerator false false false withUnpluggedScreen (fun _ => true))
        withUnpluggedScreen = some r →
      ∀ o ∈ withUnpluggedScreen.outputs, o.connected = false →
        ∃ o', r.1.output o.id = some o' ∧ o'.enabled = false ∧ o'.primary = false ∧
          o' = o.disabled) ∧
    (idealConfig (sampleGenerator false false false withUnpluggedScreen (fun _ => true))
      withUnpluggedScreen).map (fun r => r.1.outputs.map
        (fun o => (o.id, o.connected, o.enabled, o.primary))) =
      some [(1, true, true, true), (2, false, false, false)] :=
  ⟨by decide, by decide, by decide,
    (idealConfig_disconnected_disabled
      (sampleGenerator false false false withUnpluggedScreen (fun _ => true))
      withUnpluggedScreen (by decide)).2 (by decide) (fun _ _ => rfl),
    (idealConfig_disconnected_disabled
      (sampleGenerator false false false withUnpluggedScreen (fun _ => true))
      withUnpluggedScreen (by decide)).1,
    by decide⟩

/-! ## The display switch on two connected outputs -/

theorem initializeOutput_type {env : Platform} {features : Bool} {o o' : Output}
    (h : initializeOutput env features o = some o') : o'.type = o.type := by
  obtain ⟨m, r, s, rfl⟩ := initializeOutput_shape h; rfl

/-- The function `embeddedOutput` depends on the types of the listed outputs only. -/
theorem embeddedOutput_congr (c c' : Config) (ks : List Int)
    (h : ∀ k ∈ ks, (c'.output k).map (fun o => o.type) = (c.output k).map (fun o => o.type)) :
    embeddedOutput c' ks = embeddedOutput c ks := by
  induction ks with
  | nil => rfl
  | cons k ks ih =>
    have hk := h k (List.mem_cons_self _ _)
    have ih' := ih (fun x hx => h x (List.mem_cons_of_mem _ hx))
    simp only [embeddedOutput]
    cases ho : c.output k with
    | none =>
      cases ho' : c'.output k with
      | none => rfl
      | some o' => rw [ho, ho'] at hk; cases hk
    | some o =>
      cases ho' : c'.output k with
      | none => rw [ho, ho'] at hk; cases hk
      | some o' =>
        rw [ho, ho'] at hk
        have ht : o'.type = o.type := Option.some.inj hk
        simp only [ht, ih']

theorem embeddedKey_congr (c c' : Config) (ws : List Int)
    (h : ∀ k ∈ ws, (c'.output k).map (fun o => o.type) = (c.output k).map (fun o => o.type)) :
    embeddedKey c' ws = embeddedKey c ws := by
  unfold embeddedKey
  rw [embeddedOutput_congr c c' ws h]

/-- After `initializeOutput` an output with valid mode data has a current mode. -/
theorem initializeOutput_currentMode {env : Platform} {features : Bool} {o o' : Output}
    (hv : o.modesValid = true) (h : initializeOutput env features o = some o') :
    o'.currentMode.isSome = true := by
  obtain ⟨best, hbm, hbest⟩ := bestModeForOutput_exists env o hv
  obtain ⟨_, _, _, hglob⟩ := (o.modesValid_iff).mp hv
  have hcur : ∃ m, o.modes.find? (fun x => x.id == o.global.modeId.getD best.id) = some m := by
    apply find?_modeId_isSome
    cases hg : o.global.modeId with
    | none => exact ⟨best, hbm, rfl⟩
    | some id => exact hglob id hg
  obtain ⟨m, hm⟩ := hcur
  unfold initializeOutput at h
  simp only [hbest] at h
  cases features with
  | false =>
    simp only [Bool.false_eq_true, if_false] at h
    rw [← Option.some.inj h]
    show (o.modes.find? (fun x => x.id == o.global.modeId.getD best.id)).isSome = true
    rw [hm]; rfl
  | true =>
    simp only [if_true] at h
    split at h
    · exact absurd h (by simp)
    · rw [← Option.some.inj h]
      show (o.modes.find? (fun x => x.id == o.global.modeId.getD best.id)).isSome = true
      rw [hm]; rfl

/-- The four layouts of `displaySwitch` on two connected outputs with modes and current modes:
`c1` is the current configuration after initialization, `oe` its embedded output and `ox` the
other connected output. -/
theorem displaySwitch_two (g : Generator) (c1 : Config) (a b e x : Int) (rest : List Int)
    (oe ox : Output)
    (hws : g.m_currentConfig.connectedOutputs = [a, b])
    (hinit : initializeOutputs g.env g.m_currentConfig.perOutputScaling g.m_currentConfig
      [a, b] = some c1)
    (he : embeddedKey c1 [a, b] = some e) (hx : removeKey [a, b] e = x :: rest)
    (hoe : c1.output e = some oe) (hox : c1.output x = some ox)
    (hme : oe.modes ≠ []) (hmx : ox.modes ≠ [])
    (hq1 : qAssert g.env oe.currentMode.isSome = some ())
    (hq2 : qAssert g.env ox.currentMode.isSome = some ()) :
    displaySwitch g DisplaySwitchAction.ExtendToLeft =
      some { g with m_currentConfig :=
        ((c1.setOutput ((ox.setPos ⟨0, 0⟩).setEnabled true)).setOutput
          (((oe.setPos ⟨(((ox.setPos ⟨0, 0⟩).setEnabled true).geometry g.env).width,
            0⟩).setEnabled true).setPrimary true)) } ∧
    displaySwitch g DisplaySwitchAction.TurnOffEmbedded =
      some { g with m_currentConfig :=
        ((c1.setOutput ((oe.setEnabled false).setPrimary false)).setOutput
          ((ox.setEnabled true).setPrimary true)) } ∧
    displaySwitch g DisplaySwitchAction.TurnOffExternal =
      some { g with m_currentConfig :=
        ((c1.setOutput (((oe.setPos ⟨0, 0⟩).setEnabled true).setPrimary true)).setOutput
          ((ox.setEnabled false).setPrimary false)) } ∧
    displaySwitch g DisplaySwitchAction.ExtendToRight =
      some { g with m_currentConfig :=
        ((c1.setOutput (((oe.setPos ⟨0, 0⟩).setEnabled true).setPrimary true)).setOutput
          (((ox.setPos ⟨((((oe.setPos ⟨0, 0⟩).setEnabled true).setPrimary true).geometry
            g.env).width, 0⟩).setEnabled true).setPrimary false)) } := by
  obtain ⟨_, first, rest', found, hfr, hfound, hget⟩ := embeddedKey_spec he
  have hfirst : first = a := (List.cons.inj hfr).1.symm
  subst hfirst
  have hide : oe.id = e := Config.output_id hoe
  have hq3 : qAssert g.env
      (((oe.setPos ⟨0, 0⟩).setEnabled true).setPrimary true).currentMode.isSome = some () := hq1
  have hl1 : ¬ ([first, b].length < 2) := by simp
  have hl2 : ¬ ([first, b].length > 2) := by simp
  refine ⟨?_, ?_, ?_, ?_⟩ <;>
  · unfold displaySwitch
    simp only [hws, hinit, hl1, hl2, if_false, hfound, hget, hoe, hide, hx, hox,
      isEmpty_eq_false_of_ne hme, isEmpty_eq_false_of_ne hmx, Bool.false_eq_true, hq1, hq2, hq3,
      reduceCtorEq]

/-- On two connected outputs a failed assertion on a current mode leaves every action other than
`Clone` without result. -/
theorem displaySwitch_two_assert (g : Generator) (c1 : Config) (a b e x : Int)
    (rest : List Int) (oe ox : Output) (action : DisplaySwitchAction)
    (hws : g.m_currentConfig.connectedOutputs = [a, b])
    (hinit : initializeOutputs g.env g.m_currentConfig.perOutputScaling g.m_currentConfig
      [a, b] = some c1)
    (he : embeddedKey c1 [a, b] = some e) (hx : removeKey [a, b] e = x :: rest)
    (hoe : c1.output e = some oe) (hox : c1.output x = some ox)
    (hme : oe.modes ≠ []) (hmx : ox.modes ≠ [])
    (hact : action ≠ DisplaySwitchAction.Clone)
    (hq : qAssert g.env oe.currentMode.isSome = none ∨
      qAssert g.env ox.currentMode.isSome = none) :
    displaySwitch g action = none := by
  obtain ⟨_, first, rest', found, hfr, hfound, hget⟩ := embeddedKey_spec he
  have hfirst : first = a := (List.cons.inj hfr).1.symm
  subst hfirst
  have hide : oe.id = e := Config.output_id hoe
  have hl1 : ¬ ([first, b].length < 2) := by simp
  have hl2 : ¬ ([first, b].length > 2) := by simp
  unfold displaySwitch
  simp only [hws, hinit, hl1, hl2, if_false, hfound, hget, hoe, hide, hx, hox,
    isEmpty_eq_false_of_ne hme, isEmpty_eq_false_of_ne hmx, Bool.false_eq_true, hact]
  cases h1 : qAssert g.env oe.currentMode.isSome with
  | none => cases h2 : qAssert g.env ox.currentMode.isSome <;> rfl
  | some u =>
    cases h2 : qAssert g.env ox.currentMode.isSome with
    | none => rfl
    | some v =>
      rcases hq with h | h
      · rw [h1] at h; cases h
      · rw [h2] at h; cases h

/-- The action `Clone` of `displaySwitch` on two connected outputs: the embedded output is made
primary and the clone policy runs on both. -/
theorem displaySwitch_clone_two (g : Generator) (c1 : Config) (a b e : Int) (oe : Output)
    (hws : g.m_currentConfig.connectedOutputs = [a, b])
    (hinit : initializeOutputs g.env g.m_currentConfig.perOutputScaling g.m_currentConfig
      [a, b] = some c1)
    (he : embeddedKey c1 [a, b] = some e) (hoe : c1.output e = some oe) (hme : oe.modes ≠ []) :
    displaySwitch g DisplaySwitchAction.Clone =
      (cloneScreens g (c1.setOutput (oe.setPrimary true)) [a, b]).map
        (fun c => { g with m_currentConfig := c }) := by
  obtain ⟨_, first, rest', found, hfr, hfound, hget⟩ := embeddedKey_spec he
  have hfirst : first = a := (List.cons.inj hfr).1.symm
  subst hfirst
  have hl1 : ¬ ([first, b].length < 2) := by simp
  have hl2 : ¬ ([first, b].length > 2) := by simp
  unfold displaySwitch
  simp only [hws, hinit, hl1, hl2, if_false, hfound, hget, hoe,
    isEmpty_eq_false_of_ne hme, Bool.false_eq_true, if_true]
  cases cloneScreens g (c1.setOutput (oe.setPrimary true)) [first, b] <;> rfl

/-- When the initialization of the connected outputs fails, `displaySwitch` has no result. -/
theorem displaySwitch_init_none (g : Generator) (action : DisplaySwitchAction)
    (hinit : initializeOutputs g.env g.m_currentConfig.perOutputScaling g.m_currentConfig
      g.m_currentConfig.connectedOutputs = none) :
    displaySwitch g action = none := by
  unfold displaySwitch
  simp only [hinit]

/-- Removing one key of a list of two ascending keys leaves the other one. -/
theorem removeKey_pair (a b e : Int) (hab : a < b) (he : e ∈ [a, b]) :
    ∃ x, removeKey [a, b] e = [x] ∧ x ∈ [a, b] ∧ x ≠ e ∧ ∀ k ∈ [a, b], k = e ∨ k = x := by
  have hne : a ≠ b := ne_of_lt hab
  rcases List.mem_cons.mp he with h | h
  · subst h
    refine ⟨b, ?_, by simp, fun h => hne h.symm, ?_⟩
    · unfold removeKey
      have hne' : ¬ b = e := fun h => hne h.symm
      simp [List.filter_cons, hne']
    · intro k hk
      simpa using hk
  · have h' : e = b := List.mem_singleton.mp h
    subst h'
    refine ⟨a, ?_, by simp, hne, ?_⟩
    · unfold removeKey
      simp [List.filter_cons, hne]
    · intro k hk
      rcases List.mem_cons.mp hk with h1 | h1
      · exact Or.inr h1
      · exact Or.inl (List.mem_singleton.mp h1)

/-- Writing back two outputs stored under different keys. -/
theorem Config.output_setOutput_pair (c : Config) (p q : Int) (op oq op' oq' : Output)
    (hp : c.output p = some op) (hq : c.output q = some oq) (hpq : p ≠ q)
    (hidp : op'.id = p) (hidq : oq'.id = q) :
    ((c.setOutput op').setOutput oq').keys = c.keys ∧
    ((c.setOutput op').setOutput oq').output p = some op' ∧
    ((c.setOutput op').setOutput oq').output q = some oq' ∧
    ∀ k, k ≠ p → k ≠ q → ((c.setOutput op').setOutput oq').output k = c.output k := by
  have h1 : (c.setOutput op').output p = some op' := by
    have h := Config.output_setOutput_self c op op' (by rw [hidp]; exact hp)
    rw [hidp] at h; exact h
  have h2 : (c.setOutput op').output q = some oq := by
    rw [Config.output_setOutput_of_ne (by rw [hidp]; exact hpq)]; exact hq
  refine ⟨by rw [Config.keys_setOutput, Config.keys_setOutput], ?_, ?_, ?_⟩
  · rw [Config.output_setOutput_of_ne (by rw [hidq]; exact fun h => hpq h.symm)]; exact h1
  · have h := Config.output_setOutput_self (c.setOutput op') oq oq' (by rw [hidq]; exact h2)
    rw [hidq] at h; exact h
  · intro k hkp hkq
    rw [Config.output_setOutput_of_ne (by rw [hidq]; exact fun h => hkq h.symm),
      Config.output_setOutput_of_ne (by rw [hidp]; exact fun h => hkp h.symm)]

/-- The state in which `displaySwitch` finds two connected outputs with modes once it has
initialized them: the embedded output `oe` under key `e` and the other output `ox` under key
`x`, each the initialized record of a connected output of the current configuration. -/
theorem displaySwitch_setup (g : Generator) (c1 : Config) (e : Int)
    (hwf : g.m_currentConfig.WF) (hlen : g.m_currentConfig.connectedOutputs.length = 2)
    (hmodes : ∀ o ∈ g.m_currentConfig.outputs, o.connected = true → o.modes ≠ [])
    (he : embeddedKey g.m_currentConfig g.m_currentConfig.connectedOutputs = some e)
    (hinit : initializeOutputs g.env g.m_currentConfig.perOutputScaling g.m_currentConfig
      g.m_currentConfig.connectedOutputs = some c1) :
    ∃ a b x oe ox o0 x0, g.m_currentConfig.connectedOutputs = [a, b] ∧ a < b ∧
      embeddedKey c1 [a, b] = some e ∧ removeKey [a, b] e = [x] ∧ x ≠ e ∧
      e ∈ [a, b] ∧ x ∈ [a, b] ∧ (∀ k ∈ [a, b], k = e ∨ k = x) ∧
      c1.output e = some oe ∧ c1.output x = some ox ∧ oe.modes ≠ [] ∧ ox.modes ≠ [] ∧
      g.m_currentConfig.output e = some o0 ∧ g.m_currentConfig.output x = some x0 ∧
      o0.connected = true ∧ x0.connected = true ∧
      initializeOutput g.env g.m_currentConfig.perOutputScaling o0 = some oe ∧
      initializeOutput g.env g.m_currentConfig.perOutputScaling x0 = some ox ∧
      c1.keys = g.m_currentConfig.keys ∧
      ∀ k, k ∉ [a, b] → c1.output k = g.m_currentConfig.output k := by
  have hasc := Config.connectedOutputs_ascending hwf
  obtain ⟨a, b, hws⟩ := List.length_eq_two.mp hlen
  rw [hws] at hasc he hinit
  have hab : a < b := by
    have := (List.pairwise_cons.mp hasc).1 b (List.mem_cons_self _ _)
    exact this
  have hnd : [a, b].Nodup := nodup_of_ascending hasc
  obtain ⟨hk1, hout1, hin1⟩ := initializeOutputs_partial g.env _ [a, b] g.m_currentConfig c1
    hnd hinit
  have hat : ∀ k ∈ [a, b], ∃ o o', g.m_currentConfig.output k = some o ∧ o.connected = true ∧
      initializeOutput g.env g.m_currentConfig.perOutputScaling o = some o' ∧
      c1.output k = some o' := by
    intro k hk
    obtain ⟨o, ho, hc⟩ := (Config.connectedOutputs_spec hwf k).mp (by rw [hws]; exact hk)
    obtain ⟨o', hi, ho'⟩ := hin1 k hk o ho
    exact ⟨o, o', ho, hc, hi, ho'⟩
  have hek : embeddedKey c1 [a, b] = some e := by
    rw [embeddedKey_congr g.m_currentConfig c1 [a, b]]
    · exact he
    · intro k hk
      obtain ⟨o, o', ho, _, hi, ho'⟩ := hat k hk
      rw [ho, ho']
      simp only [Option.map_some', initializeOutput_type hi]
  have hew : e ∈ [a, b] := (embeddedKey_spec he).1
  obtain ⟨x, hx, hxw, hxe, hcover⟩ := removeKey_pair a b e hab hew
  obtain ⟨o0, oe, ho0, hc0, hi0, hoe⟩ := hat e hew
  obtain ⟨x0, ox, hx0, hcx, hix, hox⟩ := hat x hxw
  have hme : oe.modes ≠ [] := by
    rw [(initializeOutput_preserves hi0).2.2.1]
    exact hmodes o0 (Config.output_mem ho0) hc0
  have hmx : ox.modes ≠ [] := by
    rw [(initializeOutput_preserves hix).2.2.1]
    exact hmodes x0 (Config.output_mem hx0) hcx
  exact ⟨a, b, x, oe, ox, o0, x0, hws, hab, hek, hx, hxe, hew, hxw, hcover, hoe, hox, hme, hmx,
    ho0, hx0, hc0, hcx, hi0, hix, hk1, hout1⟩

/-- What a result of `displaySwitch` for an action other than `Clone` tells about the current
configuration with two connected outputs with modes: the initialization gave `c1`, with the
embedded output `oe` under `e` and the other output `ox` under `x`, and both assertions on the
current modes passed. -/
theorem displaySwitch_two_inv (g g' : Generator) (e : Int) (action : DisplaySwitchAction)
    (hwf : g.m_currentConfig.WF) (hlen : g.m_currentConfig.connectedOutputs.length = 2)
    (hmodes : ∀ o ∈ g.m_currentConfig.outputs, o.connected = true → o.modes ≠ [])
    (he : embeddedKey g.m_currentConfig g.m_currentConfig.connectedOutputs = some e)
    (hact : action ≠ DisplaySwitchAction.Clone) (hrun : displaySwitch g action = some g') :
    ∃ c1 a b x oe ox, g.m_currentConfig.connectedOutputs = [a, b] ∧
      initializeOutputs g.env g.m_currentConfig.perOutputScaling g.m_currentConfig [a, b] =
        some c1 ∧
      embeddedKey c1 [a, b] = some e ∧ removeKey [a, b] e = [x] ∧ x ≠ e ∧
      (∀ k ∈ [a, b], k = e ∨ k = x) ∧
      c1.output e = some oe ∧ c1.output x = some ox ∧ oe.modes ≠ [] ∧ ox.modes ≠ [] ∧
      qAssert g.env oe.currentMode.isSome = some () ∧
      qAssert g.env ox.currentMode.isSome = some () ∧
      c1.keys = g.m_currentConfig.keys ∧
      ∀ k, k ∉ [a, b] → c1.output k = g.m_currentConfig.output k := by
  cases hinit : initializeOutputs g.env g.m_currentConfig.perOutputScaling g.m_currentConfig
      g.m_currentConfig.connectedOutputs with
  | none => rw [displaySwitch_init_none g action hinit] at hrun; cases hrun
  | some c1 =>
    obtain ⟨a, b, x, oe, ox, o0, x0, hws, _, hek, hx, hxe, _, _, hcover, hoe, hox, hme, hmx,
      _, _, _, _, _, _, hk1, hout1⟩ := displaySwitch_setup g c1 e hwf hlen hmodes he hinit
    rw [hws] at hinit
    cases hq1 : qAssert g.env oe.currentMode.isSome with
    | none =>
      rw [displaySwitch_two_assert g c1 a b e x [] oe ox action hws hinit hek hx hoe hox hme hmx
        hact (Or.inl hq1)] at hrun
      cases hrun
    | some u =>
      cases hq2 : qAssert g.env ox.currentMode.isSome with
      | none =>
        rw [displaySwitch_two_assert g c1 a b e x [] oe ox action hws hinit hek hx hoe hox hme
          hmx hact (Or.inr hq2)] at hrun
        cases hrun
      | some v =>
        exact ⟨c1, a, b, x, oe, ox, hws, hinit, hek, hx, hxe, hcover, hoe, hox, hme, hmx, hq1,
          hq2, hk1, hout1⟩

/-- On two connected outputs with valid mode data the initialization completes and both
assertions of `displaySwitch` on the current modes pass. -/
theorem displaySwitch_two_valid (g : Generator)
    (hwf : g.m_currentConfig.WF) (hlen : g.m_currentConfig.connectedOutputs.length = 2)
    (hval : ∀ o ∈ g.m_currentConfig.outputs, o.connected = true → o.modesValid = true) :
    ∃ c1 a b e x oe ox, g.m_currentConfig.connectedOutputs = [a, b] ∧
      initializeOutputs g.env g.m_currentConfig.perOutputScaling g.m_currentConfig [a, b] =
        some c1 ∧
      embeddedKey c1 [a, b] = some e ∧ removeKey [a, b] e = [x] ∧
      c1.output e = some oe ∧ c1.output x = some ox ∧ oe.modes ≠ [] ∧ ox.modes ≠ [] ∧
      qAssert g.env oe.currentMode.isSome = some () ∧
      qAssert g.env ox.currentMode.isSome = some () ∧
      oe.modesValid = true ∧ ox.modesValid = true ∧ a < b ∧
      c1.keys = g.m_currentConfig.keys ∧ oe.connected = true ∧ ox.connected = true := by
  have hmodes : ∀ o ∈ g.m_currentConfig.outputs, o.connected = true → o.modes ≠ [] :=
    fun o ho hc => ((o.modesValid_iff).mp (hval o ho hc)).1
  have hnd := nodup_of_ascending (Config.connectedOutputs_ascending hwf)
  have hne : g.m_currentConfig.connectedOutputs ≠ [] := fun h => by
    rw [h] at hlen; simp at hlen
  obtain ⟨c1, hinit, _⟩ := initializeOutputs_spec g.env g.m_currentConfig.perOutputScaling
    g.m_currentConfig.connectedOutputs g.m_currentConfig hnd (fun k hk => by
      obtain ⟨o, ho, hc⟩ := (Config.connectedOutputs_spec hwf k).mp hk
      exact ⟨o, ho, hval o (Config.output_mem ho) hc⟩)
  obtain ⟨e, he⟩ := embeddedKey_total g.m_currentConfig g.m_currentConfig.connectedOutputs hne
    (Config.connectedOutputs_subset g.m_currentConfig)
  obtain ⟨a, b, x, oe, ox, o0, x0, hws, hab, hek, hx, _, _, _, _, hoe, hox, hme, hmx,
    ho0, hx0, hc0, hcx, hi0, hix, hk1, _⟩ := displaySwitch_setup g c1 e hwf hlen hmodes he hinit
  rw [hws] at hinit
  have hv0 := hval o0 (Config.output_mem ho0) hc0
  have hvx := hval x0 (Config.output_mem hx0) hcx
  have hq1 : qAssert g.env oe.currentMode.isSome = some () := by
    rw [initializeOutput_currentMode hv0 hi0]; exact qAssert_true g.env
  have hq2 : qAssert g.env ox.currentMode.isSome = some () := by
    rw [initializeOutput_currentMode hvx hix]; exact qAssert_true g.env
  refine ⟨c1, a, b, e, x, oe, ox, hws, hinit, hek, hx, hoe, hox, hme, hmx, hq1, hq2, ?_, ?_,
    hab, hk1, ?_, ?_⟩
  · rw [(initializeOutput_preserves hi0).2.2.2.2.2.2]; exact hv0
  · rw [(initializeOutput_preserves hix).2.2.2.2.2.2]; exact hvx
  · rw [(initializeOutput_preserves hi0).2.1]; exact hc0
  · rw [(initializeOutput_preserves hix).2.1]; exact hcx

/-- The switch to the right: on a current configuration with exactly two connected outputs, both with modes, every
result of `displaySwitch(ExtendToRight)` has the embedded output (the first connected output of
type `Panel`, else the connected output with the lowest id) enabled, primary and at (0,0), and
the other connected output enabled, not primary and at (w,0), where w is the width of the
geometry of the embedded output; and there is a result whenever the mode data of both outputs
are valid. -/
theorem displaySwitch_extendToRight (g : Generator) (e : Int)
    (hwf : g.m_currentConfig.WF) (hlen : g.m_currentConfig.connectedOutputs.length = 2)
    (hmodes : ∀ o ∈ g.m_currentConfig.outputs, o.connected = true → o.modes ≠ [])
    (he : embeddedKey g.m_currentConfig g.m_currentConfig.connectedOutputs = some e) :
    (∀ g', displaySwitch g DisplaySwitchAction.ExtendToRight = some g' →
      (∃ oe, g'.m_currentConfig.output e = some oe ∧ oe.enabled = true ∧ oe.primary = true ∧
        oe.pos = ⟨0, 0⟩) ∧
      ∀ x ∈ g.m_currentConfig.connectedOutputs, x ≠ e →
        ∃ ox, g'.m_currentConfig.output x = some ox ∧ ox.enabled = true ∧ ox.primary = false ∧
          ox.pos = ⟨g'.m_currentConfig.geometryWidth g.env e, 0⟩) ∧
    ((∀ o ∈ g.m_currentConfig.outputs, o.connected = true → o.modesValid = true) →
      ∃ g', displaySwitch g DisplaySwitchAction.ExtendToRight = some g') := by
  constructor
  · intro g' hrun
    obtain ⟨c1, a, b, x, oe, ox, hws, hinit, hek, hx, hxe, hcover, hoe, hox, hme, hmx, hq1, hq2,
      _, _⟩ := displaySwitch_two_inv g g' e _ hwf hlen hmodes he (by decide) hrun
    obtain ⟨_, _, _, hR⟩ :=
      displaySwitch_two g c1 a b e x [] oe ox hws hinit hek hx hoe hox hme hmx hq1 hq2
    rw [hR] at hrun
    have hg := Option.some.inj hrun
    have hide : oe.id = e := Config.output_id hoe
    have hidx : ox.id = x := Config.output_id hox
    obtain ⟨_, hpe, hpx, _⟩ := Config.output_setOutput_pair c1 e x oe ox
      (((oe.setPos ⟨0, 0⟩).setEnabled true).setPrimary true)
      (((ox.setPos ⟨((((oe.setPos ⟨0, 0⟩).setEnabled true).setPrimary true).geometry
        g.env).width, 0⟩).setEnabled true).setPrimary false)
      hoe hox (fun h => hxe h.symm) hide hidx
    rw [← hg]
    refine ⟨⟨_, hpe, rfl, rfl, rfl⟩, ?_⟩
    intro x' hx' hx'e
    have hx'x : x' = x := by
      rw [hws] at hx'
      exact (hcover x' hx').resolve_left hx'e
    subst hx'x
    refine ⟨_, hpx, rfl, rfl, ?_⟩
    rw [Config.geometryWidth_of_output hpe]
    rfl
  · intro hval
    obtain ⟨c1, a, b, e', x, oe, ox, hws, hinit, hek, hx, hoe, hox, hme, hmx, hq1, hq2, _⟩ :=
      displaySwitch_two_valid g hwf hlen hval
    exact ⟨_, (displaySwitch_two g c1 a b e' x [] oe ox hws hinit hek hx hoe hox hme hmx hq1
      hq2).2.2.2⟩

/-- The switch to the right, evaluated: a panel of width 1920 and an external screen; after the switch the panel is
the primary output at the origin and the external screen is at (1920,0). -/
theorem displaySwitch_extendToRight_witness :
    laptopScreens.WF ∧ laptopScreens.connectedOutputs.length = 2 ∧
    (∀ o ∈ laptopScreens.outputs, o.connected = true → o.modes ≠ []) ∧
    embeddedKey laptopScreens laptopScreens.connectedOutputs = some 1 ∧
    (∀ o ∈ laptopScreens.outputs, o.connected = true → o.modesValid = true) ∧
    (∃ g', displaySwitch (sampleGenerator true false false laptopScreens (fun _ => true))
      DisplaySwitchAction.ExtendToRight = some g') ∧
    (∀ g', displaySwitch (sampleGenerator true false false laptopScreens (fun _ => true))
        DisplaySwitchAction.ExtendToRight = some g' →
      (∃ oe, g'.m_currentConfig.output 1 = some oe ∧ oe.enabled = true ∧ oe.primary = true ∧
        oe.pos = ⟨0, 0⟩) ∧
      ∀ x ∈ laptopScreens.connectedOutputs, x ≠ 1 →
        ∃ ox, g'.m_currentConfig.output x = some ox ∧ ox.enabled = true ∧ ox.primary = false ∧
          ox.pos = ⟨g'.m_currentConfig.geometryWidth
            (sampleGenerator true false false laptopScreens (fun _ => true)).env 1, 0⟩) ∧
    (displaySwitch (sampleGenerator true false false laptopScreens (fun _ => true))
      DisplaySwitchAction.ExtendToRight).map (fun g => g.m_currentConfig.outputs.map
        (fun o => (o.id, o.enabled, o.primary, o.pos))) =
      some [(1, true, true, ⟨0, 0⟩), (2, true, false, ⟨1920, 0⟩)] :=
  ⟨by decide, by decide, by decide, by decide, by decide,
    (displaySwitch_extendToRight (sampleGenerator true false false laptopScreens (fun _ => true))
      1 (by decide) (by decide) (by decide) (by decide)).2 (by decide),
    (displaySwitch_extendToRight (sampleGenerator true false false laptopScreens (fun _ => true))
      1 (by decide) (by decide) (by decide) (by decide)).1,
    by decide⟩

/-- A configuration in which, of two keys covering the connected outputs of `cur`, the output
under `p` is enabled and primary and the output under `q` is not, and which agrees with `cur`
on the other outputs, has exactly one enabled primary output, provided no output of `cur` that
is not connected is enabled and primary. -/
theorem Config.primaryCount_pair (cur c : Config) (p q : Int) (op oq : Output)
    (hwf : cur.WF) (hkeys : c.keys = cur.keys)
    (hp : c.output p = some op) (hq : c.output q = some oq)
    (hpe : op.enabled = true) (hpp : op.primary = true)
    (hqq : oq.enabled = false ∨ oq.primary = false)
    (hcover : ∀ k ∈ cur.connectedOutputs, k = p ∨ k = q)
    (hframe : ∀ k, k ∉ cur.connectedOutputs → c.output k = cur.output k)
    (hdis : ∀ o ∈ cur.outputs, o.connected = false → o.enabled = false ∨ o.primary = false) :
    c.primaryCount = 1 := by
  have hwf' : c.WF := by unfold Config.WF at *; rw [hkeys]; exact hwf
  apply Config.primaryCount_eq_one hwf' p op hp hpe hpp
  intro k o hko hkp
  by_cases hkq : k = q
  · rw [hkq, hq] at hko
    rw [← Option.some.inj hko]; exact hqq
  · have hk : k ∉ cur.connectedOutputs := fun h => (hcover k h).elim hkp hkq
    rw [hframe k hk] at hko
    have hoc : o.connected = false := by
      cases hc : o.connected with
      | false => rfl
      | true => exact absurd ((Config.connectedOutputs_spec hwf k).mpr ⟨o, hko, hc⟩) hk
    exact hdis o (Config.output_mem hko) hoc

/-- The turn-off switches: on a current configuration with exactly two connected outputs, both with modes, every
result of `displaySwitch(TurnOffEmbedded)` has the embedded output disabled and not primary and
the other connected output enabled and primary; every result of `displaySwitch(TurnOffExternal)`
has the embedded output at (0,0), enabled and primary and the other connected output disabled
and not primary; neither action changes an output that is not connected, so that the result has
exactly one enabled primary output when no such output was enabled and primary; and both actions
have a result whenever the mode data of both outputs are valid. -/
theorem displaySwitch_turnOff (g : Generator) (e : Int)
    (hwf : g.m_currentConfig.WF) (hlen : g.m_currentConfig.connectedOutputs.length = 2)
    (hmodes : ∀ o ∈ g.m_currentConfig.outputs, o.connected = true → o.modes ≠ [])
    (he : embeddedKey g.m_currentConfig g.m_currentConfig.connectedOutputs = some e) :
    (∀ g', displaySwitch g DisplaySwitchAction.TurnOffEmbedded = some g' →
      (∃ oe, g'.m_currentConfig.output e = some oe ∧ oe.enabled = false ∧ oe.primary = false) ∧
      (∀ x ∈ g.m_currentConfig.connectedOutputs, x ≠ e →
        ∃ ox, g'.m_currentConfig.output x = some ox ∧ ox.enabled = true ∧ ox.primary = true) ∧
      (∀ k, k ∉ g.m_currentConfig.connectedOutputs →
        g'.m_currentConfig.output k = g.m_currentConfig.output k) ∧
      ((∀ o ∈ g.m_currentConfig.outputs, o.connected = false →
          o.enabled = false ∨ o.primary = false) →
        g'.m_currentConfig.primaryCount = 1)) ∧
    (∀ g', displaySwitch g DisplaySwitchAction.TurnOffExternal = some g' →
      (∃ oe, g'.m_currentConfig.output e = some oe ∧ oe.enabled = true ∧ oe.primary = true ∧
        oe.pos = ⟨0, 0⟩) ∧
      (∀ x ∈ g.m_currentConfig.connectedOutputs, x ≠ e →
        ∃ ox, g'.m_currentConfig.output x = some ox ∧ ox.enabled = false ∧
          ox.primary = false) ∧
      (∀ k, k ∉ g.m_currentConfig.connectedOutputs →
        g'.m_currentConfig.output k = g.m_currentConfig.output k) ∧
      ((∀ o ∈ g.m_currentConfig.outputs, o.connected = false →
          o.enabled = false ∨ o.primary = false) →
        g'.m_currentConfig.primaryCount = 1)) ∧
    ((∀ o ∈ g.m_currentConfig.outputs, o.connected = true → o.modesValid = true) →
      (∃ g', displaySwitch g DisplaySwitchAction.TurnOffEmbedded = some g') ∧
      ∃ g', displaySwitch g DisplaySwitchAction.TurnOffExternal = some g') := by
  refine ⟨?_, ?_, ?_⟩
  · intro g' hrun
    obtain ⟨c1, a, b, x, oe, ox, hws, hinit, hek, hx, hxe, hcover, hoe, hox, hme, hmx, hq1, hq2,
      hk1, hout1⟩ := displaySwitch_two_inv g g' e _ hwf hlen hmodes he (by decide) hrun
    obtain ⟨_, hT, _, _⟩ :=
      displaySwitch_two g c1 a b e x [] oe ox hws hinit hek hx hoe hox hme hmx hq1 hq2
    rw [hT] at hrun
    have hg := Option.some.inj hrun
    obtain ⟨hkeys, hpe, hpx, hrest⟩ := Config.output_setOutput_pair c1 e x oe ox
      ((oe.setEnabled false).setPrimary false) ((ox.setEnabled true).setPrimary true)
      hoe hox (fun h => hxe h.symm) (Config.output_id hoe : oe.id = e)
      (Config.output_id hox : ox.id = x)
    have hew : e ∈ [a, b] := by
      have := (embeddedKey_spec he).1
      rw [hws] at this; exact this
    have hxw : x ∈ [a, b] := by
      have : x ∈ removeKey [a, b] e := by rw [hx]; exact List.mem_singleton_self x
      exact (mem_removeKey.mp this).1
    have hframe : ∀ k, k ∉ g.m_currentConfig.connectedOutputs →
        ((c1.setOutput ((oe.setEnabled false).setPrimary false)).setOutput
          ((ox.setEnabled true).setPrimary true)).output k = g.m_currentConfig.output k := by
      intro k hk
      rw [hws] at hk
      rw [hrest k (fun h => hk (h ▸ hew)) (fun h => hk (h ▸ hxw)), hout1 k hk]
    rw [← hg]
    refine ⟨⟨_, hpe, rfl, rfl⟩, ?_, hframe, ?_⟩
    · intro x' hx' hx'e
      have hx'x : x' = x := by
        rw [hws] at hx'
        exact (hcover x' hx').resolve_left hx'e
      subst hx'x
      exact ⟨_, hpx, rfl, rfl⟩
    · intro hdis
      exact Config.primaryCount_pair g.m_currentConfig _ x e _ _ hwf (by rw [hkeys, hk1]) hpx hpe
        rfl rfl (Or.inl rfl)
        (fun k hk => by rw [hws] at hk; exact (hcover k hk).symm) hframe hdis
  · intro g' hrun
    obtain ⟨c1, a, b, x, oe, ox, hws, hinit, hek, hx, hxe, hcover, hoe, hox, hme, hmx, hq1, hq2,
      hk1, hout1⟩ := displaySwitch_two_inv g g' e _ hwf hlen hmodes he (by decide) hrun
    obtain ⟨_, _, hT, _⟩ :=
      displaySwitch_two g c1 a b e x [] oe ox hws hinit hek hx hoe hox hme hmx hq1 hq2
    rw [hT] at hrun
    have hg := Option.some.inj hrun
    obtain ⟨hkeys, hpe, hpx, hrest⟩ := Config.output_setOutput_pair c1 e x oe ox
      (((oe.setPos ⟨0, 0⟩).setEnabled true).setPrimary true)
      ((ox.setEnabled false).setPrimary false)
      hoe hox (fun h => hxe h.symm) (Config.output_id hoe : oe.id = e)
      (Config.output_id hox : ox.id = x)
    have hew : e ∈ [a, b] := by
      have := (embeddedKey_spec he).1
      rw [hws] at this; exact this
    have hxw : x ∈ [a, b] := by
      have : x ∈ removeKey [a, b] e := by rw [hx]; exact List.mem_singleton_self x
      exact (mem_removeKey.mp this).1
    have hframe : ∀ k, k ∉ g.m_currentConfig.connectedOutputs →
        ((c1.setOutput (((oe.setPos ⟨0, 0⟩).setEnabled true).setPrimary true)).setOutput
          ((ox.setEnabled false).setPrimary false)).output k = g.m_currentConfig.output k := by
      intro k hk
      rw [hws] at hk
      rw [hrest k (fun h => hk (h ▸ hew)) (fun h => hk (h ▸ hxw)), hout1 k hk]
    rw [← hg]
    refine ⟨⟨_, hpe, rfl, rfl, rfl⟩, ?_, hframe, ?_⟩
    · intro x' hx' hx'e
      have hx'x : x' = x := by
        rw [hws] at hx'
        exact (hcover x' hx').resolve_left hx'e
      subst hx'x
      exact ⟨_, hpx, rfl, rfl⟩
    · intro hdis
      exact Config.primaryCount_pair g.m_currentConfig _ e x _ _ hwf (by rw [hkeys, hk1]) hpe hpx
        rfl rfl (Or.inl rfl)
        (fun k hk => by rw [hws] at hk; exact hcover k hk) hframe hdis
  · intro hval
    obtain ⟨c1, a, b, e', x, oe, ox, hws, hinit, hek, hx, hoe, hox, hme, hmx, hq1, hq2, _⟩ :=
      displaySwitch_two_valid g hwf hlen hval
    have h := displaySwitch_two g c1 a b e' x [] oe ox hws hinit hek hx hoe hox hme hmx hq1 hq2
    exact ⟨⟨_, h.2.1⟩, ⟨_, h.2.2.1⟩⟩

/-- The turn-off switches, evaluated: a panel and an external screen; `TurnOffEmbedded` leaves the external screen
alone enabled and primary, `TurnOffExternal` the panel. -/
theorem displaySwitch_turnOff_witness :
    laptopScreens.WF ∧ laptopScreens.connectedOutputs.length = 2 ∧
    (∀ o ∈ laptopScreens.outputs, o.connected = true → o.modes ≠ []) ∧
    embeddedKey laptopScreens laptopScreens.connectedOutputs = some 1 ∧
    (∀ o ∈ laptopScreens.outputs, o.connected = true → o.modesValid = true) ∧
    ((∃ g', displaySwitch (sampleGenerator true false false laptopScreens (fun _ => true))
        DisplaySwitchAction.TurnOffEmbedded = some g') ∧
      ∃ g', displaySwitch (sampleGenerator true false false laptopScreens (fun _ => true))
        DisplaySwitchAction.TurnOffExternal = some g') ∧
    (∀ g', displaySwitch (sampleGenerator true false false laptopScreens (fun _ => true))
        DisplaySwitchAction.TurnOffEmbedded = some g' →
      (∃ oe, g'.m_currentConfig.output 1 = some oe ∧ oe.enabled = false ∧
        oe.primary = false) ∧
      (∀ x ∈ laptopScreens.connectedOutputs, x ≠ 1 →
        ∃ ox, g'.m_currentConfig.output x = some ox ∧ ox.enabled = true ∧ ox.primary = true) ∧
      (∀ k, k ∉ laptopScreens.connectedOutputs →
        g'.m_currentConfig.output k = laptopScreens.output k) ∧
      ((∀ o ∈ laptopScreens.outputs, o.connected = false →
          o.enabled = false ∨ o.primary = false) →
        g'.m_currentConfig.primaryCount = 1)) ∧
    (displaySwitch (sampleGenerator true false false laptopScreens (fun _ => true))
      DisplaySwitchAction.TurnOffEmbedded).map (fun g => g.m_currentConfig.outputs.map
        (fun o => (o.id, o.enabled, o.primary, o.pos))) =
      some [(1, false, false, ⟨0, 0⟩), (2, true, true, ⟨0, 0⟩)] ∧
    (displaySwitch (sampleGenerator true false false laptopScreens (fun _ => true))
      DisplaySwitchAction.TurnOffExternal).map (fun g => g.m_currentConfig.outputs.map
        (fun o => (o.id, o.enabled, o.primary, o.pos))) =
      some [(1, true, true, ⟨0, 0⟩), (2, false, false, ⟨0, 0⟩)] :=
  ⟨by decide, by decide, by decide, by decide, by decide,
    (displaySwitch_turnOff (sampleGenerator true false false laptopScreens (fun _ => true))
      1 (by decide) (by decide) (by decide) (by decide)).2.2 (by decide),
    (displaySwitch_turnOff (sampleGenerator true false false laptopScreens (fun _ => true))
      1 (by decide) (by decide) (by decide) (by decide)).1,
    by decide, by decide⟩

/-! ## The display switch to the cloned layout -/

theorem cloneBiggestLoop_exists_listed (env : Platform) (ks : List Int) :
    ∀ (c : Config), (∀ k ∈ ks, k ∈ c.keys) →
      (∀ k ∈ ks, ∀ o, c.output k = some o → ∀ m ∈ o.modes,
        0 < m.size.intArea) →
      ∃ c', cloneBiggestLoop env c ks = some c' := by
  induction ks with
  | nil => intro c _ _; exact ⟨c, rfl⟩
  | cons x xs ih =>
    intro c hkeys hpos
    obtain ⟨o, ho⟩ := Option.isSome_iff_exists.mp
      ((c.output_isSome_iff x).mpr (hkeys x (List.mem_cons_self _ _)))
    simp only [cloneBiggestLoop, ho]
    by_cases hm : o.modes = []
    · rw [hm]
      simp only [List.isEmpty_nil, if_true]
      exact ih c (fun k hk => hkeys k (List.mem_cons_of_mem _ hk))
        (fun k hk => hpos k (List.mem_cons_of_mem _ hk))
    · rw [isEmpty_eq_false_of_ne hm]
      simp only [Bool.false_eq_true, if_false]
      have hmodes : ((o.setEnabled true).setPos ⟨0, 0⟩).modes = o.modes := rfl
      obtain ⟨best, _, hbest⟩ := biggestMode_exists env o.modes hm
        (hpos x (List.mem_cons_self _ _) o ho)
      rw [hmodes, hbest]
      simp only
      apply ih
      · intro k hk
        rw [Config.keys_setOutput]
        exact hkeys k (List.mem_cons_of_mem _ hk)
      · intro k hk o2 ho2 m hm2
        rw [Config.output_setOutput] at ho2
        by_cases hid : (((o.setEnabled true).setPos ⟨0, 0⟩).setCurrentModeId best.id).id = k
        · rw [if_pos hid] at ho2
          cases hck : c.output k with
          | none => rw [hck] at ho2; cases ho2
          | some ok =>
            rw [hck] at ho2
            simp only [Option.map_some', Option.some.injEq] at ho2
            rw [← ho2] at hm2
            exact hpos x (List.mem_cons_self _ _) o ho m hm2
        · rw [if_neg hid] at ho2
          exact hpos k (List.mem_cons_of_mem _ hk) o2 ho2 m hm2

/-- The clone policy completes on connected outputs whose own modes all have a positive area. -/
theorem cloneScreens_exists_listed (g : Generator) (c : Config) (ws : List Int) (hne : ws ≠ [])
    (hnd : ws.Nodup)
    (hconn : ∀ k ∈ ws, ∃ o, c.output k = some o ∧ o.connected = true)
    (hpos : ∀ k ∈ ws, ∀ o, c.output k = some o → ∀ m ∈ o.modes,
      0 < m.size.intArea) :
    ∃ c', cloneScreens g c ws = some c' := by
  have hkeys : ∀ k ∈ ws, k ∈ c.keys := fun k hk => by
    obtain ⟨o, ho, _⟩ := hconn k hk
    exact (c.output_isSome_iff k).mp (by rw [ho]; rfl)
  obtain ⟨cs, hcs, hmem⟩ := commonSizes_spec c g.m_currentConfig.maxSize ws hne hkeys
  unfold cloneScreens
  rw [assertOutputs_ok g.env c ws hne hconn]
  simp only [isEmpty_eq_false_of_ne hne, hcs, Bool.false_eq_true, if_false]
  by_cases hemp : cs = []
  · rw [hemp]
    simp only [List.isEmpty_nil, if_true]
    exact cloneBiggestLoop_exists_listed g.env ws c hkeys hpos
  · obtain ⟨S, hlast, hSmem, _⟩ := sortedSizes_last cs hemp
    have hS : c.commonSize g.m_currentConfig.maxSize ws S = true := (hmem S).mp hSmem
    obtain ⟨c', hrun, _⟩ := cloneBestLoop_spec S ws c hnd hkeys (fun k hk o ho =>
      ((Output.offersSize_iff _ o S).mp (Config.commonSize_at hS hk ho)).2.2)
    rw [isEmpty_eq_false_of_ne hemp]
    simp only [hlast, Bool.false_eq_true, if_false]
    exact ⟨c', hrun⟩

/-- Without an output of type `Panel` in the list, `embeddedOutput` finds none. -/
theorem embeddedOutput_no_panel (c : Config) (ks : List Int)
    (h : ∀ k ∈ ks, ∃ o, c.output k = some o ∧ o.type ≠ OutputType.Panel) :
    embeddedOutput c ks = some none := by
  induction ks with
  | nil => rfl
  | cons k ks ih =>
    obtain ⟨o, ho, ht⟩ := h k (List.mem_cons_self _ _)
    simp only [embeddedOutput, ho]
    rw [if_pos ht]
    exact ih (fun x hx => h x (List.mem_cons_of_mem _ hx))

/-- C14: two connected outputs, neither of type `Panel`, both with modes, the only mode of the
first of size 0x0; `displaySwitch(Clone)` has no result, with or without assertions, because
`biggestMode` dereferences a null mode while the outputs are initialized. -/
theorem displaySwitch_clone_zero_area :
    zeroAreaPair.connectedOutputs.length = 2 ∧
    (∀ o ∈ zeroAreaPair.outputs, o.connected = true →
      o.type ≠ OutputType.Panel ∧ o.modes ≠ []) ∧
    (displaySwitch (sampleGenerator false false false zeroAreaPair (fun _ => true))
      DisplaySwitchAction.Clone).isNone = true ∧
    (displaySwitch (releaseGenerator false false false zeroAreaPair (fun _ => true))
      DisplaySwitchAction.Clone).isNone = true := by
  refine ⟨by decide, by decide, by decide, by decide⟩

/-- The clone switch without a panel: on a current configuration with exactly two connected
outputs, neither of type `Panel` and both with modes, every result of `displaySwitch(Clone)` is the result of the clone
policy on both outputs of the initialized configuration in which the output with the lower id
has been made primary: that output is primary and both outputs are enabled at position (0,0);
and there is a result whenever the mode data of both outputs are valid. -/
theorem displaySwitch_clone_no_panel (g : Generator)
    (hwf : g.m_currentConfig.WF) (hlen : g.m_currentConfig.connectedOutputs.length = 2)
    (hnp : ∀ o ∈ g.m_currentConfig.outputs, o.connected = true → o.type ≠ OutputType.Panel)
    (hmodes : ∀ o ∈ g.m_currentConfig.outputs, o.connected = true → o.modes ≠ []) :
    (∀ g', displaySwitch g DisplaySwitchAction.Clone = some g' →
      ∀ first rest, g.m_currentConfig.connectedOutputs = first :: rest →
        (∃ c1 o1, initializeOutputs g.env g.m_currentConfig.perOutputScaling g.m_currentConfig
            g.m_currentConfig.connectedOutputs = some c1 ∧ c1.output first = some o1 ∧
          cloneScreens g (c1.setOutput (o1.setPrimary true)) g.m_currentConfig.connectedOutputs =
            some g'.m_currentConfig) ∧
        (∃ o', g'.m_currentConfig.output first = some o' ∧ o'.primary = true) ∧
        ∀ k ∈ g.m_currentConfig.connectedOutputs,
          ∃ o', g'.m_currentConfig.output k = some o' ∧ o'.enabled = true ∧ o'.pos = ⟨0, 0⟩) ∧
    ((∀ o ∈ g.m_currentConfig.outputs, o.connected = true → o.modesValid = true) →
      ∃ g', displaySwitch g DisplaySwitchAction.Clone = some g') := by
  constructor
  · intro g' hrun first rest hfr
    have he : embeddedKey g.m_currentConfig g.m_currentConfig.connectedOutputs = some first := by
      unfold embeddedKey
      rw [embeddedOutput_no_panel g.m_currentConfig g.m_currentConfig.connectedOutputs
        (fun k hk => by
          obtain ⟨o, ho, hc⟩ := (Config.connectedOutputs_spec hwf k).mp hk
          exact ⟨o, ho, hnp o (Config.output_mem ho) hc⟩), hfr]
      rfl
    cases hinit : initializeOutputs g.env g.m_currentConfig.perOutputScaling g.m_currentConfig
        g.m_currentConfig.connectedOutputs with
    | none => rw [displaySwitch_init_none g _ hinit] at hrun; cases hrun
    | some c1 =>
      obtain ⟨a, b, x, oe, ox, o0, x0, hws, hab, hek, hx, hxe, hew, hxw, hcover, hoe, hox, hme,
        hmx, _⟩ := displaySwitch_setup g c1 first hwf hlen hmodes he hinit
      have hinit' := hinit
      rw [hws] at hinit'
      rw [displaySwitch_clone_two g c1 a b first oe hws hinit' hek hoe hme] at hrun
      cases hcl : cloneScreens g (c1.setOutput (oe.setPrimary true)) [a, b] with
      | none => rw [hcl] at hrun; cases hrun
      | some c2 =>
        rw [hcl] at hrun
        simp only [Option.map_some', Option.some.injEq] at hrun
        have hcfg : g'.m_currentConfig = c2 := by rw [← hrun]
        have hnd : [a, b].Nodup :=
          nodup_of_ascending (by rw [← hws]; exact Config.connectedOutputs_ascending hwf)
        obtain ⟨_, _, hin⟩ := cloneScreens_partial g _ c2 [a, b] hnd hcl
        have hide : (oe.setPrimary true).id = first := (Config.output_id hoe : oe.id = first)
        have h1 : (c1.setOutput (oe.setPrimary true)).output first =
            some (oe.setPrimary true) := by
          have h := Config.output_setOutput_self c1 oe (oe.setPrimary true)
            (by rw [hide]; exact hoe)
          rw [hide] at h; exact h
        have h2 : (c1.setOutput (oe.setPrimary true)).output x = some ox := by
          rw [Config.output_setOutput_of_ne (by rw [hide]; exact fun h => hxe h.symm)]
          exact hox
        obtain ⟨id1, hid1⟩ := (hin first hew (oe.setPrimary true) h1).2 hme
        obtain ⟨id2, hid2⟩ := (hin x hxw ox h2).2 hmx
        rw [hcfg]
        refine ⟨⟨c1, oe, rfl, hoe, by rw [hws]; exact hcl⟩, ⟨_, hid1, rfl⟩, ?_⟩
        intro k hk
        rw [hws] at hk
        rcases hcover k hk with h | h
        · rw [h]; exact ⟨_, hid1, rfl, rfl⟩
        · rw [h]; exact ⟨_, hid2, rfl, rfl⟩
  · intro hval
    obtain ⟨c1, a, b, e, x, oe, ox, hws, hinit, hek, hx, hoe, hox, hme, hmx, _, _, hve, hvx,
      hab, _, hce, hcx⟩ := displaySwitch_two_valid g hwf hlen hval
    have hew : e ∈ [a, b] := (embeddedKey_spec hek).1
    obtain ⟨x', hx', hxw, hxe, hcover⟩ := removeKey_pair a b e (by exact hab) hew
    have hxx : x' = x := by
      rw [hx] at hx'
      exact (List.cons.inj hx').1.symm
    subst hxx
    have hide : (oe.setPrimary true).id = e := (Config.output_id hoe : oe.id = e)
    have h1 : (c1.setOutput (oe.setPrimary true)).output e = some (oe.setPrimary true) := by
      have h := Config.output_setOutput_self c1 oe (oe.setPrimary true)
        (by rw [hide]; exact hoe)
      rw [hide] at h; exact h
    have h2 : (c1.setOutput (oe.setPrimary true)).output x' = some ox := by
      rw [Config.output_setOutput_of_ne (by rw [hide]; exact fun h => hxe h.symm)]
      exact hox
    have hat : ∀ k ∈ [a, b], ∃ o, (c1.setOutput (oe.setPrimary true)).output k = some o ∧
        o.connected = true ∧ ∀ m ∈ o.modes, 0 < m.size.intArea := by
      intro k hk
      rcases hcover k hk with h | h
      · rw [h]; exact ⟨_, h1, hce, ((oe.modesValid_iff).mp hve).2.1⟩
      · rw [h]; exact ⟨_, h2, hcx, ((ox.modesValid_iff).mp hvx).2.1⟩
    obtain ⟨c2, hc2⟩ := cloneScreens_exists_listed g (c1.setOutput (oe.setPrimary true)) [a, b]
      (List.cons_ne_nil _ _) (nodup_of_ascending (by
        rw [← hws]; exact Config.connectedOutputs_ascending hwf))
      (fun k hk => by obtain ⟨o, ho, hc, _⟩ := hat k hk; exact ⟨o, ho, hc⟩)
      (fun k hk o ho => by
        obtain ⟨o2, ho2, _, hp⟩ := hat k hk
        rw [ho] at ho2
        rw [Option.some.inj ho2]; exact hp)
    refine ⟨{ g with m_currentConfig := c2 }, ?_⟩
    rw [displaySwitch_clone_two g c1 a b e oe hws hinit hek hoe hme, hc2]
    rfl

/-- The clone switch without a panel, evaluated: two external screens of widths 1920 and 2560; after the switch both are
enabled at the origin and the one with the lower id is primary. -/
theorem displaySwitch_clone_no_panel_witness :
    twoScreens.WF ∧ twoScreens.connectedOutputs.length = 2 ∧
    (∀ o ∈ twoScreens.outputs, o.connected = true → o.type ≠ OutputType.Panel) ∧
    (∀ o ∈ twoScreens.outputs, o.connected = true → o.modes ≠ []) ∧
    (∀ o ∈ twoScreens.outputs, o.connected = true → o.modesValid = true) ∧
    (∃ g', displaySwitch (sampleGenerator false false false twoScreens (fun _ => true))
      DisplaySwitchAction.Clone = some g') ∧
    (∀ g', displaySwitch (sampleGenerator false false false twoScreens (fun _ => true))
        DisplaySwitchAction.Clone = some g' →
      ∀ first rest, twoScreens.connectedOutputs = first :: rest →
        (∃ c1 o1, initializeOutputs
            (sampleGenerator false false false twoScreens (fun _ => true)).env
            twoScreens.perOutputScaling twoScreens twoScreens.connectedOutputs = some c1 ∧
          c1.output first = some o1 ∧
          cloneScreens (sampleGenerator false false false twoScreens (fun _ => true))
            (c1.setOutput (o1.setPrimary true)) twoScreens.connectedOutputs =
            some g'.m_currentConfig) ∧
        (∃ o', g'.m_currentConfig.output first = some o' ∧ o'.primary = true) ∧
        ∀ k ∈ twoScreens.connectedOutputs,
          ∃ o', g'.m_currentConfig.output k = some o' ∧ o'.enabled = true ∧ o'.pos = ⟨0, 0⟩) ∧
    (displaySwitch (sampleGenerator false false false twoScreens (fun _ => true))
      DisplaySwitchAction.Clone).map (fun g => g.m_currentConfig.outputs.map
        (fun o => (o.id, o.enabled, o.primary, o.pos))) =
      some [(1, true, true, ⟨0, 0⟩), (2, true, false, ⟨0, 0⟩)] :=
  ⟨by decide, by decide, by decide, by decide, by decide,
    (displaySwitch_clone_no_panel (sampleGenerator false false false twoScreens (fun _ => true))
      (by decide) (by decide) (by decide) (by decide)).2 (by decide),
    (displaySwitch_clone_no_panel (sampleGenerator false false false twoScreens (fun _ => true))
      (by decide) (by decide) (by decide) (by decide)).1,
    by decide⟩

/-! ## The best mode of a size -/

/-- Counterexample to C21 as stated: of two modes of size 1920x1080, the first with a refresh
rate that is not a number and the second at 60 Hz, `bestModeForSize` returns the first, since
`60 > NaN` is false; its refresh rate is not greater than or equal to that of the second, and no
mode of the collection has a refresh rate greater than or equal to that of the other one. -/
theorem bestModeForSize_keeps_nan_first :
    bestModeForSize nanFirstModes ⟨1920, 1080⟩ = some mode1080nan ∧
    mode1080 ∈ nanFirstModes ∧ mode1080.size = ⟨1920, 1080⟩ ∧
    ¬ mode1080.refreshRate ≤ mode1080nan.refreshRate ∧
    ∀ r ∈ nanFirstModes, ∃ m ∈ nanFirstModes, m ≠ r ∧ m.size = ⟨1920, 1080⟩ ∧
      ¬ m.refreshRate ≤ r.refreshRate := by
  refine ⟨by decide, by decide, by decide, by decide, by decide⟩

/-- C21 (amended): `bestModeForSize` returns no mode if and only if no mode has exactly the given
width and height; every mode it returns is one of the modes, has exactly that width and height,
and no mode of that size has a higher refresh rate; when the refresh rates of the modes of that
size are numbers, its refresh rate is at least that of every mode of that size; and it does
return a mode as soon as some mode has that size. -/
theorem bestModeForSize_best (modes : List Mode) (size : QSize) :
    (bestModeForSize modes size = none ↔
      ∀ m ∈ modes, ¬ (m.size.width = size.width ∧ m.size.height = size.height)) ∧
    (∀ r, bestModeForSize modes size = some r →
      r ∈ modes ∧ r.size.width = size.width ∧ r.size.height = size.height ∧
      (∀ m ∈ modes, m.size.width = size.width → m.size.height = size.height →
        ¬ r.refreshRate < m.refreshRate) ∧
      ((∀ m ∈ modes, m.size.width = size.width → m.size.height = size.height →
          m.refreshRate.isNum = true) →
        ∀ m ∈ modes, m.size.width = size.width → m.size.height = size.height →
          m.refreshRate ≤ r.refreshRate)) ∧
    ((∃ m ∈ modes, m.size.width = size.width ∧ m.size.height = size.height) →
      ∃ r, bestModeForSize modes size = some r) := by
  have hsz : ∀ m : Mode, m.size = size ↔
      (m.size.width = size.width ∧ m.size.height = size.height) := by
    intro m
    constructor
    · intro h; rw [h]; exact ⟨rfl, rfl⟩
    · intro h
      cases hs : m.size with
      | mk w h' =>
        cases size with
        | mk w2 h2 =>
          rw [hs] at h
          simp only at h
          rw [h.1, h.2]
  obtain ⟨h1, h2⟩ := bestModeForSize_spec modes size
  refine ⟨?_, ?_, ?_⟩
  · rw [h1]
    constructor
    · intro h m hm hc; exact h m hm ((hsz m).mpr hc)
    · intro h m hm hc; exact h m hm ((hsz m).mp hc)
  · intro r hr
    obtain ⟨hmem, hs, hall⟩ := h2 r hr
    refine ⟨hmem, ((hsz r).mp hs).1, ((hsz r).mp hs).2,
      fun m hm hw hh => hall m hm ((hsz m).mpr ⟨hw, hh⟩), ?_⟩
    intro hnum m hm hw hh
    exact CFloat.le_of_not_lt (hnum r hmem ((hsz r).mp hs).1 ((hsz r).mp hs).2)
      (hnum m hm hw hh) (hall m hm ((hsz m).mpr ⟨hw, hh⟩))
  · rintro ⟨m, hm, hc⟩
    cases hb : bestModeForSize modes size with
    | none => exact absurd ((hsz m).mpr hc) (h1.mp hb m hm)
    | some r => exact ⟨r, rfl⟩

/-- Witness of C21: among the modes 1920x1080 at 60 Hz, 1920x1080 at 144 Hz, 1280x720 at 60 Hz
and a second 1920x1080 at 60 Hz, all with numbers as refresh rates, the best mode of size
1920x1080 is the one at 144 Hz, and there is no mode of size 1024x768. -/
theorem bestModeForSize_best_witness :
    (∃ m ∈ modesWithTie, m.size.width = (⟨1920, 1080⟩ : QSize).width ∧
      m.size.height = (⟨1920, 1080⟩ : QSize).height) ∧
    (∀ m ∈ modesWithTie, m.size.width = (⟨1920, 1080⟩ : QSize).width →
      m.size.height = (⟨1920, 1080⟩ : QSize).height → m.refreshRate.isNum = true) ∧
    (∃ r, bestModeForSize modesWithTie ⟨1920, 1080⟩ = some r) ∧
    bestModeForSize modesWithTie ⟨1920, 1080⟩ = some mode1080at144 ∧
    (mode1080at144 ∈ modesWithTie ∧ mode1080at144.size.width = (⟨1920, 1080⟩ : QSize).width ∧
      mode1080at144.size.height = (⟨1920, 1080⟩ : QSize).height ∧
      (∀ m ∈ modesWithTie, m.size.width = (⟨1920, 1080⟩ : QSize).width →
        m.size.height = (⟨1920, 1080⟩ : QSize).height →
        ¬ mode1080at144.refreshRate < m.refreshRate)) ∧
    (∀ m ∈ modesWithTie, m.size.width = (⟨1920, 1080⟩ : QSize).width →
      m.size.height = (⟨1920, 1080⟩ : QSize).height →
      m.refreshRate ≤ mode1080at144.refreshRate) ∧
    bestModeForSize modesWithTie ⟨1024, 768⟩ = none :=
  ⟨by decide, by decide,
    (bestModeForSize_best modesWithTie ⟨1920, 1080⟩).2.2 (by decide),
    by decide,
    ⟨((bestModeForSize_best modesWithTie ⟨1920, 1080⟩).2.1 mode1080at144 (by decide)).1,
      ((bestModeForSize_best modesWithTie ⟨1920, 1080⟩).2.1 mode1080at144 (by decide)).2.1,
      ((bestModeForSize_best modesWithTie ⟨1920, 1080⟩).2.1 mode1080at144 (by decide)).2.2.1,
      ((bestModeForSize_best modesWithTie ⟨1920, 1080⟩).2.1 mode1080at144
        (by decide)).2.2.2.1⟩,
    ((bestModeForSize_best modesWithTie ⟨1920, 1080⟩).2.1 mode1080at144 (by decide)).2.2.2.2
      (by decide),
    (bestModeForSize_best modesWithTie ⟨1024, 768⟩).1.mpr (by decide)⟩

/-! ## The biggest output -/

theorem Config.bestArea_of_best {env : Platform} {c : Config} {k : Int} {o : Output} {m : Mode}
    (ho : c.output k = some o) (hm : bestModeForOutput env o = some (some m)) :
    c.bestArea env k = m.size.intArea := by
  unfold Config.bestArea Output.bestArea
  rw [ho]
  simp only [hm]

/-- The loop of `biggestOutput` on outputs that all have a best mode: it keeps the running choice
when no listed output exceeds the running area, and otherwise chooses the first listed output of
maximal best-mode area. -/
theorem biggestOutputLoop_first_max (env : Platform) (c : Config) (ks : List Int)
    (hbest : ∀ k ∈ ks, ∃ o m, c.output k = some o ∧
      bestModeForOutput env o = some (some m)) :
    ∀ (total : Int) (init : Option Int),
      ∃ r, biggestOutputLoop env c total init ks = some r ∧
        ((∀ k ∈ ks, c.bestArea env k ≤ total) → r = init) ∧
        ((∃ k ∈ ks, total < c.bestArea env k) →
          ∃ b, r = some b ∧ b ∈ ks ∧ total < c.bestArea env b ∧
            (∀ k ∈ ks, c.bestArea env k ≤ c.bestArea env b) ∧
            ∀ k ∈ ks.takeWhile (fun x => x != b), c.bestArea env k < c.bestArea env b) := by
  induction ks with
  | nil =>
    intro total init
    refine ⟨init, rfl, fun _ => rfl, ?_⟩
    rintro ⟨k, hk, _⟩
    exact absurd hk (List.not_mem_nil k)
  | cons x xs ih =>
    intro total init
    obtain ⟨o, m, ho, hm⟩ := hbest x (List.mem_cons_self _ _)
    have hax := Config.bestArea_of_best ho hm
    have ih' := ih (fun k hk => hbest k (List.mem_cons_of_mem _ hk))
    simp only [biggestOutputLoop, ho, hm]
    by_cases hle : m.size.intArea ≤ total
    · rw [if_pos hle]
      obtain ⟨r, hr, hkeep, hnew⟩ := ih' total init
      refine ⟨r, hr, ?_, ?_⟩
      · intro hall
        exact hkeep (fun k hk => hall k (List.mem_cons_of_mem _ hk))
      · rintro ⟨k, hk, hlt⟩
        have hk' : k ∈ xs := by
          rcases List.mem_cons.mp hk with h | h
          · rw [h, hax] at hlt
            exact absurd hlt (not_lt.mpr hle)
          · exact h
        obtain ⟨b, hrb, hbm, hbt, hmax, hbefore⟩ := hnew ⟨k, hk', hlt⟩
        have hxb : x ≠ b := by
          intro h
          rw [← h, hax] at hbt
          exact absurd hbt (not_lt.mpr hle)
        refine ⟨b, hrb, List.mem_cons_of_mem _ hbm, hbt, ?_, ?_⟩
        · intro k' hk'
          rcases List.mem_cons.mp hk' with h | h
          · rw [h, hax]; exact le_of_lt (lt_of_le_of_lt hle hbt)
          · exact hmax k' h
        · intro k' hk'
          have hb : (x != b) = true := by simpa using hxb
          rw [List.takeWhile_cons, hb] at hk'
          simp only [if_true] at hk'
          rcases List.mem_cons.mp hk' with h | h
          · rw [h, hax]; exact lt_of_le_of_lt hle hbt
          · exact hbefore k' h
    · rw [if_neg hle]
      have hgt : total < m.size.intArea := not_le.mp hle
      obtain ⟨r, hr, hkeep, hnew⟩ := ih' (m.size.intArea) (some x)
      refine ⟨r, hr, ?_, ?_⟩
      · intro hall
        have := hall x (List.mem_cons_self _ _)
        rw [hax] at this
        exact absurd this hle
      · intro _
        by_cases hrest : ∃ k ∈ xs, m.size.intArea < c.bestArea env k
        · obtain ⟨b, hrb, hbm, hbt, hmax, hbefore⟩ := hnew hrest
          have hxb : x ≠ b := by
            intro h
            rw [← h, hax] at hbt
            exact absurd hbt (lt_irrefl _)
          refine ⟨b, hrb, List.mem_cons_of_mem _ hbm, lt_trans hgt hbt, ?_, ?_⟩
          · intro k' hk'
            rcases List.mem_cons.mp hk' with h | h
            · rw [h, hax]; exact le_of_lt hbt
            · exact hmax k' h
          · intro k' hk'
            have hb : (x != b) = true := by simpa using hxb
            rw [List.takeWhile_cons, hb] at hk'
            simp only [if_true] at hk'
            rcases List.mem_cons.mp hk' with h | h
            · rw [h, hax]; exact hbt
            · exact hbefore k' h
        · have hall : ∀ k ∈ xs, c.bestArea env k ≤ m.size.intArea := by
            intro k hk
            by_contra hc
            exact hrest ⟨k, hk, not_le.mp hc⟩
          refine ⟨x, hkeep hall, List.mem_cons_self _ _, by rw [hax]; exact hgt, ?_, ?_⟩
          · intro k' hk'
            rcases List.mem_cons.mp hk' with h | h
            · rw [h]
            · rw [hax]; exact hall k' h
          · intro k' hk'
            rw [List.takeWhile_cons] at hk'
            simp only [bne_self_eq_false, Bool.false_eq_true, if_false] at hk'
            exact absurd hk' (List.not_mem_nil k')

/-- The first output of maximal area: on a non-empty list of connected outputs that each have a
best mode (the preferred mode if present, else `biggestMode`) of positive area as computed in
`int`, `biggestOutput` returns the first listed output whose best mode has the maximal area as
computed in `int`: no listed output has a larger one and every output listed before it has a
strictly smaller one. -/
theorem biggestOutput_first_of_max (env : Platform) (c : Config) (ws : List Int) (hne : ws ≠ [])
    (hbest : ∀ k ∈ ws, ∃ o m, c.output k = some o ∧ o.connected = true ∧
      bestModeForOutput env o = some (some m) ∧ 0 < m.size.intArea) :
    ∃ b, biggestOutput env c ws = some (some b) ∧ b ∈ ws ∧
      (∀ k ∈ ws, c.bestArea env k ≤ c.bestArea env b) ∧
      ∀ k ∈ ws.takeWhile (fun x => x != b), c.bestArea env k < c.bestArea env b := by
  obtain ⟨r, hr, _, hnew⟩ := biggestOutputLoop_first_max env c ws
    (fun k hk => by obtain ⟨o, m, ho, _, hm, _⟩ := hbest k hk; exact ⟨o, m, ho, hm⟩) 0 none
  have hex : ∃ k ∈ ws, 0 < c.bestArea env k := by
    cases ws with
    | nil => exact absurd rfl hne
    | cons x xs =>
      obtain ⟨o, m, ho, _, hm, hpos⟩ := hbest x (List.mem_cons_self _ _)
      exact ⟨x, List.mem_cons_self _ _, by rw [Config.bestArea_of_best ho hm]; exact hpos⟩
  obtain ⟨b, hrb, hbm, _, hmax, hbefore⟩ := hnew hex
  refine ⟨b, ?_, hbm, hmax, hbefore⟩
  unfold biggestOutput
  rw [assertOutputs_ok env c ws hne
    (fun k hk => by obtain ⟨o, m, ho, hc, _⟩ := hbest k hk; exact ⟨o, ho, hc⟩), hr, hrb]

/-- The first output of maximal area, evaluated: screens of 1920x1080, 2560x1440 and 2560x1440 under keys 1, 2 and 3; the
output chosen is the one under key 2, the first of the two of maximal area. -/
theorem biggestOutput_first_of_max_witness :
    [(1 : Int), 2, 3] ≠ [] ∧
    (∀ k ∈ [(1 : Int), 2, 3], ∃ o m, threeScreens.output k = some o ∧ o.connected = true ∧
      bestModeForOutput (samplePlatform (fun _ => true)) o = some (some m) ∧ 0 < m.size.intArea) ∧
    biggestOutput (samplePlatform (fun _ => true)) threeScreens [1, 2, 3] = some (some 2) ∧
    [1, 2, 3].map (threeScreens.bestArea (samplePlatform (fun _ => true))) =
      [2073600, 3686400, 3686400] ∧
    ∃ b, biggestOutput (samplePlatform (fun _ => true)) threeScreens [1, 2, 3] =
        some (some b) ∧ b ∈ [(1 : Int), 2, 3] ∧
      (∀ k ∈ [(1 : Int), 2, 3], threeScreens.bestArea (samplePlatform (fun _ => true)) k ≤
        threeScreens.bestArea (samplePlatform (fun _ => true)) b) ∧
      ∀ k ∈ [(1 : Int), 2, 3].takeWhile (fun x => x != b),
        threeScreens.bestArea (samplePlatform (fun _ => true)) k <
          threeScreens.bestArea (samplePlatform (fun _ => true)) b :=
  ⟨by decide,
    fun k hk => by
      simp only [List.mem_cons, List.mem_singleton, List.not_mem_nil, or_false] at hk
      rcases hk with rfl | rfl | rfl
      · exact ⟨_, mode1080, rfl, rfl, rfl, by decide⟩
      · exact ⟨_, mode1440, rfl, rfl, rfl, by decide⟩
      · exact ⟨_, mode1440, rfl, rfl, rfl, by decide⟩,
    by decide, by decide,
    biggestOutput_first_of_max (samplePlatform (fun _ => true)) threeScreens [1, 2, 3]
      (by decide)
      (fun k hk => by
        simp only [List.mem_cons, List.mem_singleton, List.not_mem_nil, or_false] at hk
        rcases hk with rfl | rfl | rfl
        · exact ⟨_, mode1080, rfl, rfl, rfl, by decide⟩
        · exact ⟨_, mode1440, rfl, rfl, rfl, by decide⟩
        · exact ⟨_, mode1440, rfl, rfl, rfl, by decide⟩)⟩

/-! ## The best scale -/

/-- The test `dpi > 96 * 1.5` of `bestScaleForOutput` in integers: with the height `h` of the
mode in pixels and a physical height `p > 0` in millimetres, it is `254 * h > 1440 * p`. -/
theorem dpi_gt_iff (h p : Int) (hp : 0 < p) :
    ((h : Rat) / ((p : Rat) / (254 / 10)) > 96 * (3 / 2)) ↔ 254 * h > 1440 * p := by
  have hp' : (0 : Rat) < (p : Rat) := by exact_mod_cast hp
  have hne : (p : Rat) ≠ 0 := ne_of_gt hp'
  have hdiv : (h : Rat) / ((p : Rat) / (254 / 10)) = (254 * (h : Rat)) / (10 * (p : Rat)) := by
    field_simp
    ring
  rw [hdiv, gt_iff_lt, lt_div_iff₀ (by positivity)]
  constructor
  · intro hlt
    have : ((1440 * p : Int) : Rat) < ((254 * h : Int) : Rat) := by
      push_cast
      linarith
    exact_mod_cast this
  · intro hlt
    have : ((1440 * p : Int) : Rat) < ((254 * h : Int) : Rat) := by exact_mod_cast hlt
    push_cast at this
    linarith

/-- C23: `bestScaleForOutput` returns only 1 or 2; it returns 1 whenever the physical height is
not positive, whatever the mode; and on an output with a current mode of height `h` pixels and
physical height `p` millimetres it returns 2 exactly when `p > 0`, `254 * h > 1440 * p` (that
is `h * 25.4 / p > 144`) and `h >= 1440`, and 1 otherwise. -/
theorem bestScaleForOutput_values (o : Output) :
    (∀ s, bestScaleForOutput o = some s → s = 1 ∨ s = 2) ∧
    (o.sizeMm.height ≤ 0 → bestScaleForOutput o = some 1) ∧
    (∀ m, o.currentMode = some m →
      (bestScaleForOutput o = some 2 ↔
        (0 < o.sizeMm.height ∧ 254 * m.size.height > 1440 * o.sizeMm.height ∧
          m.size.height ≥ 1440)) ∧
      (bestScaleForOutput o = some 1 ↔
        ¬ (0 < o.sizeMm.height ∧ 254 * m.size.height > 1440 * o.sizeMm.height ∧
          m.size.height ≥ 1440))) := by
  have h12 : (1 : Rat) ≠ 2 := by norm_num
  refine ⟨?_, ?_, ?_⟩
  · intro s hs
    unfold bestScaleForOutput at hs
    split at hs
    · exact Or.inl (Option.some.inj hs).symm
    · split at hs
      · exact absurd hs (by simp)
      · simp only at hs
        split at hs
        · exact Or.inr (Option.some.inj hs).symm
        · exact Or.inl (Option.some.inj hs).symm
  · intro hp
    unfold bestScaleForOutput
    rw [if_pos hp]
  · intro m hm
    unfold bestScaleForOutput
    by_cases hp : o.sizeMm.height ≤ 0
    · rw [if_pos hp]
      have hn : ¬ (0 < o.sizeMm.height ∧ 254 * m.size.height > 1440 * o.sizeMm.height ∧
          m.size.height ≥ 1440) := fun h => absurd h.1 (not_lt.mpr hp)
      constructor
      · constructor
        · intro h; exact absurd (Option.some.inj h) h12
        · intro h; exact absurd h hn
      · exact ⟨fun _ => hn, fun _ => rfl⟩
    · rw [if_neg hp, hm]
      simp only
      have hpos : 0 < o.sizeMm.height := not_le.mp hp
      have hiff := dpi_gt_iff m.size.height o.sizeMm.height hpos
      by_cases hc : (m.size.height : Rat) / ((o.sizeMm.height : Rat) / (254 / 10)) > 96 * (3 / 2) ∧
          m.size.height ≥ 1440
      · rw [if_pos hc]
        have hyes : 0 < o.sizeMm.height ∧ 254 * m.size.height > 1440 * o.sizeMm.height ∧
            m.size.height ≥ 1440 := ⟨hpos, hiff.mp hc.1, hc.2⟩
        constructor
        · exact ⟨fun _ => hyes, fun _ => rfl⟩
        · constructor
          · intro h; exact absurd (Option.some.inj h) (Ne.symm h12)
          · intro h; exact absurd hyes h
      · rw [if_neg hc]
        have hno : ¬ (0 < o.sizeMm.height ∧ 254 * m.size.height > 1440 * o.sizeMm.height ∧
            m.size.height ≥ 1440) := fun h => hc ⟨hiff.mpr h.2.1, h.2.2⟩
        constructor
        · constructor
          · intro h; exact absurd (Option.some.inj h) h12
          · intro h; exact absurd h hno
        · exact ⟨fun _ => hno, fun _ => rfl⟩

/-- Witness of C23: with a physical height of 189 mm and a mode of height 2160 the scale is 2;
with a physical height of 0 it is 1. -/
theorem bestScaleForOutput_values_witness :
    (hiDpiOutput 189).currentMode = some mode2160 ∧ (hiDpiOutput 189).sizeMm.height = 189 ∧
    mode2160.size.height = 2160 ∧
    bestScaleForOutput (hiDpiOutput 189) = some 2 ∧
    (hiDpiOutput 0).sizeMm.height ≤ 0 ∧
    bestScaleForOutput (hiDpiOutput 0) = some 1 :=
  ⟨by decide, by decide, by decide,
    (((bestScaleForOutput_values (hiDpiOutput 189)).2.2 mode2160 (by decide)).1).mpr (by decide),
    by decide,
    (bestScaleForOutput_values (hiDpiOutput 0)).2.1 (by decide)⟩

/-! ## The clone policy without a common size -/

theorem list_eq_of_find (l l' : List Output)
    (hk : l'.map (fun o => o.id) = l.map (fun o => o.id))
    (hnd : (l.map (fun o => o.id)).Nodup)
    (h : ∀ k, l'.find? (fun o => o.id == k) = l.find? (fun o => o.id == k)) : l' = l := by
  induction l generalizing l' with
  | nil =>
    cases l' with
    | nil => rfl
    | cons y ys => simp at hk
  | cons x xs ih =>
    cases l' with
    | nil => simp at hk
    | cons y ys =>
      rw [List.map_cons, List.map_cons] at hk
      have hid : y.id = x.id := (List.cons.inj hk).1
      have hks : ys.map (fun o => o.id) = xs.map (fun o => o.id) := (List.cons.inj hk).2
      rw [List.map_cons, List.nodup_cons] at hnd
      have hx := h x.id
      rw [List.find?_cons, List.find?_cons] at hx
      have hb1 : (y.id == x.id) = true := by simpa using hid
      have hb2 : (x.id == x.id) = true := by simp
      rw [hb1, hb2] at hx
      have hyx : y = x := Option.some.inj hx
      subst hyx
      congr 1
      apply ih ys hks hnd.2
      intro k
      by_cases hky : y.id = k
      · have h1 : ys.find? (fun o => o.id == k) = none := by
          rw [List.find?_eq_none]
          intro o ho hok
          have : o.id = k := by simpa using hok
          have hmem : k ∈ ys.map (fun o => o.id) := by
            rw [← this]; exact List.mem_map_of_mem _ ho
          rw [hks, ← hky] at hmem
          exact hnd.1 hmem
        have h2 : xs.find? (fun o => o.id == k) = none := by
          rw [List.find?_eq_none]
          intro o ho hok
          have : o.id = k := by simpa using hok
          have hmem : k ∈ xs.map (fun o => o.id) := by
            rw [← this]; exact List.mem_map_of_mem _ ho
          rw [← hky] at hmem
          exact hnd.1 hmem
        rw [h1, h2]
      · have hk' := h k
        rw [List.find?_cons, List.find?_cons] at hk'
        have hb : (y.id == k) = false := by simpa using hky
        rw [hb] at hk'
        exact hk'

/-- Two configurations with the same keys, the same output under every key and the same screen
data are equal. -/
theorem Config.ext_output {c d : Config} (hwf : c.WF) (hk : d.keys = c.keys)
    (hout : ∀ k, d.output k = c.output k) (hmax : d.maxSize = c.maxSize)
    (hfeat : d.perOutputScaling = c.perOutputScaling) : d = c := by
  have hl : d.outputs = c.outputs :=
    list_eq_of_find c.outputs d.outputs hk (Config.keys_nodup hwf) hout
  cases c
  cases d
  simp only at hl hmax hfeat
  rw [hl, hmax, hfeat]

/-- The connected outputs of two configurations with the same keys whose outputs agree on being
connected. -/
theorem Config.connectedOutputs_congr {c d : Config} (hwf : c.WF) (hk : d.keys = c.keys)
    (hconn : ∀ k, (d.output k).map (fun o => o.connected) =
      (c.output k).map (fun o => o.connected)) :
    d.connectedOutputs = c.connectedOutputs := by
  have hwfd : d.WF := by unfold Config.WF at *; rw [hk]; exact hwf
  have hmem : ∀ k, k ∈ d.connectedOutputs ↔ k ∈ c.connectedOutputs := by
    intro k
    rw [Config.connectedOutputs_spec hwfd, Config.connectedOutputs_spec hwf]
    have h := hconn k
    constructor
    · rintro ⟨o, ho, hc⟩
      rw [ho] at h
      cases hco : c.output k with
      | none => rw [hco] at h; cases h
      | some o' =>
        rw [hco] at h
        simp only [Option.map_some', Option.some.injEq] at h
        exact ⟨o', rfl, by rw [← h]; exact hc⟩
    · rintro ⟨o, ho, hc⟩
      rw [ho] at h
      cases hdo : d.output k with
      | none => rw [hdo] at h; cases h
      | some o' =>
        rw [hdo] at h
        simp only [Option.map_some', Option.some.injEq] at h
        exact ⟨o', rfl, by rw [h]; exact hc⟩
  have h1 := Config.connectedOutputs_ascending hwfd
  have h2 := Config.connectedOutputs_ascending hwf
  exact List.eq_of_perm_of_sorted
    ((List.perm_ext_iff_of_nodup (nodup_of_ascending h1) (nodup_of_ascending h2)).mpr hmem)
    (h1.imp (fun h => le_of_lt h)) (h2.imp (fun h => le_of_lt h))

theorem disableAll_idem (c : Config) :
    disableAllDisconnectedOutputs (disableAllDisconnectedOutputs c) =
      disableAllDisconnectedOutputs c := by
  unfold disableAllDisconnectedOutputs
  simp only [List.map_map]
  congr 1
  apply List.map_congr_left
  intro o _
  simp only [Function.comp]
  cases hc : o.connected with
  | true => simp [hc]
  | false => simp [hc, Output.setEnabled, Output.setPrimary]

/-- The initialization of an output does not depend on its layout nor on its current mode id,
and keeps the layout. -/
theorem initializeOutput_withLayout (env : Platform) (features : Bool) (o s : Output) (i : Nat) :
    initializeOutput env features ((o.withLayout s).setCurrentModeId i) =
      (initializeOutput env features o).map (fun o' => o'.withLayout s) := by
  unfold initializeOutput
  have hb : bestModeForOutput env ((o.withLayout s).setCurrentModeId i) =
      bestModeForOutput env o := rfl
  rw [hb]
  cases hbest : bestModeForOutput env o with
  | none => rfl
  | some r =>
    cases r with
    | none => rfl
    | some best =>
      simp only
      cases features with
      | false => rfl
      | true =>
        simp only [if_true]
        have hs : bestScaleForOutput
            ((((o.withLayout s).setCurrentModeId i).setCurrentModeId
              (((o.withLayout s).setCurrentModeId i).global.modeId.getD best.id)).setRotation
              ((((o.withLayout s).setCurrentModeId i).global.rotation.getD
                (((o.withLayout s).setCurrentModeId i).setCurrentModeId
                  (((o.withLayout s).setCurrentModeId i).global.modeId.getD best.id)).rotation))) =
            bestScaleForOutput ((o.setCurrentModeId (o.global.modeId.getD best.id)).setRotation
              (o.global.rotation.getD
                (o.setCurrentModeId (o.global.modeId.getD best.id)).rotation)) := rfl
        rw [hs]
        cases bestScaleForOutput ((o.setCurrentModeId (o.global.modeId.getD best.id)).setRotation
          (o.global.rotation.getD
            (o.setCurrentModeId (o.global.modeId.getD best.id)).rotation)) with
        | none => rfl
        | some sc => rfl

/-- An initialized output is left as it is by another initialization. -/
theorem initializeOutput_fixpoint (env : Platform) (features : Bool) (o o' : Output)
    (h : initializeOutput env features o = some o') :
    initializeOutput env features o' = some o' := by
  obtain ⟨id, conn, ty, modes, pref, sz, ⟨gm, gr, gs⟩, en, pr, pos, cur, rot, sc0⟩ := o
  unfold initializeOutput at h
  cases hbest : bestModeForOutput env
      ⟨id, conn, ty, modes, pref, sz, ⟨gm, gr, gs⟩, en, pr, pos, cur, rot, sc0⟩ with
  | none => rw [hbest] at h; cases h
  | some r =>
    cases r with
    | none => rw [hbest] at h; cases h
    | some best =>
      rw [hbest] at h
      simp only at h
      cases features with
      | false =>
        simp only [Bool.false_eq_true, if_false] at h
        have ho' := Option.some.inj h
        subst ho'
        unfold initializeOutput
        have hb : bestModeForOutput env
            ((Output.setCurrentModeId
              ⟨id, conn, ty, modes, pref, sz, ⟨gm, gr, gs⟩, en, pr, pos, cur, rot, sc0⟩
              (gm.getD best.id)).setRotation (gr.getD rot)) = some (some best) := hbest
        simp only [Output.setCurrentModeId, Output.setRotation] at hb ⊢
        rw [hb]
        simp only [Bool.false_eq_true, if_false]
        cases gr <;> rfl
      | true =>
        simp only [if_true] at h
        cases hsc : bestScaleForOutput
            ((Output.setCurrentModeId
              ⟨id, conn, ty, modes, pref, sz, ⟨gm, gr, gs⟩, en, pr, pos, cur, rot, sc0⟩
              (gm.getD best.id)).setRotation (gr.getD rot)) with
        | none =>
          simp only [Output.setCurrentModeId, Output.setRotation] at h hsc
          rw [hsc] at h; cases h
        | some sc =>
          simp only [Output.setCurrentModeId, Output.setRotation] at h hsc
          rw [hsc] at h
          have ho' := Option.some.inj h
          subst ho'
          unfold initializeOutput
          have hb : bestModeForOutput env
              (Output.setScale ⟨id, conn, ty, modes, pref, sz, ⟨gm, gr, gs⟩, en, pr, pos,
                gm.getD best.id, gr.getD rot, sc0⟩ (gs.getD sc)) = some (some best) := hbest
          simp only [Output.setScale] at hb ⊢
          rw [hb]
          simp only [Output.setCurrentModeId, Output.setRotation, if_true]
          have hs2 : bestScaleForOutput ⟨id, conn, ty, modes, pref, sz, ⟨gm, gr, gs⟩, en, pr,
              pos, gm.getD best.id, gr.getD (gr.getD rot), gs.getD sc⟩ = some sc := by
            rw [← hsc]; rfl
          rw [hs2]
          cases gr <;> rfl

/-- The initialization loop completes as soon as every listed output can be initialized. -/
theorem initializeOutputs_total (env : Platform) (features : Bool) (ks : List Int) :
    ∀ (c : Config), ks.Nodup →
      (∀ k ∈ ks, ∃ o o', c.output k = some o ∧ initializeOutput env features o = some o') →
      ∃ c', initializeOutputs env features c ks = some c' ∧ c'.keys = c.keys ∧
        c'.maxSize = c.maxSize ∧ c'.perOutputScaling = c.perOutputScaling ∧
        (∀ k, k ∉ ks → c'.output k = c.output k) ∧
        (∀ k ∈ ks, ∀ o, c.output k = some o →
          ∃ o', initializeOutput env features o = some o' ∧ c'.output k = some o') := by
  induction ks with
  | nil =>
    intro c _ _
    exact ⟨c, rfl, rfl, rfl, rfl, fun _ _ => rfl, fun k hk => absurd hk (List.not_mem_nil k)⟩
  | cons x xs ih =>
    intro c hnd hval
    obtain ⟨o, o1, ho, ho1⟩ := hval x (List.mem_cons_self _ _)
    have hid : o.id = x := Config.output_id ho
    have hid1 : o1.id = x := (initializeOutput_id ho1).trans hid
    have hnd' := List.nodup_cons.mp hnd
    have hne : ∀ k, k ≠ x → (c.setOutput o1).output k = c.output k := fun k hk =>
      Config.output_setOutput_of_ne (by rw [hid1]; exact fun h => hk h.symm)
    obtain ⟨c', hrun, hk', hm', hp', hout, hin⟩ := ih (c.setOutput o1) hnd'.2
      (fun k hk => by
        rw [hne k (fun h => hnd'.1 (h ▸ hk))]
        exact hval k (List.mem_cons_of_mem _ hk))
    refine ⟨c', ?_, ?_, ?_, ?_, ?_, ?_⟩
    · simp only [initializeOutputs, ho, ho1]; exact hrun
    · rw [hk', Config.keys_setOutput]
    · rw [hm']; rfl
    · rw [hp']; rfl
    · intro k hk
      rw [List.mem_cons, not_or] at hk
      rw [hout k hk.2, hne k hk.1]
    · intro k hk ok hok
      by_cases hkx : k = x
      · subst hkx
        have : ok = o := by rw [ho] at hok; exact (Option.some.inj hok).symm
        subst this
        refine ⟨o1, ho1, ?_⟩
        rw [hout k hnd'.1]
        have h := Config.output_setOutput_self c ok o1
          (by rw [hid1]; exact ho)
        rw [hid1] at h; exact h
      · have hkxs : k ∈ xs := (List.mem_cons.mp hk).resolve_left hkx
        exact hin k hkxs ok (by rw [hne k hkx]; exact hok)

theorem initializeOutputs_fields (env : Platform) (features : Bool) (ks : List Int) :
    ∀ (c c' : Config), initializeOutputs env features c ks = some c' →
      c'.maxSize = c.maxSize ∧ c'.perOutputScaling = c.perOutputScaling := by
  induction ks with
  | nil =>
    intro c c' h
    simp only [initializeOutputs] at h
    rw [← Option.some.inj h]; exact ⟨rfl, rfl⟩
  | cons x xs ih =>
    intro c c' h
    simp only [initializeOutputs] at h
    cases ho : c.output x with
    | none => rw [ho] at h; cases h
    | some o =>
      rw [ho] at h
      simp only at h
      cases hi : initializeOutput env features o with
      | none => rw [hi] at h; cases h
      | some o1 =>
        rw [hi] at h
        exact ih (c.setOutput o1) c' h

theorem cloneBiggestLoop_fields (env : Platform) (ks : List Int) :
    ∀ (c c' : Config), cloneBiggestLoop env c ks = some c' →
      c'.maxSize = c.maxSize ∧ c'.perOutputScaling = c.perOutputScaling := by
  induction ks with
  | nil =>
    intro c c' h
    simp only [cloneBiggestLoop] at h
    rw [← Option.some.inj h]; exact ⟨rfl, rfl⟩
  | cons x xs ih =>
    intro c c' h
    simp only [cloneBiggestLoop] at h
    cases ho : c.output x with
    | none => rw [ho] at h; cases h
    | some o =>
      rw [ho] at h
      simp only at h
      split at h
      · exact ih _ c' h
      · split at h <;> first | exact (have h' := ih _ c' h; h') | cases h

theorem cloneBestLoop_fields (size : QSize) (ks : List Int) :
    ∀ (c c' : Config), cloneBestLoop size c ks = some c' →
      c'.maxSize = c.maxSize ∧ c'.perOutputScaling = c.perOutputScaling := by
  induction ks with
  | nil =>
    intro c c' h
    simp only [cloneBestLoop] at h
    rw [← Option.some.inj h]; exact ⟨rfl, rfl⟩
  | cons x xs ih =>
    intro c c' h
    simp only [cloneBestLoop] at h
    cases ho : c.output x with
    | none => rw [ho] at h; cases h
    | some o =>
      rw [ho] at h
      simp only at h
      split at h
      · exact ih _ c' h
      · split at h <;> first | exact (have h' := ih _ c' h; h') | cases h

theorem cloneScreens_fields (g : Generator) (c c' : Config) (ws : List Int)
    (h : cloneScreens g c ws = some c') :
    c'.maxSize = c.maxSize ∧ c'.perOutputScaling = c.perOutputScaling := by
  unfold cloneScreens at h
  split at h
  · cases h
  · split at h
    · rw [← Option.some.inj h]; exact ⟨rfl, rfl⟩
    · simp only at h
      split at h
      · cases h
      · split at h
        · exact cloneBiggestLoop_fields g.env ws c c' h
        · split at h
          · cases h
          · exact cloneBestLoop_fields _ ws c c' h

/-- A configuration in which every output that is not connected is disabled and not primary is
left as it is by `disableAllDisconnectedOutputs`. -/
theorem disableAll_of_disabled (c : Config)
    (h : ∀ o ∈ c.outputs, o.connected = false → o.enabled = false ∧ o.primary = false) :
    disableAllDisconnectedOutputs c = c := by
  unfold disableAllDisconnectedOutputs
  have hl : c.outputs.map (fun output =>
      if (!output.connected) = true then (output.setEnabled false).setPrimary false
      else output) = c.outputs := by
    conv => rhs; rw [← List.map_id c.outputs]
    apply List.map_congr_left
    intro o ho
    cases hc : o.connected with
    | true => simp
    | false =>
      obtain ⟨he, hp⟩ := h o ho hc
      simp only [Bool.not_false, if_true, id]
      cases o
      simp only [Output.setEnabled, Output.setPrimary] at he hp ⊢
      rw [he, hp]
  rw [hl]

theorem Config.sameUpToLayout_refl (c : Config) (ws : List Int) : c.sameUpToLayout c ws :=
  ⟨rfl, rfl, rfl, fun _ _ => rfl, fun _ _ o ho => ⟨o, ho⟩⟩

theorem Config.sameUpToLayout_conn {c d : Config} {ws : List Int}
    (h : c.sameUpToLayout d ws)
    (hconn : ∀ k ∈ ws, ∃ o, c.output k = some o ∧ o.connected = true) :
    ∀ k ∈ ws, ∃ o, d.output k = some o ∧ o.connected = true := by
  intro k hk
  obtain ⟨o, ho, hc⟩ := hconn k hk
  obtain ⟨s, hs⟩ := h.2.2.2.2 k hk o ho
  exact ⟨_, hs, hc⟩

theorem Config.sameUpToLayout_geometryWidth {c d : Config} {ws : List Int} (env : Platform)
    (h : c.sameUpToLayout d ws) (k : Int) :
    d.geometryWidth env k = c.geometryWidth env k := by
  by_cases hk : k ∈ ws
  · cases ho : c.output k with
    | none =>
      have hd : d.output k = none := by
        rw [Config.output_eq_none_iff, h.1, ← Config.output_eq_none_iff]; exact ho
      unfold Config.geometryWidth; rw [ho, hd]
    | some o =>
      obtain ⟨s, hs⟩ := h.2.2.2.2 k hk o ho
      exact Config.geometryWidth_congr ho hs rfl
  · unfold Config.geometryWidth; rw [h.2.2.2.1 k hk]

theorem assertOutputs_congr_conn (env : Platform) (c d : Config) (ws : List Int)
    (h : ∀ k ∈ ws, d.connectedAt k = c.connectedAt k) :
    assertOutputs env d ws = assertOutputs env c ws := by
  unfold assertOutputs
  rw [all_congr_mem ws (fun k => d.connectedAt k) (fun k => c.connectedAt k) h]

theorem biggestOutputLoop_congr_best (env : Platform) (c d : Config) (ks : List Int)
    (h : ∀ k ∈ ks, (d.output k).map (bestModeForOutput env) =
      (c.output k).map (bestModeForOutput env)) :
    ∀ (total : Int) (init : Option Int),
      biggestOutputLoop env d total init ks = biggestOutputLoop env c total init ks := by
  induction ks with
  | nil => intro total init; rfl
  | cons x xs ih =>
    intro total init
    have ih' := ih (fun k hk => h k (List.mem_cons_of_mem _ hk))
    have hx := h x (List.mem_cons_self _ _)
    simp only [biggestOutputLoop]
    cases hc : c.output x with
    | none =>
      cases hd : d.output x with
      | none => rfl
      | some od => rw [hc, hd] at hx; cases hx
    | some oc =>
      cases hd : d.output x with
      | none => rw [hc, hd] at hx; cases hx
      | some od =>
        rw [hc, hd] at hx
        simp only [Option.map_some', Option.some.injEq] at hx
        simp only [hx, ih']

/-- The output chosen by `biggestOutput` does not depend on the layout of the outputs. -/
theorem biggestOutput_layout (env : Platform) {c d : Config} {ws : List Int}
    (h : c.sameUpToLayout d ws) (ws' : List Int) (hsub : ∀ k ∈ ws', k ∈ ws) :
    biggestOutput env d ws' = biggestOutput env c ws' := by
  have hpt : ∀ k ∈ ws', (d.output k).map (fun o => (o.connected, bestModeForOutput env o)) =
      (c.output k).map (fun o => (o.connected, bestModeForOutput env o)) := by
    intro k hk
    cases ho : c.output k with
    | none =>
      have hd : d.output k = none := by
        rw [Config.output_eq_none_iff, h.1, ← Config.output_eq_none_iff]; exact ho
      rw [hd]
    | some o =>
      obtain ⟨s, hs⟩ := h.2.2.2.2 k (hsub k hk) o ho
      rw [hs]; rfl
  unfold biggestOutput
  rw [assertOutputs_congr_conn env c d ws' (fun k hk => by
      have := hpt k hk
      unfold Config.connectedAt
      cases hc : c.output k with
      | none => rw [hc] at this; cases hd : d.output k with
        | none => rfl
        | some od => rw [hd] at this; cases this
      | some oc =>
        rw [hc] at this
        cases hd : d.output k with
        | none => rw [hd] at this; cases this
        | some od =>
          rw [hd] at this
          simp only [Option.map_some', Option.some.injEq, Prod.mk.injEq] at this
          exact this.1),
    biggestOutputLoop_congr_best env c d ws' (fun k hk => by
      have := hpt k hk
      cases hc : c.output k with
      | none => rw [hc] at this; cases hd : d.output k with
        | none => rfl
        | some od => rw [hd] at this; cases this
      | some oc =>
        rw [hc] at this
        cases hd : d.output k with
        | none => rw [hd] at this; cases this
        | some od =>
          rw [hd] at this
          simp only [Option.map_some', Option.some.injEq, Prod.mk.injEq] at this
          simp only [Option.map_some', this.2])]

theorem embeddedKey_layout {c d : Config} {ws : List Int} (h : c.sameUpToLayout d ws) :
    embeddedKey d ws = embeddedKey c ws := by
  apply embeddedKey_congr
  intro k hk
  cases ho : c.output k with
  | none =>
    have hd : d.output k = none := by
      rw [Config.output_eq_none_iff, h.1, ← Config.output_eq_none_iff]; exact ho
    rw [hd]
  | some o =>
    obtain ⟨s, hs⟩ := h.2.2.2.2 k hk o ho
    rw [hs]; rfl

/-! ## The policies up to the layout of their input -/

/-- The extend-right policy changes the layout of the listed outputs only. -/
theorem extendToRight_sameLayout (env : Platform) (c cfg : Config) (ws : List Int)
    (hne : ws ≠ []) (hasc : ws.Pairwise (fun x y => x < y))
    (hconn : ∀ k ∈ ws, ∃ o, c.output k = some o ∧ o.connected = true)
    (hrun : extendToRight env c ws = some cfg) : c.sameUpToLayout cfg ws := by
  obtain ⟨b, hb⟩ := extendToRight_inv env c cfg ws hne hconn hrun
  obtain ⟨c', hrun', hk, hmax, hfeat, hpb, hrest, hout⟩ :=
    extendToRight_spec env c ws b hasc hconn hb
  have : c' = cfg := by rw [hrun] at hrun'; exact (Option.some.inj hrun').symm
  subst this
  refine ⟨hk, hmax, hfeat, hout, ?_⟩
  intro k hk' o ho
  by_cases hkb : k = b
  · subst hkb
    exact ⟨o.placedPrimary, hpb o ho⟩
  · refine ⟨o.chained (c.geometryWidth env b + widthsBefore env c (removeKey ws b) k), ?_⟩
    exact hrest k hk' hkb o ho

/-- The result of the extend-right policy does not depend on the layout of the listed
outputs. -/
theorem extendToRight_layout (env : Platform) (c d cfg : Config) (ws : List Int)
    (hwf : c.WF) (hR : c.sameUpToLayout d ws)
    (hne : ws ≠ []) (hasc : ws.Pairwise (fun x y => x < y))
    (hconn : ∀ k ∈ ws, ∃ o, c.output k = some o ∧ o.connected = true)
    (hrun : extendToRight env c ws = some cfg) : extendToRight env d ws = some cfg := by
  obtain ⟨b, hb⟩ := extendToRight_inv env c cfg ws hne hconn hrun
  obtain ⟨c', hrun', hk, hmax, hfeat, hpb, hrest, hout⟩ :=
    extendToRight_spec env c ws b hasc hconn hb
  have : c' = cfg := by rw [hrun] at hrun'; exact (Option.some.inj hrun').symm
  subst this
  have hbd : biggestOutput env d ws = some (some b) := by
    rw [biggestOutput_layout env hR ws (fun _ h => h)]; exact hb
  obtain ⟨d', hrund, hkd, hmaxd, hfeatd, hpbd, hrestd, houtd⟩ :=
    extendToRight_spec env d ws b hasc (Config.sameUpToLayout_conn hR hconn) hbd
  rw [hrund]
  congr 1
  have hwf' : c'.WF := by unfold Config.WF at *; rw [hk]; exact hwf
  apply Config.ext_output hwf'
  · rw [hkd, hR.1, hk]
  · intro k
    by_cases hkw : k ∈ ws
    · obtain ⟨o, ho, _⟩ := hconn k hkw
      obtain ⟨s, hs⟩ := hR.2.2.2.2 k hkw o ho
      by_cases hkb : k = b
      · subst hkb
        rw [hpbd _ hs, hpb o ho]; rfl
      · rw [hrestd k hkw hkb _ hs, hrest k hkw hkb o ho,
          Config.sameUpToLayout_geometryWidth env hR b,
          widthsBefore_congr_width env c d (removeKey ws b) k
            (fun x _ => Config.sameUpToLayout_geometryWidth env hR x)]
        rfl
    · rw [houtd k hkw, hout k hkw, hR.2.2.2.1 k hkw]
  · rw [hmaxd, hR.2.1, hmax]
  · rw [hfeatd, hR.2.2.1, hfeat]

/-- The single-output policy on one connected output with modes changes the layout of that
output only. -/
theorem singleOutput_sameLayout (env : Platform) (c cfg : Config) (k : Int)
    (hconn : ∀ x ∈ [k], ∃ o, c.output x = some o ∧ o.connected = true ∧ o.modes ≠ [])
    (hrun : singleOutput env c [k] = some cfg) : c.sameUpToLayout cfg [k] := by
  obtain ⟨o, ho, hc, hm⟩ := hconn k (List.mem_singleton_self k)
  have hspec := singleOutput_spec env c k [] o
    (fun x hx => by obtain ⟨o', ho', hc', _⟩ := hconn x hx; exact ⟨o', ho', hc'⟩) ho hm
  rw [hrun] at hspec
  have hcfg := Option.some.inj hspec
  have hid : o.placedPrimary.id = k := (Config.output_id ho : o.id = k)
  rw [hcfg]
  refine ⟨Config.keys_setOutput _ _, rfl, rfl, ?_, ?_⟩
  · intro x hx
    exact Config.output_setOutput_of_ne
      (by rw [hid]; exact fun h => hx (by rw [← h]; exact List.mem_singleton_self _))
  · intro x hx o' ho'
    have hxk : x = k := List.mem_singleton.mp hx
    subst hxk
    have : o' = o := by rw [ho] at ho'; exact (Option.some.inj ho').symm
    subst this
    refine ⟨o'.placedPrimary, ?_⟩
    have h := Config.output_setOutput_self c o' o'.placedPrimary (by rw [hid]; exact ho)
    rw [hid] at h
    exact h

/-- The result of the single-output policy on one connected output with modes does not depend
on the layout of that output. -/
theorem singleOutput_layout (env : Platform) (c d cfg : Config) (k : Int)
    (hwf : c.WF) (hR : c.sameUpToLayout d [k])
    (hconn : ∀ x ∈ [k], ∃ o, c.output x = some o ∧ o.connected = true ∧ o.modes ≠ [])
    (hrun : singleOutput env c [k] = some cfg) : singleOutput env d [k] = some cfg := by
  obtain ⟨o, ho, hc, hm⟩ := hconn k (List.mem_singleton_self k)
  have hconn' : ∀ x ∈ [k], ∃ o, c.output x = some o ∧ o.connected = true :=
    fun x hx => by obtain ⟨o', ho', hc', _⟩ := hconn x hx; exact ⟨o', ho', hc'⟩
  have hspec := singleOutput_spec env c k [] o hconn' ho hm
  rw [hrun] at hspec
  have hcfg := Option.some.inj hspec
  obtain ⟨s, hs⟩ := hR.2.2.2.2 k (List.mem_singleton_self k) o ho
  rw [singleOutput_spec env d k [] (o.withLayout s)
    (Config.sameUpToLayout_conn hR hconn') hs hm, hcfg]
  congr 1
  have hid : o.placedPrimary.id = k := (Config.output_id ho : o.id = k)
  have hwf' : (c.setOutput o.placedPrimary).WF := Config.WF_setOutput _ hwf
  apply Config.ext_output hwf'
  · rw [Config.keys_setOutput, Config.keys_setOutput, hR.1]
  · intro x
    by_cases hx : x = k
    · subst hx
      have h1 := Config.output_setOutput_self c o o.placedPrimary (by rw [hid]; exact ho)
      have h2 := Config.output_setOutput_self d (o.withLayout s) (o.withLayout s).placedPrimary
        (by show d.output o.placedPrimary.id = _; rw [hid]; exact hs)
      rw [hid] at h1
      have hid2 : (o.withLayout s).placedPrimary.id = x := hid
      rw [hid2] at h2
      rw [h1, h2]; rfl
    · have hid2 : (o.withLayout s).placedPrimary.id = k := hid
      rw [Config.output_setOutput_of_ne (by rw [hid2]; exact fun h => hx h.symm),
        Config.output_setOutput_of_ne (by rw [hid]; exact fun h => hx h.symm)]
      exact hR.2.2.2.1 x (fun h => hx (List.mem_singleton.mp h))
  · exact hR.2.1
  · exact hR.2.2.1

theorem Output.disabled_withLayout (o s : Output) (h : s.pos = o.pos) :
    ((o.withLayout s).setEnabled false).setPrimary false =
      (o.setEnabled false).setPrimary false := by
  cases o
  simp only [Output.withLayout, Output.setEnabled, Output.setPrimary] at h ⊢
  rw [h]

/-- Writing the same record under key `e` keeps two configurations the same up to the layout of
the other listed outputs. -/
theorem Config.sameUpToLayout_setOutput {c d : Config} {ws : List Int} (e : Int) (oe od : Output)
    (hR : c.sameUpToLayout d ws) (hoe : c.output e = some oe) (hid : od.id = e) :
    (c.setOutput od).sameUpToLayout (d.setOutput od) (removeKey ws e) := by
  have hde : ∃ oe', d.output e = some oe' := by
    cases hd : d.output e with
    | none =>
      rw [Config.output_eq_none_iff, hR.1, ← Config.output_eq_none_iff, hoe] at hd
      cases hd
    | some oe' => exact ⟨oe', rfl⟩
  obtain ⟨oe', hoe'⟩ := hde
  have hce : (c.setOutput od).output e = some od := by
    have h := Config.output_setOutput_self c oe od (by rw [hid]; exact hoe)
    rw [hid] at h; exact h
  have hdd : (d.setOutput od).output e = some od := by
    have h := Config.output_setOutput_self d oe' od (by rw [hid]; exact hoe')
    rw [hid] at h; exact h
  have hcne : ∀ k, k ≠ e → (c.setOutput od).output k = c.output k := fun k hk =>
    Config.output_setOutput_of_ne (by rw [hid]; exact fun h => hk h.symm)
  have hdne : ∀ k, k ≠ e → (d.setOutput od).output k = d.output k := fun k hk =>
    Config.output_setOutput_of_ne (by rw [hid]; exact fun h => hk h.symm)
  refine ⟨by rw [Config.keys_setOutput, Config.keys_setOutput, hR.1], hR.2.1, hR.2.2.1, ?_, ?_⟩
  · intro k hk
    by_cases hke : k = e
    · rw [hke, hce, hdd]
    · rw [hcne k hke, hdne k hke]
      exact hR.2.2.2.1 k (fun h => hk (mem_removeKey.mpr ⟨h, hke⟩))
  · intro k hk o ho
    have hke : k ≠ e := (mem_removeKey.mp hk).2
    rw [hcne k hke] at ho
    rw [hdne k hke]
    exact hR.2.2.2.2 k (mem_removeKey.mp hk).1 o ho

/-- The laptop policy on two or more connected outputs with modes changes the layout of the
listed outputs only, and with the lid closed it keeps the position of the embedded output. -/
theorem laptop_sameLayout (g : Generator) (c cfg : Config) (ws : List Int)
    (hlen : 2 ≤ ws.length) (hasc : ws.Pairwise (fun x y => x < y))
    (hconn : ∀ k ∈ ws, ∃ o, c.output k = some o ∧ o.connected = true ∧ o.modes ≠ [])
    (hrun : laptop g c ws = some cfg) :
    c.sameUpToLayout cfg ws ∧
    (isLidClosed g = true → ∀ e, embeddedKey c ws = some e →
      (cfg.output e).map (fun o => o.pos) = (c.output e).map (fun o => o.pos)) := by
  have hconn' : ∀ k ∈ ws, ∃ o, c.output k = some o ∧ o.connected = true :=
    fun k hk => by obtain ⟨o, ho, hc, _⟩ := hconn k hk; exact ⟨o, ho, hc⟩
  have hkeys : ∀ k ∈ ws, k ∈ c.keys := fun k hk => by
    obtain ⟨o, ho, _⟩ := hconn k hk
    exact (c.output_isSome_iff k).mp (by rw [ho]; rfl)
  have hne : ws ≠ [] := fun h => by rw [h] at hlen; simp at hlen
  obtain ⟨e, he⟩ := embeddedKey_total c ws hne hkeys
  have hew : e ∈ ws := (embeddedKey_spec he).1
  obtain ⟨oe, hoe, _, hme⟩ := hconn e hew
  have hide : oe.id = e := Config.output_id hoe
  have hrlen := length_removeKey_of_nodup (nodup_of_ascending hasc) hew
  have hrne : removeKey ws e ≠ [] := fun h => by rw [h] at hrlen; simp at hrlen; omega
  have hrasc := removeKey_ascending e hasc
  let od : Output := (oe.setEnabled false).setPrimary false
  have hidd : od.id = e := hide
  have hc2 : ∀ k, k ≠ e → (c.setOutput od).output k = c.output k := fun k hk =>
    Config.output_setOutput_of_ne (by rw [hidd]; exact fun h => hk h.symm)
  have hc2e : (c.setOutput od).output e = some od := by
    have h := Config.output_setOutput_self c oe od (by rw [hidd]; exact hoe)
    rw [hidd] at h; exact h
  cases hlid : isLidClosed g with
  | true =>
    by_cases h1 : (removeKey ws e).length = 1
    · obtain ⟨x, hx⟩ := List.length_eq_one.mp h1
      have hxr : x ∈ removeKey ws e := by rw [hx]; exact List.mem_singleton_self x
      have hxw : x ∈ ws := (mem_removeKey.mp hxr).1
      have hxe : x ≠ e := (mem_removeKey.mp hxr).2
      obtain ⟨ox, hox, _, hmx'⟩ := hconn x hxw
      have hmx : ox.modes.isEmpty = false := isEmpty_eq_false_of_ne hmx'
      have hrun' := laptop_lidClosed_single g c ws e x oe ox hconn' he hx hoe hox hme hlid
      rw [hmx, hrun] at hrun'
      simp only [Bool.false_eq_true, if_false] at hrun'
      have hc' : cfg = (c.setOutput od).setOutput ox.placedPrimary := Option.some.inj hrun'
      obtain ⟨hk, hpe, hpx, hrest⟩ := Config.output_setOutput_pair c e x oe ox od
        ox.placedPrimary hoe hox (fun h => hxe h.symm) hidd (Config.output_id hox : ox.id = x)
      have hwsx : ∀ k ∈ ws, k = e ∨ k = x := fun k hk => by
        by_cases hke : k = e
        · exact Or.inl hke
        · have : k ∈ removeKey ws e := mem_removeKey.mpr ⟨hk, hke⟩
          rw [hx, List.mem_singleton] at this
          exact Or.inr this
      rw [hc']
      refine ⟨⟨hk, rfl, rfl, ?_, ?_⟩, ?_⟩
      · intro k hk'
        exact hrest k (fun h => hk' (h ▸ hew)) (fun h => hk' (h ▸ hxw))
      · intro k hk' o ho
        rcases hwsx k hk' with h | h
        · subst h
          have : o = oe := by rw [hoe] at ho; exact (Option.some.inj ho).symm
          subst this
          exact ⟨od, hpe⟩
        · subst h
          have : o = ox := by rw [hox] at ho; exact (Option.some.inj ho).symm
          subst this
          exact ⟨o.placedPrimary, hpx⟩
      · intro _ e' he'
        have : e' = e := by rw [he] at he'; exact (Option.some.inj he').symm
        subst this
        rw [hpe, hoe]; rfl
    · have hgt : (removeKey ws e).length > 1 := by
        have : (removeKey ws e).length ≠ 0 := fun h => hrne (List.length_eq_zero.mp h)
        omega
      have hrun' := laptop_lidClosed_many g c ws e oe hconn' he hgt hoe hme hlid
      rw [hrun] at hrun'
      have hconn2 : ∀ k ∈ removeKey ws e,
          ∃ o, (c.setOutput od).output k = some o ∧ o.connected = true := fun k hk => by
        rw [hc2 k (mem_removeKey.mp hk).2]; exact hconn' k (mem_removeKey.mp hk).1
      obtain ⟨hk, hmax, hfeat, hout, hin⟩ :=
        extendToRight_sameLayout g.env (c.setOutput od) cfg (removeKey ws e) hrne hrasc hconn2
          hrun'.symm
      have hcfge : cfg.output e = some od := by
        rw [hout e (fun h => (mem_removeKey.mp h).2 rfl)]; exact hc2e
      refine ⟨⟨by rw [hk, Config.keys_setOutput], hmax, hfeat, ?_, ?_⟩, ?_⟩
      · intro k hk'
        rw [hout k (fun h => hk' (mem_removeKey.mp h).1), hc2 k (fun h => hk' (h ▸ hew))]
      · intro k hk' o ho
        by_cases hke : k = e
        · subst hke
          have : o = oe := by rw [hoe] at ho; exact (Option.some.inj ho).symm
          subst this
          exact ⟨od, hcfge⟩
        · exact hin k (mem_removeKey.mpr ⟨hk', hke⟩) o (by rw [hc2 k hke]; exact ho)
      · intro _ e' he'
        have : e' = e := by rw [he] at he'; exact (Option.some.inj he').symm
        subst this
        rw [hcfge, hoe]; rfl
  | false =>
    obtain ⟨b, hb⟩ := laptop_lidOpen_inv g c cfg ws e oe hconn' he hoe hme hrne hlid hrun
    have hbr := biggestOutput_mem g.env c _ b hb
    have hbw : b ∈ ws := (mem_removeKey.mp hbr).1
    have hbe : b ≠ e := (mem_removeKey.mp hbr).2
    obtain ⟨ob, hob, _⟩ := hconn' b hbw
    obtain ⟨c'', hrun', hk, hmax, hfeat, hce, hcb, hrest, hout⟩ :=
      laptop_lidOpen_spec g c ws e b oe ob hasc hconn' he hoe hob hme hlid hb
    have : c'' = cfg := by rw [hrun] at hrun'; exact (Option.some.inj hrun').symm
    subst this
    refine ⟨⟨hk, hmax, hfeat, hout, ?_⟩, fun h => absurd h (by simp)⟩
    intro k hk' o ho
    by_cases hke : k = e
    · subst hke
      have : o = oe := by rw [hoe] at ho; exact (Option.some.inj ho).symm
      subst this
      exact ⟨((o.setPos ⟨0, 0⟩).setEnabled true).setPrimary (!isDocked g), hce⟩
    · by_cases hkb : k = b
      · subst hkb
        have : o = ob := by rw [hob] at ho; exact (Option.some.inj ho).symm
        subst this
        exact ⟨((o.setPos ⟨c.geometryWidth g.env e, 0⟩).setEnabled true).setPrimary
          (isDocked g), hcb⟩
      · refine ⟨o.chained (c.geometryWidth g.env e + c.geometryWidth g.env b +
          widthsBefore g.env c (removeKey (removeKey ws e) b) k), ?_⟩
        exact hrest k hk' hke hkb o ho

/-- The result of the laptop policy on two or more connected outputs with modes does not depend
on the layout of the listed outputs, apart from the position of the embedded output when the
lid is closed. -/
theorem laptop_layout (g : Generator) (c d cfg : Config) (ws : List Int)
    (hwf : c.WF) (hR : c.sameUpToLayout d ws)
    (hlen : 2 ≤ ws.length) (hasc : ws.Pairwise (fun x y => x < y))
    (hconn : ∀ k ∈ ws, ∃ o, c.output k = some o ∧ o.connected = true ∧ o.modes ≠ [])
    (hpos : isLidClosed g = true → ∀ e, embeddedKey c ws = some e →
      (d.output e).map (fun o => o.pos) = (c.output e).map (fun o => o.pos))
    (hrun : laptop g c ws = some cfg) : laptop g d ws = some cfg := by
  have hconn' : ∀ k ∈ ws, ∃ o, c.output k = some o ∧ o.connected = true :=
    fun k hk => by obtain ⟨o, ho, hc, _⟩ := hconn k hk; exact ⟨o, ho, hc⟩
  have hconnd := Config.sameUpToLayout_conn hR hconn'
  have hkeys : ∀ k ∈ ws, k ∈ c.keys := fun k hk => by
    obtain ⟨o, ho, _⟩ := hconn k hk
    exact (c.output_isSome_iff k).mp (by rw [ho]; rfl)
  have hne : ws ≠ [] := fun h => by rw [h] at hlen; simp at hlen
  obtain ⟨e, he⟩ := embeddedKey_total c ws hne hkeys
  have hed : embeddedKey d ws = some e := by rw [embeddedKey_layout hR]; exact he
  have hew : e ∈ ws := (embeddedKey_spec he).1
  obtain ⟨oe, hoe, _, hme⟩ := hconn e hew
  obtain ⟨se, hoed⟩ := hR.2.2.2.2 e hew oe hoe
  have hmed : (oe.withLayout se).modes ≠ [] := hme
  have hide : oe.id = e := Config.output_id hoe
  have hrlen := length_removeKey_of_nodup (nodup_of_ascending hasc) hew
  have hrne : removeKey ws e ≠ [] := fun h => by rw [h] at hrlen; simp at hrlen; omega
  have hrasc := removeKey_ascending e hasc
  let od : Output := (oe.setEnabled false).setPrimary false
  have hidd : od.id = e := hide
  have hc2 : ∀ k, k ≠ e → (c.setOutput od).output k = c.output k := fun k hk =>
    Config.output_setOutput_of_ne (by rw [hidd]; exact fun h => hk h.symm)
  cases hlid : isLidClosed g with
  | true =>
    have hse : se.pos = oe.pos := by
      have := hpos hlid e he
      rw [hoed, hoe] at this
      exact Option.some.inj this
    have hodd : ((oe.withLayout se).setEnabled false).setPrimary false = od :=
      Output.disabled_withLayout oe se hse
    by_cases h1 : (removeKey ws e).length = 1
    · obtain ⟨x, hx⟩ := List.length_eq_one.mp h1
      have hxr : x ∈ removeKey ws e := by rw [hx]; exact List.mem_singleton_self x
      have hxw : x ∈ ws := (mem_removeKey.mp hxr).1
      have hxe : x ≠ e := (mem_removeKey.mp hxr).2
      obtain ⟨ox, hox, _, hmx'⟩ := hconn x hxw
      obtain ⟨sx, hoxd⟩ := hR.2.2.2.2 x hxw ox hox
      have hmx : ox.modes.isEmpty = false := isEmpty_eq_false_of_ne hmx'
      have hmxd : (ox.withLayout sx).modes.isEmpty = false := hmx
      have hrun' := laptop_lidClosed_single g c ws e x oe ox hconn' he hx hoe hox hme hlid
      rw [hmx, hrun] at hrun'
      simp only [Bool.false_eq_true, if_false] at hrun'
      have hc' : cfg = (c.setOutput od).setOutput ox.placedPrimary := Option.some.inj hrun'
      have hrund := laptop_lidClosed_single g d ws e x (oe.withLayout se) (ox.withLayout sx)
        hconnd hed hx hoed hoxd hmed hlid
      rw [hmxd, hodd] at hrund
      simp only [Bool.false_eq_true, if_false] at hrund
      rw [hrund, hc']
      congr 1
      obtain ⟨hk, hpe, hpx, hrest⟩ := Config.output_setOutput_pair c e x oe ox od
        ox.placedPrimary hoe hox (fun h => hxe h.symm) hidd (Config.output_id hox : ox.id = x)
      obtain ⟨hkd, hped, hpxd, hrestd⟩ := Config.output_setOutput_pair d e x (oe.withLayout se)
        (ox.withLayout sx) od (ox.withLayout sx).placedPrimary hoed hoxd (fun h => hxe h.symm)
        hidd (Config.output_id hox : ox.id = x)
      have hwsx : ∀ k ∈ ws, k = e ∨ k = x := fun k hk => by
        by_cases hke : k = e
        · exact Or.inl hke
        · have : k ∈ removeKey ws e := mem_removeKey.mpr ⟨hk, hke⟩
          rw [hx, List.mem_singleton] at this
          exact Or.inr this
      have hwf' : ((c.setOutput od).setOutput ox.placedPrimary).WF := by
        unfold Config.WF at *; rw [hk]; exact hwf
      apply Config.ext_output hwf'
      · rw [hkd, hk, hR.1]
      · intro k
        by_cases hke : k = e
        · rw [hke, hped, hpe]
        · by_cases hkx : k = x
          · rw [hkx, hpxd, hpx]; rfl
          · rw [hrestd k hke hkx, hrest k hke hkx]
            exact hR.2.2.2.1 k (fun h => (hwsx k h).elim hke hkx)
      · exact hR.2.1
      · exact hR.2.2.1
    · have hgt : (removeKey ws e).length > 1 := by
        have : (removeKey ws e).length ≠ 0 := fun h => hrne (List.length_eq_zero.mp h)
        omega
      have hrun' := laptop_lidClosed_many g c ws e oe hconn' he hgt hoe hme hlid
      rw [hrun] at hrun'
      have hrund := laptop_lidClosed_many g d ws e (oe.withLayout se) hconnd hed hgt hoed hmed
        hlid
      rw [hodd] at hrund
      rw [hrund]
      exact extendToRight_layout g.env (c.setOutput od) (d.setOutput od) cfg (removeKey ws e)
        (Config.WF_setOutput od hwf) (Config.sameUpToLayout_setOutput e oe od hR hoe hidd)
        hrne hrasc
        (fun k hk => by
          rw [hc2 k (mem_removeKey.mp hk).2]; exact hconn' k (mem_removeKey.mp hk).1)
        hrun'.symm
  | false =>
    obtain ⟨b, hb⟩ := laptop_lidOpen_inv g c cfg ws e oe hconn' he hoe hme hrne hlid hrun
    have hbr := biggestOutput_mem g.env c _ b hb
    have hbw : b ∈ ws := (mem_removeKey.mp hbr).1
    have hbe : b ≠ e := (mem_removeKey.mp hbr).2
    obtain ⟨ob, hob, _⟩ := hconn' b hbw
    obtain ⟨sb, hobd⟩ := hR.2.2.2.2 b hbw ob hob
    obtain ⟨c'', hrun', hk, hmax, hfeat, hce, hcb, hrest, hout⟩ :=
      laptop_lidOpen_spec g c ws e b oe ob hasc hconn' he hoe hob hme hlid hb
    have : c'' = cfg := by rw [hrun] at hrun'; exact (Option.some.inj hrun').symm
    subst this
    have hbd : biggestOutput g.env d (removeKey ws e) = some (some b) := by
      rw [biggestOutput_layout g.env hR (removeKey ws e) (fun k hk => (mem_removeKey.mp hk).1)]
      exact hb
    obtain ⟨d'', hrund, hkd, hmaxd, hfeatd, hced, hcbd, hrestd, houtd⟩ :=
      laptop_lidOpen_spec g d ws e b (oe.withLayout se) (ob.withLayout sb) hasc hconnd hed hoed
        hobd hmed hlid hbd
    rw [hrund]
    congr 1
    have hwf' : c''.WF := by unfold Config.WF at *; rw [hk]; exact hwf
    apply Config.ext_output hwf'
    · rw [hkd, hk, hR.1]
    · intro k
      by_cases hkw : k ∈ ws
      · by_cases hke : k = e
        · rw [hke, hced, hce]; rfl
        · by_cases hkb : k = b
          · rw [hkb, hcbd, hcb, Config.sameUpToLayout_geometryWidth g.env hR e]; rfl
          · obtain ⟨o, ho, _⟩ := hconn' k hkw
            obtain ⟨s, hs⟩ := hR.2.2.2.2 k hkw o ho
            rw [hrestd k hkw hke hkb _ hs, hrest k hkw hke hkb o ho,
              Config.sameUpToLayout_geometryWidth g.env hR e,
              Config.sameUpToLayout_geometryWidth g.env hR b,
              widthsBefore_congr_width g.env c d (removeKey (removeKey ws e) b) k
                (fun x _ => Config.sameUpToLayout_geometryWidth g.env hR x)]
            rfl
      · rw [houtd k hkw, hout k hkw, hR.2.2.2.1 k hkw]
    · rw [hmaxd, hR.2.1, hmax]
    · rw [hfeatd, hR.2.2.1, hfeat]

/-! ## The ideal configuration of an ideal configuration -/

theorem displaySwitch_generator (g g' : Generator) (a : DisplaySwitchAction)
    (h : displaySwitch g a = some g') : g' = { g with m_currentConfig := g'.m_currentConfig } := by
  unfold displaySwitch at h
  simp only at h
  repeat' split at h
  all_goals first | (cases h; done) | (cases h; rfl)

theorem scenarioConfig_generator (g : Generator) (m : Config) (c : Config) :
    scenarioConfig { g with m_currentConfig := m } c = scenarioConfig g c := rfl

theorem scenarioConfig_decompose (g : Generator) (cur cfg : Config)
    (hne : cur.connectedOutputs ≠ []) (hs : scenarioConfig g cur = some cfg) :
    ∃ c1, initializeOutputs g.env cur.perOutputScaling (disableAllDisconnectedOutputs cur)
        cur.connectedOutputs = some c1 ∧
      (if cur.connectedOutputs.length = 1 then singleOutput g.env c1 cur.connectedOutputs
        else if isLaptop g = true then laptop g c1 cur.connectedOutputs
        else extendToRight g.env c1 cur.connectedOutputs) = some cfg := by
  unfold scenarioConfig at hs
  simp only [disableAll_connectedOutputs, isEmpty_eq_false_of_ne hne, Bool.false_eq_true,
    if_false] at hs
  cases hinit : initializeOutputs g.env (disableAllDisconnectedOutputs cur).perOutputScaling
      (disableAllDisconnectedOutputs cur) cur.connectedOutputs with
  | none => rw [hinit] at hs; cases hs
  | some c1 =>
    rw [hinit] at hs
    exact ⟨c1, hinit, hs⟩

/-- The layout policy chosen by the scenario step changes only the layout of the listed outputs,
and it computes the same result from every configuration that differs from its input only in that
layout (on a laptop: with the same positions as the result). -/
theorem policy_layout (g : Generator) (c1 cfg : Config) (ws : List Int)
    (hwf1 : c1.WF) (hne : ws ≠ []) (hasc : ws.Pairwise (fun x y => x < y))
    (hc1 : ∀ k ∈ ws, ∃ o, c1.output k = some o ∧ o.connected = true ∧ o.modes ≠ [])
    (hpol : (if ws.length = 1 then singleOutput g.env c1 ws
      else if isLaptop g = true then laptop g c1 ws
      else extendToRight g.env c1 ws) = some cfg) :
    c1.sameUpToLayout cfg ws ∧
    ∀ d : Config, c1.sameUpToLayout d ws →
      (isLaptop g = true → ∀ e, (d.output e).map (fun o => o.pos) =
        (cfg.output e).map (fun o => o.pos)) →
      (if ws.length = 1 then singleOutput g.env d ws
        else if isLaptop g = true then laptop g d ws
        else extendToRight g.env d ws) = some cfg := by
  have hc1' : ∀ k ∈ ws, ∃ o, c1.output k = some o ∧ o.connected = true :=
    fun k hk => by obtain ⟨o, h1, h2, _⟩ := hc1 k hk; exact ⟨o, h1, h2⟩
  by_cases h1 : ws.length = 1
  · rw [if_pos h1] at hpol
    obtain ⟨k, rfl⟩ := List.length_eq_one.mp h1
    refine ⟨singleOutput_sameLayout g.env c1 cfg k hc1 hpol, ?_⟩
    intro d hR _
    rw [if_pos h1]
    exact singleOutput_layout g.env c1 d cfg k hwf1 hR hc1 hpol
  · rw [if_neg h1] at hpol
    by_cases hlap : isLaptop g = true
    · rw [if_pos hlap] at hpol
      have hlen : 2 ≤ ws.length := by
        have h0 : ws.length ≠ 0 := fun h => hne (List.length_eq_zero.mp h)
        omega
      obtain ⟨hS, hP⟩ := laptop_sameLayout g c1 cfg ws hlen hasc hc1 hpol
      refine ⟨hS, ?_⟩
      intro d hR hpos
      rw [if_neg h1, if_pos hlap]
      exact laptop_layout g c1 d cfg ws hwf1 hR hlen hasc hc1
        (fun hlid e he => (hpos hlap e).trans (hP hlid e he)) hpol
    · rw [if_neg hlap] at hpol
      refine ⟨extendToRight_sameLayout g.env c1 cfg ws hne hasc hc1' hpol, ?_⟩
      intro d hR _
      rw [if_neg h1, if_neg hlap]
      exact extendToRight_layout g.env c1 d cfg ws hwf1 hR hne hasc hc1' hpol

/-- The scenario step computes the same configuration again from its own result, and from every
configuration that differs from that result only in the layout and the current mode of the
connected outputs (on a laptop: with the same positions as the result). -/
theorem scenarioConfig_again (g : Generator) (cur cfg : Config)
    (hwf : cur.WF) (hmodes : ∀ o ∈ cur.outputs, o.connected = true → o.modes ≠ [])
    (hne : cur.connectedOutputs ≠ []) (hs : scenarioConfig g cur = some cfg) :
    cfg.keys = cur.keys ∧ cfg.maxSize = cur.maxSize ∧
    cfg.perOutputScaling = cur.perOutputScaling ∧
    (∀ k ∈ cur.connectedOutputs,
      ∃ o, cfg.output k = some o ∧ o.connected = true ∧ o.modes ≠ []) ∧
    ∀ r : Config, r.keys = cfg.keys → r.maxSize = cfg.maxSize →
      r.perOutputScaling = cfg.perOutputScaling →
      (∀ k, k ∉ cur.connectedOutputs → r.output k = cfg.output k) →
      (∀ k ∈ cur.connectedOutputs, ∀ o, cfg.output k = some o →
        ∃ s i, r.output k = some ((o.withLayout s).setCurrentModeId i)) →
      (isLaptop g = true → ∀ k, (r.output k).map (fun o => o.pos) =
        (cfg.output k).map (fun o => o.pos)) →
      scenarioConfig g r = some cfg ∧ r.connectedOutputs = cur.connectedOutputs := by
  obtain ⟨c1, hinit, hpol⟩ := scenarioConfig_decompose g cur cfg hne hs
  have hasc := Config.connectedOutputs_ascending hwf
  have hnd : cur.connectedOutputs.Nodup := hasc.imp (fun h => ne_of_lt h)
  obtain ⟨hk1, hout1, hin1⟩ := initializeOutputs_partial g.env _ _ _ _ hnd hinit
  obtain ⟨hmax1, hfeat1⟩ := initializeOutputs_fields g.env _ _ _ _ hinit
  have hwf1 : c1.WF := by unfold Config.WF; rw [hk1, disableAll_keys]; exact hwf
  have hcur : ∀ k ∈ cur.connectedOutputs,
      ∃ o, cur.output k = some o ∧ o.connected = true ∧ o.modes ≠ [] := by
    intro k hk
    obtain ⟨o, ho, hc⟩ := (Config.connectedOutputs_spec hwf k).mp hk
    exact ⟨o, ho, hc, hmodes o (Config.output_mem ho) hc⟩
  have hc1 : ∀ k ∈ cur.connectedOutputs, ∃ o1, c1.output k = some o1 ∧ o1.connected = true ∧
      o1.modes ≠ [] ∧ initializeOutput g.env cur.perOutputScaling o1 = some o1 := by
    intro k hk
    obtain ⟨o, ho, hc, hm⟩ := hcur k hk
    have hd : (disableAllDisconnectedOutputs cur).output k = some o := by
      rw [disableAll_output, ho]; simp [hc]
    obtain ⟨o1, hi, ho1⟩ := hin1 k hk o hd
    obtain ⟨_, hc', hm', _⟩ := initializeOutput_preserves hi
    exact ⟨o1, ho1, by rw [hc', hc], by rw [hm']; exact hm,
      initializeOutput_fixpoint _ _ _ _ hi⟩
  have hc1' : ∀ k ∈ cur.connectedOutputs,
      ∃ o, c1.output k = some o ∧ o.connected = true ∧ o.modes ≠ [] :=
    fun k hk => by obtain ⟨o, h1, h2, h3, _⟩ := hc1 k hk; exact ⟨o, h1, h2, h3⟩
  obtain ⟨hS, hD⟩ := policy_layout g c1 cfg cur.connectedOutputs hwf1 hne hasc hc1' hpol
  obtain ⟨hkc, hmaxc, hfeatc, houtc, hinc⟩ := hS
  have hkeys : cfg.keys = cur.keys := by rw [hkc, hk1, disableAll_keys]
  have hmax : cfg.maxSize = cur.maxSize := by rw [hmaxc, hmax1]; rfl
  have hfeat : cfg.perOutputScaling = cur.perOutputScaling := by rw [hfeatc, hfeat1]; rfl
  have hcfg : ∀ k ∈ cur.connectedOutputs,
      ∃ o, cfg.output k = some o ∧ o.connected = true ∧ o.modes ≠ [] := by
    intro k hk
    obtain ⟨o1, ho1, hc, hm, _⟩ := hc1 k hk
    obtain ⟨s, hs'⟩ := hinc k hk o1 ho1
    exact ⟨_, hs', hc, hm⟩
  refine ⟨hkeys, hmax, hfeat, hcfg, ?_⟩
  intro r hrk hrmax hrfeat hrout hrin hrpos
  have hwfr : r.WF := by unfold Config.WF; rw [hrk, hkeys]; exact hwf
  have houtside : ∀ k, k ∉ cur.connectedOutputs → r.output k =
      (cur.output k).map (fun o => if !o.connected then o.disabled else o) := by
    intro k hk; rw [hrout k hk, houtc k hk, hout1 k hk, disableAll_output]
  have hinside : ∀ k ∈ cur.connectedOutputs, ∃ o1 s i, c1.output k = some o1 ∧
      o1.connected = true ∧ initializeOutput g.env cur.perOutputScaling o1 = some o1 ∧
      r.output k = some ((o1.withLayout s).setCurrentModeId i) := by
    intro k hk
    obtain ⟨o1, ho1, hc, hm, hfix⟩ := hc1 k hk
    obtain ⟨s', hs'⟩ := hinc k hk o1 ho1
    obtain ⟨s, i, hr⟩ := hrin k hk _ hs'
    exact ⟨o1, s, i, ho1, hc, hfix, hr⟩
  have hconnr : r.connectedOutputs = cur.connectedOutputs := by
    apply Config.connectedOutputs_congr hwf (hrk.trans hkeys)
    intro k
    by_cases hk : k ∈ cur.connectedOutputs
    · obtain ⟨o1, s, i, ho1, hc, _, hr⟩ := hinside k hk
      obtain ⟨o, ho, hco, _⟩ := hcur k hk
      rw [hr, ho]
      show some o1.connected = some o.connected
      rw [hc, hco]
    · rw [houtside k hk]
      cases cur.output k with
      | none => rfl
      | some o =>
        show some (if (!o.connected) = true then o.disabled else o).connected =
          some o.connected
        congr 1
        split <;> rfl
  have hdis : disableAllDisconnectedOutputs r = r := by
    apply disableAll_of_disabled
    intro o ho hc
    have hro := Config.output_of_mem hwfr ho
    by_cases hk : o.id ∈ cur.connectedOutputs
    · obtain ⟨o1, s, i, _, hc1o, _, hr⟩ := hinside _ hk
      rw [hr] at hro
      have heq := Option.some.inj hro
      rw [← heq] at hc
      have hc2 : o1.connected = false := hc
      rw [hc1o] at hc2
      cases hc2
    · rw [houtside _ hk] at hro
      cases hco : cur.output o.id with
      | none => rw [hco] at hro; cases hro
      | some o0 =>
        rw [hco] at hro
        have heq : (if (!o0.connected) = true then o0.disabled else o0) = o :=
          Option.some.inj hro
        cases hc0 : o0.connected with
        | true =>
          rw [hc0] at heq
          have heq2 : o0 = o := heq
          rw [← heq2, hc0] at hc
          cases hc
        | false =>
          rw [hc0] at heq
          have heq2 : o0.disabled = o := heq
          rw [← heq2]
          exact ⟨rfl, rfl⟩
  obtain ⟨d, hd, hkd, hmaxd, hfeatd, houtd, hind⟩ :=
    initializeOutputs_total g.env cur.perOutputScaling cur.connectedOutputs r hnd (by
      intro k hk
      obtain ⟨o1, s, i, _, _, hfix, hr⟩ := hinside k hk
      refine ⟨_, o1.withLayout s, hr, ?_⟩
      rw [initializeOutput_withLayout, hfix]; rfl)
  have hRd : c1.sameUpToLayout d cur.connectedOutputs := by
    refine ⟨by rw [hkd, hrk, hkc], by rw [hmaxd, hrmax, hmaxc],
      by rw [hfeatd, hrfeat, hfeatc], ?_, ?_⟩
    · intro k hk; rw [houtd k hk, hrout k hk, houtc k hk]
    · intro k hk o ho
      obtain ⟨o1, s, i, ho1, _, hfix, hr⟩ := hinside k hk
      rw [ho] at ho1
      cases ho1
      obtain ⟨o', hi, hdo⟩ := hind k hk _ hr
      rw [initializeOutput_withLayout, hfix] at hi
      exact ⟨s, by rw [hdo, ← Option.some.inj hi]⟩
  have hposd : isLaptop g = true → ∀ e, (d.output e).map (fun o => o.pos) =
      (cfg.output e).map (fun o => o.pos) := by
    intro hlap e
    rw [← hrpos hlap e]
    by_cases hk : e ∈ cur.connectedOutputs
    · obtain ⟨o1, s, i, ho1, _, hfix, hr⟩ := hinside e hk
      obtain ⟨o', hi, hdo⟩ := hind e hk _ hr
      rw [initializeOutput_withLayout, hfix] at hi
      rw [hdo, hr, ← Option.some.inj hi]; rfl
    · rw [houtd e hk]
  have hpol2 := hD d hRd hposd
  constructor
  · unfold scenarioConfig
    simp only [hdis, hconnr, isEmpty_eq_false_of_ne hne, Bool.false_eq_true, if_false]
    rw [hrfeat, hfeat, hd]
    exact hpol2
  · exact hconnr

/-- The generator returned by `fallbackIfNeeded` differs from the one handed in at most in the
stored current configuration. -/
theorem fallbackIfNeeded_generator (g : Generator) (cfg : Config) (r : Config × Generator)
    (h : fallbackIfNeeded g cfg = some r) :
    r.2 = { g with m_currentConfig := r.2.m_currentConfig } := by
  cases happ : g.env.canBeApplied cfg with
  | true =>
    rw [fallbackIfNeeded_applicable g cfg happ] at h
    rw [← Option.some.inj h]
  | false =>
    cases hlap : isLaptop g with
    | true =>
      cases hsw : displaySwitch g DisplaySwitchAction.Clone with
      | none =>
        unfold fallbackIfNeeded at h
        simp [happ, hlap, hsw] at h
      | some g' =>
        rw [fallbackIfNeeded_laptop g g' cfg hlap happ hsw] at h
        rw [← Option.some.inj h]
        exact displaySwitch_generator g g' _ hsw
    | false =>
      unfold fallbackIfNeeded at h
      simp only [happ, hlap, Bool.not_false, if_true, Bool.false_eq_true, if_false] at h
      repeat' split at h
      all_goals first | (cases h; done) | (cases h; rfl)

/-- The function `idealConfig` applied to its own result: it returns that result again, except
on a laptop whose platform rejects the layout, where the result is returned again whenever the
display switch to the clone layout completes. -/
theorem idealConfig_again (g : Generator) (cur r1 : Config) (g1 : Generator)
    (hwf : cur.WF) (hmodes : ∀ o ∈ cur.outputs, o.connected = true → o.modes ≠ [])
    (h1 : idealConfig g cur = some (r1, g1)) :
    idealConfig g1 r1 =
      if isLaptop g = true ∧ g.env.canBeApplied r1 = false ∧ 2 ≤ cur.connectedOutputs.length
      then (displaySwitch g1 DisplaySwitchAction.Clone).map (fun g2 => (r1, g2))
      else some (r1, g1) := by
  rw [idealConfig_eq] at h1
  by_cases hne : cur.connectedOutputs = []
  · have hsc : ∀ c : Config, c.connectedOutputs = [] →
        scenarioConfig g c = some (disableAllDisconnectedOutputs c) := by
      intro c hc
      unfold scenarioConfig
      simp [disableAll_connectedOutputs, hc]
    rw [hsc cur hne, hne] at h1
    simp only [List.length_nil, zero_le, if_true] at h1
    have h1' := Option.some.inj h1
    have hr : r1 = disableAllDisconnectedOutputs cur := (congrArg Prod.fst h1').symm
    have hg : g1 = g := (congrArg Prod.snd h1').symm
    subst hr; subst hg
    have hc2 : (disableAllDisconnectedOutputs cur).connectedOutputs = [] := by
      rw [disableAll_connectedOutputs]; exact hne
    rw [idealConfig_eq, hsc _ hc2, disableAll_idem, hc2, hne]
    simp
  · cases hs : scenarioConfig g cur with
    | none => rw [hs] at h1; cases h1
    | some cfg =>
      rw [hs] at h1
      simp only at h1
      obtain ⟨hkeys, hmax, hfeat, hcfg, hagain⟩ :=
        scenarioConfig_again g cur cfg hwf hmodes hne hs
      obtain ⟨hself, hconn⟩ := hagain cfg rfl rfl rfl (fun _ _ => rfl)
        (fun k _ o ho => ⟨o, o.currentModeId, ho⟩) (fun _ _ => rfl)
      by_cases hlen : cur.connectedOutputs.length ≤ 1
      · rw [if_pos hlen] at h1
        have h1' := Option.some.inj h1
        have hr : r1 = cfg := (congrArg Prod.fst h1').symm
        have hg : g1 = g := (congrArg Prod.snd h1').symm
        subst hr; subst hg
        rw [if_neg (fun h => absurd h.2.2 (by omega))]
        rw [idealConfig_eq, hself, hconn]
        simp only [if_pos hlen]
      · rw [if_neg hlen] at h1
        have hshape := fallbackIfNeeded_generator g cfg (r1, g1) h1
        obtain ⟨M, hM⟩ : ∃ M, g1 = { g with m_currentConfig := M } := ⟨_, hshape⟩
        cases happ : g.env.canBeApplied cfg with
        | true =>
          rw [fallbackIfNeeded_applicable g cfg happ] at h1
          have h1' := Option.some.inj h1
          have hr : r1 = cfg := (congrArg Prod.fst h1').symm
          have hg : g1 = g := (congrArg Prod.snd h1').symm
          subst hr; subst hg
          rw [if_neg (fun h => by rw [happ] at h; exact absurd h.2.1 (by simp))]
          rw [idealConfig_eq, hself, hconn]
          simp only [if_neg hlen]
          exact fallbackIfNeeded_applicable g1 r1 happ
        | false =>
          cases hlap : isLaptop g with
          | true =>
            have hr : r1 = cfg := fallbackIfNeeded_fst g cfg (r1, g1) h1 (Or.inl hlap)
            subst hr
            subst hM
            rw [if_pos ⟨rfl, happ, by omega⟩]
            rw [idealConfig_eq, scenarioConfig_generator, hself, hconn]
            simp only [if_neg hlen]
            have hlap' : isLaptop { g with m_currentConfig := M } = true := hlap
            have happ' : ({ g with m_currentConfig := M } : Generator).env.canBeApplied r1 =
                false := happ
            cases hsw : displaySwitch { g with m_currentConfig := M }
                DisplaySwitchAction.Clone with
            | none =>
              unfold fallbackIfNeeded
              simp [happ, hlap', hsw]
            | some g2 =>
              rw [fallbackIfNeeded_laptop _ g2 r1 hlap' happ' hsw]; rfl
          | false =>
            obtain ⟨first, rest, hws⟩ := List.exists_cons_of_ne_nil hne
            obtain ⟨f, hf, hfc, hfm⟩ := hcfg first (by rw [hws]; exact List.mem_cons_self _ _)
            have hfb := fallbackIfNeeded_not_laptop g cfg first rest f hlap happ
              (hconn.trans hws) hf
            rw [hfb] at h1
            cases hcl : cloneScreens g (cfg.setOutput (f.setPrimary true)) (first :: rest) with
            | none => rw [hcl] at h1; cases h1
            | some c' =>
              rw [hcl] at h1
              have h1' := Option.some.inj h1
              have hr : r1 = c' := (congrArg Prod.fst h1').symm
              have hg : g = g1 := congrArg Prod.snd h1'
              subst hr; subst hg
              rw [if_neg (fun h => absurd h.1 (by simp))]
              have hnd : (first :: rest).Nodup := by
                rw [← hws]
                exact (Config.connectedOutputs_ascending hwf).imp (fun h => ne_of_lt h)
              obtain ⟨hk', hout', hin'⟩ := cloneScreens_partial g _ r1 _ hnd hcl
              obtain ⟨hmax', hfeat'⟩ := cloneScreens_fields g _ r1 _ hcl
              have hfid : (f.setPrimary true).id = first := (Config.output_id hf : f.id = first)
              obtain ⟨hsc2, hconn2⟩ := hagain r1 (by rw [hk', Config.keys_setOutput])
                (by rw [hmax']; rfl) (by rw [hfeat']; rfl)
                (by
                  intro k hk
                  rw [hws] at hk
                  rw [hout' k hk]
                  apply Config.output_setOutput_of_ne
                  rw [hfid]
                  rintro rfl
                  exact hk (List.mem_cons_self _ _))
                (by
                  intro k hk o ho
                  rw [hws] at hk
                  by_cases hkf : k = first
                  · subst hkf
                    rw [hf] at ho
                    cases ho
                    have hso : (cfg.setOutput (f.setPrimary true)).output k =
                        some (f.setPrimary true) := by
                      have := Config.output_setOutput_self cfg f (f.setPrimary true)
                        (by rw [hfid]; exact hf)
                      rwa [hfid] at this
                    obtain ⟨id, hid⟩ := (hin' k hk _ hso).2 hfm
                    exact ⟨(f.setPrimary true).cloned id, id, hid⟩
                  · have hso : (cfg.setOutput (f.setPrimary true)).output k = some o := by
                      rw [Config.output_setOutput_of_ne (by rw [hfid]; exact fun h => hkf h.symm)]
                      exact ho
                    obtain ⟨o', ho', _, hm'⟩ := hcfg k (by rw [hws]; exact hk)
                    rw [ho] at ho'
                    cases ho'
                    obtain ⟨id, hid⟩ := (hin' k hk _ hso).2 hm'
                    exact ⟨o.cloned id, id, hid⟩)
                (fun h => by rw [hlap] at h; cases h)
              rw [idealConfig_eq, hsc2, hconn2]
              simp only [if_neg hlen]
              rw [hfb, hcl]; rfl

/-! ## The clone policy up to the placement of its input -/

theorem Output.cloned_withLayout (o s : Output) (i id : Nat) (hp : s.primary = o.primary) :
    ((o.withLayout s).setCurrentModeId i).cloned id = o.cloned id := by
  unfold Output.cloned Output.withLayout Output.setCurrentModeId Output.setEnabled Output.setPos
  simp only [hp]

theorem Config.output_none_of_keys {c d : Config} (hk : d.keys = c.keys) {k : Int}
    (h : c.output k = none) : d.output k = none := by
  rw [Config.output_eq_none_iff, hk, ← Config.output_eq_none_iff]; exact h

theorem Config.sameUpToPlacement_modes {c d : Config} {ws : List Int}
    (h : c.sameUpToPlacement d ws) (k : Int) :
    (d.output k).map (fun o => (o.connected, o.modes)) =
      (c.output k).map (fun o => (o.connected, o.modes)) := by
  by_cases hk : k ∈ ws
  · cases ho : c.output k with
    | none => rw [Config.output_none_of_keys h.1 ho]
    | some o =>
      by_cases hm : o.modes = []
      · rw [(h.2.2.2.2 k hk o ho).1 hm]
      · obtain ⟨s, i, hd, _⟩ := (h.2.2.2.2 k hk o ho).2 hm
        rw [hd]; rfl
  · rw [h.2.2.2.1 k hk]

theorem Config.sameUpToPlacement_skip {c d : Config} {k : Int} {ks : List Int} {o : Output}
    (h : c.sameUpToPlacement d (k :: ks)) (ho : c.output k = some o) (hm : o.modes = []) :
    c.sameUpToPlacement d ks := by
  refine ⟨h.1, h.2.1, h.2.2.1, ?_, ?_⟩
  · intro x hx
    by_cases hxk : x = k
    · subst hxk
      rw [(h.2.2.2.2 x (List.mem_cons_self _ _) o ho).1 hm, ho]
    · exact h.2.2.2.1 x (fun hmem => by
        rcases List.mem_cons.mp hmem with h1 | h1
        · exact hxk h1
        · exact hx h1)
  · intro x hx
    exact h.2.2.2.2 x (List.mem_cons_of_mem _ hx)

theorem Config.sameUpToPlacement_step {c d : Config} {k : Int} {ks : List Int}
    (hnd : k ∉ ks) (h : c.sameUpToPlacement d (k :: ks)) (o' : Output) (hid : o'.id = k) :
    (c.setOutput o').sameUpToPlacement (d.setOutput o') ks := by
  refine ⟨by rw [Config.keys_setOutput, Config.keys_setOutput, h.1], h.2.1, h.2.2.1, ?_, ?_⟩
  · intro x hx
    by_cases hxk : x = k
    · subst hxk
      rw [Config.output_setOutput, Config.output_setOutput, if_pos hid, if_pos hid]
      cases ho : c.output x with
      | none => rw [Config.output_none_of_keys h.1 ho]
      | some o =>
        have hsome : ∃ od, d.output x = some od := by
          by_cases hm : o.modes = []
          · exact ⟨_, (h.2.2.2.2 x (List.mem_cons_self _ _) o ho).1 hm⟩
          · obtain ⟨s, i, hd, _⟩ := (h.2.2.2.2 x (List.mem_cons_self _ _) o ho).2 hm
            exact ⟨_, hd⟩
        obtain ⟨od, hod⟩ := hsome
        rw [hod]; rfl
    · have hne : o'.id ≠ x := by rw [hid]; exact fun h' => hxk h'.symm
      rw [Config.output_setOutput_of_ne hne, Config.output_setOutput_of_ne hne]
      exact h.2.2.2.1 x (fun hmem => by
        rcases List.mem_cons.mp hmem with h1 | h1
        · exact hxk h1
        · exact hx h1)
  · intro x hx o ho
    have hne : o'.id ≠ x := by
      rw [hid]; rintro rfl; exact hnd hx
    rw [Config.output_setOutput_of_ne hne] at ho ⊢
    exact h.2.2.2.2 x (List.mem_cons_of_mem _ hx) o ho

theorem Config.sameUpToPlacement_nil {c d : Config} (hwf : c.WF)
    (h : c.sameUpToPlacement d []) : d = c :=
  Config.ext_output hwf h.1 (fun k => h.2.2.2.1 k (List.not_mem_nil k)) h.2.1 h.2.2.1

theorem commonSizesLoop_congr (c d : Config) (maxScreenSize : QSize) (ks : List Int)
    (h : ∀ k, (d.output k).map (fun o => (o.connected, o.modes)) =
      (c.output k).map (fun o => (o.connected, o.modes))) :
    ∀ acc, commonSizesLoop d maxScreenSize acc ks = commonSizesLoop c maxScreenSize acc ks := by
  induction ks with
  | nil => intro acc; rfl
  | cons k ks ih =>
    intro acc
    have hk := h k
    simp only [commonSizesLoop]
    cases ho : c.output k with
    | none =>
      cases hd : d.output k with
      | none => rfl
      | some od => rw [ho, hd] at hk; cases hk
    | some o =>
      cases hd : d.output k with
      | none => rw [ho, hd] at hk; cases hk
      | some od =>
        rw [ho, hd] at hk
        have hm : od.modes = o.modes := congrArg Prod.snd (Option.some.inj hk)
        simp only [hm, ih]

theorem cloneBiggestLoop_placement (env : Platform) (ks : List Int) :
    ∀ (c d M : Config), c.WF → ks.Nodup → c.sameUpToPlacement d ks →
      cloneBiggestLoop env c ks = some M → cloneBiggestLoop env d ks = some M := by
  induction ks with
  | nil =>
    intro c d M hwf _ hP h
    rw [Config.sameUpToPlacement_nil hwf hP]; exact h
  | cons k ks ih =>
    intro c d M hwf hnd hP h
    have hkn : k ∉ ks := (List.nodup_cons.mp hnd).1
    have hnd' : ks.Nodup := (List.nodup_cons.mp hnd).2
    simp only [cloneBiggestLoop] at h ⊢
    cases ho : c.output k with
    | none => rw [ho] at h; cases h
    | some o =>
      rw [ho] at h
      simp only at h
      by_cases hm : o.modes = []
      · rw [(hP.2.2.2.2 k (List.mem_cons_self _ _) o ho).1 hm]
        simp only [hm, List.isEmpty_nil, if_true] at h ⊢
        exact ih c d M hwf hnd' (Config.sameUpToPlacement_skip hP ho hm) h
      · obtain ⟨s, i, hd, hp⟩ := (hP.2.2.2.2 k (List.mem_cons_self _ _) o ho).2 hm
        rw [hd]
        have hmo : (((o.setEnabled true).setPos ⟨0, 0⟩)).modes = o.modes := rfl
        have hmd : (((((o.withLayout s).setCurrentModeId i).setEnabled true).setPos
          ⟨0, 0⟩)).modes = o.modes := rfl
        have hmd' : ((o.withLayout s).setCurrentModeId i).modes = o.modes := rfl
        simp only [hmo, hmd, hmd', isEmpty_eq_false_of_ne hm, Bool.false_eq_true,
          if_false] at h ⊢
        cases hb : biggestMode env o.modes with
        | none => rw [hb] at h; cases h
        | some r =>
          cases r with
          | none => rw [hb] at h; cases h
          | some m =>
            rw [hb] at h
            simp only at h ⊢
            have hcl : ((((o.withLayout s).setCurrentModeId i).setEnabled true).setPos
                ⟨0, 0⟩).setCurrentModeId m.id = o.cloned m.id :=
              Output.cloned_withLayout o s i m.id hp
            rw [hcl]
            exact ih _ _ M (Config.WF_setOutput _ hwf) hnd'
              (Config.sameUpToPlacement_step hkn hP (o.cloned m.id)
                (Config.output_id ho : o.id = k)) h

theorem cloneBestLoop_placement (biggestSize : QSize) (ks : List Int) :
    ∀ (c d M : Config), c.WF → ks.Nodup → c.sameUpToPlacement d ks →
      cloneBestLoop biggestSize c ks = some M → cloneBestLoop biggestSize d ks = some M := by
  induction ks with
  | nil =>
    intro c d M hwf _ hP h
    rw [Config.sameUpToPlacement_nil hwf hP]; exact h
  | cons k ks ih =>
    intro c d M hwf hnd hP h
    have hkn : k ∉ ks := (List.nodup_cons.mp hnd).1
    have hnd' : ks.Nodup := (List.nodup_cons.mp hnd).2
    simp only [cloneBestLoop] at h ⊢
    cases ho : c.output k with
    | none => rw [ho] at h; cases h
    | some o =>
      rw [ho] at h
      simp only at h
      by_cases hm : o.modes = []
      · rw [(hP.2.2.2.2 k (List.mem_cons_self _ _) o ho).1 hm]
        simp only [hm, List.isEmpty_nil, if_true] at h ⊢
        exact ih c d M hwf hnd' (Config.sameUpToPlacement_skip hP ho hm) h
      · obtain ⟨s, i, hd, hp⟩ := (hP.2.2.2.2 k (List.mem_cons_self _ _) o ho).2 hm
        rw [hd]
        have hmd' : ((o.withLayout s).setCurrentModeId i).modes = o.modes := rfl
        simp only [hmd', isEmpty_eq_false_of_ne hm, Bool.false_eq_true, if_false] at h ⊢
        cases hb : bestModeForSize o.modes biggestSize with
        | none => rw [hb] at h; cases h
        | some m =>
          rw [hb] at h
          simp only at h ⊢
          have hcl : ((((o.withLayout s).setCurrentModeId i).setEnabled true).setPos
              ⟨0, 0⟩).setCurrentModeId m.id = o.cloned m.id :=
            Output.cloned_withLayout o s i m.id hp
          rw [hcl]
          exact ih _ _ M (Config.WF_setOutput _ hwf) hnd'
            (Config.sameUpToPlacement_step hkn hP (o.cloned m.id)
                (Config.output_id ho : o.id = k)) h

/-- The clone policy computes the same result from every configuration that differs from its
input only in the placement of the listed outputs with modes. -/
theorem cloneScreens_placement (g g' : Generator) (c d M : Config) (ws : List Int)
    (henv : g'.env = g.env) (hmax : g'.m_currentConfig.maxSize = g.m_currentConfig.maxSize)
    (hwf : c.WF) (hnd : ws.Nodup) (hP : c.sameUpToPlacement d ws)
    (h : cloneScreens g c ws = some M) : cloneScreens g' d ws = some M := by
  have hmodes := Config.sameUpToPlacement_modes hP
  have hconn : ∀ k ∈ ws, d.connectedAt k = c.connectedAt k := by
    intro k _
    have hk := hmodes k
    unfold Config.connectedAt
    cases ho : c.output k with
    | none => rw [Config.output_none_of_keys hP.1 ho]
    | some o =>
      cases hd : d.output k with
      | none => rw [ho, hd] at hk; cases hk
      | some od =>
        rw [ho, hd] at hk
        exact congrArg Prod.fst (Option.some.inj hk)
  unfold cloneScreens at h ⊢
  rw [henv, hmax, assertOutputs_congr_conn g.env c d ws hconn]
  simp only [commonSizesLoop_congr c d _ ws hmodes] at h ⊢
  cases ha : assertOutputs g.env c ws with
  | none => rw [ha] at h; cases h
  | some u =>
    rw [ha] at h
    simp only at h ⊢
    by_cases hemp : ws.isEmpty = true
    · rw [if_pos hemp] at h ⊢
      have hws : ws = [] := List.isEmpty_iff.mp hemp
      subst hws
      rw [Config.sameUpToPlacement_nil hwf hP]; exact h
    · rw [if_neg hemp] at h ⊢
      cases hcs : commonSizesLoop c g.m_currentConfig.maxSize [] ws with
      | none => rw [hcs] at h; cases h
      | some sizes =>
        rw [hcs] at h
        simp only at h ⊢
        by_cases hse : sizes.isEmpty = true
        · rw [if_pos hse] at h ⊢
          exact cloneBiggestLoop_placement g.env ws c d M hwf hnd hP h
        · rw [if_neg hse] at h ⊢
          cases hl : (sortedSizes sizes).getLast? with
          | none => rw [hl] at h; cases h
          | some big =>
            rw [hl] at h
            simp only at h ⊢
            exact cloneBestLoop_placement big ws c d M hwf hnd hP h

/-! ## The display switch applied to its own result -/

theorem displaySwitch_lt_two (g : Generator) (action : DisplaySwitchAction) (c1 : Config)
    (hinit : initializeOutputs g.env g.m_currentConfig.perOutputScaling g.m_currentConfig
      g.m_currentConfig.connectedOutputs = some c1)
    (hlen : g.m_currentConfig.connectedOutputs.length < 2) :
    displaySwitch g action =
      (singleOutput g.env c1 g.m_currentConfig.connectedOutputs).map
        (fun c => { g with m_currentConfig := c }) := by
  unfold displaySwitch
  simp only [hinit, hlen, if_true]
  cases singleOutput g.env c1 g.m_currentConfig.connectedOutputs <;> rfl

theorem displaySwitch_gt_two (g : Generator) (action : DisplaySwitchAction) (c1 : Config)
    (hinit : initializeOutputs g.env g.m_currentConfig.perOutputScaling g.m_currentConfig
      g.m_currentConfig.connectedOutputs = some c1)
    (hlen : 2 < g.m_currentConfig.connectedOutputs.length) :
    displaySwitch g action =
      (extendToRight g.env c1 g.m_currentConfig.connectedOutputs).map
        (fun c => { g with m_currentConfig := c }) := by
  have hl1 : ¬ g.m_currentConfig.connectedOutputs.length < 2 := by omega
  have hl2 : g.m_currentConfig.connectedOutputs.length > 2 := hlen
  unfold displaySwitch
  simp only [hinit, hl1, hl2, if_false, if_true]
  cases extendToRight g.env c1 g.m_currentConfig.connectedOutputs <;> rfl

theorem displaySwitch_two_modeless (g : Generator) (action : DisplaySwitchAction) (c1 : Config)
    (a b e : Int) (oe : Output)
    (hws : g.m_currentConfig.connectedOutputs = [a, b])
    (hinit : initializeOutputs g.env g.m_currentConfig.perOutputScaling g.m_currentConfig
      [a, b] = some c1)
    (he : embeddedKey c1 [a, b] = some e) (hoe : c1.output e = some oe) (hme : oe.modes = []) :
    displaySwitch g action = some { g with m_currentConfig := c1 } := by
  obtain ⟨_, first, rest', found, hfr, hfound, hget⟩ := embeddedKey_spec he
  have hfirst : first = a := (List.cons.inj hfr).1.symm
  subst hfirst
  have hl1 : ¬ ([first, b].length < 2) := by simp
  have hl2 : ¬ ([first, b].length > 2) := by simp
  unfold displaySwitch
  simp only [hws, hinit, hl1, hl2, if_false, hfound, hget, hoe, hme, List.isEmpty_nil, if_true]

theorem singleOutput_nil (env : Platform) (c M : Config)
    (h : singleOutput env c [] = some M) : M = c := by
  unfold singleOutput at h
  split at h
  · cases h
  · exact (Option.some.inj h).symm

theorem singleOutput_modeless (env : Platform) (c M : Config) (k : Int) (ks : List Int)
    (o : Output) (ho : c.output k = some o) (hm : o.modes = [])
    (h : singleOutput env c (k :: ks) = some M) : M = c := by
  unfold singleOutput at h
  split at h
  · cases h
  · simp only [ho, hm, List.isEmpty_nil, if_true] at h
    exact (Option.some.inj h).symm

/-- Initializing again the outputs of a configuration that differs from an initialized one only
in the layout and the current mode of the listed outputs: the current modes are those of the
initialized configuration again, the layout is kept. -/
theorem initializeOutputs_again (env : Platform) (features : Bool) (c1 M : Config)
    (ws : List Int) (hnd : ws.Nodup)
    (hfix : ∀ k ∈ ws, ∃ o1, c1.output k = some o1 ∧
      initializeOutput env features o1 = some o1)
    (hk : M.keys = c1.keys) (hmax : M.maxSize = c1.maxSize)
    (hfeat : M.perOutputScaling = c1.perOutputScaling)
    (hout : ∀ k, k ∉ ws → M.output k = c1.output k)
    (hin : ∀ k ∈ ws, ∀ o1, c1.output k = some o1 →
      ∃ s i, M.output k = some ((o1.withLayout s).setCurrentModeId i)) :
    ∃ d, initializeOutputs env features M ws = some d ∧ c1.sameUpToLayout d ws ∧
      ∀ k ∈ ws, ∀ o1 s i, c1.output k = some o1 →
        M.output k = some ((o1.withLayout s).setCurrentModeId i) →
        d.output k = some (o1.withLayout s) := by
  obtain ⟨d, hd, hkd, hmaxd, hfeatd, houtd, hind⟩ :=
    initializeOutputs_total env features ws M hnd (by
      intro k hk'
      obtain ⟨o1, ho1, hfx⟩ := hfix k hk'
      obtain ⟨s, i, hM⟩ := hin k hk' o1 ho1
      refine ⟨_, o1.withLayout s, hM, ?_⟩
      rw [initializeOutput_withLayout, hfx]; rfl)
  have key : ∀ k ∈ ws, ∀ o1 s i, c1.output k = some o1 →
      M.output k = some ((o1.withLayout s).setCurrentModeId i) →
      d.output k = some (o1.withLayout s) := by
    intro k hk' o1 s i ho1 hM
    obtain ⟨o1', hc, hfx⟩ := hfix k hk'
    rw [ho1] at hc
    cases hc
    obtain ⟨o', hi, hdo⟩ := hind k hk' _ hM
    rw [initializeOutput_withLayout, hfx] at hi
    rw [hdo, ← Option.some.inj hi]
  refine ⟨d, hd, ⟨hkd.trans hk, hmaxd.trans hmax, hfeatd.trans hfeat, ?_, ?_⟩, key⟩
  · intro k hk'; rw [houtd k hk', hout k hk']
  · intro k hk' o ho
    obtain ⟨s, i, hM⟩ := hin k hk' o ho
    exact ⟨s, key k hk' o s i ho hM⟩

/-- The display switch to the clone layout, applied to the generator that it returns, returns that
generator again. -/
theorem displaySwitch_clone_again (g g1 : Generator) (hwf : g.m_currentConfig.WF)
    (h : displaySwitch g DisplaySwitchAction.Clone = some g1) :
    displaySwitch g1 DisplaySwitchAction.Clone = some g1 := by
  cases hinit : initializeOutputs g.env g.m_currentConfig.perOutputScaling g.m_currentConfig
      g.m_currentConfig.connectedOutputs with
  | none => rw [displaySwitch_init_none g _ hinit] at h; cases h
  | some c1 =>
    have hasc := Config.connectedOutputs_ascending hwf
    have hnd : g.m_currentConfig.connectedOutputs.Nodup := hasc.imp (fun h => ne_of_lt h)
    obtain ⟨hk1, hout1, hin1⟩ := initializeOutputs_partial g.env _ _ _ _ hnd hinit
    obtain ⟨hmax1, hfeat1⟩ := initializeOutputs_fields g.env _ _ _ _ hinit
    have hwf1 : c1.WF := by unfold Config.WF; rw [hk1]; exact hwf
    have hc1 : ∀ k ∈ g.m_currentConfig.connectedOutputs, ∃ o1, c1.output k = some o1 ∧
        o1.connected = true ∧
        initializeOutput g.env g.m_currentConfig.perOutputScaling o1 = some o1 := by
      intro k hk
      obtain ⟨o, ho, hc⟩ := (Config.connectedOutputs_spec hwf k).mp hk
      obtain ⟨o1, hi, ho1⟩ := hin1 k hk o ho
      obtain ⟨_, hc', _⟩ := initializeOutput_preserves hi
      exact ⟨o1, ho1, by rw [hc', hc], initializeOutput_fixpoint _ _ _ _ hi⟩
    have hc1' : ∀ k ∈ g.m_currentConfig.connectedOutputs,
        ∃ o, c1.output k = some o ∧ o.connected = true :=
      fun k hk => by obtain ⟨o, h1, h2, _⟩ := hc1 k hk; exact ⟨o, h1, h2⟩
    have hsecond : ∀ M : Config, M.keys = c1.keys → M.maxSize = c1.maxSize →
        M.perOutputScaling = c1.perOutputScaling →
        (∀ k, k ∉ g.m_currentConfig.connectedOutputs → M.output k = c1.output k) →
        (∀ k ∈ g.m_currentConfig.connectedOutputs, ∀ o1, c1.output k = some o1 →
          ∃ s i, M.output k = some ((o1.withLayout s).setCurrentModeId i)) →
        M.connectedOutputs = g.m_currentConfig.connectedOutputs ∧
        ∃ d, initializeOutputs g.env M.perOutputScaling M g.m_currentConfig.connectedOutputs =
            some d ∧ c1.sameUpToLayout d g.m_currentConfig.connectedOutputs ∧
          ∀ k ∈ g.m_currentConfig.connectedOutputs, ∀ o1 s i, c1.output k = some o1 →
            M.output k = some ((o1.withLayout s).setCurrentModeId i) →
            d.output k = some (o1.withLayout s) := by
      intro M hMk hMmax hMfeat hMout hMin
      constructor
      · apply Config.connectedOutputs_congr hwf (hMk.trans hk1)
        intro k
        by_cases hk : k ∈ g.m_currentConfig.connectedOutputs
        · obtain ⟨o1, ho1, hc, _⟩ := hc1 k hk
          obtain ⟨s, i, hM⟩ := hMin k hk o1 ho1
          obtain ⟨o, ho, hco⟩ := (Config.connectedOutputs_spec hwf k).mp hk
          rw [hM, ho]
          show some o1.connected = some o.connected
          rw [hc, hco]
        · rw [hMout k hk, hout1 k hk]
      · rw [hMfeat, hfeat1]
        exact initializeOutputs_again g.env _ c1 M _ hnd
          (fun k hk => by obtain ⟨o1, a, _, b⟩ := hc1 k hk; exact ⟨o1, a, b⟩)
          hMk hMmax hMfeat hMout hMin
    have hsame : ∀ M : Config, c1.sameUpToLayout M g.m_currentConfig.connectedOutputs →
        M.connectedOutputs = g.m_currentConfig.connectedOutputs ∧
        initializeOutputs g.env M.perOutputScaling M M.connectedOutputs = some M := by
      intro M hS
      have hMin : ∀ k ∈ g.m_currentConfig.connectedOutputs, ∀ o1, c1.output k = some o1 →
          ∃ s i, M.output k = some ((o1.withLayout s).setCurrentModeId i) := by
        intro k hk o1 ho1
        obtain ⟨s, hs⟩ := hS.2.2.2.2 k hk o1 ho1
        exact ⟨s, o1.currentModeId, hs⟩
      obtain ⟨hconn, d, hd, hR, hkey⟩ := hsecond M hS.1 hS.2.1 hS.2.2.1 hS.2.2.2.1 hMin
      refine ⟨hconn, ?_⟩
      have hwfM : M.WF := by unfold Config.WF; rw [hS.1]; exact hwf1
      have hdM : d = M := by
        apply Config.ext_output hwfM (hR.1.trans hS.1.symm) ?_ (hR.2.1.trans hS.2.1.symm)
          (hR.2.2.1.trans hS.2.2.1.symm)
        intro k
        by_cases hk : k ∈ g.m_currentConfig.connectedOutputs
        · obtain ⟨o1, ho1, _⟩ := hc1 k hk
          obtain ⟨s, hs⟩ := hS.2.2.2.2 k hk o1 ho1
          rw [hkey k hk o1 s o1.currentModeId ho1 hs, hs]
        · rw [hR.2.2.2.1 k hk, hS.2.2.2.1 k hk]
      rw [hdM] at hd
      rw [hconn]; exact hd
    by_cases hlt : g.m_currentConfig.connectedOutputs.length < 2
    · rw [displaySwitch_lt_two g _ c1 hinit hlt] at h
      cases hso : singleOutput g.env c1 g.m_currentConfig.connectedOutputs with
      | none => rw [hso] at h; cases h
      | some M =>
        rw [hso] at h
        have hg1 : g1 = { g with m_currentConfig := M } := (Option.some.inj h).symm
        subst hg1
        have hSM : c1.sameUpToLayout M g.m_currentConfig.connectedOutputs ∧
            singleOutput g.env M g.m_currentConfig.connectedOutputs = some M := by
          cases hws : g.m_currentConfig.connectedOutputs with
          | nil =>
            rw [hws] at hso
            have hM := singleOutput_nil g.env c1 M hso
            subst hM
            exact ⟨Config.sameUpToLayout_refl _ _, hso⟩
          | cons k ks =>
            have hks : ks = [] := by
              rw [hws] at hlt
              simp only [List.length_cons] at hlt
              exact List.length_eq_zero.mp (by omega)
            subst hks
            rw [hws] at hso hc1
            obtain ⟨o1, ho1, hc, _⟩ := hc1 k (List.mem_singleton_self k)
            by_cases hm : o1.modes = []
            · have hM := singleOutput_modeless g.env c1 M k [] o1 ho1 hm hso
              subst hM
              exact ⟨Config.sameUpToLayout_refl _ _, hso⟩
            · have hconn : ∀ x ∈ [k], ∃ o, c1.output x = some o ∧ o.connected = true ∧
                  o.modes ≠ [] := by
                intro x hx
                rw [List.mem_singleton.mp hx]
                exact ⟨o1, ho1, hc, hm⟩
              have hS := singleOutput_sameLayout g.env c1 M k hconn hso
              exact ⟨hS, singleOutput_layout g.env c1 M M k hwf1 hS hconn hso⟩
        obtain ⟨hconnM, hinitM⟩ := hsame M hSM.1
        have hltM : ({ g with m_currentConfig := M } : Generator).m_currentConfig.connectedOutputs.length
            < 2 := by
          show M.connectedOutputs.length < 2
          rw [hconnM]; exact hlt
        rw [displaySwitch_lt_two _ _ M hinitM hltM]
        show (singleOutput g.env M M.connectedOutputs).map
          (fun c => ({ g with m_currentConfig := c } : Generator)) = _
        rw [hconnM, hSM.2]; rfl
    · by_cases hgt : 2 < g.m_currentConfig.connectedOutputs.length
      · rw [displaySwitch_gt_two g _ c1 hinit hgt] at h
        cases hso : extendToRight g.env c1 g.m_currentConfig.connectedOutputs with
        | none => rw [hso] at h; cases h
        | some M =>
          rw [hso] at h
          have hg1 : g1 = { g with m_currentConfig := M } := (Option.some.inj h).symm
          subst hg1
          have hne : g.m_currentConfig.connectedOutputs ≠ [] := by
            intro h0; rw [h0] at hgt; simp at hgt
          have hS := extendToRight_sameLayout g.env c1 M _ hne hasc hc1' hso
          have hrun := extendToRight_layout g.env c1 M M _ hwf1 hS hne hasc hc1' hso
          obtain ⟨hconnM, hinitM⟩ := hsame M hS
          have hgtM : 2 < ({ g with m_currentConfig := M } :
              Generator).m_currentConfig.connectedOutputs.length := by
            show 2 < M.connectedOutputs.length
            rw [hconnM]; exact hgt
          rw [displaySwitch_gt_two _ _ M hinitM hgtM]
          show (extendToRight g.env M M.connectedOutputs).map
            (fun c => ({ g with m_currentConfig := c } : Generator)) = _
          rw [hconnM, hrun]; rfl
      · have hlen : g.m_currentConfig.connectedOutputs.length = 2 := by omega
        obtain ⟨a, b, hws⟩ := List.length_eq_two.mp hlen
        rw [hws] at hinit hc1 hc1' hnd hsecond hsame hout1
        have hkeys : ∀ k ∈ [a, b], k ∈ c1.keys := fun k hk => by
          obtain ⟨o, ho, _⟩ := hc1 k hk
          exact (c1.output_isSome_iff k).mp (by rw [ho]; rfl)
        obtain ⟨e, he⟩ := embeddedKey_total c1 [a, b] (by simp) hkeys
        have hew : e ∈ [a, b] := (embeddedKey_spec he).1
        obtain ⟨oe, hoe, hce, hfe⟩ := hc1 e hew
        by_cases hme : oe.modes = []
        · rw [displaySwitch_two_modeless g _ c1 a b e oe hws hinit he hoe hme] at h
          have hg1 : g1 = { g with m_currentConfig := c1 } := (Option.some.inj h).symm
          subst hg1
          obtain ⟨hconnM, hinitM⟩ := hsame c1 (Config.sameUpToLayout_refl _ _)
          rw [hconnM] at hinitM
          exact displaySwitch_two_modeless _ _ c1 a b e oe hconnM hinitM he hoe hme
        · rw [displaySwitch_clone_two g c1 a b e oe hws hinit he hoe hme] at h
          cases hcl : cloneScreens g (c1.setOutput (oe.setPrimary true)) [a, b] with
          | none => rw [hcl] at h; cases h
          | some M =>
            rw [hcl] at h
            have hg1 : g1 = { g with m_currentConfig := M } := (Option.some.inj h).symm
            subst hg1
            obtain ⟨hkM, houtM, hinM⟩ := cloneScreens_partial g _ M _ hnd hcl
            obtain ⟨hmaxM, hfeatM⟩ := cloneScreens_fields g _ M _ hcl
            have heid : (oe.setPrimary true).id = e := (Config.output_id hoe : oe.id = e)
            have hce' : (c1.setOutput (oe.setPrimary true)).output e =
                some (oe.setPrimary true) := by
              have := Config.output_setOutput_self c1 oe (oe.setPrimary true)
                (by rw [heid]; exact hoe)
              rwa [heid] at this
            have hother : ∀ k, k ≠ e → (c1.setOutput (oe.setPrimary true)).output k =
                c1.output k := fun k hk =>
              Config.output_setOutput_of_ne (by rw [heid]; exact fun h' => hk h'.symm)
            -- the records of the result
            have hMe : ∃ id, M.output e = some ((oe.setPrimary true).cloned id) :=
              (hinM e hew _ hce').2 hme
            obtain ⟨ide, hMe⟩ := hMe
            have hMk : ∀ k ∈ [a, b], k ≠ e → ∀ o1, c1.output k = some o1 →
                (o1.modes = [] → M.output k = some o1) ∧
                (o1.modes ≠ [] → ∃ id, M.output k = some (o1.cloned id)) := by
              intro k hk hke o1 ho1
              exact hinM k hk o1 (by rw [hother k hke]; exact ho1)
            have hMin : ∀ k ∈ [a, b], ∀ o1, c1.output k = some o1 →
                ∃ s i, M.output k = some ((o1.withLayout s).setCurrentModeId i) := by
              intro k hk o1 ho1
              by_cases hke : k = e
              · subst hke
                rw [hoe] at ho1
                cases ho1
                exact ⟨(oe.setPrimary true).cloned ide, ide, hMe⟩
              · by_cases hm : o1.modes = []
                · exact ⟨o1, o1.currentModeId, (hMk k hk hke o1 ho1).1 hm⟩
                · obtain ⟨id, hid⟩ := (hMk k hk hke o1 ho1).2 hm
                  exact ⟨o1.cloned id, id, hid⟩
            obtain ⟨hconnM, d, hd, hR, hkey⟩ := hsecond M
              (by rw [hkM, Config.keys_setOutput]) (by rw [hmaxM]; rfl) (by rw [hfeatM]; rfl)
              (by
                intro k hk
                rw [houtM k hk]
                exact hother k (fun h' => hk (h' ▸ hew)))
              hMin
            have hde : d.output e = some (oe.withLayout ((oe.setPrimary true).cloned ide)) :=
              hkey e hew oe _ ide hoe hMe
            have hed : embeddedKey d [a, b] = some e := by
              rw [embeddedKey_layout hR]; exact he
            have hinitM : initializeOutputs ({ g with m_currentConfig := M } : Generator).env
                ({ g with m_currentConfig := M } : Generator).m_currentConfig.perOutputScaling
                ({ g with m_currentConfig := M } : Generator).m_currentConfig [a, b] =
                some d := hd
            rw [displaySwitch_clone_two _ d a b e _ hconnM hinitM hed hde hme]
            have hwfc : (c1.setOutput (oe.setPrimary true)).WF := Config.WF_setOutput _ hwf1
            have hdid : ((oe.withLayout ((oe.setPrimary true).cloned ide)).setPrimary true).id
                = e := (Config.output_id hoe : oe.id = e)
            have hde' : (d.setOutput ((oe.withLayout
                ((oe.setPrimary true).cloned ide)).setPrimary true)).output e =
                some ((oe.withLayout ((oe.setPrimary true).cloned ide)).setPrimary true) := by
              have := Config.output_setOutput_self d _
                ((oe.withLayout ((oe.setPrimary true).cloned ide)).setPrimary true)
                (by rw [hdid]; exact hde)
              rwa [hdid] at this
            have hotherd : ∀ k, k ≠ e → (d.setOutput ((oe.withLayout
                ((oe.setPrimary true).cloned ide)).setPrimary true)).output k = d.output k :=
              fun k hk =>
                Config.output_setOutput_of_ne (by rw [hdid]; exact fun h' => hk h'.symm)
            have hP : (c1.setOutput (oe.setPrimary true)).sameUpToPlacement
                (d.setOutput ((oe.withLayout
                  ((oe.setPrimary true).cloned ide)).setPrimary true)) [a, b] := by
              refine ⟨by rw [Config.keys_setOutput, Config.keys_setOutput, hR.1], hR.2.1,
                hR.2.2.1, ?_, ?_⟩
              · intro k hk
                have hke : k ≠ e := fun h' => hk (h' ▸ hew)
                rw [hotherd k hke, hother k hke]
                exact hR.2.2.2.1 k hk
              · intro k hk o ho
                by_cases hke : k = e
                · subst hke
                  rw [hce'] at ho
                  cases ho
                  refine ⟨fun hm => absurd hm hme, fun _ => ?_⟩
                  exact ⟨(oe.withLayout ((oe.setPrimary true).cloned ide)).setPrimary true,
                    oe.currentModeId, hde', rfl⟩
                · rw [hother k hke] at ho
                  rw [hotherd k hke]
                  constructor
                  · intro hm
                    exact hkey k hk o o o.currentModeId ho ((hMk k hk hke o ho).1 hm)
                  · intro hm
                    obtain ⟨id, hid⟩ := (hMk k hk hke o ho).2 hm
                    exact ⟨o.cloned id, o.currentModeId, hkey k hk o _ id ho hid, rfl⟩
            have hmaxeq : ({ g with m_currentConfig := M } : Generator).m_currentConfig.maxSize =
                g.m_currentConfig.maxSize := by
              show M.maxSize = _
              rw [hmaxM]
              exact hmax1
            rw [cloneScreens_placement g ({ g with m_currentConfig := M } : Generator) _ _ M
              [a, b] rfl hmaxeq hwfc hnd hP hcl]
            rfl

/-- On a laptop whose platform rejects the computed layout of two or more connected outputs, the
generator returned by `idealConfig` is the one that the display switch to the clone layout
returned. -/
theorem idealConfig_laptop_generator (g : Generator) (cur r1 : Config) (g1 : Generator)
    (h1 : idealConfig g cur = some (r1, g1))
    (hcase : isLaptop g = true ∧ g.env.canBeApplied r1 = false ∧
      2 ≤ cur.connectedOutputs.length) :
    displaySwitch g DisplaySwitchAction.Clone = some g1 := by
  obtain ⟨hlap, happ, hlen⟩ := hcase
  rw [idealConfig_eq] at h1
  cases hs : scenarioConfig g cur with
  | none => rw [hs] at h1; cases h1
  | some cfg =>
    rw [hs] at h1
    simp only at h1
    rw [if_neg (by omega)] at h1
    have hr : r1 = cfg := fallbackIfNeeded_fst g cfg (r1, g1) h1 (Or.inl hlap)
    subst hr
    cases hsw : displaySwitch g DisplaySwitchAction.Clone with
    | none =>
      unfold fallbackIfNeeded at h1
      simp [happ, hlap, hsw] at h1
    | some g' =>
      rw [fallbackIfNeeded_laptop g g' r1 hlap happ hsw] at h1
      have hg : g' = g1 := congrArg Prod.snd (Option.some.inj h1)
      rw [hg]

/-- C25: `idealConfig` is idempotent.  For every posture, applicability check and persisted
preferences (all fixed in the generator `g`) and every input configuration (output ids
ascending, as in the output map) in which every connected output has a non-empty mode list:
when `idealConfig` returns the configuration `r1` (and the generator `g1`), every result of
`idealConfig` on `r1` is `r1` itself, so that every output has the same enabled flag, primary
flag, position, current mode, rotation and scale; and `idealConfig` does return on `r1`, with
the generator `g1` again, the stored current configuration of the generator having ascending
output ids as well. -/
theorem idealConfig_idempotent (g : Generator) (cur r1 : Config) (g1 : Generator)
    (hwf : cur.WF) (hmodes : ∀ o ∈ cur.outputs, o.connected = true → o.modes ≠ [])
    (h1 : idealConfig g cur = some (r1, g1)) :
    (∀ r2 g2, idealConfig g1 r1 = some (r2, g2) → r2 = r1) ∧
    (g.m_currentConfig.WF → idealConfig g1 r1 = some (r1, g1)) := by
  have hagain := idealConfig_again g cur r1 g1 hwf hmodes h1
  constructor
  · intro r2 g2 h2
    rw [hagain] at h2
    split at h2
    · cases hsw : displaySwitch g1 DisplaySwitchAction.Clone with
      | none => rw [hsw] at h2; cases h2
      | some g' =>
        rw [hsw] at h2
        exact (congrArg Prod.fst (Option.some.inj h2)).symm
    · exact (congrArg Prod.fst (Option.some.inj h2)).symm
  · intro hwfg
    rw [hagain]
    split
    · rename_i hcase
      have hsw := idealConfig_laptop_generator g cur r1 g1 h1 hcase
      rw [displaySwitch_clone_again g g1 hwfg hsw]
      rfl
    · rfl

theorem idealConfig_idempotent_witness :
    laptopScreens.WF ∧
    (∀ o ∈ laptopScreens.outputs, o.connected = true → o.modes ≠ []) ∧
    onlyAtOrigin laptopScreensExtended = false ∧
    idealConfig (sampleGenerator true false false laptopScreens onlyAtOrigin) laptopScreens =
      some (laptopScreensExtended,
        sampleGenerator true false false laptopScreensCloned onlyAtOrigin) ∧
    (∀ r2 g2, idealConfig (sampleGenerator true false false laptopScreensCloned onlyAtOrigin)
      laptopScreensExtended = some (r2, g2) → r2 = laptopScreensExtended) ∧
    idealConfig (sampleGenerator true false false laptopScreensCloned onlyAtOrigin)
      laptopScreensExtended = some (laptopScreensExtended,
        sampleGenerator true false false laptopScreensCloned onlyAtOrigin) :=
  ⟨by decide, by decide, by decide, rfl,
    (idealConfig_idempotent (sampleGenerator true false false laptopScreens onlyAtOrigin)
      laptopScreens laptopScreensExtended
      (sampleGenerator true false false laptopScreensCloned onlyAtOrigin)
      (by decide) (by decide) rfl).1,
    (idealConfig_idempotent (sampleGenerator true false false laptopScreens onlyAtOrigin)
      laptopScreens laptopScreensExtended
      (sampleGenerator true false false laptopScreensCloned onlyAtOrigin)
      (by decide) (by decide) rfl).2 (by decide)⟩

/-! ## Modes of area zero and areas beyond the range of `int` -/

/-- C3: two connected outputs, both with modes, the only mode of the first of size 0x0: the
extend-right policy has no result, with or without assertions, because `biggestMode`, called
for the best mode of the first output, compares the refresh rate of that mode with the one of a
null pointer. -/
theorem extendToRight_zero_area :
    ([1, 2] : List Int) ≠ [] ∧
    (∀ k ∈ ([1, 2] : List Int),
      zeroAreaPair.connectedAt k = true ∧ zeroAreaPair.hasModesAt k = true) ∧
    extendToRight (samplePlatform (fun _ => true)) zeroAreaPair [1, 2] = none ∧
    extendToRight (releasePlatform (fun _ => true)) zeroAreaPair [1, 2] = none := by
  refine ⟨by decide, by decide, by decide, by decide⟩

/-- C6: a panel with the mode 1920x1080 and one external screen whose only mode has size 0x0,
with the lid open: the laptop policy has no result, with or without assertions, because
`biggestMode`, called for the best mode of the external screen, compares the refresh rate of
that mode with the one of a null pointer. -/
theorem laptop_lid_open_zero_area :
    embeddedKey laptopZero [1, 2] = some 1 ∧
    (∀ k ∈ ([1, 2] : List Int),
      laptopZero.connectedAt k = true ∧ laptopZero.hasModesAt k = true) ∧
    isLidClosed (sampleGenerator true false false laptopZero (fun _ => true)) = false ∧
    laptop (sampleGenerator true false false laptopZero (fun _ => true)) laptopZero [1, 2] =
      none ∧
    laptop (releaseGenerator true false false laptopZero (fun _ => true)) laptopZero [1, 2] =
      none := by
  refine ⟨by decide, by decide, by decide, by decide, by decide⟩

/-- C7: two screens that both offer 1920x1080 and 65536x32768, within a maximum screen size of
65536x65536: both sizes are common to the outputs and 65536x32768 has the larger area, yet the
clone policy sets both outputs to 1920x1080, because the area of 65536x32768 computed in `int`
is negative and `std::sort` puts that size first; `displaySwitch(Clone)` on that configuration
ends the same way. -/
theorem cloneScreens_area_overflow :
    (∀ k ∈ ([1, 2] : List Int), hugeClonePair.connectedAt k = true) ∧
    hugeClonePair.commonSize hugeClonePair.maxSize [1, 2] ⟨1920, 1080⟩ = true ∧
    hugeClonePair.commonSize hugeClonePair.maxSize [1, 2] ⟨65536, 32768⟩ = true ∧
    (⟨1920, 1080⟩ : QSize).area < (⟨65536, 32768⟩ : QSize).area ∧
    (⟨65536, 32768⟩ : QSize).intArea < 0 ∧
    (cloneScreens (sampleGenerator false false false hugeClonePair (fun _ => true))
      hugeClonePair [1, 2]).map (fun c => c.outputs.map
        (fun o => (o.id, o.enabled, o.pos, o.currentMode.map (fun m => m.size)))) =
      some [(1, true, ⟨0, 0⟩, some ⟨1920, 1080⟩), (2, true, ⟨0, 0⟩, some ⟨1920, 1080⟩)] ∧
    (displaySwitch (sampleGenerator false false false hugeClonePair (fun _ => true))
      DisplaySwitchAction.Clone).map (fun g => g.m_currentConfig.outputs.map
        (fun o => (o.id, o.enabled, o.pos, o.currentMode.map (fun m => m.size)))) =
      some [(1, true, ⟨0, 0⟩, some ⟨1920, 1080⟩), (2, true, ⟨0, 0⟩, some ⟨1920, 1080⟩)] := by
  refine ⟨by decide, by decide, by decide, by decide, by decide, by decide, by decide⟩

/-- C11: two connected outputs, both with modes, the only mode of the first of size 0x0:
`displaySwitch(ExtendToRight)` has no result, with or without assertions, because `biggestMode`
dereferences a null mode while the outputs are initialized. -/
theorem displaySwitch_extendToRight_zero_area :
    zeroAreaPair.connectedOutputs.length = 2 ∧
    (∀ o ∈ zeroAreaPair.outputs, o.connected = true ∧ o.modes ≠ []) ∧
    (displaySwitch (sampleGenerator false false false zeroAreaPair (fun _ => true))
      DisplaySwitchAction.ExtendToRight).isNone = true ∧
    (displaySwitch (releaseGenerator false false false zeroAreaPair (fun _ => true))
      DisplaySwitchAction.ExtendToRight).isNone = true := by
  refine ⟨by decide, by decide, by decide, by decide⟩

/-- C13: two connected outputs, both with modes, the only mode of the first of size 0x0:
neither `displaySwitch(TurnOffEmbedded)` nor `displaySwitch(TurnOffExternal)` has a result, with
or without assertions, because `biggestMode` dereferences a null mode while the outputs are
initialized. -/
theorem displaySwitch_turnOff_zero_area :
    zeroAreaPair.connectedOutputs.length = 2 ∧
    (∀ o ∈ zeroAreaPair.outputs, o.connected = true ∧ o.modes ≠ []) ∧
    (displaySwitch (sampleGenerator false false false zeroAreaPair (fun _ => true))
      DisplaySwitchAction.TurnOffEmbedded).isNone = true ∧
    (displaySwitch (sampleGenerator false false false zeroAreaPair (fun _ => true))
      DisplaySwitchAction.TurnOffExternal).isNone = true ∧
    (displaySwitch (releaseGenerator false false false zeroAreaPair (fun _ => true))
      DisplaySwitchAction.TurnOffEmbedded).isNone = true ∧
    (displaySwitch (releaseGenerator false false false zeroAreaPair (fun _ => true))
      DisplaySwitchAction.TurnOffExternal).isNone = true := by
  refine ⟨by decide, by decide, by decide, by decide, by decide, by decide⟩

/-- C22: a screen whose best mode is 1920x1080 and a screen whose best (preferred) mode is
65536x32768, both connected and both best modes of positive area: `biggestOutput` returns the
first screen although the best mode of the second has the larger area, because that area
computed in `int` is negative and the second screen is skipped; `idealConfig`, outside a
laptop, therefore makes the first screen primary at (0,0). -/
theorem biggestOutput_area_overflow :
    (∀ k ∈ ([1, 2] : List Int), hugePreferredPair.connectedAt k = true) ∧
    (hugePreferredPair.output 1).map (bestModeForOutput (samplePlatform (fun _ => true))) =
      some (some (some mode1080)) ∧
    (hugePreferredPair.output 2).map (bestModeForOutput (samplePlatform (fun _ => true))) =
      some (some (some modeHuge)) ∧
    0 < mode1080.size.area ∧ mode1080.size.area < modeHuge.size.area ∧
    modeHuge.size.intArea < 0 ∧
    biggestOutput (samplePlatform (fun _ => true)) hugePreferredPair [1, 2] =
      some (some 1) ∧
    (idealConfig (sampleGenerator false false false hugePreferredPair (fun _ => true))
      hugePreferredPair).map (fun r => r.1.outputs.map
        (fun o => (o.id, o.enabled, o.primary, o.pos))) =
      some [(1, true, true, ⟨0, 0⟩), (2, true, false, ⟨1920, 0⟩)] := by
  refine ⟨by decide, by decide, by decide, by decide, by decide, by decide, by decide,
    by decide⟩

/-! ## Outputs without modes -/

end KScreen
